import Mathlib

/-!
# limit_service: admission-control gateway

A shallow embedding of the decision logic of `Pandolar/limit_service` and the
properties its specification states about it.

The repository holds two copies of the pipeline:

* `internal/...` (`internal/redis`, `internal/limiter`, `internal/auth`,
  `internal/auditor`, `internal/api`), embedded in the namespace `Internal`;
* `tools/...` with `api/audit.go`, embedded in the namespace `Tools`.

Conventions of the embedding:

* Go's `int`, `int64` and `time.Duration` are 64-bit; they are values of `Int`
  and every arithmetic result that can leave the range is passed through `wrap64`.
* A Go `(value, error)` result is an `Except Err value`; Go functions that return
  `(bool, string, error)` return a `Verdict`.
* The Redis server is the state `Redis`: the key space `kv`, a fault schedule
  (`faults`, one flag per command still to come: `true` means that the command
  fails in transit and leaves the key space untouched) and the `log` of the
  commands issued so far.
* Go library functions whose tables are not part of the repository
  (`json.Unmarshal`, the non-ASCII part of `unicode.ToLower`) are fields of `GoLib`.
-/

namespace LimitService

/-! ## Go runtime -/

/-- Two's-complement wrap-around of a 64-bit signed integer. -/
def wrap64 (x : Int) : Int := (x + 2 ^ 63) % 2 ^ 64 - 2 ^ 63

/-- JSON values as `encoding/json` decodes them into `interface{}`; an object is
the list of its members (a Go `map[string]interface{}`). -/
inductive JValue where
  | null : JValue
  | bool (b : Bool) : JValue
  | num (n : Int) : JValue
  | str (s : String) : JValue
  | arr (items : List JValue) : JValue
  | obj (members : List (String × JValue)) : JValue

/-- Index expression `m[key]` on a decoded object; `none` is Go's `nil`. -/
def JValue.field (members : List (String × JValue)) (key : String) : Option JValue :=
  (members.find? (fun p => p.1 == key)).map Prod.snd

/-- Library functions taken as given: `unmarshal` is `json.Unmarshal` into an
`interface{}` (`none` is a syntax error), `unicodeLower` is `unicode.ToLower`
on the runes outside ASCII. -/
structure GoLib where
  unmarshal : String → Option JValue
  unicodeLower : Char → Char

/-- One rune of `strings.ToLower`. -/
def GoLib.lowerRune (go : GoLib) (c : Char) : Char :=
  if c.toNat < 128 then (if 'A' ≤ c ∧ c ≤ 'Z' then Char.ofNat (c.toNat + 32) else c)
  else go.unicodeLower c

/-- Go's `strings.ToLower`. -/
def GoLib.ToLower (go : GoLib) (s : String) : String := ⟨s.data.map go.lowerRune⟩

/-- Errors of the program. `redisNil` is `redis.Nil`, `io` a failed exchange
with the store, `notInt` the server's reply to `INCR` on a value that is not a
64-bit integer, `atoi` a `strconv.Atoi` failure, `wrapped` is
`fmt.Errorf("...: %w", cause)` and `msg` a `fmt.Errorf` without a cause. -/
inductive Err where
  | redisNil : Err
  | io : Err
  | notInt : Err
  | atoi : Err
  | wrapped (site : String) (cause : Err) : Err
  | msg (text : String) : Err
  deriving DecidableEq, Repr

/-- Equality of results is decidable when it is for values and errors. -/
instance instDecidableEqExcept {ε α : Type} [DecidableEq ε] [DecidableEq α] :
    DecidableEq (Except ε α) := fun a b =>
  match a, b with
  | .ok x, .ok y => if h : x = y then isTrue (by rw [h]) else isFalse (fun e => h (by cases e; rfl))
  | .error x, .error y =>
    if h : x = y then isTrue (by rw [h]) else isFalse (fun e => h (by cases e; rfl))
  | .ok _, .error _ => isFalse (fun e => by cases e)
  | .error _, .ok _ => isFalse (fun e => by cases e)

/-- The test `err.Error() != "redis: nil"` fails only for `redis.Nil` itself. -/
def Err.isRedisNilText : Err → Bool
  | .redisNil => true
  | _ => false

/-- Value of an ASCII decimal digit. -/
def digitVal (c : Char) : Option Nat :=
  if 48 ≤ c.toNat ∧ c.toNat ≤ 57 then some (c.toNat - 48) else none

/-- Left-to-right accumulation of decimal digits, `none` on any other byte. -/
def parseDigits : List Char → Nat → Option Nat
  | [], acc => some acc
  | c :: cs, acc =>
    match digitVal c with
    | none => none
    | some d => parseDigits cs (acc * 10 + d)

/-- Digits after the optional sign: at least one is required. -/
def parseUnsigned (ds : List Char) : Option Nat :=
  match ds with
  | [] => none
  | _ :: _ => parseDigits ds 0

/-- Go's `strconv.Atoi` on a 64-bit platform: optional sign, decimal digits,
value within `int64`; anything else is an error. -/
def Atoi (s : String) : Except Err Int :=
  match s.data with
  | '-' :: ds =>
    match parseUnsigned ds with
    | some n => if n ≤ 2 ^ 63 then .ok (-(n : Int)) else .error .atoi
    | none => .error .atoi
  | '+' :: ds =>
    match parseUnsigned ds with
    | some n => if n < 2 ^ 63 then .ok (n : Int) else .error .atoi
    | none => .error .atoi
  | ds =>
    match parseUnsigned ds with
    | some n => if n < 2 ^ 63 then .ok (n : Int) else .error .atoi
    | none => .error .atoi

/-- Decimal text of an integer (`strconv.Itoa`, the verb `%d`, and the form in
which the server stores the result of `INCR`). -/
def Itoa (i : Int) : String :=
  match i with
  | Int.ofNat m => ⟨Nat.toDigits 10 m⟩
  | Int.negSucc m => ⟨'-' :: Nat.toDigits 10 (m + 1)⟩

/-- Go's `unicode.IsSpace`. -/
def isSpace (c : Char) : Bool :=
  let n := c.toNat
  (9 ≤ n && n ≤ 13) || n == 32 || n == 0x85 || n == 0xA0 || n == 0x1680 ||
  (0x2000 ≤ n && n ≤ 0x200A) || n == 0x2028 || n == 0x2029 || n == 0x202F ||
  n == 0x205F || n == 0x3000

/-- Go's `strings.TrimSpace`. -/
def TrimSpace (s : String) : String :=
  ⟨((s.data.dropWhile isSpace).reverse.dropWhile isSpace).reverse⟩

/-- Go's `strings.HasSuffix` for a one-byte suffix. -/
def HasSuffix (s : String) (c : Char) : Bool := s.data.getLast? == some c

/-- Go's `strings.TrimSuffix` for a one-byte suffix. -/
def TrimSuffix (s : String) (c : Char) : String :=
  if HasSuffix s c then ⟨s.data.dropLast⟩ else s

/-- Splitting a byte sequence at every `/`. -/
def splitSlash : List Char → List (List Char)
  | [] => [[]]
  | c :: cs =>
    match splitSlash cs with
    | [] => [[]]
    | p :: ps => if c = '/' then [] :: p :: ps else (c :: p) :: ps

/-- Go's `strings.Split(s, "/")`. -/
def Split (s : String) : List String := (splitSlash s.data).map String.mk

/-! ## The key-value store -/

/-- A stored value with its remaining lifetime in milliseconds (`none`: the key
does not expire). -/
structure Entry where
  val : String
  ttl : Option Int
  deriving DecidableEq, Repr

/-- The key space of the server. -/
abbrev Store := String → Option Entry

/-- Writing one key. -/
def Store.put (s : Store) (k : String) (e : Entry) : Store :=
  fun k' => if k' = k then some e else s k'

/-- Removing one key. -/
def Store.del (s : Store) (k : String) : Store :=
  fun k' => if k' = k then none else s k'

/-- Commands the program sends to the server. `set` carries the lifetime in
milliseconds when one is sent, `expire` the lifetime in seconds. -/
inductive Cmd where
  | get (key : String) : Cmd
  | set (key : String) (val : String) (px : Option Int) : Cmd
  | incr (key : String) : Cmd
  | expire (key : String) (sec : Int) : Cmd
  deriving DecidableEq, Repr

/-- Whether a command writes. -/
def Cmd.isWrite : Cmd → Bool
  | .get _ => false
  | _ => true

/-- Whether a command is an increment. -/
def Cmd.isIncr : Cmd → Bool
  | .incr _ => true
  | _ => false

/-- The store as the program sees it. -/
structure Redis where
  kv : Store
  faults : List Bool
  log : List (Cmd × Bool)

/-- Sending a command: the next flag of the fault schedule decides whether the
exchange fails; the command is logged with that flag. -/
def Redis.issue (r : Redis) (c : Cmd) : Bool × Redis :=
  match r.faults with
  | [] => (false, ⟨r.kv, [], r.log ++ [(c, false)]⟩)
  | b :: rest => (b, ⟨r.kv, rest, r.log ++ [(c, b)]⟩)

/-- The key space replaced, the schedule and the log kept. -/
def Redis.withKv (r : Redis) (kv : Store) : Redis := ⟨kv, r.faults, r.log⟩

/-- The integer a stored value stands for under the server's strict reading
(`INCR` accepts exactly the canonical decimal text of an `int64`). -/
def redisInt (s : String) : Option Int :=
  match Atoi s with
  | .ok i => if Itoa i = s then some i else none
  | .error _ => none

/-- One second and one millisecond as `time.Duration`. -/
def Second : Int := 1000000000

/-- See `Second`. -/
def Millisecond : Int := 1000000

/-- The expression `time.Duration(windowSeconds)*time.Second`. -/
def durationOfSeconds (windowSeconds : Int) : Int := wrap64 (windowSeconds * Second)

/-- Client helper `formatSec`: whole seconds, a positive sub-second value rounds up to 1. -/
def formatSec (d : Int) : Int :=
  if 0 < d ∧ d < Second then 1 else Int.tdiv d Second

/-- Client helper `formatMs`. -/
def formatMs (d : Int) : Int :=
  if 0 < d ∧ d < Millisecond then 1 else Int.tdiv d Millisecond

/-- Lifetime argument of the client's `Set`: none unless the duration is
positive; whole seconds go out as `EX`, anything else as `PX`. (The client's
`KeepTTL`, the duration -1, is never passed: the program passes 0 or a
multiple of `Second` modulo `2^64`, which is even.) -/
def setLifetime (d : Int) : Option Int :=
  if 0 < d then
    (if d < Second ∨ Int.tmod d Second ≠ 0 then some (formatMs d) else some (formatSec d * 1000))
  else none

/-- Modelled from the spec: the `get` of the key-value store of §2 (an external
collaborator), as the client call `Get(key).Result()`: `redis.Nil` for an absent key. -/
def Redis.clientGet (r : Redis) (fullKey : String) : Except Err String × Redis :=
  let (bad, r1) := r.issue (.get fullKey)
  if bad then (.error .io, r1)
  else
    match r1.kv fullKey with
    | none => (.error .redisNil, r1)
    | some e => (.ok e.val, r1)

/-- Modelled from the spec: the `set-with-expiry` of the key-value store of §2, as
the client call `Set(key, val, expiration).Err()`: the value replaces the old
one and the lifetime is the one sent (none: the key is persistent). -/
def Redis.clientSet (r : Redis) (fullKey val : String) (expiration : Int) : Option Err × Redis :=
  let (bad, r1) := r.issue (.set fullKey val (setLifetime expiration))
  if bad then (some .io, r1)
  else (none, r1.withKv (r1.kv.put fullKey ⟨val, setLifetime expiration⟩))

/-- Modelled from the spec: the `atomic-increment` of the key-value store of §2,
as the client call `Incr(key).Result()`: an absent key counts as 0 and is
created without a lifetime (§4.3 step 7), the lifetime of an existing key is
kept, and a value that is not an integer, or the largest one, is refused. -/
def Redis.clientIncr (r : Redis) (fullKey : String) : Except Err Int × Redis :=
  let (bad, r1) := r.issue (.incr fullKey)
  if bad then (.error .io, r1)
  else
    match r1.kv fullKey with
    | none => (.ok 1, r1.withKv (r1.kv.put fullKey ⟨"1", none⟩))
    | some e =>
      match redisInt e.val with
      | none => (.error .notInt, r1)
      | some i =>
        if i + 1 < 2 ^ 63 then
          (.ok (i + 1), r1.withKv (r1.kv.put fullKey ⟨Itoa (i + 1), e.ttl⟩))
        else (.error .notInt, r1)

/-- Modelled from the spec: the `set-expiry` of the key-value store of §2, as the
client call `Expire(key, expiration).Err()`: no error when the key is absent,
and, as the server does for `EXPIRE`, a lifetime that is not positive deletes
the key. -/
def Redis.clientExpire (r : Redis) (fullKey : String) (expiration : Int) : Option Err × Redis :=
  let (bad, r1) := r.issue (.expire fullKey (formatSec expiration))
  if bad then (some .io, r1)
  else
    match r1.kv fullKey with
    | none => (none, r1)
    | some e =>
      if formatSec expiration ≤ 0 then (none, r1.withKv (r1.kv.del fullKey))
      else (none, r1.withKv (r1.kv.put fullKey ⟨e.val, some (formatSec expiration * 1000)⟩))

/-- Both wrappers prefix every key (`getKey`, prefix `"star:"`). -/
def getKey (key : String) : String := "star:" ++ key

/-- Result of a `(bool, string, error)` function. -/
structure Verdict where
  ok : Bool
  msg : String
  err : Option Err
  deriving DecidableEq, Repr

/-- The rule file `limit.json`: `chatgpt` maps a package to its per-model rules,
`other` is the global fallback (the empty string when the file has none). -/
structure LimitData where
  Chatgpt : String → Option (String → Option String)
  Other : String

/-- An `interface{}` value as far as the program tells values apart: a string, or
a number (which also stands for any value that fails the type assertion
`.(string)`). -/
inductive Any where
  | str (s : String) : Any
  | int (i : Int) : Any

/-! ## `internal/redis` -/

namespace Internal

/-- `ClientWrapper.GetString`: `(value, found, error)`. -/
def GetString (r : Redis) (key : String) : (String × Bool × Option Err) × Redis :=
  match r.clientGet (getKey key) with
  | (.error .redisNil, r1) => (("", false, none), r1)
  | (.error e, r1) => (("", false, some (.wrapped ("从 Redis 获取键 " ++ key ++ " 失败") e)), r1)
  | (.ok val, r1) => ((val, true, none), r1)

/-- `ClientWrapper.GetInt`: `(value, found, error)`. -/
def GetInt (r : Redis) (key : String) : (Int × Bool × Option Err) × Redis :=
  match GetString r key with
  | ((valStr, found, err), r1) =>
    if err.isSome || !found then ((0, found, err), r1)
    else
      match Atoi valStr with
      | .error e => ((0, true, some (.wrapped ("转换键 " ++ key ++ " 的值为整数失败") e)), r1)
      | .ok valInt => ((valInt, true, none), r1)

/-- `ClientWrapper.Set` for the string values the limiter passes. -/
def Set (r : Redis) (key value : String) (expiration : Int) : Option Err × Redis :=
  r.clientSet (getKey key) value expiration

/-- `ClientWrapper.Incr`. -/
def Incr (r : Redis) (key : String) : Except Err Int × Redis :=
  match r.clientIncr (getKey key) with
  | (.error e, r1) => (.error (.wrapped ("自增键 " ++ key ++ " 失败") e), r1)
  | (.ok val, r1) => (.ok val, r1)

/-- `ClientWrapper.Expire`. -/
def Expire (r : Redis) (key : String) (expiration : Int) : Option Err × Redis :=
  match r.clientExpire (getKey key) expiration with
  | (some e, r1) => (some (.wrapped ("设置键 " ++ key ++ " 的过期时间失败") e), r1)
  | (none, r1) => (none, r1)

end Internal

/-! ## `tools/redis_tools.go` -/

namespace Tools

/-- Lines 62-74 of `RedisTool.Set`: a string is stored as it is, a number through `%v`. -/
def setText : Any → String
  | .str v => v
  | .int i => Itoa i

/-- `RedisTool.Set`. -/
def Set (r : Redis) (key : String) (value : Any) (expiration : Int) : Option Err × Redis :=
  r.clientSet (getKey key) (setText value) expiration

/-- Lines 89-96 of `RedisTool.Get`: the stored text decoded as JSON when it is
JSON (`null` decodes to Go's `nil`), else kept as a string. -/
def decode (go : GoLib) (val : String) : Option JValue :=
  match go.unmarshal val with
  | some .null => none
  | some v => some v
  | none => some (.str val)

/-- `RedisTool.Get`: an absent key is `(nil, nil)`; a value that decodes as JSON is
returned decoded (JSON `null` is Go's `nil`), any other value as the raw string. -/
def Get (go : GoLib) (r : Redis) (key : String) : Except Err (Option JValue) × Redis :=
  match r.clientGet (getKey key) with
  | (.error .redisNil, r1) => (.ok none, r1)
  | (.error e, r1) => (.error e, r1)
  | (.ok val, r1) => (.ok (decode go val), r1)

/-- `RedisTool.GetString`: the client's `(string, error)`, the string being empty
whenever there is an error. -/
def GetString (r : Redis) (key : String) : (String × Option Err) × Redis :=
  match r.clientGet (getKey key) with
  | (.error e, r1) => (("", some e), r1)
  | (.ok val, r1) => ((val, none), r1)

/-- `RedisTool.GetInt`: `(int, error)`; the integer is 0 on a lookup error (on an
`Atoi` error the caller never reads it). -/
def GetInt (r : Redis) (key : String) : (Int × Option Err) × Redis :=
  match GetString r key with
  | ((_, some e), r1) => ((0, some e), r1)
  | ((val, none), r1) =>
    match Atoi val with
    | .error e => ((0, some e), r1)
    | .ok n => ((n, none), r1)

/-- `RedisTool.Expire`. -/
def Expire (r : Redis) (key : String) (expiration : Int) : Option Err × Redis :=
  r.clientExpire (getKey key) expiration

/-- `RedisTool.Incr`. -/
def Incr (r : Redis) (key : String) : Except Err Int × Redis :=
  r.clientIncr (getKey key)

end Tools

/-! ## `internal/limiter` -/

namespace Internal

/-- Lines 61-79 of `parseLimit`: the unit of the duration and the outcome of
reading its number. -/
def durationParts (durationStr : String) : String × Except Err Int :=
  if HasSuffix durationStr 'h' then ("h", Atoi (TrimSuffix durationStr 'h'))
  else if HasSuffix durationStr 'd' then ("d", Atoi (TrimSuffix durationStr 'd'))
  else if HasSuffix durationStr 'm' then ("m", Atoi (TrimSuffix durationStr 'm'))
  else ("s", Atoi durationStr)

/-- Lines 85-96 of `parseLimit`: the `switch` on the unit. -/
def windowOf (unit : String) (value : Int) : Except Err Int :=
  if unit = "h" then .ok (wrap64 (value * 3600))
  else if unit = "d" then .ok (wrap64 (value * 86400))
  else if unit = "m" then .ok (wrap64 (value * 60))
  else if unit = "s" then .ok value
  else .error (.msg ("未知的时长单位: " ++ unit))

/-- `parseLimit`: `"count/duration"` to `(count, windowSeconds)`. -/
def parseLimit (limitStr : String) : Except Err (Int × Int) :=
  match Split limitStr with
  | [p0, durationStr] =>
    match Atoi p0 with
    | .error _ => .error (.msg ("限制规则中的次数无效: " ++ p0))
    | .ok count =>
      match (durationParts durationStr).2 with
      | .error _ => .error (.msg ("限制规则中的时长无法解析基础数值: " ++ durationStr))
      | .ok value =>
        match windowOf (durationParts durationStr).1 value with
        | .error e => .error e
        | .ok windowSeconds => .ok (count, windowSeconds)
  | _ => .error (.msg ("无效的限制格式: " ++ limitStr))

/-- `getLimitRule`: the rule string for a package and a model. -/
def getLimitRule (limitRules : LimitData) (packageName modelName : String) : String :=
  match limitRules.Chatgpt packageName with
  | some packageRules =>
    match packageRules modelName with
    | some limit => limit
    | none =>
      match packageRules "other" with
      | some otherLimit => otherLimit
      | none => limitRules.Other
  | none => limitRules.Other

/-- Lines 124-136 of `GetStarLimit`: the package of the user, `"free"` unless the
stored record is a JSON object whose `ChatGPT` member is an object with a string
`level` (decoding goes into a `map[string]interface{}`, which JSON `null`
leaves `nil` without an error). -/
def packageName (go : GoLib) (found : Bool) (activePackagesDataStr : String) : String :=
  if found && activePackagesDataStr != "" then
    match go.unmarshal activePackagesDataStr with
    | some (.obj packagesData) =>
      match JValue.field packagesData "ChatGPT" with
      | some (.obj chatGPTData) =>
        match JValue.field chatGPTData "level" with
        | some (.str levelVal) => go.ToLower levelVal
        | _ => "free"
      | _ => "free"
    | _ => "free"
  else "free"

/-- Key of the quota counter (`redisKey`). -/
def redisKey (xuserid packageName model : String) : String :=
  "star_rate_limit:" ++ xuserid ++ ":" ++ packageName ++ ":" ++ model

/-- Key of the tier marker (`userPackageKey`). -/
def userPackageKey (xuserid : String) : String := "star_rate_limit_package:" ++ xuserid

/-- The denial message of `GetStarLimit`. -/
def limitMsg (packageName model : String) (windowSeconds maxCount : Int) : String :=
  "超过速率限制：在该 " ++ packageName ++ " 套餐下，" ++ model ++ " 模型每 " ++
    Itoa (Int.tdiv windowSeconds 60) ++ " 分钟允许 " ++ Itoa maxCount ++
    " 条消息，请稍后重试或升级套餐。"

/-- Lines 155-172 of `GetStarLimit`: read the marker (a failed read is only
logged) and, when it is absent or differs from the package, reset the counter
and rewrite the marker. The result is the error that ends the call, if any. -/
def resetOnChange (r : Redis) (xuserid packageName model : String) (windowSeconds : Int) :
    Option Err × Redis :=
  match GetString r (userPackageKey xuserid) with
  | ((storedPackage, foundStoredPackage, _), r2) =>
    if !foundStoredPackage || storedPackage != packageName then
      match Set r2 (redisKey xuserid packageName model) "0" (durationOfSeconds windowSeconds) with
      | (some e, r3) =>
        (some (.wrapped ("为用户 " ++ xuserid ++ " 重置速率限制计数器失败") e), r3)
      | (none, r3) =>
        match Set r3 (userPackageKey xuserid) packageName 0 with
        | (some e, r4) => (some (.wrapped ("为用户 " ++ xuserid ++ " 设置用户套餐键失败") e), r4)
        | (none, r4) => (none, r4)
    else (none, r2)

/-- Lines 174-207 of `GetStarLimit`: read the counter, compare, increment, arm
the lifetime on the first increment. -/
def countAndConsume (r : Redis) (xuserid packageName model : String)
    (maxCount windowSeconds : Int) : Verdict × Redis :=
  match GetInt r (redisKey xuserid packageName model) with
  | ((count, foundCount, errCount), r5) =>
    if errCount.isSome && foundCount then
      (⟨false, "", errCount.map (.wrapped ("为用户 " ++ xuserid ++ " 获取或解析速率限制计数失败"))⟩, r5)
    else
      let currentCount := if !foundCount then 0 else count
      if currentCount ≥ maxCount then
        (⟨false, limitMsg packageName model windowSeconds maxCount, none⟩, r5)
      else
        match Incr r5 (redisKey xuserid packageName model) with
        | (.error e, r6) =>
          (⟨false, "", some (.wrapped ("为用户 " ++ xuserid ++ " 递增速率限制计数器失败") e)⟩, r6)
        | (.ok newCount, r6) =>
          if newCount = 1 then
            (⟨true, "允许发送消息", none⟩,
              (Expire r6 (redisKey xuserid packageName model) (durationOfSeconds windowSeconds)).2)
          else (⟨true, "允许发送消息", none⟩, r6)

/-- `GetStarLimit`: the quota check of one request. -/
def GetStarLimit (go : GoLib) (limitRules : LimitData) (r : Redis) (xuserid model : String) :
    Verdict × Redis :=
  match GetString r ("user:" ++ xuserid ++ ":active_packages") with
  | ((_, _, some err), r1) =>
    (⟨false, "", some (.wrapped ("为用户 " ++ xuserid ++ " 获取激活套餐失败") err)⟩, r1)
  | ((activePackagesDataStr, found, none), r1) =>
    let pkg := packageName go found activePackagesDataStr
    let limitStr := getLimitRule limitRules pkg model
    if limitStr = "" then (⟨false, "未配置速率限制", none⟩, r1)
    else
      match parseLimit limitStr with
      | .error err => (⟨false, "", some (.wrapped ("解析限速规则 \x27" ++ limitStr ++ "\x27 失败") err)⟩, r1)
      | .ok (maxCount, windowSeconds) =>
        if windowSeconds ≤ 0 then
          (⟨false, "", some (.msg ("无效的限速时间窗口: " ++ Itoa windowSeconds ++ " 秒"))⟩, r1)
        else
          match resetOnChange r1 xuserid pkg model windowSeconds with
          | (some e, r4) => (⟨false, "", some e⟩, r4)
          | (none, r4) => countAndConsume r4 xuserid pkg model maxCount windowSeconds

end Internal

/-! ## `tools/limit_tools.go` -/

namespace Tools

/-- `parseLimit`: `"count/duration"` to `(count, seconds)`. -/
def parseLimit (limitStr : String) : Except Err (Int × Int) :=
  match Split limitStr with
  | [p0, duration] =>
    match Atoi p0 with
    | .error e => .error (.wrapped "次数解析错误" e)
    | .ok count =>
      if HasSuffix duration 'h' then
        match Atoi (TrimSuffix duration 'h') with
        | .error e => .error (.wrapped "小时解析错误" e)
        | .ok hours => .ok (count, wrap64 (hours * 3600))
      else if HasSuffix duration 'd' then
        match Atoi (TrimSuffix duration 'd') with
        | .error e => .error (.wrapped "天数解析错误" e)
        | .ok days => .ok (count, wrap64 (days * 86400))
      else if HasSuffix duration 'm' then
        match Atoi (TrimSuffix duration 'm') with
        | .error e => .error (.wrapped "分钟解析错误" e)
        | .ok minutes => .ok (count, wrap64 (minutes * 60))
      else
        match Atoi duration with
        | .error e => .error (.wrapped "秒数解析错误" e)
        | .ok seconds => .ok (count, seconds)
  | _ => .error (.msg ("限制格式错误: " ++ limitStr))

/-- `getLimitRules`: the rule string for a package and a model. -/
def getLimitRules (limitData : LimitData) (packageType model : String) : String :=
  match limitData.Chatgpt packageType with
  | some chatgptRules =>
    match chatgptRules model with
    | some limit => limit
    | none =>
      match chatgptRules "other" with
      | some limit => limit
      | none => limitData.Other
  | none => limitData.Other

/-- Lines 106-120 of `GetStarLimit`: the package of the user from the decoded
record, `"free"` unless it is an object whose `ChatGPT` member is an object with
a string `level`. -/
def packageType (go : GoLib) (activePackagesData : Option JValue) : String :=
  match activePackagesData with
  | some (.obj userData) =>
    match JValue.field userData "ChatGPT" with
    | some (.obj chatgptMap) =>
      match JValue.field chatgptMap "level" with
      | some (.str levelStr) => go.ToLower levelStr
      | _ => "free"
    | _ => "free"
  | _ => "free"

/-- Key of the quota counter (`redisKey`). -/
def redisKey (xuserid packageType model : String) : String :=
  "star_rate_limit:" ++ xuserid ++ ":" ++ packageType ++ ":" ++ model

/-- Key of the tier marker (`userPackageKey`). -/
def userPackageKey (xuserid : String) : String := "star_rate_limit_package:" ++ xuserid

/-- The denial message of `GetStarLimit`. -/
def limitMsg (packageType model : String) (windowSeconds maxCount : Int) : String :=
  "超过速率限制：在该" ++ packageType ++ "套餐下，" ++ model ++ "模型每" ++
    Itoa (Int.tdiv windowSeconds 60) ++ "分钟允许" ++ Itoa maxCount ++
    "条消息，请稍后重试或升级套餐。"

/-- Lines 137-151 of `GetStarLimit`: read the marker and, when the string read
(empty when the key is absent) differs from the package, reset the counter and
rewrite the marker. The result is the error that ends the call, if any. -/
def resetOnChange (r : Redis) (xuserid packageType model : String) (windowSeconds : Int) :
    Option Err × Redis :=
  match GetString r (userPackageKey xuserid) with
  | ((storedPackage, err), r2) =>
    if err.isSome && !(err.any Err.isRedisNilText) then
      (err.map (.wrapped "获取存储的套餐信息失败"), r2)
    else if storedPackage != packageType then
      match Set r2 (redisKey xuserid packageType model) (.int 0) (durationOfSeconds windowSeconds) with
      | (some e, r3) => (some (.wrapped "重置计数器失败" e), r3)
      | (none, r3) =>
        match Set r3 (userPackageKey xuserid) (.str packageType) 0 with
        | (some e, r4) => (some (.wrapped "更新套餐信息失败" e), r4)
        | (none, r4) => (none, r4)
    else (none, r2)

/-- Lines 153-178 of `GetStarLimit`: read the counter, compare, increment, arm
the lifetime on the first increment. -/
def countAndConsume (r : Redis) (xuserid packageType model : String)
    (maxCount windowSeconds : Int) : Verdict × Redis :=
  match GetInt r (redisKey xuserid packageType model) with
  | ((currentCount, err), r5) =>
    if err.isSome && !(err.any Err.isRedisNilText) then
      (⟨false, "", err.map (.wrapped "获取当前计数失败")⟩, r5)
    else if currentCount ≥ maxCount then
      (⟨false, limitMsg packageType model windowSeconds maxCount, none⟩, r5)
    else
      match Incr r5 (redisKey xuserid packageType model) with
      | (.error e, r6) => (⟨false, "", some (.wrapped "递增计数器失败" e)⟩, r6)
      | (.ok newCount, r6) =>
        if newCount = 1 then
          match Expire r6 (redisKey xuserid packageType model) (durationOfSeconds windowSeconds) with
          | (some e, r7) => (⟨false, "", some (.wrapped "设置过期时间失败" e)⟩, r7)
          | (none, r7) => (⟨true, "允许发送消息", none⟩, r7)
        else (⟨true, "允许发送消息", none⟩, r6)

/-- `GetStarLimit`: the quota check of one request. -/
def GetStarLimit (go : GoLib) (limitData : LimitData) (r : Redis) (xuserid model : String) :
    Verdict × Redis :=
  match Get go r ("user:" ++ xuserid ++ ":active_packages") with
  | (.error err, r1) => (⟨false, "", some (.wrapped "获取用户套餐信息失败" err)⟩, r1)
  | (.ok activePackagesData, r1) =>
    let pkg := packageType go activePackagesData
    let limitStr := getLimitRules limitData pkg model
    if limitStr = "" then (⟨false, "未配置速率限制", none⟩, r1)
    else
      match parseLimit limitStr with
      | .error err => (⟨false, "", some (.wrapped "解析限制规则失败" err)⟩, r1)
      | .ok (maxCount, windowSeconds) =>
        match resetOnChange r1 xuserid pkg model windowSeconds with
        | (some e, r4) => (⟨false, "", some e⟩, r4)
        | (none, r4) => countAndConsume r4 xuserid pkg model maxCount windowSeconds

end Tools

/-! ## `internal/auth` -/

namespace Internal

/-- `VerifyTokenNoHeader`: whether the presented token is the one on record. -/
def VerifyTokenNoHeader (r : Redis) (xuserid xtoken : String) : (Bool × Option Err) × Redis :=
  if xuserid = "" || xtoken = "" then ((false, none), r)
  else
    match GetString r ("xtoken_" ++ xuserid) with
    | ((_, _, some err), r1) => ((false, some (.wrapped "redis_get_token_error" err)), r1)
    | ((expectedToken, found, none), r1) =>
      if !found then ((false, none), r1) else ((xtoken == expectedToken, none), r1)

/-- Lines 50-65 of `VerifyUserAcard`: the level of the user, `"free"` by default. -/
def userLevel (go : GoLib) (found : Bool) (userPackagesDataStr : String) : String :=
  if found && userPackagesDataStr != "" then
    match go.unmarshal userPackagesDataStr with
    | some (.obj packagesData) =>
      match JValue.field packagesData "ChatGPT" with
      | some (.obj chatGPTData) =>
        match JValue.field chatGPTData "level" with
        | some (.str levelVal) => go.ToLower levelVal
        | _ => "free"
      | _ => "free"
    | _ => "free"
  else "free"

/-- Lines 84-101 of `VerifyUserAcard`: the decision from the stored car record
(decoded into a `map[string]interface{}`). -/
def carAllows (go : GoLib) (carStatusDataStr : String) : Bool :=
  match go.unmarshal carStatusDataStr with
  | some (.obj carData) =>
    match JValue.field carData "label" with
    | some (.str carLabelVal) =>
      go.ToLower carLabelVal == "mini" || go.ToLower carLabelVal == "free"
    | _ => false
  | _ => false

/-- `VerifyUserAcard`: whether the user may use the car. -/
def VerifyUserAcard (go : GoLib) (r : Redis) (xuserid carid : String) :
    (Bool × Option Err) × Redis :=
  if xuserid = "" || carid = "" then ((false, none), r)
  else
    match GetString r ("user:" ++ xuserid ++ ":active_packages") with
    | ((_, _, some err), r1) =>
      ((false, some (.wrapped "redis_get_user_packages_error" err)), r1)
    | ((userPackagesDataStr, found, none), r1) =>
      let level := userLevel go found userPackagesDataStr
      if level != "free" && level != "base" && level != "mini" then ((true, none), r1)
      else
        match GetString r1 ("car_status:" ++ carid) with
        | ((_, _, some err), r2) =>
          ((false, some (.wrapped "redis_get_car_status_error" err)), r2)
        | ((carStatusDataStr, foundCar, none), r2) =>
          if !foundCar || carStatusDataStr == "" then ((false, none), r2)
          else ((carAllows go carStatusDataStr, none), r2)

end Internal

/-! ## `tools/check_tools.go` -/

namespace Tools

/-- `VerifyTokenNoHeader`: whether the presented token is the one on record. -/
def VerifyTokenNoHeader (r : Redis) (xuserid xtoken : String) : (Bool × Option Err) × Redis :=
  match GetString r ("xtoken_" ++ xuserid) with
  | ((_, some err), r1) =>
    if err = .redisNil then ((false, none), r1) else ((false, some err), r1)
  | ((expectedToken, none), r1) => ((xtoken == expectedToken, none), r1)

/-- Lines 135-156 of `VerifyUserAcard`: the level of the user from the decoded
record; a record that is not an object is an error. -/
def level (go : GoLib) (redisUserData : Option JValue) : Except Err String :=
  match redisUserData with
  | none => .ok "free"
  | some (.obj userData) =>
    match JValue.field userData "ChatGPT" with
    | some (.obj chatgptData) =>
      match JValue.field chatgptData "level" with
      | some (.str levelData) => .ok (go.ToLower levelData)
      | _ => .ok "free"
    | _ => .ok "free"
  | some _ => .error (.msg "用户数据格式错误")

/-- Lines 169-190 of `VerifyUserAcard`: the decision from the decoded car record. -/
def carAllows (go : GoLib) (redisCarData : Option JValue) : Except Err Bool :=
  match redisCarData with
  | none => .error (.msg "车状态信息不存在")
  | some (.obj carData) =>
    match JValue.field carData "label" with
    | some (.str carLabelData) =>
      .ok (go.ToLower carLabelData == "mini" || go.ToLower carLabelData == "free")
    | _ => .error (.msg "车标签数据格式错误")
  | some _ => .error (.msg "车数据格式错误")

/-- `VerifyUserAcard`: whether the user may use the car. -/
def VerifyUserAcard (go : GoLib) (r : Redis) (xuserid carid : String) :
    (Bool × Option Err) × Redis :=
  match Get go r ("user:" ++ xuserid ++ ":active_packages") with
  | (.error err, r1) => ((false, some (.wrapped "获取用户套餐信息失败" err)), r1)
  | (.ok redisUserData, r1) =>
    match level go redisUserData with
    | .error e => ((false, some e), r1)
    | .ok lvl =>
      if lvl != "free" && lvl != "base" && lvl != "mini" then ((true, none), r1)
      else
        match Get go r1 ("car_status:" ++ carid) with
        | (.error err, r2) => ((false, some (.wrapped "获取车状态信息失败" err)), r2)
        | (.ok redisCarData, r2) =>
          match carAllows go redisCarData with
          | .error e => ((false, some e), r2)
          | .ok b => ((b, none), r2)

end Tools

/-! ## The keyword matcher -/

/-- Whether `w` starts the text `t`. -/
def startsWith (w t : List Char) : Bool := w.isPrefixOf t

/-- One occurrence of a dictionary word: where it starts and the word. -/
structure Hit where
  pos : Nat
  word : String
  deriving DecidableEq, Repr

/-- Modelled from the spec: the Aho-Corasick matcher is a third-party library
(not under `src/`). Per §4.1 it reports the occurrences of the configured
keywords in the text, leftmost start first and, at one start, in the order in
which the matcher was built. `scan words t pos` lists the occurrences in `t`,
whose first rune has index `pos`. -/
def scan (words : List String) : List Char → Nat → List Hit
  | [], pos => (words.filter (fun w => startsWith w.data [])).map (fun w => ⟨pos, w⟩)
  | c :: cs, pos =>
    (words.filter (fun w => startsWith w.data (c :: cs))).map (fun w => ⟨pos, w⟩) ++
      scan words cs (pos + 1)

/-- Modelled from the spec: leftmost-first search without overlaps, as the
`tools` automaton is configured (`LeftMostFirstMatch`): after a match the
search resumes behind it. `skip` counts the runes still covered by the last match. -/
def scanDisjoint (words : List String) : List Char → Nat → Nat → List Hit
  | [], _, _ => []
  | c :: cs, pos, skip =>
    match skip with
    | k + 1 => scanDisjoint words cs (pos + 1) k
    | 0 =>
      match words.find? (fun w => startsWith w.data (c :: cs)) with
      | some w => ⟨pos, w⟩ :: scanDisjoint words cs (pos + 1) (w.data.length - 1)
      | none => scanDisjoint words cs (pos + 1) 0

/-- The lines `InitAuditor` and `InitKeyWords` keep: trimmed, blank ones dropped. -/
def keywordsOf (lines : List String) : List String :=
  (lines.map TrimSpace).filter (fun word => word != "")

/-! ## `internal/auditor` -/

namespace Internal

/-- A built matcher (`*ahocorasick.Matcher`), given by its dictionary. -/
structure Matcher where
  words : List String

/-- `Matcher.Match`. -/
def Matcher.Match (m : Matcher) (text : String) : List Hit := scan m.words text.data 0

/-- `InitAuditor`: the value of the package variable `matcher` afterwards,
starting from `nil`. `file` is the list of lines of the keyword file, `none`
when it cannot be opened or read to the end. -/
def InitAuditor (file : Option (List String)) : Option Matcher :=
  match file with
  | none => none
  | some lines =>
    if (keywordsOf lines).length = 0 then some ⟨[]⟩ else some ⟨keywordsOf lines⟩

/-- `StarAudit`: `true` when the prompt is safe. -/
def StarAudit (matcher : Option Matcher) (prompt : String) : Bool :=
  match matcher with
  | none => true
  | some m =>
    if prompt = "" then true
    else if (m.Match prompt).length > 0 then false else true

end Internal

/-! ## `tools/audit_tools.go` -/

namespace Tools

/-- The package variables `automaton` and `automatonInitialized`. -/
structure Automaton where
  patterns : List String
  automatonInitialized : Bool

/-- `AhoCorasick.FindAll`. -/
def Automaton.FindAll (a : Automaton) (text : String) : List Hit :=
  scanDisjoint a.patterns text.data 0 0

/-- `InitKeyWords`: the package variables afterwards, starting from their zero
values. `file` is as for `Internal.InitAuditor`. -/
def InitKeyWords (file : Option (List String)) : Automaton :=
  match file with
  | none => ⟨[], false⟩
  | some lines => ⟨keywordsOf lines, true⟩

/-- `StarAudit`: `true` when the prompt is safe; the argument is an `interface{}`. -/
def StarAudit (automaton : Automaton) (prompt : Option Any) : Bool :=
  match prompt with
  | some (.str promptStr) =>
    if !automaton.automatonInitialized then true
    else if (automaton.FindAll promptStr).length > 0 then false else true
  | _ => true

end Tools

/-! ## The request handlers -/

/-- One element of `messages`: the `content` map (`none` is a `nil` map). -/
structure Message where
  Content : Option (List (String × JValue))

/-- The bound request body (`AuditRequest`). -/
structure AuditRequest where
  Action : String
  Model : String
  Messages : List Message

/-- What a handler reads from the `gin.Context`: the values the cookie
middleware stored under `"xtoken"` and `"xuserid"` (`none` when the key was never
set), the raw body, and the `carid` header. -/
structure Context where
  xtoken : Option Any
  xuserid : Option Any
  body : String
  carid : String

/-- The response written by `c.JSON`: the status code and the single member of
the JSON body. -/
structure Response where
  status : Nat
  key : String
  text : String
  deriving DecidableEq, Repr

/-- Go's `strings.ReplaceAll(s, " ", "")`. -/
def removeSpaces (s : String) : String := ⟨s.data.filter (fun c => c != ' ')⟩

/-- The audited text: `messages[0].content.parts[0]` when it is a string, else empty. -/
def promptOf (messages : List Message) : String :=
  match messages with
  | [] => ""
  | m :: _ =>
    match m.Content with
    | none => ""
    | some content =>
      match JValue.field content "parts" with
      | some (.arr (.str partStr :: _)) => partStr
      | _ => ""

namespace Internal

/-- `AuditHandler` of `internal/api`. `ShouldBindJSON` is gin's binding of the
body to `AuditRequest` (an error text on failure). -/
def AuditHandler (go : GoLib) (ShouldBindJSON : String → Except String AuditRequest)
    (matcher : Option Matcher) (limitRules : LimitData) (r : Redis) (c : Context) :
    Response × Redis :=
  match c.xtoken, c.xuserid with
  | some (.str xtoken), some (.str xuserid) =>
    if xtoken = "" || xuserid = "" then
      (⟨401, "error", "无效的认证凭据 (Invalid credentials)"⟩, r)
    else
      match VerifyTokenNoHeader r xuserid xtoken with
      | ((_, some _), r1) => (⟨500, "error", "令牌验证时发生内部服务器错误"⟩, r1)
      | ((tokenOk, none), r1) =>
        if !tokenOk then (⟨401, "error", "登录信息已过期或无效，请重新登录"⟩, r1)
        else
          match ShouldBindJSON c.body with
          | .error e => (⟨400, "error", "无效的请求体: " ++ e⟩, r1)
          | .ok auditReq =>
            if !StarAudit matcher (promptOf auditReq.Messages) then
              (⟨400, "error", "请珍惜账号, 不要提问违禁内容."⟩, r1)
            else
              match GetStarLimit go limitRules r1 xuserid auditReq.Model with
              | (⟨_, _, some _⟩, r2) => (⟨500, "error", "速率限制检查时发生内部服务器错误"⟩, r2)
              | (⟨isLimitOk, limitMsg, none⟩, r2) =>
                if !isLimitOk then (⟨429, "error", limitMsg⟩, r2)
                else
                  match VerifyUserAcard go r2 xuserid (removeSpaces c.carid) with
                  | ((_, some _), r3) => (⟨500, "error", "用户权限检查时发生内部服务器错误"⟩, r3)
                  | ((canUseCar, none), r3) =>
                    if canUseCar then (⟨200, "status", "ok"⟩, r3)
                    else (⟨429, "error", "请右上角切换线路"⟩, r3)
  | _, _ => (⟨401, "error", "无效的认证凭据 (Invalid credentials)"⟩, r)

end Internal

namespace Tools

/-- Text of an error (`err.Error()`), which the handler appends to its message.
The texts of `io` and `atoi` vary with the cause; a fixed text stands for them. -/
def errorText : Err → String
  | .redisNil => "redis: nil"
  | .io => "i/o failure"
  | .notInt => "ERR value is not an integer or out of range"
  | .atoi => "strconv.Atoi: invalid syntax"
  | .wrapped site cause => site ++ ": " ++ errorText cause
  | .msg text => text

/-- `auditHandler` of `api/audit.go`. `ShouldBindJSON` is gin's binding of the
body to `AuditRequest` (an error text on failure). -/
def auditHandler (go : GoLib) (ShouldBindJSON : String → Except String AuditRequest)
    (automaton : Automaton) (limitData : LimitData) (r : Redis) (c : Context) :
    Response × Redis :=
  match c.xtoken with
  | none => (⟨401, "error", "缺少xtoken"⟩, r)
  | some xtoken =>
    match c.xuserid with
    | none => (⟨401, "error", "缺少xuserid"⟩, r)
    | some xuserid =>
      match xtoken with
      | .int _ => (⟨401, "error", "xtoken格式错误"⟩, r)
      | .str xtokenStr =>
        match xuserid with
        | .int _ => (⟨401, "error", "xuserid格式错误"⟩, r)
        | .str xuseridStr =>
          match VerifyTokenNoHeader r xuseridStr xtokenStr with
          | ((_, some _), r1) => (⟨500, "error", "验证token失败"⟩, r1)
          | ((isValid, none), r1) =>
            if !isValid then (⟨429, "error", "登录信息已过期，请重新登录"⟩, r1)
            else
              match ShouldBindJSON c.body with
              | .error e => (⟨400, "error", "请求参数错误: " ++ e⟩, r1)
              | .ok auditRequest =>
                if !StarAudit automaton (some (.str (promptOf auditRequest.Messages))) then
                  (⟨400, "error", "请珍惜账号, 不要提问违禁内容."⟩, r1)
                else
                  match GetStarLimit go limitData r1 xuseridStr auditRequest.Model with
                  | (⟨_, _, some err⟩, r2) =>
                    (⟨500, "error", "检查速率限制失败: " ++ errorText err⟩, r2)
                  | (⟨isOk, limitMsg, none⟩, r2) =>
                    if isOk then
                      match VerifyUserAcard go r2 xuseridStr (removeSpaces c.carid) with
                      | ((_, some err), r3) =>
                        (⟨500, "error", "验证用户权限失败: " ++ errorText err⟩, r3)
                      | ((canUse, none), r3) =>
                        if canUse then (⟨200, "status", "ok"⟩, r3)
                        else (⟨429, "error", "请右上角切换线路"⟩, r3)
                    else (⟨429, "error", limitMsg⟩, r2)

end Tools

/-! ## Vocabulary of the properties -/

/-- The count a stored counter stands for when it is read by `GetInt`: 0 for
an absent key, nothing for a value that is not an integer. -/
def storedCount (kv : Store) (key : String) : Option Int :=
  match kv key with
  | none => some 0
  | some e =>
    match Atoi e.val with
    | .ok i => some i
    | .error _ => none

/-- No increment among the commands of a list. -/
def noIncr (l : List (Cmd × Bool)) : Prop := ∀ x ∈ l, x.1.isIncr = false

/-- The commands a call added to the log. -/
def newLog (before after : Redis) : List (Cmd × Bool) := after.log.drop before.log.length

namespace Internal

/-- The commands of `GetStarLimit` whose failure the limiter does not tolerate:
the read of the subscription record, every `set` and every `incr`. The reads of
the marker and of the counter and the arming `expire` are the others. -/
def fatal (xuserid : String) : Cmd → Bool
  | .get key => key == getKey ("user:" ++ xuserid ++ ":active_packages")
  | .set _ _ _ => true
  | .incr _ => true
  | .expire _ _ => false

/-- The tier `GetStarLimit` and `VerifyUserAcard` resolve for a user in a key space. -/
def tierOf (go : GoLib) (kv : Store) (xuserid : String) : String :=
  match kv (getKey ("user:" ++ xuserid ++ ":active_packages")) with
  | none => packageName go false ""
  | some e => packageName go true e.val

/-- The store after `k` consecutive calls of `GetStarLimit` for one user and model. -/
def calls (go : GoLib) (limitRules : LimitData) (xuserid model : String) : Nat → Redis → Redis
  | 0, r => r
  | k + 1, r => (GetStarLimit go limitRules (calls go limitRules xuserid model k r) xuserid model).2

/-- A store that answers every command, in which the user resolves to a tier
with the rule `(N, w)`, the marker holds that tier and the counter holds `c`
(written by the server, or absent when `c = 0`). -/
def Ready (go : GoLib) (limitRules : LimitData) (xuserid model : String) (N : Nat) (w : Int)
    (r : Redis) (c : Nat) : Prop :=
  r.faults = [] ∧
  (getLimitRule limitRules (tierOf go r.kv xuserid) model ≠ "" ∧
    parseLimit (getLimitRule limitRules (tierOf go r.kv xuserid) model) = .ok ((N : Int), w)) ∧
  (∃ ttl, r.kv (getKey (userPackageKey xuserid)) = some ⟨tierOf go r.kv xuserid, ttl⟩) ∧
  ((c = 0 ∧ r.kv (getKey (redisKey xuserid (tierOf go r.kv xuserid) model)) = none) ∨
    ∃ ttl, r.kv (getKey (redisKey xuserid (tierOf go r.kv xuserid) model)) =
      some ⟨Itoa (c : Int), ttl⟩)

end Internal

namespace Tools

/-- The tier `GetStarLimit` resolves for a user in a key space. -/
def tierOf (go : GoLib) (kv : Store) (xuserid : String) : String :=
  match kv (getKey ("user:" ++ xuserid ++ ":active_packages")) with
  | none => packageType go none
  | some e => packageType go (decode go e.val)

/-- The store after `k` consecutive calls of `GetStarLimit` for one user and model. -/
def calls (go : GoLib) (limitData : LimitData) (xuserid model : String) : Nat → Redis → Redis
  | 0, r => r
  | k + 1, r => (GetStarLimit go limitData (calls go limitData xuserid model k r) xuserid model).2

/-- As `Internal.Ready`, for the `tools` copy. -/
def Ready (go : GoLib) (limitData : LimitData) (xuserid model : String) (N : Nat) (w : Int)
    (r : Redis) (c : Nat) : Prop :=
  r.faults = [] ∧
  (getLimitRules limitData (tierOf go r.kv xuserid) model ≠ "" ∧
    parseLimit (getLimitRules limitData (tierOf go r.kv xuserid) model) = .ok ((N : Int), w)) ∧
  (∃ ttl, r.kv (getKey (userPackageKey xuserid)) = some ⟨tierOf go r.kv xuserid, ttl⟩) ∧
  ((c = 0 ∧ r.kv (getKey (redisKey xuserid (tierOf go r.kv xuserid) model)) = none) ∨
    ∃ ttl, r.kv (getKey (redisKey xuserid (tierOf go r.kv xuserid) model)) =
      some ⟨Itoa (c : Int), ttl⟩)

end Tools

/-- The tiers whose users may only use cars labelled `mini` or `free`. -/
def restricted (tier : String) : Prop := tier = "free" ∨ tier = "base" ∨ tier = "mini"

/-- Decidability of `restricted`. -/
instance instDecidableRestricted (tier : String) : Decidable (restricted tier) := by
  unfold restricted
  exact inferInstance

namespace Internal

/-- The level `VerifyUserAcard` resolves for a user in a key space. -/
def levelOf (go : GoLib) (kv : Store) (xuserid : String) : String :=
  match kv (getKey ("user:" ++ xuserid ++ ":active_packages")) with
  | none => userLevel go false ""
  | some e => userLevel go true e.val

/-- The label of a car in a key space: the string member `label` of the stored
record, when the record exists, is not empty and decodes to a JSON object. -/
def labelOf (go : GoLib) (kv : Store) (carid : String) : Option String :=
  match kv (getKey ("car_status:" ++ carid)) with
  | none => none
  | some e =>
    if e.val = "" then none
    else
      match go.unmarshal e.val with
      | some (.obj carData) =>
        match JValue.field carData "label" with
        | some (.str label) => some label
        | _ => none
      | _ => none

end Internal

namespace Tools

/-- The level `VerifyUserAcard` resolves for a user in a key space, or the error
it returns for a record that is not an object. -/
def levelOf (go : GoLib) (kv : Store) (xuserid : String) : Except Err String :=
  match kv (getKey ("user:" ++ xuserid ++ ":active_packages")) with
  | none => level go none
  | some e => level go (decode go e.val)

/-- The label of a car in a key space: the string member `label` of the stored
record, when the record exists and decodes to a JSON object. -/
def labelOf (go : GoLib) (kv : Store) (carid : String) : Option String :=
  match kv (getKey ("car_status:" ++ carid)) with
  | none => none
  | some e =>
    match decode go e.val with
    | some (.obj carData) =>
      match JValue.field carData "label" with
      | some (.str label) => some label
      | _ => none
    | _ => none

end Tools

end LimitService
namespace LimitService

/-! ## Vocabulary of the rule grammar -/

/-- One of the characters `0` to `9`. -/
def isDigit09 (c : Char) : Bool := 48 ≤ c.toNat && c.toNat ≤ 57

/-- A decimal integer as a rule writes it: an optional sign, then one digit or more. -/
def isDecimalInteger (s : String) : Bool :=
  match s.data with
  | '-' :: ds => !ds.isEmpty && ds.all isDigit09
  | '+' :: ds => !ds.isEmpty && ds.all isDigit09
  | ds => !ds.isEmpty && ds.all isDigit09

/-- A duration of the rule grammar: a decimal integer, optionally followed by
one of the units `h`, `d`, `m`. -/
def isDuration (s : String) : Bool :=
  isDecimalInteger s ||
    match s.data.getLast? with
    | some c => (c == 'h' || c == 'd' || c == 'm') && isDecimalInteger ⟨s.data.dropLast⟩
    | none => false

/-- A rule string outside the grammar `count/duration`: it does not split into
exactly two parts at `/`, or its count is not a decimal integer, or its duration
is not one of the grammar. -/
def malformed (s : String) : Prop :=
  match Split s with
  | [count, duration] => isDecimalInteger count = false ∨ isDuration duration = false
  | _ => True

/-- Decidability of `malformed`. -/
instance instDecidableMalformed (s : String) : Decidable (malformed s) := by
  unfold malformed
  split <;> exact inferInstance

/-- No rule for a tier and a model: no entry for the model and none under
`other` in the rules of the tier (or no rules for the tier), and no global
fallback (the global rule of a file without one is the empty string). -/
def noRule (rules : LimitData) (tier model : String) : Prop :=
  (match rules.Chatgpt tier with
    | none => True
    | some perModel => perModel model = none ∧ perModel "other" = none) ∧
  rules.Other = ""

namespace Internal

/-- A plan change as `internal/limiter` sees it: the tier marker of the user is
absent or differs from the tier the subscription record resolves to. -/
def planChanged (go : GoLib) (kv : Store) (xuserid : String) : Prop :=
  ∀ e, kv (getKey (userPackageKey xuserid)) = some e → e.val ≠ tierOf go kv xuserid

end Internal

namespace Tools

/-- A plan change as `tools/limit_tools` sees it: the text read from the tier
marker, empty when the marker is absent, differs from the tier. -/
def planChanged (go : GoLib) (kv : Store) (xuserid : String) : Prop :=
  (match kv (getKey (userPackageKey xuserid)) with
    | none => ""
    | some e => e.val) ≠ tierOf go kv xuserid

end Tools

end LimitService
namespace LimitService

/-! ## Concurrent calls of `GetStarLimit`

Several requests run `GetStarLimit` at the same time; what they share is the
store. A call is cut at its store calls: each of them is one atomic exchange
with the store, and between two of them the calls of other requests may run. -/

namespace Internal

/-- One call of `GetStarLimit` between two store calls: finished with its result,
or about to make one call of the store wrapper and to go on with what it returns. -/
inductive Call where
  | done (v : Verdict) : Call
  | getString (key : String) (next : String × Bool × Option Err → Call) : Call
  | getInt (key : String) (next : Int × Bool × Option Err → Call) : Call
  | set (key value : String) (expiration : Int) (next : Option Err → Call) : Call
  | incr (key : String) (next : Except Err Int → Call) : Call
  | expire (key : String) (expiration : Int) (next : Option Err → Call) : Call

/-- The result of a finished call. -/
def Call.result : Call → Option Verdict
  | .done v => some v
  | _ => none

/-- The pending store call of a call is made. -/
def Call.step : Call → Redis → Call × Redis
  | .done v, r => (.done v, r)
  | .getString key next, r => (next (GetString r key).1, (GetString r key).2)
  | .getInt key next, r => (next (GetInt r key).1, (GetInt r key).2)
  | .set key value expiration next, r =>
    (next (Set r key value expiration).1, (Set r key value expiration).2)
  | .incr key next, r => (next (Incr r key).1, (Incr r key).2)
  | .expire key expiration next, r =>
    (next (Expire r key expiration).1, (Expire r key expiration).2)

/-- A call run to its end with no other call in between. -/
def Call.run : Call → Redis → Verdict × Redis
  | .done v, r => (v, r)
  | .getString key next, r => (next (GetString r key).1).run (GetString r key).2
  | .getInt key next, r => (next (GetInt r key).1).run (GetInt r key).2
  | .set key value expiration next, r =>
    (next (Set r key value expiration).1).run (Set r key value expiration).2
  | .incr key next, r => (next (Incr r key).1).run (Incr r key).2
  | .expire key expiration next, r =>
    (next (Expire r key expiration).1).run (Expire r key expiration).2

/-- Lines 174-207 of `GetStarLimit`, cut at the store calls. -/
def countAndConsumeCall (xuserid packageName model : String) (maxCount windowSeconds : Int) :
    Call :=
  .getInt (redisKey xuserid packageName model) fun got =>
    if got.2.2.isSome && got.2.1 then
      .done ⟨false, "", got.2.2.map (.wrapped ("为用户 " ++ xuserid ++ " 获取或解析速率限制计数失败"))⟩
    else
      if (if !got.2.1 then 0 else got.1) ≥ maxCount then
        .done ⟨false, limitMsg packageName model windowSeconds maxCount, none⟩
      else
        .incr (redisKey xuserid packageName model) fun incremented =>
          match incremented with
          | .error e =>
            .done ⟨false, "", some (.wrapped ("为用户 " ++ xuserid ++ " 递增速率限制计数器失败") e)⟩
          | .ok newCount =>
            if newCount = 1 then
              .expire (redisKey xuserid packageName model) (durationOfSeconds windowSeconds)
                fun _ => .done ⟨true, "允许发送消息", none⟩
            else .done ⟨true, "允许发送消息", none⟩

/-- Lines 155-172 of `GetStarLimit`, cut at the store calls; `rest` is what the
call goes on with. -/
def resetOnChangeCall (xuserid packageName model : String) (windowSeconds : Int) (rest : Call) :
    Call :=
  .getString (userPackageKey xuserid) fun got =>
    if !got.2.1 || got.1 != packageName then
      .set (redisKey xuserid packageName model) "0" (durationOfSeconds windowSeconds) fun err =>
        match err with
        | some e => .done ⟨false, "", some (.wrapped ("为用户 " ++ xuserid ++ " 重置速率限制计数器失败") e)⟩
        | none =>
          .set (userPackageKey xuserid) packageName 0 fun err2 =>
            match err2 with
            | some e => .done ⟨false, "", some (.wrapped ("为用户 " ++ xuserid ++ " 设置用户套餐键失败") e)⟩
            | none => rest
    else rest

/-- `GetStarLimit`, cut at the store calls. -/
def GetStarLimitCall (go : GoLib) (limitRules : LimitData) (xuserid model : String) : Call :=
  .getString ("user:" ++ xuserid ++ ":active_packages") fun got =>
    match got with
    | (_, _, some err) =>
      .done ⟨false, "", some (.wrapped ("为用户 " ++ xuserid ++ " 获取激活套餐失败") err)⟩
    | (activePackagesDataStr, found, none) =>
      if getLimitRule limitRules (packageName go found activePackagesDataStr) model = "" then
        .done ⟨false, "未配置速率限制", none⟩
      else
        match parseLimit (getLimitRule limitRules (packageName go found activePackagesDataStr) model) with
        | .error err =>
          .done ⟨false, "", some (.wrapped ("解析限速规则 \x27" ++
            getLimitRule limitRules (packageName go found activePackagesDataStr) model ++
            "\x27 失败") err)⟩
        | .ok (maxCount, windowSeconds) =>
          if windowSeconds ≤ 0 then
            .done ⟨false, "", some (.msg ("无效的限速时间窗口: " ++ Itoa windowSeconds ++ " 秒"))⟩
          else
            resetOnChangeCall xuserid (packageName go found activePackagesDataStr) model
              windowSeconds
              (countAndConsumeCall xuserid (packageName go found activePackagesDataStr) model
                maxCount windowSeconds)

/-- The call at position `i` makes its pending store call. -/
def stepAt (calls : List Call) (i : Nat) (r : Redis) : List Call × Redis :=
  match calls.get? i with
  | none => (calls, r)
  | some c => (calls.set i (c.step r).1, (c.step r).2)

/-- Concurrent calls under a schedule: the list names, store call by store call,
the call that makes its next one. -/
def interleave (calls : List Call) (r : Redis) : List Nat → List Call × Redis
  | [] => (calls, r)
  | i :: schedule => interleave (stepAt calls i r).1 (stepAt calls i r).2 schedule

end Internal

end LimitService
namespace LimitService

/-! ## The cookie middleware -/

/-- Splitting a byte sequence at every occurrence of `sep`. -/
def splitAtChar (sep : Char) : List Char → List (List Char)
  | [] => [[]]
  | c :: cs =>
    match splitAtChar sep cs with
    | [] => [[]]
    | p :: ps => if c = sep then [] :: p :: ps else (c :: p) :: ps

/-- Go's `strings.Index(s, "=")`: the position of the first `=`, `none` for `-1`. -/
def indexOfEquals : List Char → Option Nat
  | [] => none
  | c :: cs => if c = '=' then some 0 else (indexOfEquals cs).map (· + 1)

/-- Lines 53-56 of `parseCookieString`: one pair of surrounding double quotes
(the character 34) is removed. -/
def stripQuotes (value : String) : String :=
  if value.data.length ≥ 2 ∧ value.data.head? = some (Char.ofNat 34) ∧
      value.data.getLast? = some (Char.ofNat 34) then
    ⟨(value.data.drop 1).dropLast⟩
  else value

/-- The body of the loop of `parseCookieString`: the map after one more pair. -/
def addCookie (cookies : String → Option String) (pair : String) : String → Option String :=
  match indexOfEquals (TrimSpace pair).data with
  | some idx =>
    if idx > 0 then
      fun name =>
        if name = TrimSpace ⟨(TrimSpace pair).data.take idx⟩ then
          some (stripQuotes (TrimSpace ⟨(TrimSpace pair).data.drop (idx + 1)⟩))
        else cookies name
    else cookies
  | none => cookies

/-- `parseCookieString` of `middleware/cookie.go`: the map from cookie names to values. -/
def parseCookieString (cookieString : String) : String → Option String :=
  ((splitAtChar ';' cookieString.data).map String.mk).foldl addCookie (fun _ => none)

/-- `ExtractCookiesMiddleware` of `middleware/cookie.go`: the values it stores
under `"xtoken"` and `"xuserid"`, from the `cookie` header of the request (the
empty string when the request has none). -/
def ExtractCookiesMiddleware (cookieString : String) : String × String :=
  if cookieString ≠ "" then
    ((parseCookieString cookieString "xtoken").getD "",
      (parseCookieString cookieString "xuserid").getD "")
  else ("", "")

/-- `extractCookiesMiddleware` of `cmd/main.go`: the values it stores under
`"xtoken"` and `"xuserid"`. `Cookie` is gin's `c.Cookie` (`none` when it returns
an error, as it does for a cookie the request does not carry). -/
def extractCookiesMiddleware (Cookie : String → Option String) : String × String :=
  ((Cookie "xtoken").getD "", (Cookie "xuserid").getD "")

/-- A request to `POST /audit` as the router of `main.go` hands it to
`auditHandler`: after `ExtractCookiesMiddleware`. -/
def contextOfCookies (stored : String × String) (body carid : String) : Context :=
  ⟨some (.str stored.1), some (.str stored.2), body, carid⟩

namespace Internal

/-- The store after the token check of a request. -/
def afterToken (r : Redis) (xuserid xtoken : String) : Redis :=
  (VerifyTokenNoHeader r xuserid xtoken).2

/-- The store after the quota check of a request whose token check passed. -/
def afterQuota (go : GoLib) (limitRules : LimitData) (r : Redis) (xuserid xtoken model : String) :
    Redis :=
  (GetStarLimit go limitRules (afterToken r xuserid xtoken) xuserid model).2

end Internal

namespace Tools

/-- The store after the token check of a request. -/
def afterToken (r : Redis) (xuserid xtoken : String) : Redis :=
  (VerifyTokenNoHeader r xuserid xtoken).2

/-- The store after the quota check of a request whose token check passed. -/
def afterQuota (go : GoLib) (limitData : LimitData) (r : Redis) (xuserid xtoken model : String) :
    Redis :=
  (GetStarLimit go limitData (afterToken r xuserid xtoken) xuserid model).2

end Tools

end LimitService

/-! ## Sample data -/

namespace LimitService

/-- A decoder for the sample records: it knows the JSON texts used below and
decodes them as `json.Unmarshal` does; every other text is taken as not JSON. -/
def sampleUnmarshal (s : String) : Option JValue :=
  if s = "\x7b\"ChatGPT\":\x7b\"level\":\"pro\"\x7d\x7d" then
    some (.obj [("ChatGPT", .obj [("level", .str "pro")])])
  else if s = "\x7b\"ChatGPT\":\x7b\"level\":\"\"\x7d\x7d" then
    some (.obj [("ChatGPT", .obj [("level", .str "")])])
  else if s = "\x7b\"label\":\"MINI\"\x7d" then some (.obj [("label", .str "MINI")])
  else if s = "\x7b\"label\":\"plus\"\x7d" then some (.obj [("label", .str "plus")])
  else if s = "null" then some .null
  else none

/-- The library over the sample decoder (no rune outside ASCII occurs below). -/
def sampleGo : GoLib := ⟨sampleUnmarshal, id⟩

/-- A rule file with only the global fallback: 2 messages per minute. -/
def sampleRules : LimitData := ⟨fun _ => none, "2/1m"⟩

/-- A rule file whose window, 9223372037 seconds, exceeds the largest `time.Duration`. -/
def hugeWindowRules : LimitData := ⟨fun _ => none, "1/9223372037"⟩

/-- A key space in which user `u` has no subscription record (tier `free`) and
the tier marker `free`. -/
def sampleStore : Store :=
  fun k => if k = "star:star_rate_limit_package:u" then some ⟨"free", none⟩ else none

/-- The sample key space behind a store that answers every command. -/
def sampleRedis : Redis := ⟨sampleStore, [], []⟩

/-- A rule file with only the global fallback: 5 messages per hour. -/
def fiveAnHour : LimitData := ⟨fun _ => none, "5/1h"⟩

/-- The empty key space behind a store that answers every command. -/
def emptyRedis : Redis := ⟨fun _ => none, [], []⟩

/-- A key space in which user `v` has a subscription record whose level is the
empty string, no tier marker, and the counter of `(v, "", gpt)` at 7. -/
def emptyTierStore : Store :=
  fun k =>
    if k = "star:user:v:active_packages" then
      some ⟨"\x7b\"ChatGPT\":\x7b\"level\":\"\"\x7d\x7d", none⟩
    else if k = "star:star_rate_limit:v::gpt" then some ⟨"7", some 1000000⟩
    else none

/-- A key space in which user `u` (tier `free`, marker `free`) has used up the
rule `2/1m` for the model `gpt`. -/
def atLimitStore : Store :=
  fun k =>
    if k = "star:star_rate_limit_package:u" then some ⟨"free", none⟩
    else if k = "star:star_rate_limit:u:free:gpt" then some ⟨"2", some 60000⟩
    else none

/-- A key space in which user `p` has the level `pro`, user `u` has no record
(level `free`), car `c1` carries the label `MINI` and car `c2` the label `plus`;
the token on record for `u` is `secret`, and the key `xtoken_` of the empty
user ID holds the empty string. -/
def carStore : Store :=
  fun k =>
    if k = "star:user:p:active_packages" then
      some ⟨"\x7b\"ChatGPT\":\x7b\"level\":\"pro\"\x7d\x7d", none⟩
    else if k = "star:car_status:c1" then some ⟨"\x7b\"label\":\"MINI\"\x7d", none⟩
    else if k = "star:car_status:c2" then some ⟨"\x7b\"label\":\"plus\"\x7d", none⟩
    else if k = "star:xtoken_u" then some ⟨"secret", none⟩
    else if k = "star:xtoken_" then some ⟨"", none⟩
    else none

/-- The car key space behind a store that answers every command. -/
def carRedis : Redis := ⟨carStore, [], []⟩

/-- A binder that accepts every body as the request for the model `gpt` with
the single message part `hello`. -/
def sampleBind (_ : String) : Except String AuditRequest :=
  .ok ⟨"next", "gpt", [⟨some [("parts", .arr [.str "hello"])]⟩]⟩

/-- A binder that accepts every body as the request for the model `gpt` with
the single message part `a gun!`. -/
def gunBind (_ : String) : Except String AuditRequest :=
  .ok ⟨"next", "gpt", [⟨some [("parts", .arr [.str "a gun!"])]⟩]⟩

/-- The request of user `u` with the token `secret` for the car `c2`. -/
def sampleContext : Context := ⟨some (.str "secret"), some (.str "u"), "", "c2"⟩

/-- A rule file with rules for the tier `pro` (the model `gpt-4` and the
per-tier fallback `other`) and a global fallback. -/
def tieredRules : LimitData :=
  ⟨fun tier =>
      if tier = "pro" then
        some (fun model =>
          if model = "gpt-4" then some "40/3h"
          else if model = "other" then some "100/1h"
          else none)
      else none,
    "5/1d"⟩

end LimitService
namespace LimitService

/-! ## Sample data for the rule grammar and the counter -/

/-- A rule file in which the tier `free` has an entry for the model `gpt` whose
rule string is empty; the global fallback is `5/1h`. -/
def emptyEntryRules : LimitData :=
  ⟨fun tier =>
      if tier = "free" then some (fun model => if model = "gpt" then some "" else none)
      else none,
    "5/1h"⟩

/-- A rule file with only the global fallback `abc/1h`, whose count is no number. -/
def brokenRules : LimitData := ⟨fun _ => none, "abc/1h"⟩

/-- A rule file with only the global fallback `-1/1h`, whose count is negative. -/
def negativeCountRules : LimitData := ⟨fun _ => none, "-1/1h"⟩

/-- A rule file with only the global fallback `5/0`, whose window is zero. -/
def zeroWindowRules : LimitData := ⟨fun _ => none, "5/0"⟩

/-- A rule file without any rule. -/
def noRules : LimitData := ⟨fun _ => none, ""⟩

/-- A rule file with only the global fallback: 1 message per minute. -/
def oneAMinute : LimitData := ⟨fun _ => none, "1/1m"⟩

/-- A key space in which user `w` has the subscription record `oops`, which is
not JSON, and car `c1` carries the label `MINI`. -/
def badRecordStore : Store :=
  fun k =>
    if k = "star:user:w:active_packages" then some ⟨"oops", none⟩
    else if k = "star:car_status:c1" then some ⟨"\x7b\"label\":\"MINI\"\x7d", none⟩
    else none

/-- A key space in which user `u` (tier `free`, marker `free`) has sent one
message to the model `gpt` in the running window of 60 seconds. -/
def oneUsedStore : Store :=
  fun k =>
    if k = "star:star_rate_limit_package:u" then some ⟨"free", none⟩
    else if k = "star:star_rate_limit:u:free:gpt" then some ⟨"1", some 60000⟩
    else none

end LimitService
namespace LimitService

/-! ## Sample requests -/

/-- A binder that refuses the body `\x7b\x7d`, which has none of the required
fields, and accepts every other body as `sampleBind` does. -/
def requiredBind (body : String) : Except String AuditRequest :=
  if body = "\x7b\x7d" then .error "required fields are missing" else sampleBind body

/-- The request of user `u` with a token that is not the one on record. -/
def wrongTokenContext : Context := ⟨some (.str "wrong"), some (.str "u"), "", "c1"⟩

/-- The request of user `u` with the token `secret` for the car `c1`. -/
def allowedContext : Context := ⟨some (.str "secret"), some (.str "u"), "", "c1"⟩

/-- A decoder that knows the subscription record of the level `a`. -/
def colonUnmarshal (s : String) : Option JValue :=
  if s = "\x7b\"ChatGPT\":\x7b\"level\":\"a\"\x7d\x7d" then
    some (.obj [("ChatGPT", .obj [("level", .str "a")])])
  else none

/-- The library over `colonUnmarshal`. -/
def colonGo : GoLib := ⟨colonUnmarshal, id⟩

/-- A key space in which user `u` has the level `a` and no tier marker, and the
key `star:star_rate_limit:u:a:b:c` holds 7: it is the counter of the tier `a`
and the model `b:c`, and also the counter of the tier `a:b` and the model `c`. -/
def colonStore : Store :=
  fun k =>
    if k = "star:user:u:active_packages" then
      some ⟨"\x7b\"ChatGPT\":\x7b\"level\":\"a\"\x7d\x7d", none⟩
    else if k = "star:star_rate_limit:u:a:b:c" then some ⟨"7", some 60000⟩
    else none

/-- A key space in which user `u` (no subscription record, tier `free`) has no
tier marker, the counter of the model `gpt` at 7 and the counter of the model
`o1` at 2. -/
def twoModelStore : Store :=
  fun k =>
    if k = "star:star_rate_limit:u:free:gpt" then some ⟨"7", some 60000⟩
    else if k = "star:star_rate_limit:u:free:o1" then some ⟨"2", some 60000⟩
    else none

/-- The car key space with, in addition, the tier marker `free` of user `u`
and the counter of (`u`, `free`, `gpt`) at 3. -/
def usedCarStore : Store :=
  fun k =>
    if k = "star:star_rate_limit_package:u" then some ⟨"free", none⟩
    else if k = "star:star_rate_limit:u:free:gpt" then some ⟨"3", some 60000⟩
    else carStore k

/-- The car key space with, in addition, the counter of (`u`, `free`, `gpt`)
at 3; user `u` has no tier marker. -/
def resetCarStore : Store :=
  fun k =>
    if k = "star:star_rate_limit:u:free:gpt" then some ⟨"3", some 60000⟩ else carStore k

/-- The car key space with, in addition, the tier marker `free` of user `u`;
the counter of (`u`, `free`, `gpt`) is absent. -/
def markedCarStore : Store :=
  fun k =>
    if k = "star:star_rate_limit_package:u" then some ⟨"free", none⟩ else carStore k

/-- A key space in which user `u` (tier `free`, marker `free`) has the counter
of the model `gpt` at -5. -/
def negativeStore : Store :=
  fun k =>
    if k = "star:star_rate_limit_package:u" then some ⟨"free", none⟩
    else if k = "star:star_rate_limit:u:free:gpt" then some ⟨"-5", some 60000⟩
    else none

end LimitService
namespace LimitService

/-! ## Decimal text -/

theorem digitVal_digitChar (d : Nat) (h : d < 10) : digitVal (Nat.digitChar d) = some d := by
  interval_cases d <;> rfl

theorem toDigitsCore_spec (fuel : Nat) : ∀ (n : Nat) (ds : List Char), n < fuel →
    ∃ L : List Char, Nat.toDigitsCore 10 fuel n ds = L ++ ds ∧ L ≠ [] ∧
      (∀ c ∈ L, digitVal c ≠ none) ∧
      (∀ (acc : Nat) (rest : List Char),
        parseDigits (L ++ rest) acc = parseDigits rest (acc * 10 ^ L.length + n)) := by
  induction fuel with
  | zero => intro n ds h; omega
  | succ fuel ih =>
    intro n ds h
    have hd : digitVal (Nat.digitChar (n % 10)) = some (n % 10) :=
      digitVal_digitChar _ (Nat.mod_lt _ (by decide))
    by_cases h0 : n / 10 = 0
    · refine ⟨[Nat.digitChar (n % 10)], ?_, by simp, ?_, ?_⟩
      · simp [Nat.toDigitsCore, h0]
      · intro c hc
        simp only [List.mem_singleton] at hc
        subst hc
        simp [hd]
      · intro acc rest
        have hn : n % 10 = n := by omega
        simp only [List.singleton_append, parseDigits, hd, List.length_singleton, pow_one]
        rw [hn]
        rfl
    · have hlt : n / 10 < fuel := by omega
      obtain ⟨L, hL, hne, hdig, hparse⟩ := ih (n / 10) (Nat.digitChar (n % 10) :: ds) hlt
      refine ⟨L ++ [Nat.digitChar (n % 10)], ?_, by simp, ?_, ?_⟩
      · simp [Nat.toDigitsCore, h0, hL]
      · intro c hc
        rcases List.mem_append.mp hc with hc | hc
        · exact hdig c hc
        · simp only [List.mem_singleton] at hc
          subst hc
          simp [hd]
      · intro acc rest
        have := hparse acc (Nat.digitChar (n % 10) :: rest)
        simp only [List.append_assoc, List.singleton_append, this, parseDigits, hd,
          List.length_append, List.length_singleton, pow_succ]
        congr 1
        have := Nat.div_add_mod n 10
        ring_nf
        omega

theorem parseUnsigned_toDigits (n : Nat) :
    parseUnsigned (Nat.toDigits 10 n) = some n ∧
    ∃ c L, Nat.toDigits 10 n = c :: L ∧ digitVal c ≠ none := by
  obtain ⟨L, hL, hne, hdig, hparse⟩ := toDigitsCore_spec (n + 1) n [] (Nat.lt_succ_self n)
  have hT : Nat.toDigits 10 n = L := by simpa [Nat.toDigits] using hL
  rw [hT]
  cases L with
  | nil => exact absurd rfl hne
  | cons c L' =>
    refine ⟨?_, c, L', rfl, hdig c (by simp)⟩
    have := hparse 0 []
    simpa [parseUnsigned] using this

/-- Reading back the decimal text of a natural number below `2^63`. -/
theorem Atoi_Itoa_nat (n : Nat) (h : n < 2 ^ 63) : Atoi (Itoa (n : Int)) = .ok (n : Int) := by
  obtain ⟨hp, c, L, hcL, hc⟩ := parseUnsigned_toDigits n
  have hI : (Itoa (n : Int)).data = c :: L := by
    show (Itoa (Int.ofNat n)).data = _
    simp [Itoa, hcL]
  have hm : c ≠ '-' := by
    intro e; subst e; exact hc (by decide)
  have hpl : c ≠ '+' := by
    intro e; subst e; exact hc (by decide)
  unfold Atoi
  rw [hI]
  split
  · rename_i heq; simp at heq; exact absurd heq.1 hm
  · rename_i heq; simp at heq; exact absurd heq.1 hpl
  · rw [← hcL, hp]
    have h2 : n < 9223372036854775808 := by simpa using h
    simp [h2]

theorem redisInt_Itoa_nat (n : Nat) (h : n < 2 ^ 63) : redisInt (Itoa (n : Int)) = some (n : Int) := by
  simp [redisInt, Atoi_Itoa_nat n h]

/-- Whatever `Atoi` accepts is an `int64`. -/
theorem Atoi_range (s : String) (i : Int) (h : Atoi s = .ok i) : -(2 ^ 63) ≤ i ∧ i < 2 ^ 63 := by
  unfold Atoi at h
  split at h
  · split at h
    · split at h
      · simp only [Except.ok.injEq] at h
        subst h
        constructor <;> push_cast <;> omega
      · simp at h
    · simp at h
  · split at h
    · split at h
      · simp only [Except.ok.injEq] at h
        subst h
        constructor <;> push_cast <;> omega
      · simp at h
    · simp at h
  · split at h
    · split at h
      · simp only [Except.ok.injEq] at h
        subst h
        constructor <;> push_cast <;> omega
      · simp at h
    · simp at h

/-! ## Store keys -/

theorem Internal.marker_ne_counter (u t m : String) :
    getKey (Internal.userPackageKey u) ≠ getKey (Internal.redisKey u t m) := by
  intro e
  have := congrArg String.data e
  simp [getKey, Internal.userPackageKey, Internal.redisKey, String.data_append] at this

theorem Internal.record_ne_counter (u t m : String) :
    getKey ("user:" ++ u ++ ":active_packages") ≠ getKey (Internal.redisKey u t m) := by
  intro e
  have := congrArg String.data e
  simp [getKey, Internal.redisKey, String.data_append] at this

theorem Internal.record_ne_marker (u : String) :
    getKey ("user:" ++ u ++ ":active_packages") ≠ getKey (Internal.userPackageKey u) := by
  intro e
  have := congrArg String.data e
  simp [getKey, Internal.userPackageKey, String.data_append] at this

/-! ## Durations -/

theorem wrap64_id (x : Int) (h1 : -(2 ^ 63) ≤ x) (h2 : x < 2 ^ 63) : wrap64 x = x := by
  unfold wrap64
  have : (x + 2 ^ 63) % 2 ^ 64 = x + 2 ^ 63 := Int.emod_eq_of_lt (by omega) (by omega)
  omega

theorem durationOfSeconds_fits (w : Int) (h0 : 0 < w) (h1 : w * 1000000000 < 2 ^ 63) :
    durationOfSeconds w = w * 1000000000 := by
  unfold durationOfSeconds Second
  exact wrap64_id _ (by omega) h1

theorem formatSec_seconds (w : Int) (h0 : 0 < w) : formatSec (w * 1000000000) = w := by
  unfold formatSec Second
  have : ¬ (0 < w * 1000000000 ∧ w * 1000000000 < 1000000000) := by omega
  simp only [this, if_false]
  exact Int.mul_tdiv_cancel _ (by decide)

theorem setLifetime_seconds (w : Int) (h0 : 0 < w) :
    setLifetime (w * 1000000000) = some (w * 1000) := by
  have hs := formatSec_seconds w h0
  unfold setLifetime
  have h1 : 0 < w * 1000000000 := by omega
  have h2 : ¬ (w * 1000000000 < Second ∨ Int.tmod (w * 1000000000) Second ≠ 0) := by
    unfold Second
    have : Int.tmod (w * 1000000000) 1000000000 = 0 := Int.mul_tmod_left _ _
    rw [this]
    omega
  simp only [h1, if_true, h2, if_false, hs]

end LimitService
namespace LimitService

/-! ## The wrappers on a store that answers every command -/

theorem Store.put_same (s : Store) (k : String) (e : Entry) : s.put k e k = some e := by
  simp [Store.put]

theorem Store.put_other (s : Store) (k k' : String) (e : Entry) (h : k' ≠ k) :
    s.put k e k' = s k' := by
  simp [Store.put, h]

theorem Store.put_put_same (s : Store) (k : String) (e1 e2 : Entry) :
    (s.put k e1).put k e2 = s.put k e2 := by
  funext k'
  by_cases h : k' = k <;> simp [Store.put, h]

theorem Store.del_same (s : Store) (k : String) : s.del k k = none := by
  simp [Store.del]

theorem Store.del_other (s : Store) (k k' : String) (h : k' ≠ k) : s.del k k' = s k' := by
  simp [Store.del, h]

namespace Internal

theorem GetString_absent (r : Redis) (key : String) (h : r.faults = [])
    (hk : r.kv (getKey key) = none) :
    GetString r key = (("", false, none), ⟨r.kv, [], r.log ++ [(.get (getKey key), false)]⟩) := by
  simp [GetString, Redis.clientGet, Redis.issue, h, hk]

theorem GetString_present (r : Redis) (key : String) (e : Entry) (h : r.faults = [])
    (hk : r.kv (getKey key) = some e) :
    GetString r key =
      ((e.val, true, none), ⟨r.kv, [], r.log ++ [(.get (getKey key), false)]⟩) := by
  simp [GetString, Redis.clientGet, Redis.issue, h, hk]

theorem GetInt_absent (r : Redis) (key : String) (h : r.faults = [])
    (hk : r.kv (getKey key) = none) :
    GetInt r key = ((0, false, none), ⟨r.kv, [], r.log ++ [(.get (getKey key), false)]⟩) := by
  simp [GetInt, GetString_absent r key h hk]

theorem GetInt_present (r : Redis) (key : String) (e : Entry) (i : Int) (h : r.faults = [])
    (hk : r.kv (getKey key) = some e) (hi : Atoi e.val = .ok i) :
    GetInt r key = ((i, true, none), ⟨r.kv, [], r.log ++ [(.get (getKey key), false)]⟩) := by
  simp [GetInt, GetString_present r key e h hk, hi]

theorem Set_healthy (r : Redis) (key value : String) (d : Int) (h : r.faults = []) :
    Set r key value d =
      (none, ⟨r.kv.put (getKey key) ⟨value, setLifetime d⟩, [],
        r.log ++ [(.set (getKey key) value (setLifetime d), false)]⟩) := by
  simp [Set, Redis.clientSet, Redis.issue, h, Redis.withKv]

theorem Incr_absent (r : Redis) (key : String) (h : r.faults = [])
    (hk : r.kv (getKey key) = none) :
    Incr r key =
      (.ok 1, ⟨r.kv.put (getKey key) ⟨"1", none⟩, [], r.log ++ [(.incr (getKey key), false)]⟩) := by
  simp [Incr, Redis.clientIncr, Redis.issue, h, hk, Redis.withKv]

theorem Incr_present (r : Redis) (key : String) (e : Entry) (i : Int) (h : r.faults = [])
    (hk : r.kv (getKey key) = some e) (hi : redisInt e.val = some i) (hlt : i + 1 < 2 ^ 63) :
    Incr r key =
      (.ok (i + 1), ⟨r.kv.put (getKey key) ⟨Itoa (i + 1), e.ttl⟩, [],
        r.log ++ [(.incr (getKey key), false)]⟩) := by
  have hlt2 : i + 1 < 9223372036854775808 := by simpa using hlt
  simp [Incr, Redis.clientIncr, Redis.issue, h, hk, hi, hlt2, Redis.withKv]

theorem Expire_present (r : Redis) (key : String) (e : Entry) (d : Int) (h : r.faults = [])
    (hk : r.kv (getKey key) = some e) :
    Expire r key d =
      (none, ⟨if formatSec d ≤ 0 then r.kv.del (getKey key)
              else r.kv.put (getKey key) ⟨e.val, some (formatSec d * 1000)⟩, [],
        r.log ++ [(.expire (getKey key) (formatSec d), false)]⟩) := by
  by_cases hd : formatSec d ≤ 0 <;>
    simp [Expire, Redis.clientExpire, Redis.issue, h, hk, hd, Redis.withKv]

end Internal

end LimitService
namespace LimitService
namespace Internal

theorem parseLimit_count_range (s : String) (n w : Int) (h : parseLimit s = .ok (n, w)) :
    n < 2 ^ 63 := by
  unfold parseLimit at h
  split at h
  · split at h
    · simp at h
    · rename_i count hc
      have hr := (Atoi_range _ _ hc).2
      split at h
      · simp at h
      · split at h
        · simp at h
        · simp only [Except.ok.injEq, Prod.mk.injEq] at h
          obtain ⟨h1, _⟩ := h
          subst h1
          exact hr
  · simp at h

theorem resetOnChange_same (r : Redis) (u t m : String) (w : Int) (ttl : Option Int)
    (h : r.faults = []) (hm : r.kv (getKey (userPackageKey u)) = some ⟨t, ttl⟩) :
    resetOnChange r u t m w =
      (none, ⟨r.kv, [], r.log ++ [(.get (getKey (userPackageKey u)), false)]⟩) := by
  simp [resetOnChange, GetString_present r _ _ h hm]

theorem countAndConsume_deny (r : Redis) (u t m : String) (M w : Int) (c : Nat)
    (h : r.faults = []) (hc2 : c < 2 ^ 63)
    (hc : (c = 0 ∧ r.kv (getKey (redisKey u t m)) = none) ∨
      ∃ ttl, r.kv (getKey (redisKey u t m)) = some ⟨Itoa (c : Int), ttl⟩)
    (hN : M ≤ (c : Int)) :
    countAndConsume r u t m M w =
      (⟨false, limitMsg t m w M, none⟩,
        ⟨r.kv, [], r.log ++ [(.get (getKey (redisKey u t m)), false)]⟩) := by
  rcases hc with ⟨h0, hk⟩ | ⟨ttl, hk⟩
  · subst h0
    have hN0 : M ≤ 0 := by simpa using hN
    simp [countAndConsume, GetInt_absent r _ h hk, hN0]
  · have hi := Atoi_Itoa_nat c hc2
    simp [countAndConsume, GetInt_present r _ _ _ h hk hi, hN]

/-- First use of a window: the counter is absent or `0`. -/
theorem countAndConsume_first (r : Redis) (u t m : String) (M w : Int)
    (h : r.faults = []) (hw : 0 < w) (hfit : w * 1000000000 < 2 ^ 63)
    (hc : r.kv (getKey (redisKey u t m)) = none ∨
      ∃ ttl, r.kv (getKey (redisKey u t m)) = some ⟨"0", ttl⟩)
    (hN : 0 < M) :
    countAndConsume r u t m M w =
      (⟨true, "允许发送消息", none⟩,
        ⟨r.kv.put (getKey (redisKey u t m)) ⟨"1", some (w * 1000)⟩, [],
          r.log ++ [(.get (getKey (redisKey u t m)), false),
            (.incr (getKey (redisKey u t m)), false),
            (.expire (getKey (redisKey u t m)) w, false)]⟩) := by
  have hd := durationOfSeconds_fits w hw hfit
  have hfs := formatSec_seconds w hw
  have hpos : ¬ (w ≤ 0) := by omega
  have hN0 : ¬ (M ≤ 0) := by omega
  rcases hc with hk | ⟨ttl, hk⟩
  · simp only [countAndConsume, GetInt_absent r _ h hk]
    simp only [Option.isSome_none, Bool.false_and, Bool.false_eq_true, if_false, Bool.not_false,
      if_true, ge_iff_le, hN0]
    rw [Incr_absent ⟨r.kv, [], _⟩ _ rfl hk]
    simp only [if_true]
    rw [Expire_present ⟨_, [], _⟩ _ ⟨"1", none⟩ _ rfl (Store.put_same _ _ _)]
    simp only [hd, hfs, hpos, if_false, Store.put_put_same, List.append_assoc,
      List.singleton_append]
    rfl
  · have hi : Atoi "0" = .ok 0 := by decide
    have hri : redisInt "0" = some 0 := by decide
    simp only [countAndConsume, GetInt_present r _ _ _ h hk hi]
    simp only [Option.isSome_none, Bool.false_and, Bool.false_eq_true, if_false,
      Bool.not_true, ge_iff_le, hN0]
    rw [Incr_present ⟨r.kv, [], _⟩ _ _ _ rfl hk hri (by decide)]
    simp only [zero_add, if_true]
    rw [Expire_present ⟨_, [], _⟩ _ ⟨Itoa 1, ttl⟩ _ rfl (Store.put_same _ _ _)]
    simp only [hd, hfs, hpos, if_false, Store.put_put_same, List.append_assoc,
      List.singleton_append]
    rfl

/-- Later uses of a window: the counter holds `c ≥ 1`. -/
theorem countAndConsume_next (r : Redis) (u t m : String) (M w : Int) (c : Nat)
    (ttl : Option Int) (h : r.faults = []) (hM2 : M < 2 ^ 63) (hc0 : 0 < c)
    (hk : r.kv (getKey (redisKey u t m)) = some ⟨Itoa (c : Int), ttl⟩)
    (hN : (c : Int) < M) :
    countAndConsume r u t m M w =
      (⟨true, "允许发送消息", none⟩,
        ⟨r.kv.put (getKey (redisKey u t m)) ⟨Itoa ((c : Int) + 1), ttl⟩, [],
          r.log ++ [(.get (getKey (redisKey u t m)), false),
            (.incr (getKey (redisKey u t m)), false)]⟩) := by
  have hN' : ¬ (M ≤ (c : Int)) := by omega
  have hc2 : c < 2 ^ 63 := by
    have : (c : Int) < 2 ^ 63 := by omega
    exact_mod_cast this
  have hi := Atoi_Itoa_nat c hc2
  have hri := redisInt_Itoa_nat c hc2
  have hlt : (c : Int) + 1 < 2 ^ 63 := by omega
  simp only [countAndConsume, GetInt_present r _ _ _ h hk hi]
  simp only [Option.isSome_none, Bool.false_and, Bool.false_eq_true, if_false,
      Bool.not_true, ge_iff_le, hN']
  rw [Incr_present ⟨r.kv, [], _⟩ _ _ _ rfl hk hri hlt]
  have hne1 : ¬ ((c : Int) + 1 = 1) := by omega
  simp only [hne1, if_false, List.append_assoc, List.singleton_append]

theorem countAndConsume_allow (r : Redis) (u t m : String) (N : Nat) (w : Int) (c : Nat)
    (h : r.faults = []) (hN2 : N < 2 ^ 63) (hw : 0 < w) (hfit : w * 1000000000 < 2 ^ 63)
    (hc : (c = 0 ∧ r.kv (getKey (redisKey u t m)) = none) ∨
      ∃ ttl, r.kv (getKey (redisKey u t m)) = some ⟨Itoa (c : Int), ttl⟩)
    (hN : c < N) :
    (countAndConsume r u t m N w).1 = ⟨true, "允许发送消息", none⟩ ∧
    (countAndConsume r u t m N w).2.faults = [] ∧
    ∃ ttl, (countAndConsume r u t m N w).2.kv =
      r.kv.put (getKey (redisKey u t m)) ⟨Itoa ((c + 1 : Nat) : Int), ttl⟩ := by
  have hNi : (c : Int) < (N : Int) := by exact_mod_cast hN
  have hN2i : (N : Int) < 2 ^ 63 := by exact_mod_cast hN2
  by_cases hc0 : c = 0
  · subst hc0
    have hc' : r.kv (getKey (redisKey u t m)) = none ∨
        ∃ ttl, r.kv (getKey (redisKey u t m)) = some ⟨"0", ttl⟩ := by
      rcases hc with ⟨_, hk⟩ | ⟨ttl, hk⟩
      · exact Or.inl hk
      · exact Or.inr ⟨ttl, hk⟩
    rw [countAndConsume_first r u t m N w h hw hfit hc' (by simpa using hNi)]
    exact ⟨rfl, rfl, some (w * 1000), rfl⟩
  · rcases hc with ⟨h0, _⟩ | ⟨ttl, hk⟩
    · exact absurd h0 hc0
    · rw [countAndConsume_next r u t m N w c ttl h hN2i (by omega) hk hNi]
      exact ⟨rfl, rfl, ttl, by push_cast; rfl⟩

end Internal
end LimitService
namespace LimitService
namespace Internal

theorem GetString_record (go : GoLib) (r : Redis) (u : String) (h : r.faults = []) :
    ∃ str found, GetString r ("user:" ++ u ++ ":active_packages") =
        ((str, found, none),
          ⟨r.kv, [], r.log ++ [(.get (getKey ("user:" ++ u ++ ":active_packages")), false)]⟩) ∧
      packageName go found str = tierOf go r.kv u := by
  cases hk : r.kv (getKey ("user:" ++ u ++ ":active_packages")) with
  | none => exact ⟨"", false, GetString_absent r _ h hk, by simp [tierOf, hk, packageName]⟩
  | some e => exact ⟨e.val, true, GetString_present r _ e h hk, by simp [tierOf, hk]⟩

theorem tierOf_put_counter (go : GoLib) (kv : Store) (u t m : String) (e : Entry) :
    tierOf go (kv.put (getKey (redisKey u t m)) e) u = tierOf go kv u := by
  simp [tierOf, Store.put_other _ _ _ _ (record_ne_counter u t m)]

/-- On a store that answers, with the marker in place, `GetStarLimit` is
`countAndConsume` on the same key space. -/
theorem GetStarLimit_ready (go : GoLib) (rules : LimitData) (u m : String) (N : Nat) (w : Int)
    (r : Redis) (c : Nat) (hR : Ready go rules u m N w r c) (hw : 0 < w) :
    ∃ log, GetStarLimit go rules r u m =
      countAndConsume ⟨r.kv, [], log⟩ u (tierOf go r.kv u) m N w := by
  obtain ⟨hf, ⟨hne, hparse⟩, ⟨ttl, hmark⟩, _⟩ := hR
  obtain ⟨str, found, hg, ht⟩ := GetString_record go r u hf
  have hpos : ¬ (w ≤ 0) := by omega
  refine ⟨(r.log ++ [(.get (getKey ("user:" ++ u ++ ":active_packages")), false)]) ++
    [(.get (getKey (userPackageKey u)), false)], ?_⟩
  unfold GetStarLimit
  rw [hg]
  simp only [ht, hne, if_false, hparse, hpos]
  rw [resetOnChange_same ⟨r.kv, [], _⟩ u _ m w ttl rfl hmark]

theorem GetStarLimit_allow (go : GoLib) (rules : LimitData) (u m : String) (N : Nat) (w : Int)
    (r : Redis) (c : Nat) (hR : Ready go rules u m N w r c) (hw : 0 < w)
    (hfit : w * 1000000000 < 2 ^ 63) (hc : c < N) :
    (GetStarLimit go rules r u m).1 = ⟨true, "允许发送消息", none⟩ ∧
    Ready go rules u m N w (GetStarLimit go rules r u m).2 (c + 1) := by
  obtain ⟨log, hG⟩ := GetStarLimit_ready go rules u m N w r c hR hw
  obtain ⟨hf, ⟨hne, hparse⟩, ⟨ttl, hmark⟩, hcnt⟩ := hR
  have hN2 : N < 2 ^ 63 := by
    have := parseLimit_count_range _ _ _ hparse
    exact_mod_cast this
  obtain ⟨h1, h2, ttl', h3⟩ :=
    countAndConsume_allow ⟨r.kv, [], log⟩ u (tierOf go r.kv u) m N w c rfl hN2 hw hfit hcnt hc
  rw [hG]
  refine ⟨h1, h2, ?_, ?_, ?_⟩
  · rw [h3, tierOf_put_counter]
    exact ⟨hne, hparse⟩
  · rw [h3, tierOf_put_counter]
    exact ⟨ttl, by rw [Store.put_other _ _ _ _ (marker_ne_counter u _ m)]; exact hmark⟩
  · rw [h3, tierOf_put_counter]
    exact Or.inr ⟨ttl', Store.put_same _ _ _⟩

theorem GetStarLimit_deny (go : GoLib) (rules : LimitData) (u m : String) (N : Nat) (w : Int)
    (r : Redis) (c : Nat) (hR : Ready go rules u m N w r c) (hw : 0 < w)
    (hc2 : c < 2 ^ 63) (hc : N ≤ c) :
    (GetStarLimit go rules r u m).1 = ⟨false, limitMsg (tierOf go r.kv u) m w N, none⟩ ∧
    (GetStarLimit go rules r u m).2.kv = r.kv ∧ (GetStarLimit go rules r u m).2.faults = [] := by
  obtain ⟨log, hG⟩ := GetStarLimit_ready go rules u m N w r c hR hw
  obtain ⟨hf, ⟨hne, hparse⟩, ⟨ttl, hmark⟩, hcnt⟩ := hR
  rw [hG, countAndConsume_deny ⟨r.kv, [], log⟩ u (tierOf go r.kv u) m N w c rfl hc2 hcnt
    (by exact_mod_cast hc)]
  exact ⟨rfl, rfl, rfl⟩

/-- After `k ≤ N` calls the counter holds `k`. -/
theorem calls_ready (go : GoLib) (rules : LimitData) (u m : String) (N : Nat) (w : Int)
    (r : Redis) (hR : Ready go rules u m N w r 0) (hw : 0 < w)
    (hfit : w * 1000000000 < 2 ^ 63) :
    ∀ k, k ≤ N → Ready go rules u m N w (calls go rules u m k r) k := by
  intro k
  induction k with
  | zero => intro _; exact hR
  | succ k ih =>
    intro hk
    exact (GetStarLimit_allow go rules u m N w _ k (ih (by omega)) hw hfit (by omega)).2

theorem ready_storedCount (go : GoLib) (rules : LimitData) (u m : String) (N : Nat) (w : Int)
    (r : Redis) (c : Nat) (hR : Ready go rules u m N w r c) (hc : c < 2 ^ 63) :
    storedCount r.kv (getKey (redisKey u (tierOf go r.kv u) m)) = some (c : Int) := by
  obtain ⟨_, _, _, hcnt⟩ := hR
  rcases hcnt with ⟨h0, hk⟩ | ⟨ttl, hk⟩
  · subst h0; simp [LimitService.storedCount, hk]
  · simp [LimitService.storedCount, hk, Atoi_Itoa_nat c hc]

theorem ready_tierOf_calls (go : GoLib) (rules : LimitData) (u m : String) (N : Nat) (w : Int)
    (r : Redis) (hR : Ready go rules u m N w r 0) (hw : 0 < w)
    (hfit : w * 1000000000 < 2 ^ 63) :
    ∀ k, k ≤ N + 1 → tierOf go (calls go rules u m k r).kv u = tierOf go r.kv u := by
  intro k
  induction k with
  | zero => intro _; rfl
  | succ k ih =>
    intro hk
    have hRk := calls_ready go rules u m N w r hR hw hfit k (by omega)
    have hN2 : N < 2 ^ 63 := by
      have := parseLimit_count_range _ _ _ hR.2.1.2
      exact_mod_cast this
    by_cases hkN : k < N
    · obtain ⟨log, hG⟩ := GetStarLimit_ready go rules u m N w _ k hRk hw
      obtain ⟨_, _, ttl', h3⟩ := countAndConsume_allow ⟨(calls go rules u m k r).kv, [], log⟩ u
        (tierOf go (calls go rules u m k r).kv u) m N w k rfl hN2 hw hfit hRk.2.2.2 hkN
      show tierOf go (GetStarLimit go rules (calls go rules u m k r) u m).2.kv u = _
      rw [hG, h3, tierOf_put_counter]
      exact ih (by omega)
    · have hkeq : k = N := by omega
      have := (GetStarLimit_deny go rules u m N w _ k hRk hw (by omega) (by omega)).2.1
      show tierOf go (GetStarLimit go rules (calls go rules u m k r) u m).2.kv u = _
      rw [this]
      exact ih (by omega)

end Internal
end LimitService
namespace LimitService
namespace Tools

theorem marker_ne_counter_tools (u t m : String) :
    getKey (userPackageKey u) ≠ getKey (redisKey u t m) := by
  intro e
  have := congrArg String.data e
  simp [getKey, userPackageKey, redisKey, String.data_append] at this

theorem record_ne_counter_tools (u t m : String) :
    getKey ("user:" ++ u ++ ":active_packages") ≠ getKey (redisKey u t m) := by
  intro e
  have := congrArg String.data e
  simp [getKey, redisKey, String.data_append] at this

theorem record_ne_marker_tools (u : String) :
    getKey ("user:" ++ u ++ ":active_packages") ≠ getKey (userPackageKey u) := by
  intro e
  have := congrArg String.data e
  simp [getKey, userPackageKey, String.data_append] at this

theorem Get_absent_tools (go : GoLib) (r : Redis) (key : String) (h : r.faults = [])
    (hk : r.kv (getKey key) = none) :
    Get go r key = (.ok none, ⟨r.kv, [], r.log ++ [(.get (getKey key), false)]⟩) := by
  simp [Get, Redis.clientGet, Redis.issue, h, hk]

theorem Get_present_tools (go : GoLib) (r : Redis) (key : String) (e : Entry) (h : r.faults = [])
    (hk : r.kv (getKey key) = some e) :
    Get go r key =
      (.ok (decode go e.val), ⟨r.kv, [], r.log ++ [(.get (getKey key), false)]⟩) := by
  simp [Get, Redis.clientGet, Redis.issue, h, hk]

theorem GetString_absent_tools (r : Redis) (key : String) (h : r.faults = [])
    (hk : r.kv (getKey key) = none) :
    GetString r key =
      (("", some .redisNil), ⟨r.kv, [], r.log ++ [(.get (getKey key), false)]⟩) := by
  simp [GetString, Redis.clientGet, Redis.issue, h, hk]

theorem GetString_present_tools (r : Redis) (key : String) (e : Entry) (h : r.faults = [])
    (hk : r.kv (getKey key) = some e) :
    GetString r key = ((e.val, none), ⟨r.kv, [], r.log ++ [(.get (getKey key), false)]⟩) := by
  simp [GetString, Redis.clientGet, Redis.issue, h, hk]

theorem GetInt_absent_tools (r : Redis) (key : String) (h : r.faults = [])
    (hk : r.kv (getKey key) = none) :
    GetInt r key =
      ((0, some .redisNil), ⟨r.kv, [], r.log ++ [(.get (getKey key), false)]⟩) := by
  simp [GetInt, GetString_absent_tools r key h hk]

theorem GetInt_present_tools (r : Redis) (key : String) (e : Entry) (i : Int) (h : r.faults = [])
    (hk : r.kv (getKey key) = some e) (hi : Atoi e.val = .ok i) :
    GetInt r key = ((i, none), ⟨r.kv, [], r.log ++ [(.get (getKey key), false)]⟩) := by
  simp [GetInt, GetString_present_tools r key e h hk, hi]

theorem Set_healthy_tools (r : Redis) (key : String) (value : Any) (d : Int) (h : r.faults = []) :
    Set r key value d =
      (none, ⟨r.kv.put (getKey key) ⟨setText value, setLifetime d⟩, [],
        r.log ++ [(.set (getKey key) (setText value) (setLifetime d), false)]⟩) := by
  simp [Set, Redis.clientSet, Redis.issue, h, Redis.withKv]

theorem Incr_absent_tools (r : Redis) (key : String) (h : r.faults = [])
    (hk : r.kv (getKey key) = none) :
    Incr r key =
      (.ok 1, ⟨r.kv.put (getKey key) ⟨"1", none⟩, [], r.log ++ [(.incr (getKey key), false)]⟩) := by
  simp [Incr, Redis.clientIncr, Redis.issue, h, hk, Redis.withKv]

theorem Incr_present_tools (r : Redis) (key : String) (e : Entry) (i : Int) (h : r.faults = [])
    (hk : r.kv (getKey key) = some e) (hi : redisInt e.val = some i) (hlt : i + 1 < 2 ^ 63) :
    Incr r key =
      (.ok (i + 1), ⟨r.kv.put (getKey key) ⟨Itoa (i + 1), e.ttl⟩, [],
        r.log ++ [(.incr (getKey key), false)]⟩) := by
  have hlt2 : i + 1 < 9223372036854775808 := by simpa using hlt
  simp [Incr, Redis.clientIncr, Redis.issue, h, hk, hi, hlt2, Redis.withKv]

theorem Expire_present_tools (r : Redis) (key : String) (e : Entry) (d : Int) (h : r.faults = [])
    (hk : r.kv (getKey key) = some e) :
    Expire r key d =
      (none, ⟨if formatSec d ≤ 0 then r.kv.del (getKey key)
              else r.kv.put (getKey key) ⟨e.val, some (formatSec d * 1000)⟩, [],
        r.log ++ [(.expire (getKey key) (formatSec d), false)]⟩) := by
  by_cases hd : formatSec d ≤ 0 <;>
    simp [Expire, Redis.clientExpire, Redis.issue, h, hk, hd, Redis.withKv]

theorem parseLimit_count_range_tools (s : String) (n w : Int) (h : parseLimit s = .ok (n, w)) :
    n < 2 ^ 63 := by
  unfold parseLimit at h
  split at h
  · split at h
    · simp at h
    · rename_i count hc
      have hr := (Atoi_range _ _ hc).2
      split_ifs at h <;> split at h
      all_goals first
        | (simp only [Except.ok.injEq, Prod.mk.injEq] at h
           obtain ⟨h1, _⟩ := h
           subst h1
           exact hr)
        | simp at h
  · simp at h

theorem resetOnChange_same_tools (r : Redis) (u t m : String) (w : Int) (ttl : Option Int)
    (h : r.faults = []) (hm : r.kv (getKey (userPackageKey u)) = some ⟨t, ttl⟩) :
    resetOnChange r u t m w =
      (none, ⟨r.kv, [], r.log ++ [(.get (getKey (userPackageKey u)), false)]⟩) := by
  simp [resetOnChange, GetString_present_tools r _ _ h hm]

theorem countAndConsume_deny_tools (r : Redis) (u t m : String) (M w : Int) (c : Nat)
    (h : r.faults = []) (hc2 : c < 2 ^ 63)
    (hc : (c = 0 ∧ r.kv (getKey (redisKey u t m)) = none) ∨
      ∃ ttl, r.kv (getKey (redisKey u t m)) = some ⟨Itoa (c : Int), ttl⟩)
    (hN : M ≤ (c : Int)) :
    countAndConsume r u t m M w =
      (⟨false, limitMsg t m w M, none⟩,
        ⟨r.kv, [], r.log ++ [(.get (getKey (redisKey u t m)), false)]⟩) := by
  rcases hc with ⟨h0, hk⟩ | ⟨ttl, hk⟩
  · subst h0
    have hN0 : M ≤ 0 := by simpa using hN
    simp [countAndConsume, GetInt_absent_tools r _ h hk, hN0, Err.isRedisNilText]
  · have hi := Atoi_Itoa_nat c hc2
    simp [countAndConsume, GetInt_present_tools r _ _ _ h hk hi, hN]

/-- First use of a window: the counter is absent or `0`. -/
theorem countAndConsume_first_tools (r : Redis) (u t m : String) (M w : Int)
    (h : r.faults = []) (hw : 0 < w) (hfit : w * 1000000000 < 2 ^ 63)
    (hc : r.kv (getKey (redisKey u t m)) = none ∨
      ∃ ttl, r.kv (getKey (redisKey u t m)) = some ⟨"0", ttl⟩)
    (hN : 0 < M) :
    countAndConsume r u t m M w =
      (⟨true, "允许发送消息", none⟩,
        ⟨r.kv.put (getKey (redisKey u t m)) ⟨"1", some (w * 1000)⟩, [],
          r.log ++ [(.get (getKey (redisKey u t m)), false),
            (.incr (getKey (redisKey u t m)), false),
            (.expire (getKey (redisKey u t m)) w, false)]⟩) := by
  have hd := durationOfSeconds_fits w hw hfit
  have hfs := formatSec_seconds w hw
  have hpos : ¬ (w ≤ 0) := by omega
  have hN0 : ¬ (M ≤ 0) := by omega
  rcases hc with hk | ⟨ttl, hk⟩
  · simp only [countAndConsume, GetInt_absent_tools r _ h hk]
    simp only [Option.isSome_some, Option.any_some, Err.isRedisNilText, Bool.not_true,
      Bool.and_false, Bool.false_eq_true, if_false, ge_iff_le, hN0]
    rw [Incr_absent_tools ⟨r.kv, [], _⟩ _ rfl hk]
    simp only [if_true]
    rw [Expire_present_tools ⟨_, [], _⟩ _ ⟨"1", none⟩ _ rfl (Store.put_same _ _ _)]
    simp only [hd, hfs, hpos, if_false, Store.put_put_same, List.append_assoc,
      List.singleton_append]
    rfl
  · have hi : Atoi "0" = .ok 0 := by decide
    have hri : redisInt "0" = some 0 := by decide
    simp only [countAndConsume, GetInt_present_tools r _ _ _ h hk hi]
    simp only [Option.isSome_none, Bool.false_and, Bool.false_eq_true, if_false, ge_iff_le, hN0]
    rw [Incr_present_tools ⟨r.kv, [], _⟩ _ _ _ rfl hk hri (by decide)]
    simp only [zero_add, if_true]
    rw [Expire_present_tools ⟨_, [], _⟩ _ ⟨Itoa 1, ttl⟩ _ rfl (Store.put_same _ _ _)]
    simp only [hd, hfs, hpos, if_false, Store.put_put_same, List.append_assoc,
      List.singleton_append]
    rfl

/-- Later uses of a window: the counter holds `c ≥ 1`. -/
theorem countAndConsume_next_tools (r : Redis) (u t m : String) (M w : Int) (c : Nat)
    (ttl : Option Int) (h : r.faults = []) (hM2 : M < 2 ^ 63) (hc0 : 0 < c)
    (hk : r.kv (getKey (redisKey u t m)) = some ⟨Itoa (c : Int), ttl⟩)
    (hN : (c : Int) < M) :
    countAndConsume r u t m M w =
      (⟨true, "允许发送消息", none⟩,
        ⟨r.kv.put (getKey (redisKey u t m)) ⟨Itoa ((c : Int) + 1), ttl⟩, [],
          r.log ++ [(.get (getKey (redisKey u t m)), false),
            (.incr (getKey (redisKey u t m)), false)]⟩) := by
  have hN' : ¬ (M ≤ (c : Int)) := by omega
  have hc2 : c < 2 ^ 63 := by
    have : (c : Int) < 2 ^ 63 := by omega
    exact_mod_cast this
  have hi := Atoi_Itoa_nat c hc2
  have hri := redisInt_Itoa_nat c hc2
  have hlt : (c : Int) + 1 < 2 ^ 63 := by omega
  simp only [countAndConsume, GetInt_present_tools r _ _ _ h hk hi]
  simp only [Option.isSome_none, Bool.false_and, Bool.false_eq_true, if_false, ge_iff_le, hN']
  rw [Incr_present_tools ⟨r.kv, [], _⟩ _ _ _ rfl hk hri hlt]
  have hne1 : ¬ ((c : Int) + 1 = 1) := by omega
  simp only [hne1, if_false, List.append_assoc, List.singleton_append]

theorem countAndConsume_allow_tools (r : Redis) (u t m : String) (N : Nat) (w : Int) (c : Nat)
    (h : r.faults = []) (hN2 : N < 2 ^ 63) (hw : 0 < w) (hfit : w * 1000000000 < 2 ^ 63)
    (hc : (c = 0 ∧ r.kv (getKey (redisKey u t m)) = none) ∨
      ∃ ttl, r.kv (getKey (redisKey u t m)) = some ⟨Itoa (c : Int), ttl⟩)
    (hN : c < N) :
    (countAndConsume r u t m N w).1 = ⟨true, "允许发送消息", none⟩ ∧
    (countAndConsume r u t m N w).2.faults = [] ∧
    ∃ ttl, (countAndConsume r u t m N w).2.kv =
      r.kv.put (getKey (redisKey u t m)) ⟨Itoa ((c + 1 : Nat) : Int), ttl⟩ := by
  have hNi : (c : Int) < (N : Int) := by exact_mod_cast hN
  have hN2i : (N : Int) < 2 ^ 63 := by exact_mod_cast hN2
  by_cases hc0 : c = 0
  · subst hc0
    have hc' : r.kv (getKey (redisKey u t m)) = none ∨
        ∃ ttl, r.kv (getKey (redisKey u t m)) = some ⟨"0", ttl⟩ := by
      rcases hc with ⟨_, hk⟩ | ⟨ttl, hk⟩
      · exact Or.inl hk
      · exact Or.inr ⟨ttl, hk⟩
    rw [countAndConsume_first_tools r u t m N w h hw hfit hc' (by simpa using hNi)]
    exact ⟨rfl, rfl, some (w * 1000), rfl⟩
  · rcases hc with ⟨h0, _⟩ | ⟨ttl, hk⟩
    · exact absurd h0 hc0
    · rw [countAndConsume_next_tools r u t m N w c ttl h hN2i (by omega) hk hNi]
      exact ⟨rfl, rfl, ttl, by push_cast; rfl⟩

theorem Get_record_tools (go : GoLib) (r : Redis) (u : String) (h : r.faults = []) :
    ∃ data, Get go r ("user:" ++ u ++ ":active_packages") =
        (.ok data,
          ⟨r.kv, [], r.log ++ [(.get (getKey ("user:" ++ u ++ ":active_packages")), false)]⟩) ∧
      packageType go data = tierOf go r.kv u := by
  cases hk : r.kv (getKey ("user:" ++ u ++ ":active_packages")) with
  | none => exact ⟨none, Get_absent_tools go r _ h hk, by simp [tierOf, hk]⟩
  | some e => exact ⟨decode go e.val, Get_present_tools go r _ e h hk, by simp [tierOf, hk]⟩

theorem tierOf_put_counter_tools (go : GoLib) (kv : Store) (u t m : String) (e : Entry) :
    tierOf go (kv.put (getKey (redisKey u t m)) e) u = tierOf go kv u := by
  simp [tierOf, Store.put_other _ _ _ _ (record_ne_counter_tools u t m)]

theorem GetStarLimit_ready_tools (go : GoLib) (rules : LimitData) (u m : String) (N : Nat) (w : Int)
    (r : Redis) (c : Nat) (hR : Ready go rules u m N w r c) :
    ∃ log, GetStarLimit go rules r u m =
      countAndConsume ⟨r.kv, [], log⟩ u (tierOf go r.kv u) m N w := by
  obtain ⟨hf, ⟨hne, hparse⟩, ⟨ttl, hmark⟩, _⟩ := hR
  obtain ⟨data, hg, ht⟩ := Get_record_tools go r u hf
  refine ⟨(r.log ++ [(.get (getKey ("user:" ++ u ++ ":active_packages")), false)]) ++
    [(.get (getKey (userPackageKey u)), false)], ?_⟩
  unfold GetStarLimit
  rw [hg]
  simp only [ht, hne, if_false, hparse]
  rw [resetOnChange_same_tools ⟨r.kv, [], _⟩ u _ m w ttl rfl hmark]

theorem GetStarLimit_allow_tools (go : GoLib) (rules : LimitData) (u m : String) (N : Nat) (w : Int)
    (r : Redis) (c : Nat) (hR : Ready go rules u m N w r c) (hw : 0 < w)
    (hfit : w * 1000000000 < 2 ^ 63) (hc : c < N) :
    (GetStarLimit go rules r u m).1 = ⟨true, "允许发送消息", none⟩ ∧
    Ready go rules u m N w (GetStarLimit go rules r u m).2 (c + 1) := by
  obtain ⟨log, hG⟩ := GetStarLimit_ready_tools go rules u m N w r c hR
  obtain ⟨hf, ⟨hne, hparse⟩, ⟨ttl, hmark⟩, hcnt⟩ := hR
  have hN2 : N < 2 ^ 63 := by
    have := parseLimit_count_range_tools _ _ _ hparse
    exact_mod_cast this
  obtain ⟨h1, h2, ttl', h3⟩ :=
    countAndConsume_allow_tools ⟨r.kv, [], log⟩ u (tierOf go r.kv u) m N w c rfl hN2 hw hfit hcnt hc
  rw [hG]
  refine ⟨h1, h2, ?_, ?_, ?_⟩
  · rw [h3, tierOf_put_counter_tools]
    exact ⟨hne, hparse⟩
  · rw [h3, tierOf_put_counter_tools]
    exact ⟨ttl, by rw [Store.put_other _ _ _ _ (marker_ne_counter_tools u _ m)]; exact hmark⟩
  · rw [h3, tierOf_put_counter_tools]
    exact Or.inr ⟨ttl', Store.put_same _ _ _⟩

theorem GetStarLimit_deny_tools (go : GoLib) (rules : LimitData) (u m : String) (N : Nat) (w : Int)
    (r : Redis) (c : Nat) (hR : Ready go rules u m N w r c)
    (hc2 : c < 2 ^ 63) (hc : N ≤ c) :
    (GetStarLimit go rules r u m).1 = ⟨false, limitMsg (tierOf go r.kv u) m w N, none⟩ ∧
    (GetStarLimit go rules r u m).2.kv = r.kv ∧ (GetStarLimit go rules r u m).2.faults = [] := by
  obtain ⟨log, hG⟩ := GetStarLimit_ready_tools go rules u m N w r c hR
  obtain ⟨hf, ⟨hne, hparse⟩, ⟨ttl, hmark⟩, hcnt⟩ := hR
  rw [hG, countAndConsume_deny_tools ⟨r.kv, [], log⟩ u (tierOf go r.kv u) m N w c rfl hc2 hcnt
    (by exact_mod_cast hc)]
  exact ⟨rfl, rfl, rfl⟩

theorem calls_ready_tools (go : GoLib) (rules : LimitData) (u m : String) (N : Nat) (w : Int)
    (r : Redis) (hR : Ready go rules u m N w r 0) (hw : 0 < w)
    (hfit : w * 1000000000 < 2 ^ 63) :
    ∀ k, k ≤ N → Ready go rules u m N w (calls go rules u m k r) k := by
  intro k
  induction k with
  | zero => intro _; exact hR
  | succ k ih =>
    intro hk
    exact (GetStarLimit_allow_tools go rules u m N w _ k (ih (by omega)) hw hfit (by omega)).2

theorem ready_storedCount_tools (go : GoLib) (rules : LimitData) (u m : String) (N : Nat) (w : Int)
    (r : Redis) (c : Nat) (hR : Ready go rules u m N w r c) (hc : c < 2 ^ 63) :
    storedCount r.kv (getKey (redisKey u (tierOf go r.kv u) m)) = some (c : Int) := by
  obtain ⟨_, _, _, hcnt⟩ := hR
  rcases hcnt with ⟨h0, hk⟩ | ⟨ttl, hk⟩
  · subst h0; simp [LimitService.storedCount, hk]
  · simp [LimitService.storedCount, hk, Atoi_Itoa_nat c hc]

end Tools
end LimitService
namespace LimitService
namespace Tools

theorem ready_tierOf_calls_tools (go : GoLib) (rules : LimitData) (u m : String) (N : Nat) (w : Int)
    (r : Redis) (hR : Ready go rules u m N w r 0) (hw : 0 < w)
    (hfit : w * 1000000000 < 2 ^ 63) :
    ∀ k, k ≤ N + 1 → tierOf go (calls go rules u m k r).kv u = tierOf go r.kv u := by
  intro k
  induction k with
  | zero => intro _; rfl
  | succ k ih =>
    intro hk
    have hRk := calls_ready_tools go rules u m N w r hR hw hfit k (by omega)
    have hN2 : N < 2 ^ 63 := by
      have := parseLimit_count_range_tools _ _ _ hR.2.1.2
      exact_mod_cast this
    by_cases hkN : k < N
    · obtain ⟨log, hG⟩ := GetStarLimit_ready_tools go rules u m N w _ k hRk
      obtain ⟨_, _, ttl', h3⟩ := countAndConsume_allow_tools ⟨(calls go rules u m k r).kv, [], log⟩ u
        (tierOf go (calls go rules u m k r).kv u) m N w k rfl hN2 hw hfit hRk.2.2.2 hkN
      show tierOf go (GetStarLimit go rules (calls go rules u m k r) u m).2.kv u = _
      rw [hG, h3, tierOf_put_counter_tools]
      exact ih (by omega)
    · have hkeq : k = N := by omega
      have := (GetStarLimit_deny_tools go rules u m N w _ k hRk (by omega) (by omega)).2.1
      show tierOf go (GetStarLimit go rules (calls go rules u m k r) u m).2.kv u = _
      rw [this]
      exact ih (by omega)

end Tools


end LimitService
namespace LimitService

theorem newLog_append (r : Redis) (kv : Store) (f : List Bool) (l : List (Cmd × Bool)) :
    newLog r ⟨kv, f, r.log ++ l⟩ = l := by
  simp [newLog]

theorem setLifetime_zero : setLifetime 0 = none := by decide

namespace Internal

theorem resetOnChange_changed (r : Redis) (u t m : String) (w : Int)
    (h : r.faults = [])
    (hm : ∀ e, r.kv (getKey (userPackageKey u)) = some e → e.val ≠ t) :
    resetOnChange r u t m w =
      (none, ⟨(r.kv.put (getKey (redisKey u t m)) ⟨"0", setLifetime (durationOfSeconds w)⟩).put
          (getKey (userPackageKey u)) ⟨t, none⟩, [],
        r.log ++ [(.get (getKey (userPackageKey u)), false),
          (.set (getKey (redisKey u t m)) "0" (setLifetime (durationOfSeconds w)), false),
          (.set (getKey (userPackageKey u)) t none, false)]⟩) := by
  cases hk : r.kv (getKey (userPackageKey u)) with
  | none =>
    simp only [resetOnChange, GetString_absent r _ h hk]
    simp only [Bool.not_false, Bool.true_or, if_true]
    rw [Set_healthy ⟨r.kv, [], _⟩ _ _ _ rfl]
    simp only []
    rw [Set_healthy ⟨_, [], _⟩ _ _ _ rfl]
    simp only [setLifetime_zero, List.append_assoc, List.singleton_append]
    rfl
  | some e =>
    have hne := hm e hk
    simp only [resetOnChange, GetString_present r _ e h hk]
    simp only [Bool.not_true, Bool.false_or, bne_iff_ne, ne_eq, hne, not_false_eq_true, if_true]
    rw [Set_healthy ⟨r.kv, [], _⟩ _ _ _ rfl]
    simp only []
    rw [Set_healthy ⟨_, [], _⟩ _ _ _ rfl]
    simp only [setLifetime_zero, List.append_assoc, List.singleton_append]
    rfl

end Internal

namespace Tools

theorem resetOnChange_changed_tools (r : Redis) (u t m : String) (w : Int)
    (h : r.faults = [])
    (hm : (match r.kv (getKey (userPackageKey u)) with
      | none => ""
      | some e => e.val) ≠ t) :
    resetOnChange r u t m w =
      (none, ⟨(r.kv.put (getKey (redisKey u t m)) ⟨"0", setLifetime (durationOfSeconds w)⟩).put
          (getKey (userPackageKey u)) ⟨t, none⟩, [],
        r.log ++ [(.get (getKey (userPackageKey u)), false),
          (.set (getKey (redisKey u t m)) "0" (setLifetime (durationOfSeconds w)), false),
          (.set (getKey (userPackageKey u)) t none, false)]⟩) := by
  cases hk : r.kv (getKey (userPackageKey u)) with
  | none =>
    rw [hk] at hm
    simp only [resetOnChange, GetString_absent_tools r _ h hk]
    simp only [Option.isSome_some, Option.any_some, Err.isRedisNilText, Bool.not_true,
      Bool.and_false, Bool.false_eq_true, if_false, bne_iff_ne, ne_eq, hm, not_false_eq_true,
      if_true]
    rw [Set_healthy_tools ⟨r.kv, [], _⟩ _ _ _ rfl]
    simp only []
    rw [Set_healthy_tools ⟨_, [], _⟩ _ _ _ rfl]
    simp only [setLifetime_zero, setText, List.append_assoc, List.singleton_append]
    rfl
  | some e =>
    rw [hk] at hm
    simp only [resetOnChange, GetString_present_tools r _ e h hk]
    simp only [Option.isSome_none, Bool.false_and, Bool.false_eq_true, if_false, bne_iff_ne,
      ne_eq, hm, not_false_eq_true, if_true]
    rw [Set_healthy_tools ⟨r.kv, [], _⟩ _ _ _ rfl]
    simp only []
    rw [Set_healthy_tools ⟨_, [], _⟩ _ _ _ rfl]
    simp only [setLifetime_zero, setText, List.append_assoc, List.singleton_append]
    rfl

end Tools
end LimitService
namespace LimitService

/-- The whole effect of `Internal.GetStarLimit` on a plan change, for a window
that fits a duration. -/
theorem Internal.GetStarLimit_changed (go : GoLib) (rules : LimitData) (u m : String) (M w : Int)
    (r : Redis) (h : r.faults = [])
    (hne : Internal.getLimitRule rules (Internal.tierOf go r.kv u) m ≠ "")
    (hparse : Internal.parseLimit (Internal.getLimitRule rules (Internal.tierOf go r.kv u) m) =
      .ok (M, w))
    (hw : 0 < w) (hfit : w * 1000000000 < 2 ^ 63)
    (hm : ∀ e, r.kv (getKey (Internal.userPackageKey u)) = some e →
      e.val ≠ Internal.tierOf go r.kv u) :
    Internal.GetStarLimit go rules r u m =
      if 0 < M then
        (⟨true, "允许发送消息", none⟩,
          ⟨((r.kv.put (getKey (Internal.redisKey u (Internal.tierOf go r.kv u) m))
              ⟨"0", some (w * 1000)⟩).put
              (getKey (Internal.userPackageKey u)) ⟨Internal.tierOf go r.kv u, none⟩).put
              (getKey (Internal.redisKey u (Internal.tierOf go r.kv u) m)) ⟨"1", some (w * 1000)⟩,
            [],
            r.log ++ [(.get (getKey ("user:" ++ u ++ ":active_packages")), false),
              (.get (getKey (Internal.userPackageKey u)), false),
              (.set (getKey (Internal.redisKey u (Internal.tierOf go r.kv u) m)) "0"
                (some (w * 1000)), false),
              (.set (getKey (Internal.userPackageKey u)) (Internal.tierOf go r.kv u) none, false),
              (.get (getKey (Internal.redisKey u (Internal.tierOf go r.kv u) m)), false),
              (.incr (getKey (Internal.redisKey u (Internal.tierOf go r.kv u) m)), false),
              (.expire (getKey (Internal.redisKey u (Internal.tierOf go r.kv u) m)) w, false)]⟩)
      else
        (⟨false, Internal.limitMsg (Internal.tierOf go r.kv u) m w M, none⟩,
          ⟨(r.kv.put (getKey (Internal.redisKey u (Internal.tierOf go r.kv u) m))
              ⟨"0", some (w * 1000)⟩).put
              (getKey (Internal.userPackageKey u)) ⟨Internal.tierOf go r.kv u, none⟩,
            [],
            r.log ++ [(.get (getKey ("user:" ++ u ++ ":active_packages")), false),
              (.get (getKey (Internal.userPackageKey u)), false),
              (.set (getKey (Internal.redisKey u (Internal.tierOf go r.kv u) m)) "0"
                (some (w * 1000)), false),
              (.set (getKey (Internal.userPackageKey u)) (Internal.tierOf go r.kv u) none, false),
              (.get (getKey (Internal.redisKey u (Internal.tierOf go r.kv u) m)), false)]⟩) := by
  obtain ⟨str, found, hg, ht⟩ := Internal.GetString_record go r u h
  have hpos : ¬ (w ≤ 0) := by omega
  have hd := durationOfSeconds_fits w hw hfit
  have hsl := setLifetime_seconds w hw
  have hcnt : ((r.kv.put (getKey (Internal.redisKey u (Internal.tierOf go r.kv u) m))
      ⟨"0", some (w * 1000)⟩).put (getKey (Internal.userPackageKey u))
      ⟨Internal.tierOf go r.kv u, none⟩)
      (getKey (Internal.redisKey u (Internal.tierOf go r.kv u) m)) =
        some ⟨"0", some (w * 1000)⟩ := by
    rw [Store.put_other _ _ _ _ (Internal.marker_ne_counter u _ m).symm, Store.put_same]
  unfold Internal.GetStarLimit
  rw [hg]
  simp only [ht, hne, if_false, hparse, hpos]
  rw [Internal.resetOnChange_changed ⟨r.kv, [], _⟩ u _ m w rfl hm]
  simp only [hd, hsl]
  by_cases hM : 0 < M
  · rw [Internal.countAndConsume_first ⟨_, [], _⟩ u _ m M w rfl hw hfit (Or.inr ⟨_, hcnt⟩) hM]
    simp only [hM, if_true, List.append_assoc, List.singleton_append, List.cons_append,
      List.nil_append]
  · have hI : Itoa ((0 : Nat) : Int) = "0" := by decide
    rw [Internal.countAndConsume_deny ⟨_, [], _⟩ u _ m M w 0 rfl (by norm_num)
      (Or.inr ⟨some (w * 1000), by rw [hI]; exact hcnt⟩) (by simpa using hM)]
    simp only [hM, if_false, List.append_assoc, List.singleton_append, List.cons_append,
      List.nil_append]

/-- The whole effect of `Tools.GetStarLimit` on a plan change, for a window
that fits a duration. -/
theorem Tools.GetStarLimit_changed_tools (go : GoLib) (rules : LimitData) (u m : String) (M w : Int)
    (r : Redis) (h : r.faults = [])
    (hne : Tools.getLimitRules rules (Tools.tierOf go r.kv u) m ≠ "")
    (hparse : Tools.parseLimit (Tools.getLimitRules rules (Tools.tierOf go r.kv u) m) =
      .ok (M, w))
    (hw : 0 < w) (hfit : w * 1000000000 < 2 ^ 63)
    (hm : (match r.kv (getKey (Tools.userPackageKey u)) with
      | none => ""
      | some e => e.val) ≠ Tools.tierOf go r.kv u) :
    Tools.GetStarLimit go rules r u m =
      if 0 < M then
        (⟨true, "允许发送消息", none⟩,
          ⟨((r.kv.put (getKey (Tools.redisKey u (Tools.tierOf go r.kv u) m))
              ⟨"0", some (w * 1000)⟩).put
              (getKey (Tools.userPackageKey u)) ⟨Tools.tierOf go r.kv u, none⟩).put
              (getKey (Tools.redisKey u (Tools.tierOf go r.kv u) m)) ⟨"1", some (w * 1000)⟩,
            [],
            r.log ++ [(.get (getKey ("user:" ++ u ++ ":active_packages")), false),
              (.get (getKey (Tools.userPackageKey u)), false),
              (.set (getKey (Tools.redisKey u (Tools.tierOf go r.kv u) m)) "0"
                (some (w * 1000)), false),
              (.set (getKey (Tools.userPackageKey u)) (Tools.tierOf go r.kv u) none, false),
              (.get (getKey (Tools.redisKey u (Tools.tierOf go r.kv u) m)), false),
              (.incr (getKey (Tools.redisKey u (Tools.tierOf go r.kv u) m)), false),
              (.expire (getKey (Tools.redisKey u (Tools.tierOf go r.kv u) m)) w, false)]⟩)
      else
        (⟨false, Tools.limitMsg (Tools.tierOf go r.kv u) m w M, none⟩,
          ⟨(r.kv.put (getKey (Tools.redisKey u (Tools.tierOf go r.kv u) m))
              ⟨"0", some (w * 1000)⟩).put
              (getKey (Tools.userPackageKey u)) ⟨Tools.tierOf go r.kv u, none⟩,
            [],
            r.log ++ [(.get (getKey ("user:" ++ u ++ ":active_packages")), false),
              (.get (getKey (Tools.userPackageKey u)), false),
              (.set (getKey (Tools.redisKey u (Tools.tierOf go r.kv u) m)) "0"
                (some (w * 1000)), false),
              (.set (getKey (Tools.userPackageKey u)) (Tools.tierOf go r.kv u) none, false),
              (.get (getKey (Tools.redisKey u (Tools.tierOf go r.kv u) m)), false)]⟩) := by
  obtain ⟨data, hg, ht⟩ := Tools.Get_record_tools go r u h
  have hpos : ¬ (w ≤ 0) := by omega
  have hd := durationOfSeconds_fits w hw hfit
  have hsl := setLifetime_seconds w hw
  have hcnt : ((r.kv.put (getKey (Tools.redisKey u (Tools.tierOf go r.kv u) m))
      ⟨"0", some (w * 1000)⟩).put (getKey (Tools.userPackageKey u))
      ⟨Tools.tierOf go r.kv u, none⟩)
      (getKey (Tools.redisKey u (Tools.tierOf go r.kv u) m)) =
        some ⟨"0", some (w * 1000)⟩ := by
    rw [Store.put_other _ _ _ _ (Tools.marker_ne_counter_tools u _ m).symm, Store.put_same]
  unfold Tools.GetStarLimit
  rw [hg]
  simp only [ht, hne, if_false, hparse]
  rw [Tools.resetOnChange_changed_tools ⟨r.kv, [], _⟩ u _ m w rfl hm]
  simp only [hd, hsl]
  by_cases hM : 0 < M
  · rw [Tools.countAndConsume_first_tools ⟨_, [], _⟩ u _ m M w rfl hw hfit (Or.inr ⟨_, hcnt⟩) hM]
    simp only [hM, if_true, List.append_assoc, List.singleton_append, List.cons_append,
      List.nil_append]
  · have hI : Itoa ((0 : Nat) : Int) = "0" := by decide
    rw [Tools.countAndConsume_deny_tools ⟨_, [], _⟩ u _ m M w 0 rfl (by norm_num)
      (Or.inr ⟨some (w * 1000), by rw [hI]; exact hcnt⟩) (by simpa using hM)]
    simp only [hM, if_false, List.append_assoc, List.singleton_append, List.cons_append,
      List.nil_append]

end LimitService
namespace LimitService

theorem issue_shape (r : Redis) (c : Cmd) :
    ∃ b, r.issue c = (b, ⟨r.kv, r.faults.tail, r.log ++ [(c, b)]⟩) := by
  unfold Redis.issue
  cases r.faults with
  | nil => exact ⟨false, rfl⟩
  | cons b rest => exact ⟨b, rfl⟩

namespace Internal

/-- One `get` is logged by `GetString`; a failed one gives an error and `found = false`. -/
theorem GetString_log (r : Redis) (key : String) :
    ∃ b, (GetString r key).2.log = r.log ++ [(.get (getKey key), b)] ∧
      (b = true → (GetString r key).1.2.2.isSome = true ∧ (GetString r key).1.2.1 = false) := by
  obtain ⟨b, hb⟩ := issue_shape r (.get (getKey key))
  refine ⟨b, ?_, ?_⟩
  · simp only [GetString, Redis.clientGet, hb]
    cases b with
    | true => simp
    | false => cases hk : r.kv (getKey key) <;> simp
  · intro hbt
    subst hbt
    simp [GetString, Redis.clientGet, hb]

theorem Set_log (r : Redis) (key value : String) (d : Int) :
    ∃ b, (Set r key value d).2.log = r.log ++ [(.set (getKey key) value (setLifetime d), b)] ∧
      (b = true → (Set r key value d).1.isSome = true) := by
  obtain ⟨b, hb⟩ := issue_shape r (.set (getKey key) value (setLifetime d))
  refine ⟨b, ?_, ?_⟩
  · simp only [Set, Redis.clientSet, hb]
    cases b <;> simp [Redis.withKv]
  · intro hbt
    subst hbt
    simp [Set, Redis.clientSet, hb]

theorem Incr_log (r : Redis) (key : String) :
    ∃ b, (Incr r key).2.log = r.log ++ [(.incr (getKey key), b)] ∧
      (b = true → ∃ e, (Incr r key).1 = .error e) := by
  obtain ⟨b, hb⟩ := issue_shape r (.incr (getKey key))
  refine ⟨b, ?_, ?_⟩
  · simp only [Incr, Redis.clientIncr, hb]
    cases b with
    | true => simp
    | false =>
      cases hk : r.kv (getKey key) with
      | none => simp [Redis.withKv]
      | some e =>
        simp only [Bool.false_eq_true, if_false]
        cases hi : redisInt e.val with
        | none => simp
        | some i => by_cases hlt : i + 1 < 9223372036854775808 <;> simp [hlt, Redis.withKv]
  · intro hbt
    subst hbt
    simp [Incr, Redis.clientIncr, hb]

theorem Expire_log (r : Redis) (key : String) (d : Int) :
    ∃ b, (Expire r key d).2.log = r.log ++ [(.expire (getKey key) (formatSec d), b)] := by
  obtain ⟨b, hb⟩ := issue_shape r (.expire (getKey key) (formatSec d))
  refine ⟨b, ?_⟩
  simp only [Expire, Redis.clientExpire, hb]
  cases b with
  | true => simp
  | false =>
    cases hk : r.kv (getKey key) with
    | none => simp
    | some e => by_cases hd : formatSec d ≤ 0 <;> simp [hd, Redis.withKv]

end Internal
end LimitService
namespace LimitService
namespace Internal

theorem fatal_marker (u : String) : fatal u (.get (getKey (userPackageKey u))) = false := by
  simp only [fatal, beq_eq_false_iff_ne, ne_eq]
  exact fun e => record_ne_marker u e.symm

theorem fatal_counter (u t m : String) : fatal u (.get (getKey (redisKey u t m))) = false := by
  simp only [fatal, beq_eq_false_iff_ne, ne_eq]
  exact fun e => record_ne_counter u t m e.symm

/-- The commands of the reset stage: a failed one other than the marker read ends the call. -/
theorem resetOnChange_log (r : Redis) (u t m : String) (w : Int) :
    ∃ l, (resetOnChange r u t m w).2.log = r.log ++ l ∧
      ∀ c, (c, true) ∈ l → fatal u c = true → (resetOnChange r u t m w).1.isSome = true := by
  unfold resetOnChange
  obtain ⟨b, hlog, -⟩ := GetString_log r (userPackageKey u)
  rcases hg : GetString r (userPackageKey u) with ⟨⟨sp, found, err⟩, r2⟩
  rw [hg] at hlog
  simp only at hlog ⊢
  by_cases hcond : (!found || sp != t) = true
  · simp only [hcond, if_true]
    obtain ⟨b1, hlog1, herr1⟩ := Set_log r2 (redisKey u t m) "0" (durationOfSeconds w)
    rcases hs1 : Set r2 (redisKey u t m) "0" (durationOfSeconds w) with ⟨e1, r3⟩
    rw [hs1] at hlog1 herr1
    simp only at hlog1 herr1
    cases e1 with
    | some e => exact ⟨_, by rw [hlog1, hlog, List.append_assoc], fun _ _ _ => rfl⟩
    | none =>
      have hb1 : b1 = false := by
        cases b1
        · rfl
        · exact absurd (herr1 rfl) (by simp)
      subst hb1
      simp only
      obtain ⟨b2, hlog2, herr2⟩ := Set_log r3 (userPackageKey u) t 0
      rcases hs2 : Set r3 (userPackageKey u) t 0 with ⟨e2, r4⟩
      rw [hs2] at hlog2 herr2
      simp only at hlog2 herr2
      cases e2 with
      | some e =>
        exact ⟨_, by rw [hlog2, hlog1, hlog, List.append_assoc, List.append_assoc],
          fun _ _ _ => rfl⟩
      | none =>
        have hb2 : b2 = false := by
          cases b2
          · rfl
          · exact absurd (herr2 rfl) (by simp)
        subst hb2
        refine ⟨_, by rw [hlog2, hlog1, hlog, List.append_assoc, List.append_assoc], ?_⟩
        intro c hc hf
        simp only [List.singleton_append, List.mem_cons, Prod.mk.injEq, List.mem_singleton,
          Bool.true_eq_false, and_false, or_false, List.not_mem_nil] at hc
        rw [hc.1, fatal_marker] at hf
        cases hf
  · simp only [hcond, if_false]
    refine ⟨_, hlog, ?_⟩
    intro c hc hf
    simp only [List.mem_singleton, Prod.mk.injEq] at hc
    rw [hc.1, fatal_marker] at hf
    cases hf

theorem GetInt_log (r : Redis) (key : String) :
    ∃ b, (GetInt r key).2.log = r.log ++ [(.get (getKey key), b)] := by
  obtain ⟨b, hlog, -⟩ := GetString_log r key
  refine ⟨b, ?_⟩
  unfold GetInt
  rcases hg : GetString r key with ⟨⟨valStr, found, err⟩, r1⟩
  rw [hg] at hlog
  simp only at hlog ⊢
  split
  · exact hlog
  · split <;> exact hlog

/-- The commands of the counting stage: a failed `incr` ends the call with an error. -/
theorem countAndConsume_log (r : Redis) (u t m : String) (M w : Int) :
    ∃ l, (countAndConsume r u t m M w).2.log = r.log ++ l ∧
      ∀ c, (c, true) ∈ l → fatal u c = true →
        (countAndConsume r u t m M w).1.err.isSome = true ∧
        (countAndConsume r u t m M w).1.ok = false := by
  unfold countAndConsume
  obtain ⟨b, hlog⟩ := GetInt_log r (redisKey u t m)
  rcases hg : GetInt r (redisKey u t m) with ⟨⟨count, foundCount, errCount⟩, r5'⟩
  rw [hg] at hlog
  simp only at hlog ⊢
  have hget : ∀ c, (c, true) ∈ [(Cmd.get (getKey (redisKey u t m)), b)] → fatal u c = true →
      False := by
    intro c hc hf
    simp only [List.mem_singleton, Prod.mk.injEq] at hc
    rw [hc.1, fatal_counter] at hf
    cases hf
  by_cases he : (errCount.isSome && foundCount) = true
  · simp only [he, if_true]
    exact ⟨_, hlog, fun c hc hf => absurd hf (by intro hf; exact hget c hc hf)⟩
  · simp only [he, if_false, Bool.false_eq_true]
    by_cases hge : (if (!foundCount) = true then 0 else count) ≥ M
    · simp only [hge, if_true]
      exact ⟨_, hlog, fun c hc hf => (hget c hc hf).elim⟩
    · simp only [hge, if_false]
      obtain ⟨b1, hlog1, herr1⟩ := Incr_log r5' (redisKey u t m)
      rcases hi : Incr r5' (redisKey u t m) with ⟨res, r6⟩
      rw [hi] at hlog1 herr1
      simp only at hlog1 herr1
      cases res with
      | error e =>
        exact ⟨_, by rw [hlog1, hlog, List.append_assoc], fun _ _ _ => ⟨rfl, rfl⟩⟩
      | ok newCount =>
        have hb1 : b1 = false := by
          cases b1
          · rfl
          · obtain ⟨e, he⟩ := herr1 rfl
            cases he
        subst hb1
        simp only
        by_cases h1 : newCount = 1
        · simp only [h1, if_true]
          obtain ⟨b2, hlog2⟩ := Expire_log r6 (redisKey u t m) (durationOfSeconds w)
          refine ⟨_, by rw [hlog2, hlog1, hlog, List.append_assoc, List.append_assoc], ?_⟩
          intro c hc hf
          simp only [List.singleton_append, List.mem_cons, Prod.mk.injEq, List.mem_singleton,
            Bool.true_eq_false, and_false, false_or, List.not_mem_nil, or_false] at hc
          rcases hc with hc | hc
          · rw [hc.1, fatal_counter] at hf
            cases hf
          · rw [hc.1] at hf
            simp [fatal] at hf
        · simp only [h1, if_false]
          refine ⟨_, by rw [hlog1, hlog, List.append_assoc], ?_⟩
          intro c hc hf
          simp only [List.singleton_append, List.mem_cons, Prod.mk.injEq, List.mem_singleton,
            Bool.true_eq_false, and_false, or_false, List.not_mem_nil] at hc
          rw [hc.1, fatal_counter] at hf
          cases hf

end Internal
end LimitService
namespace LimitService

theorem newLog_of_log (r r' : Redis) (l : List (Cmd × Bool)) (h : r'.log = r.log ++ l) :
    newLog r r' = l := by
  simp [newLog, h]

namespace Internal

/-- Every failed command of `GetStarLimit` that is not tolerated ends the call
with an error. -/
theorem GetStarLimit_fatal (go : GoLib) (rules : LimitData) (r : Redis) (u m : String) :
    ∃ l, (GetStarLimit go rules r u m).2.log = r.log ++ l ∧
      ∀ c, (c, true) ∈ l → fatal u c = true →
        (GetStarLimit go rules r u m).1.err.isSome = true ∧
        (GetStarLimit go rules r u m).1.ok = false := by
  unfold GetStarLimit
  obtain ⟨b, hlog, herr⟩ := GetString_log r ("user:" ++ u ++ ":active_packages")
  rcases hg : GetString r ("user:" ++ u ++ ":active_packages") with ⟨⟨str, found, err⟩, r1⟩
  rw [hg] at hlog herr
  simp only at hlog herr ⊢
  cases err with
  | some e => exact ⟨_, hlog, fun _ _ _ => ⟨rfl, rfl⟩⟩
  | none =>
    have hb : b = false := by
      cases b
      · rfl
      · exact absurd (herr rfl).1 (by simp)
    subst hb
    have hnone : ∀ c, (c, true) ∈ [(Cmd.get (getKey ("user:" ++ u ++ ":active_packages")), false)] →
        False := by
      intro c hc
      simp at hc
    simp only
    split
    · exact ⟨_, hlog, fun c hc _ => (hnone c hc).elim⟩
    · split
      · exact ⟨_, hlog, fun c hc _ => (hnone c hc).elim⟩
      · rename_i maxCount windowSeconds _
        split
        · exact ⟨_, hlog, fun c hc _ => (hnone c hc).elim⟩
        · obtain ⟨l1, hlog1, h1⟩ := resetOnChange_log r1 u (packageName go found str) m windowSeconds
          rcases hr : resetOnChange r1 u (packageName go found str) m windowSeconds with ⟨e, r4⟩
          rw [hr] at hlog1 h1
          simp only at hlog1 h1 ⊢
          cases e with
          | some e =>
            exact ⟨_, by rw [hlog1, hlog, List.append_assoc], fun _ _ _ => ⟨rfl, rfl⟩⟩
          | none =>
            simp only
            obtain ⟨l2, hlog2, h2⟩ :=
              countAndConsume_log r4 u (packageName go found str) m maxCount windowSeconds
            refine ⟨_, by rw [hlog2, hlog1, hlog, List.append_assoc, List.append_assoc], ?_⟩
            intro c hc hf
            simp only [List.singleton_append, List.mem_cons, Prod.mk.injEq, Bool.true_eq_false,
              and_false, false_or, List.mem_append] at hc
            rcases hc with hc | hc
            · exact absurd (h1 c hc hf) (by simp)
            · exact h2 c hc hf

end Internal

namespace Tools

theorem Get_log_tools (go : GoLib) (r : Redis) (key : String) :
    ∃ b, (Get go r key).2.log = r.log ++ [(.get (getKey key), b)] ∧
      (b = true → ∃ e, (Get go r key).1 = .error e) := by
  obtain ⟨b, hb⟩ := issue_shape r (.get (getKey key))
  refine ⟨b, ?_, ?_⟩
  · simp only [Get, Redis.clientGet, hb]
    cases b with
    | true => simp
    | false => cases hk : r.kv (getKey key) <;> simp
  · intro hbt
    subst hbt
    simp [Get, Redis.clientGet, hb]

theorem GetString_log_tools (r : Redis) (key : String) :
    ∃ b, (GetString r key).2.log = r.log ++ [(.get (getKey key), b)] ∧
      (b = true → (GetString r key).1 = ("", some .io)) := by
  obtain ⟨b, hb⟩ := issue_shape r (.get (getKey key))
  refine ⟨b, ?_, ?_⟩
  · simp only [GetString, Redis.clientGet, hb]
    cases b with
    | true => simp
    | false => cases hk : r.kv (getKey key) <;> simp
  · intro hbt
    subst hbt
    simp [GetString, Redis.clientGet, hb]

theorem GetInt_log_tools (r : Redis) (key : String) :
    ∃ b, (GetInt r key).2.log = r.log ++ [(.get (getKey key), b)] ∧
      (b = true → (GetInt r key).1 = (0, some .io)) := by
  obtain ⟨b, hlog, herr⟩ := GetString_log_tools r key
  refine ⟨b, ?_, ?_⟩
  · unfold GetInt
    rcases hg : GetString r key with ⟨⟨val, err⟩, r1⟩
    rw [hg] at hlog
    simp only at hlog ⊢
    cases err with
    | some e => exact hlog
    | none =>
      simp only
      split <;> exact hlog
  · intro hbt
    have := herr hbt
    unfold GetInt
    rcases hg : GetString r key with ⟨⟨val, err⟩, r1⟩
    rw [hg] at this
    simp only [Prod.mk.injEq] at this
    obtain ⟨h1, h2⟩ := this
    subst h1 h2
    rfl

theorem Set_log_tools (r : Redis) (key : String) (value : Any) (d : Int) :
    ∃ b v, (Set r key value d).2.log = r.log ++ [(.set (getKey key) v (setLifetime d), b)] ∧
      (b = true → (Set r key value d).1.isSome = true) := by
  obtain ⟨b, hb⟩ := issue_shape r (.set (getKey key) (setText value) (setLifetime d))
  refine ⟨b, setText value, ?_, ?_⟩
  · simp only [Set, Redis.clientSet, hb]
    cases b <;> simp [Redis.withKv]
  · intro hbt
    subst hbt
    simp [Set, Redis.clientSet, hb]

theorem Incr_log_tools (r : Redis) (key : String) :
    ∃ b, (Incr r key).2.log = r.log ++ [(.incr (getKey key), b)] ∧
      (b = true → ∃ e, (Incr r key).1 = .error e) := by
  obtain ⟨b, hb⟩ := issue_shape r (.incr (getKey key))
  refine ⟨b, ?_, ?_⟩
  · simp only [Incr, Redis.clientIncr, hb]
    cases b with
    | true => simp
    | false =>
      cases hk : r.kv (getKey key) with
      | none => simp [Redis.withKv]
      | some e =>
        simp only [Bool.false_eq_true, if_false]
        cases hi : redisInt e.val with
        | none => simp
        | some i => by_cases hlt : i + 1 < 9223372036854775808 <;> simp [hlt, Redis.withKv]
  · intro hbt
    subst hbt
    simp [Incr, Redis.clientIncr, hb]

theorem Expire_log_tools (r : Redis) (key : String) (d : Int) :
    ∃ b, (Expire r key d).2.log = r.log ++ [(.expire (getKey key) (formatSec d), b)] ∧
      (b = true → (Expire r key d).1.isSome = true) := by
  obtain ⟨b, hb⟩ := issue_shape r (.expire (getKey key) (formatSec d))
  refine ⟨b, ?_, ?_⟩
  · simp only [Expire, Redis.clientExpire, hb]
    cases b with
    | true => simp
    | false =>
      cases hk : r.kv (getKey key) with
      | none => simp
      | some e => by_cases hd : formatSec d ≤ 0 <;> simp [hd, Redis.withKv]
  · intro hbt
    subst hbt
    simp [Expire, Redis.clientExpire, hb]

end Tools
end LimitService
namespace LimitService
namespace Tools

/-- The commands of the reset stage in `tools`: any failed one ends the call. -/
theorem resetOnChange_log_tools (r : Redis) (u t m : String) (w : Int) :
    ∃ l, (resetOnChange r u t m w).2.log = r.log ++ l ∧
      ∀ c, (c, true) ∈ l → (resetOnChange r u t m w).1.isSome = true := by
  unfold resetOnChange
  obtain ⟨b, hlog, herr⟩ := GetString_log_tools r (userPackageKey u)
  rcases hg : GetString r (userPackageKey u) with ⟨⟨sp, err⟩, r2⟩
  rw [hg] at hlog herr
  simp only at hlog herr ⊢
  by_cases hfail : (err.isSome && !(err.any Err.isRedisNilText)) = true
  · simp only [hfail, if_true]
    refine ⟨_, hlog, fun c _ => ?_⟩
    cases err with
    | none => simp at hfail
    | some e => rfl
  · have hb : b = false := by
      cases b
      · rfl
      · have := herr rfl
        simp only [Prod.mk.injEq] at this
        obtain ⟨_, h2⟩ := this
        subst h2
        simp [Err.isRedisNilText] at hfail
    subst hb
    simp only [hfail, if_false, Bool.false_eq_true]
    by_cases hcond : (sp != t) = true
    · simp only [hcond, if_true]
      obtain ⟨b1, v1, hlog1, herr1⟩ := Set_log_tools r2 (redisKey u t m) (.int 0) (durationOfSeconds w)
      rcases hs1 : Set r2 (redisKey u t m) (.int 0) (durationOfSeconds w) with ⟨e1, r3⟩
      rw [hs1] at hlog1 herr1
      simp only at hlog1 herr1
      cases e1 with
      | some e => exact ⟨_, by rw [hlog1, hlog, List.append_assoc], fun _ _ => rfl⟩
      | none =>
        have hb1 : b1 = false := by
          cases b1
          · rfl
          · exact absurd (herr1 rfl) (by simp)
        subst hb1
        simp only
        obtain ⟨b2, v2, hlog2, herr2⟩ := Set_log_tools r3 (userPackageKey u) (.str t) 0
        rcases hs2 : Set r3 (userPackageKey u) (.str t) 0 with ⟨e2, r4⟩
        rw [hs2] at hlog2 herr2
        simp only at hlog2 herr2
        cases e2 with
        | some e =>
          exact ⟨_, by rw [hlog2, hlog1, hlog, List.append_assoc, List.append_assoc],
            fun _ _ => rfl⟩
        | none =>
          have hb2 : b2 = false := by
            cases b2
            · rfl
            · exact absurd (herr2 rfl) (by simp)
          subst hb2
          refine ⟨_, by rw [hlog2, hlog1, hlog, List.append_assoc, List.append_assoc], ?_⟩
          intro c hc
          simp at hc
    · simp only [hcond, if_false]
      refine ⟨_, hlog, ?_⟩
      intro c hc
      simp at hc

/-- The commands of the counting stage in `tools`: any failed one ends the call
with an error. -/
theorem countAndConsume_log_tools (r : Redis) (u t m : String) (M w : Int) :
    ∃ l, (countAndConsume r u t m M w).2.log = r.log ++ l ∧
      ∀ c, (c, true) ∈ l →
        (countAndConsume r u t m M w).1.err.isSome = true ∧
        (countAndConsume r u t m M w).1.ok = false := by
  unfold countAndConsume
  obtain ⟨b, hlog, herr⟩ := GetInt_log_tools r (redisKey u t m)
  rcases hg : GetInt r (redisKey u t m) with ⟨⟨currentCount, err⟩, r5⟩
  rw [hg] at hlog herr
  simp only at hlog herr ⊢
  by_cases hfail : (err.isSome && !(err.any Err.isRedisNilText)) = true
  · simp only [hfail, if_true]
    refine ⟨_, hlog, fun c _ => ⟨?_, trivial⟩⟩
    cases err with
    | none => simp at hfail
    | some e => rfl
  · have hb : b = false := by
      cases b
      · rfl
      · have := herr rfl
        simp only [Prod.mk.injEq] at this
        obtain ⟨_, h2⟩ := this
        subst h2
        simp [Err.isRedisNilText] at hfail
    subst hb
    simp only [hfail, if_false, Bool.false_eq_true]
    by_cases hge : currentCount ≥ M
    · simp only [hge, if_true]
      exact ⟨_, hlog, fun c hc => by simp at hc⟩
    · simp only [hge, if_false]
      obtain ⟨b1, hlog1, herr1⟩ := Incr_log_tools r5 (redisKey u t m)
      rcases hi : Incr r5 (redisKey u t m) with ⟨res, r6⟩
      rw [hi] at hlog1 herr1
      simp only at hlog1 herr1
      cases res with
      | error e =>
        exact ⟨_, by rw [hlog1, hlog, List.append_assoc], fun _ _ => ⟨rfl, rfl⟩⟩
      | ok newCount =>
        have hb1 : b1 = false := by
          cases b1
          · rfl
          · obtain ⟨e, he⟩ := herr1 rfl
            cases he
        subst hb1
        simp only
        by_cases h1 : newCount = 1
        · simp only [h1, if_true]
          obtain ⟨b2, hlog2, herr2⟩ := Expire_log_tools r6 (redisKey u t m) (durationOfSeconds w)
          rcases he : Expire r6 (redisKey u t m) (durationOfSeconds w) with ⟨e2, r7⟩
          rw [he] at hlog2 herr2
          simp only at hlog2 herr2
          cases e2 with
          | some e =>
            exact ⟨_, by rw [hlog2, hlog1, hlog, List.append_assoc, List.append_assoc],
              fun _ _ => ⟨rfl, rfl⟩⟩
          | none =>
            have hb2 : b2 = false := by
              cases b2
              · rfl
              · exact absurd (herr2 rfl) (by simp)
            subst hb2
            refine ⟨_, by rw [hlog2, hlog1, hlog, List.append_assoc, List.append_assoc], ?_⟩
            intro c hc
            simp at hc
        · simp only [h1, if_false]
          refine ⟨_, by rw [hlog1, hlog, List.append_assoc], ?_⟩
          intro c hc
          simp at hc

/-- Every failed command of `GetStarLimit` in `tools` ends the call with an error. -/
theorem GetStarLimit_failure_tools (go : GoLib) (rules : LimitData) (r : Redis) (u m : String) :
    ∃ l, (GetStarLimit go rules r u m).2.log = r.log ++ l ∧
      ∀ c, (c, true) ∈ l →
        (GetStarLimit go rules r u m).1.err.isSome = true ∧
        (GetStarLimit go rules r u m).1.ok = false := by
  unfold GetStarLimit
  obtain ⟨b, hlog, herr⟩ := Get_log_tools go r ("user:" ++ u ++ ":active_packages")
  rcases hg : Get go r ("user:" ++ u ++ ":active_packages") with ⟨res, r1⟩
  rw [hg] at hlog herr
  simp only at hlog herr ⊢
  cases res with
  | error e => exact ⟨_, hlog, fun _ _ => ⟨rfl, rfl⟩⟩
  | ok data =>
    have hb : b = false := by
      cases b
      · rfl
      · obtain ⟨e, he⟩ := herr rfl
        cases he
    subst hb
    have hnone : ∀ c, (c, true) ∈ [(Cmd.get (getKey ("user:" ++ u ++ ":active_packages")), false)] →
        False := by
      intro c hc
      simp at hc
    simp only
    split
    · exact ⟨_, hlog, fun c hc => (hnone c hc).elim⟩
    · split
      · exact ⟨_, hlog, fun c hc => (hnone c hc).elim⟩
      · rename_i maxCount windowSeconds _
        obtain ⟨l1, hlog1, h1⟩ := resetOnChange_log_tools r1 u (packageType go data) m windowSeconds
        rcases hr : resetOnChange r1 u (packageType go data) m windowSeconds with ⟨e, r4⟩
        rw [hr] at hlog1 h1
        simp only at hlog1 h1 ⊢
        cases e with
        | some e =>
          exact ⟨_, by rw [hlog1, hlog, List.append_assoc], fun _ _ => ⟨rfl, rfl⟩⟩
        | none =>
          simp only
          obtain ⟨l2, hlog2, h2⟩ :=
            countAndConsume_log_tools r4 u (packageType go data) m maxCount windowSeconds
          refine ⟨_, by rw [hlog2, hlog1, hlog, List.append_assoc, List.append_assoc], ?_⟩
          intro c hc
          simp only [List.singleton_append, List.mem_cons, Prod.mk.injEq, Bool.true_eq_false,
            and_false, false_or, List.mem_append] at hc
          rcases hc with hc | hc
          · exact absurd (h1 c hc) (by simp)
          · exact h2 c hc

end Tools
end LimitService
namespace LimitService

namespace Internal

theorem GetString_level (go : GoLib) (r : Redis) (u : String) (h : r.faults = []) :
    ∃ str found, GetString r ("user:" ++ u ++ ":active_packages") =
        ((str, found, none),
          ⟨r.kv, [], r.log ++ [(.get (getKey ("user:" ++ u ++ ":active_packages")), false)]⟩) ∧
      userLevel go found str = levelOf go r.kv u := by
  cases hk : r.kv (getKey ("user:" ++ u ++ ":active_packages")) with
  | none => exact ⟨"", false, GetString_absent r _ h hk, by simp [levelOf, hk, userLevel]⟩
  | some e => exact ⟨e.val, true, GetString_present r _ e h hk, by simp [levelOf, hk]⟩

theorem restricted_cond (t : String) (h : restricted t) :
    (t != "free" && t != "base" && t != "mini") = false := by
  rcases h with h | h | h <;> subst h <;> decide

theorem unrestricted_cond (t : String) (h : ¬ restricted t) :
    (t != "free" && t != "base" && t != "mini") = true := by
  unfold restricted at h
  simp only [not_or] at h
  simp [h.1, h.2.1, h.2.2]

/-- The decision of `VerifyUserAcard` for a restricted level, from the key space. -/
theorem VerifyUserAcard_restricted (go : GoLib) (r : Redis) (u car : String)
    (h : r.faults = []) (hu : u ≠ "") (hcar : car ≠ "")
    (hres : restricted (levelOf go r.kv u)) :
    (VerifyUserAcard go r u car).1 =
      ((match labelOf go r.kv car with
        | some label => go.ToLower label == "mini" || go.ToLower label == "free"
        | none => false), none) := by
  obtain ⟨str, found, hg, hl⟩ := GetString_level go r u h
  unfold VerifyUserAcard
  simp only [hu, hcar, decide_False, Bool.or_self, Bool.false_eq_true, if_false]
  rw [hg]
  simp only [hl, restricted_cond _ hres, Bool.false_eq_true, if_false]
  cases hk : r.kv (getKey ("car_status:" ++ car)) with
  | none =>
    rw [GetString_absent ⟨r.kv, [], _⟩ _ rfl hk]
    simp [labelOf, hk]
  | some e =>
    rw [GetString_present ⟨r.kv, [], _⟩ _ e rfl hk]
    by_cases he : e.val = ""
    · simp [labelOf, hk, he]
    · simp only [Bool.not_true, Bool.false_or, beq_iff_eq, he, if_false, labelOf, hk, carAllows]
      cases hun : go.unmarshal e.val with
      | none => rfl
      | some v =>
        cases v with
        | obj carData =>
          simp only
          cases hf : JValue.field carData "label" with
          | none => rfl
          | some l => cases l <;> rfl
        | _ => rfl

end Internal

namespace Tools

theorem Get_level_tools (go : GoLib) (r : Redis) (u : String) (h : r.faults = []) :
    ∃ data, Get go r ("user:" ++ u ++ ":active_packages") =
        (.ok data,
          ⟨r.kv, [], r.log ++ [(.get (getKey ("user:" ++ u ++ ":active_packages")), false)]⟩) ∧
      level go data = levelOf go r.kv u := by
  cases hk : r.kv (getKey ("user:" ++ u ++ ":active_packages")) with
  | none => exact ⟨none, Get_absent_tools go r _ h hk, by simp [levelOf, hk]⟩
  | some e => exact ⟨decode go e.val, Get_present_tools go r _ e h hk, by simp [levelOf, hk]⟩

/-- The decision of `VerifyUserAcard` in `tools` for a restricted level, from the key space. -/
theorem VerifyUserAcard_restricted_tools (go : GoLib) (r : Redis) (u car lvl : String)
    (h : r.faults = []) (hlvl : levelOf go r.kv u = .ok lvl) (hres : restricted lvl) :
    match labelOf go r.kv car with
    | some label =>
      (VerifyUserAcard go r u car).1 =
        (go.ToLower label == "mini" || go.ToLower label == "free", none)
    | none =>
      (VerifyUserAcard go r u car).1.1 = false ∧ (VerifyUserAcard go r u car).1.2.isSome = true := by
  obtain ⟨data, hg, hl⟩ := Get_level_tools go r u h
  unfold VerifyUserAcard
  rw [hg]
  simp only [hl, hlvl, Internal.restricted_cond _ hres, Bool.false_eq_true, if_false]
  cases hk : r.kv (getKey ("car_status:" ++ car)) with
  | none =>
    rw [Get_absent_tools go ⟨r.kv, [], _⟩ _ rfl hk]
    simp [labelOf, hk, carAllows]
  | some e =>
    rw [Get_present_tools go ⟨r.kv, [], _⟩ _ e rfl hk]
    simp only [labelOf, hk, carAllows]
    cases hun : decode go e.val with
    | none => simp
    | some v =>
      cases v with
      | obj carData =>
        simp only
        cases hf : JValue.field carData "label" with
        | none => simp
        | some l => cases l <;> simp
      | _ => simp

end Tools

end LimitService
namespace LimitService

namespace Internal

theorem VerifyUserAcard_unrestricted (go : GoLib) (r : Redis) (u car : String)
    (h : r.faults = []) (hu : u ≠ "") (hcar : car ≠ "")
    (hres : ¬ restricted (levelOf go r.kv u)) :
    VerifyUserAcard go r u car =
      ((true, none),
        ⟨r.kv, [], r.log ++ [(.get (getKey ("user:" ++ u ++ ":active_packages")), false)]⟩) := by
  obtain ⟨str, found, hg, hl⟩ := GetString_level go r u h
  unfold VerifyUserAcard
  simp only [hu, hcar, decide_False, Bool.or_self, Bool.false_eq_true, if_false]
  rw [hg]
  simp only [hl, unrestricted_cond _ hres, if_true]

/-- `VerifyTokenNoHeader` of `internal/auth` never writes. -/
theorem VerifyTokenNoHeader_kv (r : Redis) (u tok : String) :
    (VerifyTokenNoHeader r u tok).2.kv = r.kv := by
  unfold VerifyTokenNoHeader
  split
  · rfl
  · obtain ⟨b, hb⟩ := issue_shape r (.get (getKey ("xtoken_" ++ u)))
    simp only [GetString, Redis.clientGet, hb]
    cases b with
    | true => rfl
    | false =>
      simp only [Bool.false_eq_true, if_false]
      cases hk : r.kv (getKey ("xtoken_" ++ u)) <;> simp

/-- The contract of `VerifyTokenNoHeader` in `internal/auth`: empty credentials
are invalid without a lookup; otherwise, when the lookup succeeds, the token is
valid exactly when it equals the one on record; a failed lookup is an error. -/
theorem VerifyTokenNoHeader_contract (r : Redis) (u tok : String) :
    ((u = "" ∨ tok = "") → VerifyTokenNoHeader r u tok = ((false, none), r)) ∧
    (u ≠ "" → tok ≠ "" → r.faults.head? ≠ some true →
      (VerifyTokenNoHeader r u tok).1.2 = none ∧
      ((VerifyTokenNoHeader r u tok).1.1 = true ↔
        ∃ e, r.kv (getKey ("xtoken_" ++ u)) = some e ∧ e.val = tok)) ∧
    (u ≠ "" → tok ≠ "" → r.faults.head? = some true →
      (VerifyTokenNoHeader r u tok).1.1 = false ∧
      (VerifyTokenNoHeader r u tok).1.2.isSome = true) := by
  refine ⟨?_, ?_, ?_⟩
  · intro h
    unfold VerifyTokenNoHeader
    rcases h with h | h <;> simp [h]
  · intro hu ht hf
    unfold VerifyTokenNoHeader
    simp only [hu, ht, decide_False, Bool.or_self, Bool.false_eq_true, if_false]
    have hissue : r.issue (.get (getKey ("xtoken_" ++ u))) =
        (false, ⟨r.kv, r.faults.tail, r.log ++ [(.get (getKey ("xtoken_" ++ u)), false)]⟩) := by
      unfold Redis.issue
      cases hfl : r.faults with
      | nil => rfl
      | cons b rest =>
        rw [hfl] at hf
        cases b
        · rfl
        · simp at hf
    simp only [GetString, Redis.clientGet, hissue, Bool.false_eq_true, if_false]
    cases hk : r.kv (getKey ("xtoken_" ++ u)) with
    | none => simp
    | some e =>
      simp only [Bool.not_true, Bool.false_eq_true, if_false, beq_iff_eq, Option.some.injEq,
        exists_eq_left', true_and]
      exact eq_comm
  · intro hu ht hf
    unfold VerifyTokenNoHeader
    simp only [hu, ht, decide_False, Bool.or_self, Bool.false_eq_true, if_false]
    have hissue : r.issue (.get (getKey ("xtoken_" ++ u))) =
        (true, ⟨r.kv, r.faults.tail, r.log ++ [(.get (getKey ("xtoken_" ++ u)), true)]⟩) := by
      unfold Redis.issue
      cases hfl : r.faults with
      | nil => rw [hfl] at hf; simp at hf
      | cons b rest =>
        rw [hfl] at hf
        simp only [List.head?_cons, Option.some.injEq] at hf
        subst hf
        rfl
    simp [GetString, Redis.clientGet, hissue]

end Internal

namespace Tools

theorem VerifyUserAcard_unrestricted_tools (go : GoLib) (r : Redis) (u car lvl : String)
    (h : r.faults = []) (hlvl : levelOf go r.kv u = .ok lvl) (hres : ¬ restricted lvl) :
    VerifyUserAcard go r u car =
      ((true, none),
        ⟨r.kv, [], r.log ++ [(.get (getKey ("user:" ++ u ++ ":active_packages")), false)]⟩) := by
  obtain ⟨data, hg, hl⟩ := Get_level_tools go r u h
  unfold VerifyUserAcard
  rw [hg]
  simp only [hl, hlvl, Internal.unrestricted_cond _ hres, if_true]

end Tools

end LimitService
namespace LimitService

theorem startsWith_iff (w t : List Char) : startsWith w t = true ↔ w <+: t := by
  unfold startsWith
  exact List.isPrefixOf_iff_prefix

/-- The scan of the `internal` matcher reports a hit exactly when a word occurs in the text. -/
theorem scan_hit_iff (words : List String) (t : List Char) (pos : Nat) :
    0 < (scan words t pos).length ↔ ∃ w ∈ words, w.data <:+: t := by
  induction t generalizing pos with
  | nil =>
    simp only [scan, List.length_map, List.length_pos, ne_eq, List.filter_eq_nil_iff, not_forall,
      Classical.not_imp, Decidable.not_not, startsWith_iff, exists_prop]
    constructor
    · rintro ⟨w, hw, hp⟩; exact ⟨w, hw, hp.isInfix⟩
    · rintro ⟨w, hw, hi⟩
      refine ⟨w, hw, ?_⟩
      have : w.data = [] := List.eq_nil_of_infix_nil hi
      rw [this]
  | cons c cs ih =>
    simp only [scan, List.length_append, List.length_map]
    rw [Nat.add_pos_iff_pos_or_pos, ih (pos + 1)]
    simp only [List.length_pos, ne_eq, List.filter_eq_nil_iff, not_forall, Classical.not_imp,
      Decidable.not_not, startsWith_iff, exists_prop]
    constructor
    · rintro (⟨w, hw, hp⟩ | ⟨w, hw, hi⟩)
      · exact ⟨w, hw, hp.isInfix⟩
      · exact ⟨w, hw, List.infix_cons hi⟩
    · rintro ⟨w, hw, hi⟩
      rcases List.infix_cons_iff.mp hi with hp | hi'
      · exact Or.inl ⟨w, hw, hp⟩
      · exact Or.inr ⟨w, hw, hi'⟩

/-- The search of the `tools` automaton, for non-empty words: it reports a hit
exactly when a word occurs in the part of the text not covered by the last match. -/
theorem scanDisjoint_hit_iff (words : List String) (hne : ∀ w ∈ words, w.data ≠ [])
    (t : List Char) : ∀ (pos skip : Nat),
    0 < (scanDisjoint words t pos skip).length ↔ ∃ w ∈ words, w.data <:+: t.drop skip := by
  induction t with
  | nil =>
    intro pos skip
    simp only [scanDisjoint, List.length_nil, Nat.lt_irrefl, List.drop_nil, false_iff, not_exists,
      not_and]
    intro w hw hi
    exact hne w hw (List.eq_nil_of_infix_nil hi)
  | cons c cs ih =>
    intro pos skip
    cases skip with
    | succ k =>
      simp only [scanDisjoint, List.drop_succ_cons]
      exact ih (pos + 1) k
    | zero =>
      simp only [scanDisjoint, List.drop_zero]
      cases hf : words.find? (fun w => startsWith w.data (c :: cs)) with
      | some w =>
        simp only [List.length_cons, Nat.zero_lt_succ, true_iff]
        have hmem := List.mem_of_find?_eq_some hf
        have hp := List.find?_some hf
        exact ⟨w, hmem, ((startsWith_iff _ _).mp hp).isInfix⟩
      | none =>
        simp only
        rw [ih (pos + 1) 0, List.drop_zero]
        have hnone : ∀ w ∈ words, ¬ (w.data <+: c :: cs) := by
          intro w hw hp
          have := List.find?_eq_none.mp hf w hw
          exact this ((startsWith_iff _ _).mpr hp)
        constructor
        · rintro ⟨w, hw, hi⟩
          exact ⟨w, hw, List.infix_cons hi⟩
        · rintro ⟨w, hw, hi⟩
          rcases List.infix_cons_iff.mp hi with hp | hi'
          · exact absurd hp (hnone w hw)
          · exact ⟨w, hw, hi'⟩

theorem keywordsOf_ne (lines : List String) : ∀ w ∈ keywordsOf lines, w.data ≠ [] := by
  intro w hw
  simp only [keywordsOf, List.mem_filter, List.mem_map, bne_iff_ne, ne_eq] at hw
  intro h
  apply hw.2
  exact String.ext_iff.mpr (by simpa using h)

theorem InitAuditor_words (lines : List String) :
    Internal.InitAuditor (some lines) = some ⟨keywordsOf lines⟩ := by
  unfold Internal.InitAuditor
  simp only
  split
  · rename_i h
    rw [List.length_eq_zero.mp h]
  · rfl

/-- A text in which a configured keyword occurs is unsafe for `internal/auditor`. -/
theorem Internal.StarAudit_false_of_keyword (lines : List String) (text : String)
    (htext : text ≠ "") (h : ∃ k ∈ keywordsOf lines, k.data <:+: text.data) :
    Internal.StarAudit (Internal.InitAuditor (some lines)) text = false := by
  have hhit := (scan_hit_iff (keywordsOf lines) text.data 0).mpr h
  rw [InitAuditor_words]
  simp only [Internal.StarAudit, htext, if_false, Internal.Matcher.Match, gt_iff_lt, hhit, if_true]

/-- A text in which a configured keyword occurs is unsafe for `tools/audit_tools`. -/
theorem Tools.StarAudit_false_of_keyword_tools (lines : List String) (text : String)
    (h : ∃ k ∈ keywordsOf lines, k.data <:+: text.data) :
    Tools.StarAudit (Tools.InitKeyWords (some lines)) (some (.str text)) = false := by
  have hhit := (scanDisjoint_hit_iff (keywordsOf lines) (keywordsOf_ne lines) text.data 0 0).mpr
    (by rw [List.drop_zero]; exact h)
  simp only [Tools.StarAudit, Tools.InitKeyWords, Bool.not_true, Bool.false_eq_true, if_false,
    Tools.Automaton.FindAll, gt_iff_lt, hhit, if_true]

theorem text_ne_of_keyword (lines : List String) (text : String)
    (h : ∃ k ∈ keywordsOf lines, k.data <:+: text.data) : text ≠ "" := by
  obtain ⟨k, hk, hi⟩ := h
  intro e
  subst e
  exact keywordsOf_ne lines k hk (List.eq_nil_of_infix_nil hi)

end LimitService
namespace LimitService

theorem noIncr_nil : noIncr [] := by
  intro x hx; cases hx

theorem noIncr_append {l1 l2 : List (Cmd × Bool)} (h1 : noIncr l1) (h2 : noIncr l2) :
    noIncr (l1 ++ l2) := by
  intro x hx
  rcases List.mem_append.mp hx with h | h
  · exact h1 x h
  · exact h2 x h

theorem noIncr_get (k : String) (b : Bool) : noIncr [(Cmd.get k, b)] := by
  intro x hx
  simp only [List.mem_singleton] at hx
  subst hx
  rfl

theorem noIncr_set (k v : String) (px : Option Int) (b : Bool) : noIncr [(Cmd.set k v px, b)] := by
  intro x hx
  simp only [List.mem_singleton] at hx
  subst hx
  rfl

theorem noIncr_expire (k : String) (s : Int) (b : Bool) : noIncr [(Cmd.expire k s, b)] := by
  intro x hx
  simp only [List.mem_singleton] at hx
  subst hx
  rfl

namespace Internal

theorem resetOnChange_noIncr (r : Redis) (u t m : String) (w : Int) :
    ∃ l, (resetOnChange r u t m w).2.log = r.log ++ l ∧ noIncr l := by
  unfold resetOnChange
  obtain ⟨b, hlog, -⟩ := GetString_log r (userPackageKey u)
  rcases hg : GetString r (userPackageKey u) with ⟨⟨sp, found, err⟩, r2⟩
  rw [hg] at hlog
  simp only at hlog ⊢
  split
  · obtain ⟨b1, hlog1, -⟩ := Set_log r2 (redisKey u t m) "0" (durationOfSeconds w)
    rcases hs1 : Set r2 (redisKey u t m) "0" (durationOfSeconds w) with ⟨e1, r3⟩
    rw [hs1] at hlog1
    simp only at hlog1
    cases e1 with
    | some e =>
      exact ⟨_, by rw [hlog1, hlog, List.append_assoc],
        noIncr_append (noIncr_get _ _) (noIncr_set _ _ _ _)⟩
    | none =>
      simp only
      obtain ⟨b2, hlog2, -⟩ := Set_log r3 (userPackageKey u) t 0
      rcases hs2 : Set r3 (userPackageKey u) t 0 with ⟨e2, r4⟩
      rw [hs2] at hlog2
      simp only at hlog2
      have hl : r4.log = r.log ++ ([(Cmd.get (getKey (userPackageKey u)), b)] ++
          ([(Cmd.set (getKey (redisKey u t m)) "0" (setLifetime (durationOfSeconds w)), b1)] ++
          [(Cmd.set (getKey (userPackageKey u)) t (setLifetime 0), b2)])) := by
        rw [hlog2, hlog1, hlog, List.append_assoc, List.append_assoc]
      have hn := noIncr_append (noIncr_get (getKey (userPackageKey u)) b)
        (noIncr_append (noIncr_set (getKey (redisKey u t m)) "0"
          (setLifetime (durationOfSeconds w)) b1)
          (noIncr_set (getKey (userPackageKey u)) t (setLifetime 0) b2))
      cases e2 with
      | some e => exact ⟨_, hl, hn⟩
      | none => exact ⟨_, hl, hn⟩
  · exact ⟨_, hlog, noIncr_get _ _⟩

/-- An allowed call has issued exactly one increment, a successful one, on the counter. -/
theorem countAndConsume_allowed_log (r : Redis) (u t m : String) (M w : Int)
    (hok : (countAndConsume r u t m M w).1.ok = true) :
    ∃ b post, (countAndConsume r u t m M w).2.log =
        r.log ++ ((Cmd.get (getKey (redisKey u t m)), b) ::
          (Cmd.incr (getKey (redisKey u t m)), false) :: post) ∧ noIncr post := by
  unfold countAndConsume at hok ⊢
  obtain ⟨b, hlog⟩ := GetInt_log r (redisKey u t m)
  rcases hg : GetInt r (redisKey u t m) with ⟨⟨count, foundCount, errCount⟩, r5⟩
  rw [hg] at hlog hok
  simp only at hlog hok ⊢
  by_cases he : (errCount.isSome && foundCount) = true
  · simp only [he, if_true] at hok
    cases hok
  · simp only [he, if_false, Bool.false_eq_true] at hok ⊢
    by_cases hge : (if (!foundCount) = true then 0 else count) ≥ M
    · simp only [hge, if_true] at hok
      cases hok
    · simp only [hge, if_false] at hok ⊢
      obtain ⟨b1, hlog1, herr1⟩ := Incr_log r5 (redisKey u t m)
      rcases hi : Incr r5 (redisKey u t m) with ⟨res, r6⟩
      rw [hi] at hlog1 herr1 hok
      simp only at hlog1 herr1 hok ⊢
      cases res with
      | error e => cases hok
      | ok newCount =>
        have hb1 : b1 = false := by
          cases b1
          · rfl
          · obtain ⟨e, he⟩ := herr1 rfl
            cases he
        subst hb1
        simp only
        by_cases h1 : newCount = 1
        · simp only [h1, if_true]
          obtain ⟨b2, hlog2⟩ := Expire_log r6 (redisKey u t m) (durationOfSeconds w)
          exact ⟨b, [(Cmd.expire (getKey (redisKey u t m)) (formatSec (durationOfSeconds w)), b2)],
            by rw [hlog2, hlog1, hlog]; simp, noIncr_expire _ _ b2⟩
        · simp only [h1, if_false]
          exact ⟨b, [], by rw [hlog1, hlog]; simp, noIncr_nil⟩

theorem GetStarLimit_allowed_log (go : GoLib) (rules : LimitData) (r : Redis) (u m : String)
    (hok : (GetStarLimit go rules r u m).1.ok = true) :
    ∃ t pre post, (GetStarLimit go rules r u m).2.log =
        r.log ++ (pre ++ (Cmd.incr (getKey (redisKey u t m)), false) :: post) ∧
      noIncr pre ∧ noIncr post := by
  unfold GetStarLimit at hok ⊢
  obtain ⟨b, hlog, -⟩ := GetString_log r ("user:" ++ u ++ ":active_packages")
  rcases hg : GetString r ("user:" ++ u ++ ":active_packages") with ⟨⟨str, found, err⟩, r1⟩
  rw [hg] at hlog hok
  simp only at hlog hok ⊢
  cases err with
  | some e => cases hok
  | none =>
    simp only at hok ⊢
    by_cases hne : getLimitRule rules (packageName go found str) m = ""
    · simp only [hne, if_true] at hok
      cases hok
    · simp only [hne, if_false] at hok ⊢
      rcases hparse : parseLimit (getLimitRule rules (packageName go found str) m) with e | ⟨maxCount, windowSeconds⟩
      · rw [hparse] at hok
        cases hok
      · rw [hparse] at hok
        simp only at hok ⊢
        by_cases hw : windowSeconds ≤ 0
        · simp only [hw, if_true] at hok
          cases hok
        · simp only [hw, if_false] at hok ⊢
          obtain ⟨l1, hlog1, hn1⟩ :=
            resetOnChange_noIncr r1 u (packageName go found str) m windowSeconds
          rcases hr : resetOnChange r1 u (packageName go found str) m windowSeconds with ⟨e, r4⟩
          rw [hr] at hlog1 hok
          simp only at hlog1 hok ⊢
          cases e with
          | some e => cases hok
          | none =>
            simp only at hok ⊢
            obtain ⟨b2, post, hlog2, hn2⟩ := countAndConsume_allowed_log r4 u
              (packageName go found str) m maxCount windowSeconds hok
            refine ⟨packageName go found str,
              [(Cmd.get (getKey ("user:" ++ u ++ ":active_packages")), b)] ++ l1 ++
                [(Cmd.get (getKey (redisKey u (packageName go found str) m)), b2)], post, ?_,
              noIncr_append (noIncr_append (noIncr_get _ _) hn1) (noIncr_get _ _), hn2⟩
            rw [hlog2, hlog1, hlog]
            simp

end Internal
end LimitService
namespace LimitService
namespace Tools

theorem resetOnChange_noIncr_tools (r : Redis) (u t m : String) (w : Int) :
    ∃ l, (resetOnChange r u t m w).2.log = r.log ++ l ∧ noIncr l := by
  unfold resetOnChange
  obtain ⟨b, hlog, -⟩ := GetString_log_tools r (userPackageKey u)
  rcases hg : GetString r (userPackageKey u) with ⟨⟨sp, err⟩, r2⟩
  rw [hg] at hlog
  simp only at hlog ⊢
  split
  · exact ⟨_, hlog, noIncr_get _ _⟩
  · split
    · obtain ⟨b1, v1, hlog1, -⟩ := Set_log_tools r2 (redisKey u t m) (.int 0) (durationOfSeconds w)
      rcases hs1 : Set r2 (redisKey u t m) (.int 0) (durationOfSeconds w) with ⟨e1, r3⟩
      rw [hs1] at hlog1
      simp only at hlog1
      cases e1 with
      | some e =>
        exact ⟨_, by rw [hlog1, hlog, List.append_assoc],
          noIncr_append (noIncr_get _ _) (noIncr_set _ _ _ _)⟩
      | none =>
        simp only
        obtain ⟨b2, v2, hlog2, -⟩ := Set_log_tools r3 (userPackageKey u) (.str t) 0
        rcases hs2 : Set r3 (userPackageKey u) (.str t) 0 with ⟨e2, r4⟩
        rw [hs2] at hlog2
        simp only at hlog2
        have hl : r4.log = r.log ++ ([(Cmd.get (getKey (userPackageKey u)), b)] ++
            ([(Cmd.set (getKey (redisKey u t m)) v1 (setLifetime (durationOfSeconds w)), b1)] ++
            [(Cmd.set (getKey (userPackageKey u)) v2 (setLifetime 0), b2)])) := by
          rw [hlog2, hlog1, hlog, List.append_assoc, List.append_assoc]
        have hn := noIncr_append (noIncr_get (getKey (userPackageKey u)) b)
          (noIncr_append (noIncr_set (getKey (redisKey u t m)) v1
            (setLifetime (durationOfSeconds w)) b1)
            (noIncr_set (getKey (userPackageKey u)) v2 (setLifetime 0) b2))
        cases e2 with
        | some e => exact ⟨_, hl, hn⟩
        | none => exact ⟨_, hl, hn⟩
    · exact ⟨_, hlog, noIncr_get _ _⟩

theorem countAndConsume_allowed_log_tools (r : Redis) (u t m : String) (M w : Int)
    (hok : (countAndConsume r u t m M w).1.ok = true) :
    ∃ b post, (countAndConsume r u t m M w).2.log =
        r.log ++ ((Cmd.get (getKey (redisKey u t m)), b) ::
          (Cmd.incr (getKey (redisKey u t m)), false) :: post) ∧ noIncr post := by
  unfold countAndConsume at hok ⊢
  obtain ⟨b, hlog, -⟩ := GetInt_log_tools r (redisKey u t m)
  rcases hg : GetInt r (redisKey u t m) with ⟨⟨currentCount, err⟩, r5⟩
  rw [hg] at hlog hok
  simp only at hlog hok ⊢
  by_cases he : (err.isSome && !(err.any Err.isRedisNilText)) = true
  · simp only [he, if_true] at hok
    cases hok
  · simp only [he, if_false, Bool.false_eq_true] at hok ⊢
    by_cases hge : currentCount ≥ M
    · simp only [hge, if_true] at hok
      cases hok
    · simp only [hge, if_false] at hok ⊢
      obtain ⟨b1, hlog1, herr1⟩ := Incr_log_tools r5 (redisKey u t m)
      rcases hi : Incr r5 (redisKey u t m) with ⟨res, r6⟩
      rw [hi] at hlog1 herr1 hok
      simp only at hlog1 herr1 hok ⊢
      cases res with
      | error e => cases hok
      | ok newCount =>
        have hb1 : b1 = false := by
          cases b1
          · rfl
          · obtain ⟨e, he⟩ := herr1 rfl
            cases he
        subst hb1
        simp only at hok ⊢
        by_cases h1 : newCount = 1
        · simp only [h1, if_true] at hok ⊢
          obtain ⟨b2, hlog2, -⟩ := Expire_log_tools r6 (redisKey u t m) (durationOfSeconds w)
          rcases hex : Expire r6 (redisKey u t m) (durationOfSeconds w) with ⟨e2, r7⟩
          rw [hex] at hlog2 hok
          simp only at hlog2 hok ⊢
          cases e2 with
          | some e => cases hok
          | none =>
            exact ⟨b, [(Cmd.expire (getKey (redisKey u t m)) (formatSec (durationOfSeconds w)), b2)],
              by rw [hlog2, hlog1, hlog]; simp, noIncr_expire _ _ b2⟩
        · simp only [h1, if_false]
          exact ⟨b, [], by rw [hlog1, hlog]; simp, noIncr_nil⟩

theorem GetStarLimit_allowed_log_tools (go : GoLib) (rules : LimitData) (r : Redis) (u m : String)
    (hok : (GetStarLimit go rules r u m).1.ok = true) :
    ∃ t pre post, (GetStarLimit go rules r u m).2.log =
        r.log ++ (pre ++ (Cmd.incr (getKey (redisKey u t m)), false) :: post) ∧
      noIncr pre ∧ noIncr post := by
  unfold GetStarLimit at hok ⊢
  obtain ⟨b, hlog, -⟩ := Get_log_tools go r ("user:" ++ u ++ ":active_packages")
  rcases hg : Get go r ("user:" ++ u ++ ":active_packages") with ⟨res, r1⟩
  rw [hg] at hlog hok
  simp only at hlog hok ⊢
  cases res with
  | error e => cases hok
  | ok data =>
    simp only at hok ⊢
    by_cases hne : getLimitRules rules (packageType go data) m = ""
    · simp only [hne, if_true] at hok
      cases hok
    · simp only [hne, if_false] at hok ⊢
      rcases hparse : parseLimit (getLimitRules rules (packageType go data) m) with e | ⟨maxCount, windowSeconds⟩
      · rw [hparse] at hok
        cases hok
      · rw [hparse] at hok
        simp only at hok ⊢
        obtain ⟨l1, hlog1, hn1⟩ :=
          resetOnChange_noIncr_tools r1 u (packageType go data) m windowSeconds
        rcases hr : resetOnChange r1 u (packageType go data) m windowSeconds with ⟨e, r4⟩
        rw [hr] at hlog1 hok
        simp only at hlog1 hok ⊢
        cases e with
        | some e => cases hok
        | none =>
          simp only at hok ⊢
          obtain ⟨b2, post, hlog2, hn2⟩ := countAndConsume_allowed_log_tools r4 u
            (packageType go data) m maxCount windowSeconds hok
          refine ⟨packageType go data,
            [(Cmd.get (getKey ("user:" ++ u ++ ":active_packages")), b)] ++ l1 ++
              [(Cmd.get (getKey (redisKey u (packageType go data) m)), b2)], post, ?_,
            noIncr_append (noIncr_append (noIncr_get _ _) hn1) (noIncr_get _ _), hn2⟩
          rw [hlog2, hlog1, hlog]
          simp

theorem VerifyTokenNoHeader_noIncr_tools (r : Redis) (u tok : String) :
    ∃ l, (VerifyTokenNoHeader r u tok).2.log = r.log ++ l ∧ noIncr l := by
  unfold VerifyTokenNoHeader
  obtain ⟨b, hlog, -⟩ := GetString_log_tools r ("xtoken_" ++ u)
  rcases hg : GetString r ("xtoken_" ++ u) with ⟨⟨v, err⟩, r1⟩
  rw [hg] at hlog
  simp only at hlog ⊢
  cases err with
  | none => exact ⟨_, hlog, noIncr_get _ _⟩
  | some e =>
    simp only
    split <;> exact ⟨_, hlog, noIncr_get _ _⟩

theorem VerifyUserAcard_noIncr_tools (go : GoLib) (r : Redis) (u car : String) :
    ∃ l, (VerifyUserAcard go r u car).2.log = r.log ++ l ∧ noIncr l := by
  unfold VerifyUserAcard
  obtain ⟨b, hlog, -⟩ := Get_log_tools go r ("user:" ++ u ++ ":active_packages")
  rcases hg : Get go r ("user:" ++ u ++ ":active_packages") with ⟨res, r1⟩
  rw [hg] at hlog
  simp only at hlog ⊢
  cases res with
  | error e => exact ⟨_, hlog, noIncr_get _ _⟩
  | ok data =>
    simp only
    split
    · exact ⟨_, hlog, noIncr_get _ _⟩
    · split
      · exact ⟨_, hlog, noIncr_get _ _⟩
      · obtain ⟨b1, hlog1, -⟩ := Get_log_tools go r1 ("car_status:" ++ car)
        rcases hg1 : Get go r1 ("car_status:" ++ car) with ⟨res1, r2⟩
        rw [hg1] at hlog1
        simp only at hlog1 ⊢
        have hl : r2.log = r.log ++ ([(Cmd.get (getKey ("user:" ++ u ++ ":active_packages")), b)] ++
            [(Cmd.get (getKey ("car_status:" ++ car)), b1)]) := by
          rw [hlog1, hlog, List.append_assoc]
        have hn := noIncr_append (noIncr_get (getKey ("user:" ++ u ++ ":active_packages")) b)
          (noIncr_get (getKey ("car_status:" ++ car)) b1)
        cases res1 with
        | error e => exact ⟨_, hl, hn⟩
        | ok carData =>
          simp only
          split <;> exact ⟨_, hl, hn⟩

end Tools

namespace Internal

theorem VerifyTokenNoHeader_noIncr (r : Redis) (u tok : String) :
    ∃ l, (VerifyTokenNoHeader r u tok).2.log = r.log ++ l ∧ noIncr l := by
  unfold VerifyTokenNoHeader
  split
  · exact ⟨[], by simp, noIncr_nil⟩
  · obtain ⟨b, hlog, -⟩ := GetString_log r ("xtoken_" ++ u)
    rcases hg : GetString r ("xtoken_" ++ u) with ⟨⟨v, found, err⟩, r1⟩
    rw [hg] at hlog
    simp only at hlog ⊢
    cases err with
    | some e => exact ⟨_, hlog, noIncr_get _ _⟩
    | none =>
      simp only
      split <;> exact ⟨_, hlog, noIncr_get _ _⟩

theorem VerifyUserAcard_noIncr (go : GoLib) (r : Redis) (u car : String) :
    ∃ l, (VerifyUserAcard go r u car).2.log = r.log ++ l ∧ noIncr l := by
  unfold VerifyUserAcard
  split
  · exact ⟨[], by simp, noIncr_nil⟩
  · obtain ⟨b, hlog, -⟩ := GetString_log r ("user:" ++ u ++ ":active_packages")
    rcases hg : GetString r ("user:" ++ u ++ ":active_packages") with ⟨⟨v, found, err⟩, r1⟩
    rw [hg] at hlog
    simp only at hlog ⊢
    cases err with
    | some e => exact ⟨_, hlog, noIncr_get _ _⟩
    | none =>
      simp only
      split
      · exact ⟨_, hlog, noIncr_get _ _⟩
      · obtain ⟨b1, hlog1, -⟩ := GetString_log r1 ("car_status:" ++ car)
        rcases hg1 : GetString r1 ("car_status:" ++ car) with ⟨⟨v1, found1, err1⟩, r2⟩
        rw [hg1] at hlog1
        simp only at hlog1 ⊢
        have hl : r2.log = r.log ++ ([(Cmd.get (getKey ("user:" ++ u ++ ":active_packages")), b)] ++
            [(Cmd.get (getKey ("car_status:" ++ car)), b1)]) := by
          rw [hlog1, hlog, List.append_assoc]
        have hn := noIncr_append (noIncr_get (getKey ("user:" ++ u ++ ":active_packages")) b)
          (noIncr_get (getKey ("car_status:" ++ car)) b1)
        cases err1 with
        | some e => exact ⟨_, hl, hn⟩
        | none =>
          simp only
          split <;> exact ⟨_, hl, hn⟩

end Internal
end LimitService
namespace LimitService

namespace Internal

/-- Only non-empty credentials pass the token check of `internal/auth`. -/
theorem VerifyTokenNoHeader_valid_nonempty (r : Redis) (u tok : String)
    (h : (VerifyTokenNoHeader r u tok).1 = (true, none)) : tok ≠ "" ∧ u ≠ "" := by
  unfold VerifyTokenNoHeader at h
  by_cases hcond : (decide (u = "") || decide (tok = "")) = true
  · simp [hcond] at h
  · simp only [Bool.or_eq_true, decide_eq_true_eq, not_or] at hcond
    exact ⟨hcond.2, hcond.1⟩

/-- A passed token check in `internal/auth` is one successful lookup and no write. -/
theorem VerifyTokenNoHeader_valid (r : Redis) (u tok : String)
    (h : (VerifyTokenNoHeader r u tok).1 = (true, none)) :
    (VerifyTokenNoHeader r u tok).2.kv = r.kv ∧
    (VerifyTokenNoHeader r u tok).2.log = r.log ++ [(.get (getKey ("xtoken_" ++ u)), false)] := by
  refine ⟨VerifyTokenNoHeader_kv r u tok, ?_⟩
  unfold VerifyTokenNoHeader at h ⊢
  by_cases hcond : (decide (u = "") || decide (tok = "")) = true
  · simp [hcond] at h
  · simp only [hcond, if_false, Bool.false_eq_true] at h ⊢
    obtain ⟨b, hlog, herr⟩ := GetString_log r ("xtoken_" ++ u)
    rcases hg : GetString r ("xtoken_" ++ u) with ⟨⟨v, found, err⟩, r1⟩
    rw [hg] at hlog herr h
    simp only at hlog herr h ⊢
    cases err with
    | some e => simp at h
    | none =>
      have hb : b = false := by
        cases b
        · rfl
        · exact absurd (herr rfl).1 (by simp)
      subst hb
      simp only
      cases found <;> exact hlog

end Internal

namespace Tools

theorem VerifyTokenNoHeader_kv_tools (r : Redis) (u tok : String) :
    (VerifyTokenNoHeader r u tok).2.kv = r.kv := by
  unfold VerifyTokenNoHeader
  obtain ⟨b, hb⟩ := issue_shape r (.get (getKey ("xtoken_" ++ u)))
  simp only [GetString, Redis.clientGet, hb]
  cases b with
  | true => rfl
  | false =>
    simp only [Bool.false_eq_true, if_false]
    cases hk : r.kv (getKey ("xtoken_" ++ u)) <;> simp

/-- A passed token check in `tools` is one successful lookup and no write. -/
theorem VerifyTokenNoHeader_valid_tools (r : Redis) (u tok : String)
    (h : (VerifyTokenNoHeader r u tok).1 = (true, none)) :
    (VerifyTokenNoHeader r u tok).2.kv = r.kv ∧
    (VerifyTokenNoHeader r u tok).2.log = r.log ++ [(.get (getKey ("xtoken_" ++ u)), false)] := by
  refine ⟨VerifyTokenNoHeader_kv_tools r u tok, ?_⟩
  unfold VerifyTokenNoHeader at h ⊢
  obtain ⟨b, hlog, herr⟩ := GetString_log_tools r ("xtoken_" ++ u)
  rcases hg : GetString r ("xtoken_" ++ u) with ⟨⟨v, err⟩, r1⟩
  rw [hg] at hlog herr h
  simp only at hlog herr h ⊢
  cases err with
  | some e =>
    simp only at h
    split at h <;> simp at h
  | none =>
    have hb : b = false := by
      cases b
      · rfl
      · have := herr rfl
        simp at this
    subst hb
    exact hlog

end Tools

end LimitService
namespace LimitService

/-! ## C1 -/

/-- C1 (amended): for a rule `(N, w)` whose window fits a `time.Duration`
(`0 < w` and `w * 10^9 < 2^63`), on a store that answers every command, with the
tier marker equal to the tier and the counter absent or `0`: the first `N`
consecutive calls of `GetStarLimit` are allowed, the next one is denied without
an error, and after `k ≤ N + 1` calls the stored count is `min k N`; in both
copies of the limiter. -/
theorem quota_allows_exactly_N :
    (∀ (go : GoLib) (limitRules : LimitData) (xuserid model : String) (N : Nat) (w : Int)
        (r : Redis),
      Internal.Ready go limitRules xuserid model N w r 0 → 0 < w → w * 1000000000 < 2 ^ 63 →
      (∀ k, k < N →
        (Internal.GetStarLimit go limitRules (Internal.calls go limitRules xuserid model k r)
          xuserid model).1 = ⟨true, "允许发送消息", none⟩) ∧
      ((Internal.GetStarLimit go limitRules (Internal.calls go limitRules xuserid model N r)
          xuserid model).1.ok = false ∧
        (Internal.GetStarLimit go limitRules (Internal.calls go limitRules xuserid model N r)
          xuserid model).1.err = none) ∧
      (∀ k, k ≤ N + 1 →
        storedCount (Internal.calls go limitRules xuserid model k r).kv
          (getKey (Internal.redisKey xuserid (Internal.tierOf go r.kv xuserid) model)) =
            some ((min k N : Nat) : Int))) ∧
    (∀ (go : GoLib) (limitData : LimitData) (xuserid model : String) (N : Nat) (w : Int)
        (r : Redis),
      Tools.Ready go limitData xuserid model N w r 0 → 0 < w → w * 1000000000 < 2 ^ 63 →
      (∀ k, k < N →
        (Tools.GetStarLimit go limitData (Tools.calls go limitData xuserid model k r)
          xuserid model).1 = ⟨true, "允许发送消息", none⟩) ∧
      ((Tools.GetStarLimit go limitData (Tools.calls go limitData xuserid model N r)
          xuserid model).1.ok = false ∧
        (Tools.GetStarLimit go limitData (Tools.calls go limitData xuserid model N r)
          xuserid model).1.err = none) ∧
      (∀ k, k ≤ N + 1 →
        storedCount (Tools.calls go limitData xuserid model k r).kv
          (getKey (Tools.redisKey xuserid (Tools.tierOf go r.kv xuserid) model)) =
            some ((min k N : Nat) : Int))) := by
  constructor
  · intro go rules u m N w r hR hw hfit
    have hN2 : N < 2 ^ 63 := by
      have := Internal.parseLimit_count_range _ _ _ hR.2.1.2
      exact_mod_cast this
    have hready := Internal.calls_ready go rules u m N w r hR hw hfit
    have hdeny := Internal.GetStarLimit_deny go rules u m N w _ N (hready N le_rfl) hw hN2 le_rfl
    refine ⟨fun k hk => (Internal.GetStarLimit_allow go rules u m N w _ k
      (hready k (by omega)) hw hfit hk).1, ⟨by rw [hdeny.1], by rw [hdeny.1]⟩, ?_⟩
    intro k hk
    by_cases hkN : k ≤ N
    · have := Internal.ready_storedCount go rules u m N w _ k (hready k hkN) (by omega)
      rw [Internal.ready_tierOf_calls go rules u m N w r hR hw hfit k (by omega)] at this
      rw [this, Nat.min_eq_left hkN]
    · have hk1 : k = N + 1 := by omega
      subst hk1
      have := Internal.ready_storedCount go rules u m N w _ N (hready N le_rfl) hN2
      rw [Internal.ready_tierOf_calls go rules u m N w r hR hw hfit N (by omega)] at this
      show storedCount (Internal.GetStarLimit go rules (Internal.calls go rules u m N r) u m).2.kv _ = _
      rw [hdeny.2.1, this, Nat.min_eq_right (by omega)]
  · intro go rules u m N w r hR hw hfit
    have hN2 : N < 2 ^ 63 := by
      have := Tools.parseLimit_count_range_tools _ _ _ hR.2.1.2
      exact_mod_cast this
    have hready := Tools.calls_ready_tools go rules u m N w r hR hw hfit
    have hdeny := Tools.GetStarLimit_deny_tools go rules u m N w _ N (hready N le_rfl) hN2 le_rfl
    refine ⟨fun k hk => (Tools.GetStarLimit_allow_tools go rules u m N w _ k
      (hready k (by omega)) hw hfit hk).1, ⟨by rw [hdeny.1], by rw [hdeny.1]⟩, ?_⟩
    intro k hk
    by_cases hkN : k ≤ N
    · have := Tools.ready_storedCount_tools go rules u m N w _ k (hready k hkN) (by omega)
      rw [Tools.ready_tierOf_calls_tools go rules u m N w r hR hw hfit k (by omega)] at this
      rw [this, Nat.min_eq_left hkN]
    · have hk1 : k = N + 1 := by omega
      subst hk1
      have := Tools.ready_storedCount_tools go rules u m N w _ N (hready N le_rfl) hN2
      rw [Tools.ready_tierOf_calls_tools go rules u m N w r hR hw hfit N (by omega)] at this
      show storedCount (Tools.GetStarLimit go rules (Tools.calls go rules u m N r) u m).2.kv _ = _
      rw [hdeny.2.1, this, Nat.min_eq_right (by omega)]


/-- C1, an instance of the amended claim: with the rule `2/1m` the third call is denied. -/
theorem quota_allows_exactly_N_witness :
    Internal.Ready sampleGo sampleRules "u" "gpt" 2 60 sampleRedis 0 ∧
    (Internal.GetStarLimit sampleGo sampleRules
      (Internal.calls sampleGo sampleRules "u" "gpt" 2 sampleRedis) "u" "gpt").1.ok = false :=
  have hR : Internal.Ready sampleGo sampleRules "u" "gpt" 2 60 sampleRedis 0 :=
    ⟨rfl, ⟨by decide, by rfl⟩, ⟨none, by decide⟩, Or.inl ⟨rfl, by decide⟩⟩
  ⟨hR, (quota_allows_exactly_N.1 sampleGo sampleRules "u" "gpt" 2 60 sampleRedis hR
    (by decide) (by decide)).2.1.1⟩

/-- C1 as stated fails: the rule `1/9223372037` has `maxCount = 1` and a positive
window, the marker equals the tier and the counter is absent, yet the second
call is allowed again, in both copies (the window times `time.Second` wraps to a
negative duration, and arming the counter with it deletes the counter). -/
theorem quota_huge_window_never_denies :
    (Internal.Ready sampleGo hugeWindowRules "u" "gpt" 1 9223372037 sampleRedis 0 ∧
      (0 : Int) < 9223372037 ∧
      (Internal.GetStarLimit sampleGo hugeWindowRules
        (Internal.calls sampleGo hugeWindowRules "u" "gpt" 1 sampleRedis) "u" "gpt").1.ok = true) ∧
    (Tools.Ready sampleGo hugeWindowRules "u" "gpt" 1 9223372037 sampleRedis 0 ∧
      (Tools.GetStarLimit sampleGo hugeWindowRules
        (Tools.calls sampleGo hugeWindowRules "u" "gpt" 1 sampleRedis) "u" "gpt").1.ok = true) := by
  refine ⟨⟨⟨rfl, ⟨by decide, by rfl⟩, ⟨none, by decide⟩, Or.inl ⟨rfl, by decide⟩⟩,
    by decide, by decide⟩,
    ⟨⟨rfl, ⟨by decide, by rfl⟩, ⟨none, by decide⟩, Or.inl ⟨rfl, by decide⟩⟩, by decide⟩⟩

end LimitService
namespace LimitService

/-! ## C2 -/

/-- C2 (amended): on a store that answers every command, for a rule `(M, w)`
whose window fits a `time.Duration` (`0 < w`, `w * 10^9 < 2^63`), when the tier
marker is absent or differs from the resolved tier (in `tools`: when the marker
text read, empty for an absent marker, differs from the tier), `GetStarLimit`
first writes `0` with lifetime `w` to the counter and the tier, without
lifetime, to the marker, only then reads the counter, decides against the
count 0 (allowed exactly when `0 < M`) whatever the counter held before, and
leaves the marker equal to the tier. -/
theorem plan_change_resets_counter :
    (∀ (go : GoLib) (limitRules : LimitData) (xuserid model : String) (M w : Int) (r : Redis),
      r.faults = [] →
      Internal.getLimitRule limitRules (Internal.tierOf go r.kv xuserid) model ≠ "" →
      Internal.parseLimit (Internal.getLimitRule limitRules (Internal.tierOf go r.kv xuserid) model)
        = .ok (M, w) →
      0 < w → w * 1000000000 < 2 ^ 63 →
      (∀ e, r.kv (getKey (Internal.userPackageKey xuserid)) = some e →
        e.val ≠ Internal.tierOf go r.kv xuserid) →
      (Internal.GetStarLimit go limitRules r xuserid model).1.ok = decide (0 < M) ∧
      (Internal.GetStarLimit go limitRules r xuserid model).1.err = none ∧
      (Internal.GetStarLimit go limitRules r xuserid model).2.kv
          (getKey (Internal.userPackageKey xuserid)) =
        some ⟨Internal.tierOf go r.kv xuserid, none⟩ ∧
      (Internal.GetStarLimit go limitRules r xuserid model).2.kv
          (getKey (Internal.redisKey xuserid (Internal.tierOf go r.kv xuserid) model)) =
        some ⟨if 0 < M then "1" else "0", some (w * 1000)⟩ ∧
      (newLog r (Internal.GetStarLimit go limitRules r xuserid model).2).take 5 =
        [(.get (getKey ("user:" ++ xuserid ++ ":active_packages")), false),
          (.get (getKey (Internal.userPackageKey xuserid)), false),
          (.set (getKey (Internal.redisKey xuserid (Internal.tierOf go r.kv xuserid) model)) "0"
            (some (w * 1000)), false),
          (.set (getKey (Internal.userPackageKey xuserid)) (Internal.tierOf go r.kv xuserid) none,
            false),
          (.get (getKey (Internal.redisKey xuserid (Internal.tierOf go r.kv xuserid) model)),
            false)]) ∧
    (∀ (go : GoLib) (limitData : LimitData) (xuserid model : String) (M w : Int) (r : Redis),
      r.faults = [] →
      Tools.getLimitRules limitData (Tools.tierOf go r.kv xuserid) model ≠ "" →
      Tools.parseLimit (Tools.getLimitRules limitData (Tools.tierOf go r.kv xuserid) model)
        = .ok (M, w) →
      0 < w → w * 1000000000 < 2 ^ 63 →
      (match r.kv (getKey (Tools.userPackageKey xuserid)) with
        | none => ""
        | some e => e.val) ≠ Tools.tierOf go r.kv xuserid →
      (Tools.GetStarLimit go limitData r xuserid model).1.ok = decide (0 < M) ∧
      (Tools.GetStarLimit go limitData r xuserid model).1.err = none ∧
      (Tools.GetStarLimit go limitData r xuserid model).2.kv
          (getKey (Tools.userPackageKey xuserid)) =
        some ⟨Tools.tierOf go r.kv xuserid, none⟩ ∧
      (Tools.GetStarLimit go limitData r xuserid model).2.kv
          (getKey (Tools.redisKey xuserid (Tools.tierOf go r.kv xuserid) model)) =
        some ⟨if 0 < M then "1" else "0", some (w * 1000)⟩ ∧
      (newLog r (Tools.GetStarLimit go limitData r xuserid model).2).take 5 =
        [(.get (getKey ("user:" ++ xuserid ++ ":active_packages")), false),
          (.get (getKey (Tools.userPackageKey xuserid)), false),
          (.set (getKey (Tools.redisKey xuserid (Tools.tierOf go r.kv xuserid) model)) "0"
            (some (w * 1000)), false),
          (.set (getKey (Tools.userPackageKey xuserid)) (Tools.tierOf go r.kv xuserid) none,
            false),
          (.get (getKey (Tools.redisKey xuserid (Tools.tierOf go r.kv xuserid) model)),
            false)]) := by
  constructor
  · intro go rules u m M w r h hne hparse hw hfit hm
    rw [Internal.GetStarLimit_changed go rules u m M w r h hne hparse hw hfit hm]
    have hmc := Internal.marker_ne_counter u (Internal.tierOf go r.kv u) m
    by_cases hM : 0 < M
    · simp only [hM, if_true, decide_True, newLog_append, Store.put_same,
        Store.put_other _ _ _ _ hmc, List.take, and_self]
    · simp only [hM, if_false, decide_False, newLog_append, Store.put_same,
        Store.put_other _ _ _ _ hmc.symm, List.take, and_self]
  · intro go rules u m M w r h hne hparse hw hfit hm
    rw [Tools.GetStarLimit_changed_tools go rules u m M w r h hne hparse hw hfit hm]
    have hmc := Tools.marker_ne_counter_tools u (Tools.tierOf go r.kv u) m
    by_cases hM : 0 < M
    · simp only [hM, if_true, decide_True, newLog_append, Store.put_same,
        Store.put_other _ _ _ _ hmc, List.take, and_self]
    · simp only [hM, if_false, decide_False, newLog_append, Store.put_same,
        Store.put_other _ _ _ _ hmc.symm, List.take, and_self]

/-- C2, an instance of the amended claim: user `u` on the empty store (no
marker) with the rule `2/1m` is allowed and the marker becomes `free`. -/
theorem plan_change_resets_counter_witness :
    (Internal.GetStarLimit sampleGo sampleRules emptyRedis "u" "gpt").1.ok = decide ((0 : Int) < 2) ∧
    (Internal.GetStarLimit sampleGo sampleRules emptyRedis "u" "gpt").2.kv
      (getKey (Internal.userPackageKey "u")) = some ⟨"free", none⟩ :=
  have h := plan_change_resets_counter.1 sampleGo sampleRules "u" "gpt" 2 60 emptyRedis rfl
    (by decide) (by decide) (by decide) (by decide) (fun e he => by simp [emptyRedis] at he)
  ⟨h.1, h.2.2.1⟩

/-- C2 as stated fails. In `tools`, user `v` resolves to the tier `""`, has no
marker and a counter at 7 under the rule `5/1h`: nothing is reset, the call is
denied against the count 7 and the marker is still absent afterwards. In
`internal`, under the rule `1/9223372037` the reset writes the counter without
any lifetime. -/
theorem plan_change_not_always_reset :
    (Tools.tierOf sampleGo emptyTierStore "v" = "" ∧
      emptyTierStore (getKey (Tools.userPackageKey "v")) = none ∧
      (Tools.GetStarLimit sampleGo fiveAnHour ⟨emptyTierStore, [], []⟩ "v" "gpt").1.ok = false ∧
      (Tools.GetStarLimit sampleGo fiveAnHour ⟨emptyTierStore, [], []⟩ "v" "gpt").2.kv
        (getKey (Tools.userPackageKey "v")) = none ∧
      (Tools.GetStarLimit sampleGo fiveAnHour ⟨emptyTierStore, [], []⟩ "v" "gpt").2.kv
        (getKey (Tools.redisKey "v" "" "gpt")) = some ⟨"7", some 1000000⟩) ∧
    ((Cmd.set (getKey (Internal.redisKey "u" "free" "gpt")) "0" none, false) ∈
      (Internal.GetStarLimit sampleGo hugeWindowRules emptyRedis "u" "gpt").2.log) := by
  refine ⟨⟨by decide, by decide, by decide, by decide, by decide⟩, by decide⟩

end LimitService
namespace LimitService

/-! ## C3 -/

/-- C3 (amended): in `internal/limiter`, a failure of the read of the
subscription record, of the counter reset, of the marker write or of the
increment makes `GetStarLimit` return an error and no allowed decision (the
reads of the marker and of the counter and the arming `expire` are the calls
whose failure it tolerates); in `tools/limit_tools`, a failure of any store
call makes `GetStarLimit` return an error and no allowed decision. This holds for
every fault schedule. -/
theorem store_failures_surface :
    (∀ (go : GoLib) (limitRules : LimitData) (r : Redis) (xuserid model : String) (c : Cmd),
      (c, true) ∈ newLog r (Internal.GetStarLimit go limitRules r xuserid model).2 →
      Internal.fatal xuserid c = true →
      (Internal.GetStarLimit go limitRules r xuserid model).1.err.isSome = true ∧
      (Internal.GetStarLimit go limitRules r xuserid model).1.ok = false) ∧
    (∀ (go : GoLib) (limitData : LimitData) (r : Redis) (xuserid model : String) (c : Cmd),
      (c, true) ∈ newLog r (Tools.GetStarLimit go limitData r xuserid model).2 →
      (Tools.GetStarLimit go limitData r xuserid model).1.err.isSome = true ∧
      (Tools.GetStarLimit go limitData r xuserid model).1.ok = false) := by
  constructor
  · intro go rules r u m c hc hf
    obtain ⟨l, hlog, h⟩ := Internal.GetStarLimit_fatal go rules r u m
    rw [newLog_of_log _ _ _ hlog] at hc
    exact h c hc hf
  · intro go rules r u m c hc
    obtain ⟨l, hlog, h⟩ := Tools.GetStarLimit_failure_tools go rules r u m
    rw [newLog_of_log _ _ _ hlog] at hc
    exact h c hc

/-- C3, an instance of the amended claim: when the fourth command of a call on
the empty store, the write of the marker, fails, the call returns an error. -/
theorem store_failures_surface_witness :
    (Internal.GetStarLimit sampleGo sampleRules ⟨fun _ => none, [false, false, false, true], []⟩
      "u" "gpt").1.err.isSome = true ∧
    (Internal.GetStarLimit sampleGo sampleRules ⟨fun _ => none, [false, false, false, true], []⟩
      "u" "gpt").1.ok = false :=
  store_failures_surface.1 sampleGo sampleRules ⟨fun _ => none, [false, false, false, true], []⟩
    "u" "gpt" (.set (getKey (Internal.userPackageKey "u")) "free" none) (by decide) (by decide)

/-- C3 as stated fails in `internal/limiter`: user `u` has used up the rule
`2/1m`; when the read of the tier marker fails the call is allowed, and when the
read of the counter fails the call is allowed as well. -/
theorem tolerated_failures_allow :
    ((Cmd.get (getKey (Internal.userPackageKey "u")), true) ∈
        (Internal.GetStarLimit sampleGo sampleRules ⟨atLimitStore, [false, true], []⟩
          "u" "gpt").2.log ∧
      (Internal.GetStarLimit sampleGo sampleRules ⟨atLimitStore, [false, true], []⟩
          "u" "gpt").1 = ⟨true, "允许发送消息", none⟩) ∧
    ((Cmd.get (getKey (Internal.redisKey "u" "free" "gpt")), true) ∈
        (Internal.GetStarLimit sampleGo sampleRules ⟨atLimitStore, [false, false, true], []⟩
          "u" "gpt").2.log ∧
      (Internal.GetStarLimit sampleGo sampleRules ⟨atLimitStore, [false, false, true], []⟩
          "u" "gpt").1 = ⟨true, "允许发送消息", none⟩) := by
  refine ⟨⟨by decide, by decide⟩, ⟨by decide, by decide⟩⟩

end LimitService
namespace LimitService

/-! ## C4 -/

/-- C4 (amended): for a user whose resolved level is `free`, `base` or `mini`,
on a store that answers every command. In `internal/auth`, for non-empty user
and car IDs, `VerifyUserAcard` returns no error and allows exactly when the car
record exists, is not empty, decodes to an object and has a string label whose
lower-case form is `mini` or `free`. In `tools/check_tools`, a record with a
string label gives the same decision without error, while a missing record, a
record that is not an object or a label that is not a string gives an error
and no allow. -/
theorem restricted_tier_needs_label :
    (∀ (go : GoLib) (r : Redis) (xuserid carid : String),
      r.faults = [] → xuserid ≠ "" → carid ≠ "" →
      restricted (Internal.levelOf go r.kv xuserid) →
      (Internal.VerifyUserAcard go r xuserid carid).1 =
        ((match Internal.labelOf go r.kv carid with
          | some label => go.ToLower label == "mini" || go.ToLower label == "free"
          | none => false), none)) ∧
    (∀ (go : GoLib) (r : Redis) (xuserid carid lvl : String),
      r.faults = [] → Tools.levelOf go r.kv xuserid = .ok lvl → restricted lvl →
      match Tools.labelOf go r.kv carid with
      | some label =>
        (Tools.VerifyUserAcard go r xuserid carid).1 =
          (go.ToLower label == "mini" || go.ToLower label == "free", none)
      | none =>
        (Tools.VerifyUserAcard go r xuserid carid).1.1 = false ∧
        (Tools.VerifyUserAcard go r xuserid carid).1.2.isSome = true) :=
  ⟨fun go r u car h hu hcar hres => Internal.VerifyUserAcard_restricted go r u car h hu hcar hres,
   fun go r u car lvl h hlvl hres =>
     Tools.VerifyUserAcard_restricted_tools go r u car lvl h hlvl hres⟩

/-- C4, an instance of the amended claim: the free user `u` is denied the car
`c2`, labelled `plus`, without an error. -/
theorem restricted_tier_needs_label_witness :
    (Internal.VerifyUserAcard sampleGo carRedis "u" "c2").1 = (false, none) :=
  restricted_tier_needs_label.1 sampleGo carRedis "u" "c2" rfl (by decide) (by decide)
    (by decide)

/-- C4 as stated fails: in `tools` the free user `u` asking for the unknown car
`c9` gets an error, not a deny; and in both copies the car `c1`, whose label is
`MINI` and not `mini`, is allowed. -/
theorem missing_car_is_error_in_tools :
    restricted (Internal.levelOf sampleGo carStore "u") ∧
    Tools.levelOf sampleGo carStore "u" = .ok "free" ∧
    carStore (getKey ("car_status:" ++ "c9")) = none ∧
    (Tools.VerifyUserAcard sampleGo carRedis "u" "c9").1.2.isSome = true ∧
    Internal.labelOf sampleGo carStore "c1" = some "MINI" ∧
    (Internal.VerifyUserAcard sampleGo carRedis "u" "c1").1 = (true, none) ∧
    (Tools.VerifyUserAcard sampleGo carRedis "u" "c1").1 = (true, none) := by
  refine ⟨by decide, by decide, by decide, by decide, by decide, by decide, by decide⟩

end LimitService
namespace LimitService

/-! ## C5 -/

/-- C5 (amended): for a user whose resolved level is outside `free`, `base`,
`mini`, on a store that answers every command, `VerifyUserAcard` allows without
error and without reading the car record: in `internal/auth` for every
non-empty user ID and car ID, in `tools/check_tools` for every car ID. -/
theorem unrestricted_tier_any_car :
    (∀ (go : GoLib) (r : Redis) (xuserid carid : String),
      r.faults = [] → xuserid ≠ "" → carid ≠ "" →
      ¬ restricted (Internal.levelOf go r.kv xuserid) →
      (Internal.VerifyUserAcard go r xuserid carid).1 = (true, none) ∧
      newLog r (Internal.VerifyUserAcard go r xuserid carid).2 =
        [(.get (getKey ("user:" ++ xuserid ++ ":active_packages")), false)]) ∧
    (∀ (go : GoLib) (r : Redis) (xuserid carid lvl : String),
      r.faults = [] → Tools.levelOf go r.kv xuserid = .ok lvl → ¬ restricted lvl →
      (Tools.VerifyUserAcard go r xuserid carid).1 = (true, none) ∧
      newLog r (Tools.VerifyUserAcard go r xuserid carid).2 =
        [(.get (getKey ("user:" ++ xuserid ++ ":active_packages")), false)]) := by
  constructor
  · intro go r u car h hu hcar hres
    rw [Internal.VerifyUserAcard_unrestricted go r u car h hu hcar hres]
    exact ⟨rfl, newLog_append _ _ _ _⟩
  · intro go r u car lvl h hlvl hres
    rw [Tools.VerifyUserAcard_unrestricted_tools go r u car lvl h hlvl hres]
    exact ⟨rfl, newLog_append _ _ _ _⟩

/-- C5, an instance of the amended claim: the `pro` user `p` may use the car
`c2`, labelled `plus`. -/
theorem unrestricted_tier_any_car_witness :
    (Internal.VerifyUserAcard sampleGo carRedis "p" "c2").1 = (true, none) :=
  (unrestricted_tier_any_car.1 sampleGo carRedis "p" "c2" rfl (by decide) (by decide)
    (by decide)).1

/-- C5 as stated fails in `internal/auth`: the `pro` user `p` with the empty car
ID is denied. -/
theorem empty_car_id_denied :
    ¬ restricted (Internal.levelOf sampleGo carStore "p") ∧
    (Internal.VerifyUserAcard sampleGo carRedis "p" "").1 = (false, none) := by
  refine ⟨by decide, by decide⟩

end LimitService
namespace LimitService

/-! ## C6 -/

/-- C6, the failing input in `tools/check_tools`: with an empty user ID and an
empty token `VerifyTokenNoHeader` looks the key `xtoken_` up; it returns valid
when that key holds the empty string, and an error when the lookup fails. -/
theorem tools_looks_up_empty_credentials :
    (Tools.VerifyTokenNoHeader carRedis "" "").1 = (true, none) ∧
    (Tools.VerifyTokenNoHeader carRedis "" "").2.log = [(.get "star:xtoken_", false)] ∧
    (Tools.VerifyTokenNoHeader ⟨carStore, [true], []⟩ "" "").1 = (false, some .io) := by
  refine ⟨by decide, by decide, by decide⟩

end LimitService
namespace LimitService

/-! ## C7 -/

/-- C7: with the matcher built from the lines of the keyword file, `StarAudit`
returns unsafe (`false`) for a non-empty text exactly when one of the configured
keywords (the trimmed non-blank lines) occurs in the text as a substring; in
`internal/auditor` and in `tools/audit_tools`. -/
theorem audit_rejects_iff_keyword_occurs (lines : List String) (text : String)
    (htext : text ≠ "") :
    (Internal.StarAudit (Internal.InitAuditor (some lines)) text = false ↔
      ∃ k ∈ keywordsOf lines, k.data <:+: text.data) ∧
    (Tools.StarAudit (Tools.InitKeyWords (some lines)) (some (.str text)) = false ↔
      ∃ k ∈ keywordsOf lines, k.data <:+: text.data) := by
  constructor
  · rw [InitAuditor_words, ← scan_hit_iff (keywordsOf lines) text.data 0]
    simp only [Internal.StarAudit, htext, if_false, Internal.Matcher.Match]
    split <;> simp_all
  · have h := scanDisjoint_hit_iff (keywordsOf lines) (keywordsOf_ne lines) text.data 0 0
    rw [List.drop_zero] at h
    rw [← h]
    simp only [Tools.StarAudit, Tools.InitKeyWords, Bool.not_true, Bool.false_eq_true, if_false,
      Tools.Automaton.FindAll]
    split <;> simp_all

/-- C7 at a concrete input: with the keyword lines `bomb` and ` gun `, the
text `a gun!` is unsafe. -/
theorem audit_rejects_iff_keyword_occurs_witness :
    Internal.StarAudit (Internal.InitAuditor (some ["bomb", "", " gun "])) "a gun!" = false :=
  (audit_rejects_iff_keyword_occurs ["bomb", "", " gun "] "a gun!" (by decide)).1.mpr
    ⟨"gun", by decide, by decide⟩

end LimitService
namespace LimitService

/-! ## C9 -/

/-- C9: in both handlers, for a request whose token check passes and whose body
binds to a request whose audited text contains one of the configured keywords,
the response is 400 "请珍惜账号, 不要提问违禁内容." (ContentRejected); the key space
of the store is left as it was, and the only command of the request is the
lookup of the token, so neither the quota counter nor the tier marker is read
or written. -/
theorem banned_text_rejected_before_quota :
    (∀ (go : GoLib) (bind : String → Except String AuditRequest) (lines : List String)
        (limitRules : LimitData) (r : Redis) (c : Context) (tok u : String) (req : AuditRequest),
      c.xtoken = some (.str tok) → c.xuserid = some (.str u) →
      (Internal.VerifyTokenNoHeader r u tok).1 = (true, none) →
      bind c.body = .ok req →
      (∃ k ∈ keywordsOf lines, k.data <:+: (promptOf req.Messages).data) →
      (Internal.AuditHandler go bind (Internal.InitAuditor (some lines)) limitRules r c).1 =
        ⟨400, "error", "请珍惜账号, 不要提问违禁内容."⟩ ∧
      (Internal.AuditHandler go bind (Internal.InitAuditor (some lines)) limitRules r c).2.kv =
        r.kv ∧
      newLog r (Internal.AuditHandler go bind (Internal.InitAuditor (some lines)) limitRules
        r c).2 = [(.get (getKey ("xtoken_" ++ u)), false)]) ∧
    (∀ (go : GoLib) (bind : String → Except String AuditRequest) (lines : List String)
        (limitData : LimitData) (r : Redis) (c : Context) (tok u : String) (req : AuditRequest),
      c.xtoken = some (.str tok) → c.xuserid = some (.str u) →
      (Tools.VerifyTokenNoHeader r u tok).1 = (true, none) →
      bind c.body = .ok req →
      (∃ k ∈ keywordsOf lines, k.data <:+: (promptOf req.Messages).data) →
      (Tools.auditHandler go bind (Tools.InitKeyWords (some lines)) limitData r c).1 =
        ⟨400, "error", "请珍惜账号, 不要提问违禁内容."⟩ ∧
      (Tools.auditHandler go bind (Tools.InitKeyWords (some lines)) limitData r c).2.kv = r.kv ∧
      newLog r (Tools.auditHandler go bind (Tools.InitKeyWords (some lines)) limitData r c).2 =
        [(.get (getKey ("xtoken_" ++ u)), false)]) := by
  constructor
  · intro go bind lines rules r c tok u req hx hu hv hb hkw
    obtain ⟨htok, hune⟩ := Internal.VerifyTokenNoHeader_valid_nonempty r u tok hv
    have hne := text_ne_of_keyword lines _ hkw
    have haudit : Internal.StarAudit (Internal.InitAuditor (some lines))
        (promptOf req.Messages) = false :=
      Internal.StarAudit_false_of_keyword lines _ hne hkw
    have e1 : Internal.VerifyTokenNoHeader r u tok =
        ((true, none), (Internal.VerifyTokenNoHeader r u tok).2) := Prod.ext hv rfl
    obtain ⟨hkv, hlog⟩ := Internal.VerifyTokenNoHeader_valid r u tok hv
    have hfinal : Internal.AuditHandler go bind (Internal.InitAuditor (some lines)) rules r c =
        (⟨400, "error", "请珍惜账号, 不要提问违禁内容."⟩,
          (Internal.VerifyTokenNoHeader r u tok).2) := by
      unfold Internal.AuditHandler
      rw [hx, hu]
      simp only [htok, hune, decide_False, Bool.or_self, Bool.false_eq_true, if_false]
      rw [e1]
      simp only [Bool.not_true, Bool.false_eq_true, if_false, hb, haudit, Bool.not_false, if_true]
    rw [hfinal]
    exact ⟨rfl, hkv, newLog_of_log _ _ _ hlog⟩
  · intro go bind lines rules r c tok u req hx hu hv hb hkw
    have hne := text_ne_of_keyword lines _ hkw
    have haudit : Tools.StarAudit (Tools.InitKeyWords (some lines))
        (some (.str (promptOf req.Messages))) = false :=
      Tools.StarAudit_false_of_keyword_tools lines _ hkw
    have e1 : Tools.VerifyTokenNoHeader r u tok =
        ((true, none), (Tools.VerifyTokenNoHeader r u tok).2) := Prod.ext hv rfl
    obtain ⟨hkv, hlog⟩ := Tools.VerifyTokenNoHeader_valid_tools r u tok hv
    have hfinal : Tools.auditHandler go bind (Tools.InitKeyWords (some lines)) rules r c =
        (⟨400, "error", "请珍惜账号, 不要提问违禁内容."⟩,
          (Tools.VerifyTokenNoHeader r u tok).2) := by
      unfold Tools.auditHandler
      rw [hx, hu]
      simp only
      rw [e1]
      simp only [Bool.not_true, Bool.false_eq_true, if_false, hb, haudit, Bool.not_false, if_true]
    rw [hfinal]
    exact ⟨rfl, hkv, newLog_of_log _ _ _ hlog⟩

/-- C9 at a concrete input: the authenticated user `u` sends the text `a gun!`
while `gun` is a configured keyword: the answer is 400 and the store is untouched. -/
theorem banned_text_rejected_before_quota_witness :
    (Internal.AuditHandler sampleGo gunBind (Internal.InitAuditor (some ["gun"])) sampleRules
      carRedis sampleContext).1 = ⟨400, "error", "请珍惜账号, 不要提问违禁内容."⟩ ∧
    (Internal.AuditHandler sampleGo gunBind (Internal.InitAuditor (some ["gun"])) sampleRules
      carRedis sampleContext).2.kv = carStore :=
  have h := banned_text_rejected_before_quota.1 sampleGo gunBind ["gun"] sampleRules carRedis
    sampleContext "secret" "u" ⟨"next", "gpt", [⟨some [("parts", .arr [.str "a gun!"])]⟩]⟩
    rfl rfl (by decide) rfl ⟨"gun", by decide, by decide⟩
  ⟨h.1, h.2.1⟩

end LimitService
namespace LimitService

/-! ## C10 -/

/-- C10: `getLimitRule` (and `getLimitRules` of `tools`) returns the rule stored
for exactly `(tier, model)` when that entry exists; otherwise the entry `other`
of the tier when that exists; otherwise the global fallback rule, also when the
tier has no entry at all. -/
theorem rule_lookup_order (limitRules : LimitData) (tier model : String) :
    (∀ packageRules limit, limitRules.Chatgpt tier = some packageRules →
      packageRules model = some limit →
      Internal.getLimitRule limitRules tier model = limit ∧
      Tools.getLimitRules limitRules tier model = limit) ∧
    (∀ packageRules otherLimit, limitRules.Chatgpt tier = some packageRules →
      packageRules model = none → packageRules "other" = some otherLimit →
      Internal.getLimitRule limitRules tier model = otherLimit ∧
      Tools.getLimitRules limitRules tier model = otherLimit) ∧
    (∀ packageRules, limitRules.Chatgpt tier = some packageRules →
      packageRules model = none → packageRules "other" = none →
      Internal.getLimitRule limitRules tier model = limitRules.Other ∧
      Tools.getLimitRules limitRules tier model = limitRules.Other) ∧
    (limitRules.Chatgpt tier = none →
      Internal.getLimitRule limitRules tier model = limitRules.Other ∧
      Tools.getLimitRules limitRules tier model = limitRules.Other) := by
  refine ⟨?_, ?_, ?_, ?_⟩
  · intro pr limit hp hm
    simp [Internal.getLimitRule, Tools.getLimitRules, hp, hm]
  · intro pr other hp hm ho
    simp [Internal.getLimitRule, Tools.getLimitRules, hp, hm, ho]
  · intro pr hp hm ho
    simp [Internal.getLimitRule, Tools.getLimitRules, hp, hm, ho]
  · intro hp
    simp [Internal.getLimitRule, Tools.getLimitRules, hp]

/-- C10 at a concrete input: for the tier `pro` the model `gpt-4` has its own
rule, the model `o1` falls back to the entry `other` of the tier, and the tier
`free`, which has no entry, falls back to the global rule. -/
theorem rule_lookup_order_witness :
    Internal.getLimitRule tieredRules "pro" "gpt-4" = "40/3h" ∧
    Internal.getLimitRule tieredRules "pro" "o1" = "100/1h" ∧
    Tools.getLimitRules tieredRules "free" "gpt-4" = "5/1d" :=
  ⟨((rule_lookup_order tieredRules "pro" "gpt-4").1
      (fun model => if model = "gpt-4" then some "40/3h"
        else if model = "other" then some "100/1h" else none) "40/3h" rfl rfl).1,
   ((rule_lookup_order tieredRules "pro" "o1").2.1
      (fun model => if model = "gpt-4" then some "40/3h"
        else if model = "other" then some "100/1h" else none) "100/1h" rfl (by decide)
        (by decide)).1,
   ((rule_lookup_order tieredRules "free" "gpt-4").2.2.2 rfl).2⟩

end LimitService
namespace LimitService

/-! ## Decimal text, continued -/

theorem parseDigits_digits : ∀ (L : List Char) (acc n : Nat), parseDigits L acc = some n →
    ∀ c ∈ L, digitVal c ≠ none := by
  intro L
  induction L with
  | nil => intro _ _ _ c hc; simp at hc
  | cons d ds ih =>
    intro acc n h c hc
    unfold parseDigits at h
    cases hd : digitVal d with
    | none => rw [hd] at h; simp at h
    | some v =>
      rw [hd] at h
      simp only at h
      rcases List.mem_cons.mp hc with hc | hc
      · subst hc; rw [hd]; simp
      · exact ih _ _ h c hc

theorem parseUnsigned_digits (ds : List Char) (n : Nat) (h : parseUnsigned ds = some n) :
    ds ≠ [] ∧ ∀ c ∈ ds, digitVal c ≠ none := by
  cases ds with
  | nil => simp [parseUnsigned] at h
  | cons d ds => exact ⟨by simp, parseDigits_digits _ _ _ (by simpa [parseUnsigned] using h)⟩

/-- The texts `Atoi` accepts: an optional sign, then digits, at least one. -/
theorem Atoi_shape (s : String) (i : Int) (h : Atoi s = .ok i) :
    ∃ sign ds, s.data = sign ++ ds ∧ (sign = [] ∨ sign = ['-'] ∨ sign = ['+']) ∧
      ds ≠ [] ∧ ∀ c ∈ ds, digitVal c ≠ none := by
  unfold Atoi at h
  split at h
  · rename_i ds heq
    cases hp : parseUnsigned ds with
    | none => rw [hp] at h; simp at h
    | some n =>
      obtain ⟨h1, h2⟩ := parseUnsigned_digits ds n hp
      exact ⟨['-'], ds, by rw [heq]; rfl, Or.inr (Or.inl rfl), h1, h2⟩
  · rename_i ds heq
    cases hp : parseUnsigned ds with
    | none => rw [hp] at h; simp at h
    | some n =>
      obtain ⟨h1, h2⟩ := parseUnsigned_digits ds n hp
      exact ⟨['+'], ds, by rw [heq]; rfl, Or.inr (Or.inr rfl), h1, h2⟩
  · cases hp : parseUnsigned s.data with
    | none => rw [hp] at h; simp at h
    | some n =>
      obtain ⟨h1, h2⟩ := parseUnsigned_digits s.data n hp
      exact ⟨[], s.data, rfl, Or.inl rfl, h1, h2⟩

theorem Atoi_mem (s : String) (i : Int) (h : Atoi s = .ok i) :
    ∀ c ∈ s.data, digitVal c ≠ none ∨ c = '-' ∨ c = '+' := by
  obtain ⟨sign, ds, hs, hsign, _, hds⟩ := Atoi_shape s i h
  intro c hc
  rw [hs] at hc
  rcases List.mem_append.mp hc with hc | hc
  · rcases hsign with e | e | e <;> subst e <;> simp at hc
    · exact Or.inr (Or.inl hc)
    · exact Or.inr (Or.inr hc)
  · exact Or.inl (hds c hc)

theorem Atoi_no_slash (s : String) (i : Int) (h : Atoi s = .ok i) : '/' ∉ s.data := by
  intro hc
  rcases Atoi_mem s i h _ hc with h1 | h1 | h1
  · exact h1 (by decide)
  · exact absurd h1 (by decide)
  · exact absurd h1 (by decide)

theorem Atoi_last (s : String) (i : Int) (h : Atoi s = .ok i) :
    ∃ c, s.data.getLast? = some c ∧ digitVal c ≠ none := by
  obtain ⟨sign, ds, hs, _, hne, hds⟩ := Atoi_shape s i h
  rw [hs]
  obtain ⟨c, hc⟩ : ∃ c, ds.getLast? = some c := by
    cases hl : ds.getLast? with
    | none => exact absurd (List.getLast?_eq_none_iff.mp hl) hne
    | some c => exact ⟨c, rfl⟩
  refine ⟨c, ?_, hds c (List.mem_of_getLast?_eq_some hc)⟩
  rw [List.getLast?_append, hc]
  rfl

/-- Reading back the decimal text of any `int64`. -/
theorem Atoi_Itoa (i : Int) (h1 : -(2 ^ 63) ≤ i) (h2 : i < 2 ^ 63) : Atoi (Itoa i) = .ok i := by
  cases i with
  | ofNat n =>
    have : n < 2 ^ 63 := by
      have : (n : Int) < 2 ^ 63 := h2
      exact_mod_cast this
    exact Atoi_Itoa_nat n this
  | negSucc m =>
    obtain ⟨hp, _⟩ := parseUnsigned_toDigits (m + 1)
    have hm : m + 1 ≤ 9223372036854775808 := by
      have : -(2 ^ 63 : Int) ≤ Int.negSucc m := h1
      rw [Int.negSucc_eq] at this
      omega
    have hI : (Itoa (Int.negSucc m)).data = '-' :: Nat.toDigits 10 (m + 1) := rfl
    unfold Atoi
    rw [hI]
    simp only [hp, Nat.reducePow, hm, if_true]
    rw [Int.negSucc_eq]
    push_cast
    rfl

end LimitService
namespace LimitService

/-! ## Splitting a rule -/

theorem splitSlash_ne_nil (l : List Char) : splitSlash l ≠ [] := by
  cases l with
  | nil => simp [splitSlash]
  | cons c cs =>
    unfold splitSlash
    split
    · simp
    · split <;> simp

theorem splitSlash_no_slash : ∀ (a : List Char), '/' ∉ a → splitSlash a = [a] := by
  intro a
  induction a with
  | nil => intro _; rfl
  | cons c cs ih =>
    intro h
    have hc : c ≠ '/' := fun e => h (by simp [e])
    have hcs : '/' ∉ cs := fun e => h (by simp [e])
    simp [splitSlash, ih hcs, hc]

theorem splitSlash_append : ∀ (a b : List Char), '/' ∉ a →
    splitSlash (a ++ '/' :: b) = a :: splitSlash b := by
  intro a
  induction a with
  | nil =>
    intro b _
    cases hb : splitSlash b with
    | nil => exact absurd hb (splitSlash_ne_nil b)
    | cons p ps => simp [splitSlash, hb]
  | cons c cs ih =>
    intro b h
    have hc : c ≠ '/' := fun e => h (by simp [e])
    have hcs : '/' ∉ cs := fun e => h (by simp [e])
    simp [splitSlash, ih b hcs, hc]

/-- A text with exactly one `/` splits into what is before and what is after it. -/
theorem Split_two (a b : String) (ha : '/' ∉ a.data) (hb : '/' ∉ b.data) :
    Split (a ++ "/" ++ b) = [a, b] := by
  have hd : (a ++ "/" ++ b).data = a.data ++ '/' :: b.data := by
    simp [String.data_append]
  unfold Split
  rw [hd, splitSlash_append _ _ ha, splitSlash_no_slash _ hb]
  rfl

theorem HasSuffix_unit (s : String) (c : Char) : HasSuffix (s ++ String.singleton c) c = true := by
  simp [HasSuffix, String.data_append, String.singleton]

theorem HasSuffix_other (s : String) (c d : Char) (h : c ≠ d) :
    HasSuffix (s ++ String.singleton c) d = false := by
  simp [HasSuffix, String.data_append, String.singleton, h]

theorem TrimSuffix_unit (s : String) (c : Char) : TrimSuffix (s ++ String.singleton c) c = s := by
  have hd : (s ++ String.singleton c).data.dropLast = s.data := by
    simp [String.data_append, String.singleton]
  unfold TrimSuffix
  rw [HasSuffix_unit, hd]
  rfl

/-- A text `Atoi` accepts ends in a digit, so in none of the units. -/
theorem HasSuffix_number (s : String) (i : Int) (h : Atoi s = .ok i) (c : Char)
    (hc : digitVal c = none) : HasSuffix s c = false := by
  obtain ⟨d, hd, hdig⟩ := Atoi_last s i h
  have : d ≠ c := fun e => hdig (e ▸ hc)
  simp [HasSuffix, hd, this]

theorem no_slash_unit (s : String) (i : Int) (h : Atoi s = .ok i) (c : Char) (hc : c ≠ '/') :
    '/' ∉ (s ++ String.singleton c).data := by
  simp only [String.data_append, String.singleton, List.mem_append, not_or]
  exact ⟨Atoi_no_slash s i h, by simp [hc.symm]⟩

end LimitService
namespace LimitService

/-! ## Rules in the grammar `count/duration` -/

theorem Split_rule_unit (sn sv : String) (n v : Int) (hn : Atoi sn = .ok n) (hv : Atoi sv = .ok v)
    (c : Char) (hc : c ≠ '/') :
    Split (sn ++ "/" ++ sv ++ String.singleton c) = [sn, sv ++ String.singleton c] := by
  rw [String.append_assoc (sn ++ "/")]
  exact Split_two sn _ (Atoi_no_slash sn n hn) (no_slash_unit sv v hv c hc)

theorem Split_rule_seconds (sn sv : String) (n v : Int) (hn : Atoi sn = .ok n)
    (hv : Atoi sv = .ok v) : Split (sn ++ "/" ++ sv) = [sn, sv] :=
  Split_two sn sv (Atoi_no_slash sn n hn) (Atoi_no_slash sv v hv)

/-- What `internal/limiter` reads from a rule whose count and duration value are
texts `Atoi` accepts. -/
theorem Internal.parseLimit_texts (sn sv : String) (n v : Int) (hn : Atoi sn = .ok n)
    (hv : Atoi sv = .ok v) :
    Internal.parseLimit (sn ++ "/" ++ sv ++ "h") = .ok (n, wrap64 (v * 3600)) ∧
    Internal.parseLimit (sn ++ "/" ++ sv ++ "d") = .ok (n, wrap64 (v * 86400)) ∧
    Internal.parseLimit (sn ++ "/" ++ sv ++ "m") = .ok (n, wrap64 (v * 60)) ∧
    Internal.parseLimit (sn ++ "/" ++ sv) = .ok (n, v) := by
  have hh : ("h" : String) = String.singleton 'h' := rfl
  have hd : ("d" : String) = String.singleton 'd' := rfl
  have hm : ("m" : String) = String.singleton 'm' := rfl
  refine ⟨?_, ?_, ?_, ?_⟩
  · rw [hh]
    simp only [Internal.parseLimit, Split_rule_unit sn sv n v hn hv 'h' (by decide), hn,
      Internal.durationParts, HasSuffix_unit, if_true, TrimSuffix_unit, hv, Internal.windowOf]
  · rw [hd]
    simp only [Internal.parseLimit, Split_rule_unit sn sv n v hn hv 'd' (by decide), hn,
      Internal.durationParts, HasSuffix_unit, HasSuffix_other sv 'd' 'h' (by decide),
      Bool.false_eq_true, if_false, if_true, TrimSuffix_unit, hv, Internal.windowOf]
    rfl
  · rw [hm]
    simp only [Internal.parseLimit, Split_rule_unit sn sv n v hn hv 'm' (by decide), hn,
      Internal.durationParts, HasSuffix_unit, HasSuffix_other sv 'm' 'h' (by decide),
      HasSuffix_other sv 'm' 'd' (by decide),
      Bool.false_eq_true, if_false, if_true, TrimSuffix_unit, hv, Internal.windowOf]
    rfl
  · simp only [Internal.parseLimit, Split_rule_seconds sn sv n v hn hv, hn,
      Internal.durationParts, HasSuffix_number sv v hv 'h' (by decide),
      HasSuffix_number sv v hv 'd' (by decide), HasSuffix_number sv v hv 'm' (by decide),
      Bool.false_eq_true, if_false, hv, Internal.windowOf]
    rfl

/-- What `tools/limit_tools` reads from such a rule. -/
theorem Tools.parseLimit_texts_tools (sn sv : String) (n v : Int) (hn : Atoi sn = .ok n)
    (hv : Atoi sv = .ok v) :
    Tools.parseLimit (sn ++ "/" ++ sv ++ "h") = .ok (n, wrap64 (v * 3600)) ∧
    Tools.parseLimit (sn ++ "/" ++ sv ++ "d") = .ok (n, wrap64 (v * 86400)) ∧
    Tools.parseLimit (sn ++ "/" ++ sv ++ "m") = .ok (n, wrap64 (v * 60)) ∧
    Tools.parseLimit (sn ++ "/" ++ sv) = .ok (n, v) := by
  have hh : ("h" : String) = String.singleton 'h' := rfl
  have hd : ("d" : String) = String.singleton 'd' := rfl
  have hm : ("m" : String) = String.singleton 'm' := rfl
  refine ⟨?_, ?_, ?_, ?_⟩
  · rw [hh]
    simp only [Tools.parseLimit, Split_rule_unit sn sv n v hn hv 'h' (by decide), hn,
      HasSuffix_unit, if_true, TrimSuffix_unit, hv]
  · rw [hd]
    simp only [Tools.parseLimit, Split_rule_unit sn sv n v hn hv 'd' (by decide), hn,
      HasSuffix_unit, HasSuffix_other sv 'd' 'h' (by decide),
      Bool.false_eq_true, if_false, if_true, TrimSuffix_unit, hv]
  · rw [hm]
    simp only [Tools.parseLimit, Split_rule_unit sn sv n v hn hv 'm' (by decide), hn,
      HasSuffix_unit, HasSuffix_other sv 'm' 'h' (by decide),
      HasSuffix_other sv 'm' 'd' (by decide),
      Bool.false_eq_true, if_false, if_true, TrimSuffix_unit, hv]
  · simp only [Tools.parseLimit, Split_rule_seconds sn sv n v hn hv, hn,
      HasSuffix_number sv v hv 'h' (by decide),
      HasSuffix_number sv v hv 'd' (by decide), HasSuffix_number sv v hv 'm' (by decide),
      Bool.false_eq_true, if_false, hv]

end LimitService
namespace LimitService

/-! ## Rules outside the grammar -/

theorem isDigit09_of_digitVal (c : Char) (h : digitVal c ≠ none) : isDigit09 c = true := by
  unfold digitVal at h
  split at h
  · rename_i hc
    simp [isDigit09, hc.1, hc.2]
  · exact absurd rfl h

theorem digits_of_parseUnsigned (ds : List Char) (n : Nat) (h : parseUnsigned ds = some n) :
    (!ds.isEmpty && ds.all isDigit09) = true := by
  obtain ⟨hne, hall⟩ := parseUnsigned_digits ds n h
  have h1 : ds.isEmpty = false := by
    cases ds with
    | nil => exact absurd rfl hne
    | cons _ _ => rfl
  have h2 : ds.all isDigit09 = true := by
    rw [List.all_eq_true]
    exact fun c hc => isDigit09_of_digitVal c (hall c hc)
  simp [h1, h2]

/-- What `Atoi` accepts is a decimal integer. -/
theorem Atoi_isDecimal (s : String) (i : Int) (h : Atoi s = .ok i) :
    isDecimalInteger s = true := by
  unfold Atoi at h
  unfold isDecimalInteger
  split at h
  · rename_i ds heq
    cases hp : parseUnsigned ds with
    | none => rw [hp] at h; simp at h
    | some n => exact digits_of_parseUnsigned ds n hp
  · rename_i ds heq
    cases hp : parseUnsigned ds with
    | none => rw [hp] at h; simp at h
    | some n => exact digits_of_parseUnsigned ds n hp
  · rename_i hm hp'
    cases hp : parseUnsigned s.data with
    | none => rw [hp] at h; simp at h
    | some n =>
      exact digits_of_parseUnsigned s.data n hp

theorem isDuration_of_suffix (d : String) (c : Char) (i : Int)
    (hc : c = 'h' ∨ c = 'd' ∨ c = 'm') (hs : HasSuffix d c = true)
    (h : Atoi (TrimSuffix d c) = .ok i) : isDuration d = true := by
  have hl : d.data.getLast? = some c := by
    simpa [HasSuffix] using hs
  have ht : TrimSuffix d c = ⟨d.data.dropLast⟩ := by simp [TrimSuffix, hs]
  rw [ht] at h
  have hdec := Atoi_isDecimal _ i h
  unfold isDuration
  rw [hl]
  simp only [hdec, Bool.and_true]
  rcases hc with e | e | e <;> subst e <;> simp

theorem Internal.durationParts_ok (d : String) (v : Int)
    (h : (Internal.durationParts d).2 = .ok v) : isDuration d = true := by
  unfold Internal.durationParts at h
  by_cases h1 : HasSuffix d 'h' = true
  · simp only [h1, if_true] at h
    exact isDuration_of_suffix d 'h' v (Or.inl rfl) h1 h
  · simp only [h1, if_false, Bool.false_eq_true] at h
    by_cases h2 : HasSuffix d 'd' = true
    · simp only [h2, if_true] at h
      exact isDuration_of_suffix d 'd' v (Or.inr (Or.inl rfl)) h2 h
    · simp only [h2, if_false, Bool.false_eq_true] at h
      by_cases h3 : HasSuffix d 'm' = true
      · simp only [h3, if_true] at h
        exact isDuration_of_suffix d 'm' v (Or.inr (Or.inr rfl)) h3 h
      · simp only [h3, if_false, Bool.false_eq_true] at h
        simp [isDuration, Atoi_isDecimal d v h]

/-- `internal/limiter` refuses every rule outside the grammar. -/
theorem Internal.parseLimit_malformed (s : String) (h : malformed s) :
    ∃ e, Internal.parseLimit s = .error e := by
  unfold malformed at h
  unfold Internal.parseLimit
  split
  · rename_i p0 d hS
    rw [hS] at h
    simp only at h
    cases hA : Atoi p0 with
    | error e => exact ⟨_, rfl⟩
    | ok count =>
      simp only
      cases hD : (Internal.durationParts d).2 with
      | error e => exact ⟨_, rfl⟩
      | ok value =>
        have h1 := Atoi_isDecimal p0 count hA
        have h2 := Internal.durationParts_ok d value hD
        rw [h1, h2] at h
        simp at h
  · exact ⟨_, rfl⟩

/-- `tools/limit_tools` refuses every rule outside the grammar. -/
theorem Tools.parseLimit_malformed_tools (s : String) (h : malformed s) :
    ∃ e, Tools.parseLimit s = .error e := by
  unfold malformed at h
  unfold Tools.parseLimit
  split
  · rename_i p0 d hS
    rw [hS] at h
    simp only at h
    cases hA : Atoi p0 with
    | error e => exact ⟨_, rfl⟩
    | ok count =>
      have h1 := Atoi_isDecimal p0 count hA
      rw [h1] at h
      have hd : isDuration d = false := by simpa using h
      simp only
      by_cases c1 : HasSuffix d 'h' = true
      · simp only [c1, if_true]
        cases hv : Atoi (TrimSuffix d 'h') with
        | error e => exact ⟨_, rfl⟩
        | ok v => rw [isDuration_of_suffix d 'h' v (Or.inl rfl) c1 hv] at hd; cases hd
      · simp only [c1, if_false, Bool.false_eq_true]
        by_cases c2 : HasSuffix d 'd' = true
        · simp only [c2, if_true]
          cases hv : Atoi (TrimSuffix d 'd') with
          | error e => exact ⟨_, rfl⟩
          | ok v =>
            rw [isDuration_of_suffix d 'd' v (Or.inr (Or.inl rfl)) c2 hv] at hd; cases hd
        · simp only [c2, if_false, Bool.false_eq_true]
          by_cases c3 : HasSuffix d 'm' = true
          · simp only [c3, if_true]
            cases hv : Atoi (TrimSuffix d 'm') with
            | error e => exact ⟨_, rfl⟩
            | ok v =>
              rw [isDuration_of_suffix d 'm' v (Or.inr (Or.inr rfl)) c3 hv] at hd; cases hd
          · simp only [c3, if_false, Bool.false_eq_true]
            cases hv : Atoi d with
            | error e => exact ⟨_, rfl⟩
            | ok v =>
              have : isDuration d = true := by simp [isDuration, Atoi_isDecimal d v hv]
              rw [this] at hd; cases hd
  · exact ⟨_, rfl⟩

end LimitService
namespace LimitService

/-! ## The read of the subscription record, whatever the store does -/

theorem issue_ok (r : Redis) (c : Cmd) (h : r.faults.head? ≠ some true) :
    r.issue c = (false, ⟨r.kv, r.faults.tail, r.log ++ [(c, false)]⟩) := by
  unfold Redis.issue
  cases hf : r.faults with
  | nil => rfl
  | cons b rest =>
    rw [hf] at h
    cases b with
    | true => exact absurd rfl h
    | false => rfl

theorem issue_cases (r : Redis) (c : Cmd) :
    r.issue c = (true, ⟨r.kv, r.faults.tail, r.log ++ [(c, true)]⟩) ∨
    (r.faults.head? ≠ some true ∧
      r.issue c = (false, ⟨r.kv, r.faults.tail, r.log ++ [(c, false)]⟩)) := by
  by_cases h : r.faults.head? = some true
  · left
    unfold Redis.issue
    cases hf : r.faults with
    | nil => rw [hf] at h; simp at h
    | cons b rest =>
      rw [hf] at h
      simp only [List.head?_cons, Option.some.injEq] at h
      subst h
      rfl
  · exact Or.inr ⟨h, issue_ok r c h⟩

namespace Internal

/-- The first store call of `GetStarLimit` when the store answers it. -/
theorem GetString_record_ok (go : GoLib) (r : Redis) (u : String)
    (h : r.faults.head? ≠ some true) :
    ∃ str found, GetString r ("user:" ++ u ++ ":active_packages") =
        ((str, found, none),
          ⟨r.kv, r.faults.tail,
            r.log ++ [(.get (getKey ("user:" ++ u ++ ":active_packages")), false)]⟩) ∧
      packageName go found str = tierOf go r.kv u := by
  have hi := issue_ok r (.get (getKey ("user:" ++ u ++ ":active_packages"))) h
  cases hk : r.kv (getKey ("user:" ++ u ++ ":active_packages")) with
  | none =>
    exact ⟨"", false, by simp [GetString, Redis.clientGet, hi, hk],
      by simp [tierOf, hk, packageName]⟩
  | some e =>
    exact ⟨e.val, true, by simp [GetString, Redis.clientGet, hi, hk], by simp [tierOf, hk]⟩

/-- The first store call of `GetStarLimit` when it fails. -/
theorem GetString_failed (r : Redis) (key : String)
    (h : r.issue (.get (getKey key)) =
      (true, ⟨r.kv, r.faults.tail, r.log ++ [(.get (getKey key), true)]⟩)) :
    GetString r key =
      (("", false, some (.wrapped ("从 Redis 获取键 " ++ key ++ " 失败") .io)),
        ⟨r.kv, r.faults.tail, r.log ++ [(.get (getKey key), true)]⟩) := by
  simp [GetString, Redis.clientGet, h]

/-- A rule that cannot be read ends `GetStarLimit` after its first store call. -/
theorem GetStarLimit_config_error (go : GoLib) (rules : LimitData) (r : Redis) (u m : String)
    (e : Err) (hne : getLimitRule rules (tierOf go r.kv u) m ≠ "")
    (hp : parseLimit (getLimitRule rules (tierOf go r.kv u) m) = .error e) :
    (GetStarLimit go rules r u m =
      (⟨false, "", some (.wrapped ("为用户 " ++ u ++ " 获取激活套餐失败")
          (.wrapped ("从 Redis 获取键 " ++ ("user:" ++ u ++ ":active_packages") ++ " 失败") .io))⟩,
        ⟨r.kv, r.faults.tail,
          r.log ++ [(.get (getKey ("user:" ++ u ++ ":active_packages")), true)]⟩)) ∨
    (r.faults.head? ≠ some true ∧
      GetStarLimit go rules r u m =
        (⟨false, "", some (.wrapped ("解析限速规则 \x27" ++ getLimitRule rules (tierOf go r.kv u) m ++
            "\x27 失败") e)⟩,
          ⟨r.kv, r.faults.tail,
            r.log ++ [(.get (getKey ("user:" ++ u ++ ":active_packages")), false)]⟩)) := by
  rcases issue_cases r (.get (getKey ("user:" ++ u ++ ":active_packages"))) with hb | ⟨hh, _⟩
  · left
    unfold GetStarLimit
    rw [GetString_failed r _ hb]
  · right
    refine ⟨hh, ?_⟩
    obtain ⟨str, found, hg, ht⟩ := GetString_record_ok go r u hh
    unfold GetStarLimit
    rw [hg]
    simp only [ht, hne, if_false, hp]

end Internal

namespace Tools

/-- The first store call of `GetStarLimit` when the store answers it. -/
theorem Get_record_ok_tools (go : GoLib) (r : Redis) (u : String)
    (h : r.faults.head? ≠ some true) :
    ∃ data, Get go r ("user:" ++ u ++ ":active_packages") =
        (.ok data,
          ⟨r.kv, r.faults.tail,
            r.log ++ [(.get (getKey ("user:" ++ u ++ ":active_packages")), false)]⟩) ∧
      packageType go data = tierOf go r.kv u ∧ level go data = levelOf go r.kv u := by
  have hi := issue_ok r (.get (getKey ("user:" ++ u ++ ":active_packages"))) h
  cases hk : r.kv (getKey ("user:" ++ u ++ ":active_packages")) with
  | none =>
    exact ⟨none, by simp [Get, Redis.clientGet, hi, hk], by simp [tierOf, hk],
      by simp [levelOf, hk]⟩
  | some e =>
    exact ⟨decode go e.val, by simp [Get, Redis.clientGet, hi, hk], by simp [tierOf, hk],
      by simp [levelOf, hk]⟩

theorem Get_failed_tools (go : GoLib) (r : Redis) (key : String)
    (h : r.issue (.get (getKey key)) =
      (true, ⟨r.kv, r.faults.tail, r.log ++ [(.get (getKey key), true)]⟩)) :
    Get go r key =
      (.error .io, ⟨r.kv, r.faults.tail, r.log ++ [(.get (getKey key), true)]⟩) := by
  simp [Get, Redis.clientGet, h]

/-- A rule that cannot be read ends `GetStarLimit` after its first store call. -/
theorem GetStarLimit_config_error_tools (go : GoLib) (rules : LimitData) (r : Redis)
    (u m : String) (e : Err) (hne : getLimitRules rules (tierOf go r.kv u) m ≠ "")
    (hp : parseLimit (getLimitRules rules (tierOf go r.kv u) m) = .error e) :
    (GetStarLimit go rules r u m =
      (⟨false, "", some (.wrapped "获取用户套餐信息失败" .io)⟩,
        ⟨r.kv, r.faults.tail,
          r.log ++ [(.get (getKey ("user:" ++ u ++ ":active_packages")), true)]⟩)) ∨
    (r.faults.head? ≠ some true ∧
      GetStarLimit go rules r u m =
        (⟨false, "", some (.wrapped "解析限制规则失败" e)⟩,
          ⟨r.kv, r.faults.tail,
            r.log ++ [(.get (getKey ("user:" ++ u ++ ":active_packages")), false)]⟩)) := by
  rcases issue_cases r (.get (getKey ("user:" ++ u ++ ":active_packages"))) with hb | ⟨hh, _⟩
  · left
    unfold GetStarLimit
    rw [Get_failed_tools go r _ hb]
  · right
    refine ⟨hh, ?_⟩
    obtain ⟨data, hg, ht, _⟩ := Get_record_ok_tools go r u hh
    unfold GetStarLimit
    rw [hg]
    simp only [ht, hne, if_false, hp]

end Tools

end LimitService
namespace LimitService

/-! ## The whole effect of a call without a plan change -/

namespace Internal

/-- `GetStarLimit_ready` with the commands sent so far. -/
theorem GetStarLimit_ready_log (go : GoLib) (rules : LimitData) (u m : String) (N : Nat)
    (w : Int) (r : Redis) (c : Nat) (hR : Ready go rules u m N w r c) (hw : 0 < w) :
    GetStarLimit go rules r u m =
      countAndConsume ⟨r.kv, [],
        r.log ++ [(.get (getKey ("user:" ++ u ++ ":active_packages")), false),
          (.get (getKey (userPackageKey u)), false)]⟩ u (tierOf go r.kv u) m N w := by
  obtain ⟨hf, ⟨hne, hparse⟩, ⟨ttl, hmark⟩, _⟩ := hR
  obtain ⟨str, found, hg, ht⟩ := GetString_record go r u hf
  have hpos : ¬ (w ≤ 0) := by omega
  unfold GetStarLimit
  rw [hg]
  simp only [ht, hne, if_false, hparse, hpos]
  rw [resetOnChange_same ⟨r.kv, [], _⟩ u _ m w ttl rfl hmark]
  simp only [List.append_assoc, List.singleton_append]

/-- First use of a window, the whole call. -/
theorem GetStarLimit_first (go : GoLib) (rules : LimitData) (u m : String) (N : Nat)
    (w : Int) (r : Redis) (hR : Ready go rules u m N w r 0) (hw : 0 < w)
    (hfit : w * 1000000000 < 2 ^ 63) (hN : 0 < N) :
    GetStarLimit go rules r u m =
      (⟨true, "允许发送消息", none⟩,
        ⟨r.kv.put (getKey (redisKey u (tierOf go r.kv u) m)) ⟨"1", some (w * 1000)⟩, [],
          r.log ++ [(.get (getKey ("user:" ++ u ++ ":active_packages")), false),
            (.get (getKey (userPackageKey u)), false),
            (.get (getKey (redisKey u (tierOf go r.kv u) m)), false),
            (.incr (getKey (redisKey u (tierOf go r.kv u) m)), false),
            (.expire (getKey (redisKey u (tierOf go r.kv u) m)) w, false)]⟩) := by
  rw [GetStarLimit_ready_log go rules u m N w r 0 hR hw]
  obtain ⟨_, _, _, hcnt⟩ := hR
  have hI : Itoa ((0 : Nat) : Int) = "0" := by decide
  have hc' : r.kv (getKey (redisKey u (tierOf go r.kv u) m)) = none ∨
      ∃ ttl, r.kv (getKey (redisKey u (tierOf go r.kv u) m)) = some ⟨"0", ttl⟩ := by
    rcases hcnt with ⟨_, hk⟩ | ⟨ttl, hk⟩
    · exact Or.inl hk
    · exact Or.inr ⟨ttl, by rw [← hI]; exact hk⟩
  rw [countAndConsume_first ⟨r.kv, [], _⟩ u _ m N w rfl hw hfit hc' (by exact_mod_cast hN)]
  simp only [List.append_assoc, List.cons_append, List.nil_append]

/-- A later use of a window, the whole call. -/
theorem GetStarLimit_next (go : GoLib) (rules : LimitData) (u m : String) (N : Nat)
    (w : Int) (r : Redis) (c : Nat) (ttl : Option Int) (hR : Ready go rules u m N w r c)
    (hw : 0 < w) (hc0 : 0 < c) (hc : c < N)
    (hk : r.kv (getKey (redisKey u (tierOf go r.kv u) m)) = some ⟨Itoa (c : Int), ttl⟩) :
    GetStarLimit go rules r u m =
      (⟨true, "允许发送消息", none⟩,
        ⟨r.kv.put (getKey (redisKey u (tierOf go r.kv u) m)) ⟨Itoa ((c : Int) + 1), ttl⟩, [],
          r.log ++ [(.get (getKey ("user:" ++ u ++ ":active_packages")), false),
            (.get (getKey (userPackageKey u)), false),
            (.get (getKey (redisKey u (tierOf go r.kv u) m)), false),
            (.incr (getKey (redisKey u (tierOf go r.kv u) m)), false)]⟩) := by
  rw [GetStarLimit_ready_log go rules u m N w r c hR hw]
  have hN2 : (N : Int) < 2 ^ 63 := parseLimit_count_range _ _ _ hR.2.1.2
  rw [countAndConsume_next ⟨r.kv, [], _⟩ u _ m N w c ttl rfl hN2 hc0 hk (by exact_mod_cast hc)]
  simp only [List.append_assoc, List.cons_append, List.nil_append]

end Internal

namespace Tools

/-- `GetStarLimit_ready_tools` with the commands sent so far. -/
theorem GetStarLimit_ready_log_tools (go : GoLib) (rules : LimitData) (u m : String) (N : Nat)
    (w : Int) (r : Redis) (c : Nat) (hR : Ready go rules u m N w r c) :
    GetStarLimit go rules r u m =
      countAndConsume ⟨r.kv, [],
        r.log ++ [(.get (getKey ("user:" ++ u ++ ":active_packages")), false),
          (.get (getKey (userPackageKey u)), false)]⟩ u (tierOf go r.kv u) m N w := by
  obtain ⟨hf, ⟨hne, hparse⟩, ⟨ttl, hmark⟩, _⟩ := hR
  obtain ⟨data, hg, ht⟩ := Get_record_tools go r u hf
  unfold GetStarLimit
  rw [hg]
  simp only [ht, hne, if_false, hparse]
  rw [resetOnChange_same_tools ⟨r.kv, [], _⟩ u _ m w ttl rfl hmark]
  simp only [List.append_assoc, List.singleton_append]

/-- First use of a window, the whole call. -/
theorem GetStarLimit_first_tools (go : GoLib) (rules : LimitData) (u m : String) (N : Nat)
    (w : Int) (r : Redis) (hR : Ready go rules u m N w r 0) (hw : 0 < w)
    (hfit : w * 1000000000 < 2 ^ 63) (hN : 0 < N) :
    GetStarLimit go rules r u m =
      (⟨true, "允许发送消息", none⟩,
        ⟨r.kv.put (getKey (redisKey u (tierOf go r.kv u) m)) ⟨"1", some (w * 1000)⟩, [],
          r.log ++ [(.get (getKey ("user:" ++ u ++ ":active_packages")), false),
            (.get (getKey (userPackageKey u)), false),
            (.get (getKey (redisKey u (tierOf go r.kv u) m)), false),
            (.incr (getKey (redisKey u (tierOf go r.kv u) m)), false),
            (.expire (getKey (redisKey u (tierOf go r.kv u) m)) w, false)]⟩) := by
  rw [GetStarLimit_ready_log_tools go rules u m N w r 0 hR]
  obtain ⟨_, _, _, hcnt⟩ := hR
  have hI : Itoa ((0 : Nat) : Int) = "0" := by decide
  have hc' : r.kv (getKey (redisKey u (tierOf go r.kv u) m)) = none ∨
      ∃ ttl, r.kv (getKey (redisKey u (tierOf go r.kv u) m)) = some ⟨"0", ttl⟩ := by
    rcases hcnt with ⟨_, hk⟩ | ⟨ttl, hk⟩
    · exact Or.inl hk
    · exact Or.inr ⟨ttl, by rw [← hI]; exact hk⟩
  rw [countAndConsume_first_tools ⟨r.kv, [], _⟩ u _ m N w rfl hw hfit hc' (by exact_mod_cast hN)]
  simp only [List.append_assoc, List.cons_append, List.nil_append]

/-- A later use of a window, the whole call. -/
theorem GetStarLimit_next_tools (go : GoLib) (rules : LimitData) (u m : String) (N : Nat)
    (w : Int) (r : Redis) (c : Nat) (ttl : Option Int) (hR : Ready go rules u m N w r c)
    (hc0 : 0 < c) (hc : c < N)
    (hk : r.kv (getKey (redisKey u (tierOf go r.kv u) m)) = some ⟨Itoa (c : Int), ttl⟩) :
    GetStarLimit go rules r u m =
      (⟨true, "允许发送消息", none⟩,
        ⟨r.kv.put (getKey (redisKey u (tierOf go r.kv u) m)) ⟨Itoa ((c : Int) + 1), ttl⟩, [],
          r.log ++ [(.get (getKey ("user:" ++ u ++ ":active_packages")), false),
            (.get (getKey (userPackageKey u)), false),
            (.get (getKey (redisKey u (tierOf go r.kv u) m)), false),
            (.incr (getKey (redisKey u (tierOf go r.kv u) m)), false)]⟩) := by
  rw [GetStarLimit_ready_log_tools go rules u m N w r c hR]
  have hN2 : (N : Int) < 2 ^ 63 := parseLimit_count_range_tools _ _ _ hR.2.1.2
  rw [countAndConsume_next_tools ⟨r.kv, [], _⟩ u _ m N w c ttl rfl hN2 hc0 hk
    (by exact_mod_cast hc)]
  simp only [List.append_assoc, List.cons_append, List.nil_append]

end Tools

end LimitService
namespace LimitService

/-! ## Where `internal/limiter` sends `expire` -/

namespace Internal

/-- The reset stage sends no `expire`. -/
theorem resetOnChange_no_expire (r : Redis) (u t m : String) (w : Int) :
    ∃ l, (resetOnChange r u t m w).2.log = r.log ++ l ∧
      ∀ k s b, (Cmd.expire k s, b) ∉ l := by
  unfold resetOnChange
  obtain ⟨b, hlog, -⟩ := GetString_log r (userPackageKey u)
  rcases hg : GetString r (userPackageKey u) with ⟨⟨sp, found, err⟩, r2⟩
  rw [hg] at hlog
  simp only at hlog ⊢
  by_cases hcond : (!found || sp != t) = true
  · simp only [hcond, if_true]
    obtain ⟨b1, hlog1, -⟩ := Set_log r2 (redisKey u t m) "0" (durationOfSeconds w)
    rcases hs1 : Set r2 (redisKey u t m) "0" (durationOfSeconds w) with ⟨e1, r3⟩
    rw [hs1] at hlog1
    simp only at hlog1
    cases e1 with
    | some e =>
      refine ⟨_, by rw [hlog1, hlog, List.append_assoc], ?_⟩
      intro k s b' hc
      simp at hc
    | none =>
      simp only
      obtain ⟨b2, hlog2, -⟩ := Set_log r3 (userPackageKey u) t 0
      rcases hs2 : Set r3 (userPackageKey u) t 0 with ⟨e2, r4⟩
      rw [hs2] at hlog2
      simp only at hlog2
      cases e2 with
      | some e =>
        refine ⟨_, by rw [hlog2, hlog1, hlog, List.append_assoc, List.append_assoc], ?_⟩
        intro k s b' hc
        simp at hc
      | none =>
        refine ⟨_, by rw [hlog2, hlog1, hlog, List.append_assoc, List.append_assoc], ?_⟩
        intro k s b' hc
        simp at hc
  · simp only [hcond, if_false]
    refine ⟨_, hlog, ?_⟩
    intro k s b' hc
    simp at hc

/-- The counting stage sends `expire` only on its way to the allowed result. -/
theorem countAndConsume_expire (r : Redis) (u t m : String) (M w : Int) :
    ∃ l, (countAndConsume r u t m M w).2.log = r.log ++ l ∧
      ∀ k s b, (Cmd.expire k s, b) ∈ l →
        (countAndConsume r u t m M w).1 = ⟨true, "允许发送消息", none⟩ := by
  unfold countAndConsume
  obtain ⟨b, hlog⟩ := GetInt_log r (redisKey u t m)
  rcases hg : GetInt r (redisKey u t m) with ⟨⟨count, foundCount, errCount⟩, r5'⟩
  rw [hg] at hlog
  simp only at hlog ⊢
  by_cases he : (errCount.isSome && foundCount) = true
  · simp only [he, if_true]
    refine ⟨_, hlog, ?_⟩
    intro k s b' hc
    simp at hc
  · simp only [he, if_false, Bool.false_eq_true]
    by_cases hge : (if (!foundCount) = true then 0 else count) ≥ M
    · simp only [hge, if_true]
      refine ⟨_, hlog, ?_⟩
      intro k s b' hc
      simp at hc
    · simp only [hge, if_false]
      obtain ⟨b1, hlog1, -⟩ := Incr_log r5' (redisKey u t m)
      rcases hi : Incr r5' (redisKey u t m) with ⟨res, r6⟩
      rw [hi] at hlog1
      simp only at hlog1
      cases res with
      | error e =>
        refine ⟨_, by rw [hlog1, hlog, List.append_assoc], ?_⟩
        intro k s b' hc
        simp at hc
      | ok newCount =>
        simp only
        by_cases h1 : newCount = 1
        · simp only [h1, if_true]
          obtain ⟨b2, hlog2⟩ := Expire_log r6 (redisKey u t m) (durationOfSeconds w)
          exact ⟨_, by rw [hlog2, hlog1, hlog, List.append_assoc, List.append_assoc],
            fun _ _ _ _ => trivial⟩
        · simp only [h1, if_false]
          exact ⟨_, by rw [hlog1, hlog, List.append_assoc], fun _ _ _ _ => trivial⟩

/-- `GetStarLimit` sends `expire` only on its way to the allowed result. -/
theorem GetStarLimit_expire (go : GoLib) (rules : LimitData) (r : Redis) (u m : String) :
    ∃ l, (GetStarLimit go rules r u m).2.log = r.log ++ l ∧
      ∀ k s b, (Cmd.expire k s, b) ∈ l →
        (GetStarLimit go rules r u m).1 = ⟨true, "允许发送消息", none⟩ := by
  unfold GetStarLimit
  obtain ⟨b, hlog, -⟩ := GetString_log r ("user:" ++ u ++ ":active_packages")
  rcases hg : GetString r ("user:" ++ u ++ ":active_packages") with ⟨⟨str, found, err⟩, r1⟩
  rw [hg] at hlog
  simp only at hlog ⊢
  have hnone : ∀ k s b', (Cmd.expire k s, b') ∈
      [(Cmd.get (getKey ("user:" ++ u ++ ":active_packages")), b)] → False := by
    intro k s b' hc
    simp at hc
  cases err with
  | some e => exact ⟨_, hlog, fun k s b' hc => (hnone k s b' hc).elim⟩
  | none =>
    simp only
    split
    · exact ⟨_, hlog, fun k s b' hc => (hnone k s b' hc).elim⟩
    · split
      · exact ⟨_, hlog, fun k s b' hc => (hnone k s b' hc).elim⟩
      · rename_i maxCount windowSeconds _
        split
        · exact ⟨_, hlog, fun k s b' hc => (hnone k s b' hc).elim⟩
        · obtain ⟨l1, hlog1, h1⟩ :=
            resetOnChange_no_expire r1 u (packageName go found str) m windowSeconds
          rcases hr : resetOnChange r1 u (packageName go found str) m windowSeconds with ⟨e, r4⟩
          rw [hr] at hlog1
          simp only at hlog1 ⊢
          cases e with
          | some e =>
            refine ⟨_, by rw [hlog1, hlog, List.append_assoc], ?_⟩
            intro k s b' hc
            simp only [List.singleton_append, List.mem_cons, Prod.mk.injEq, false_and,
              false_or, reduceCtorEq] at hc
            exact absurd hc (h1 k s b')
          | none =>
            simp only
            obtain ⟨l2, hlog2, h2⟩ :=
              countAndConsume_expire r4 u (packageName go found str) m maxCount windowSeconds
            refine ⟨_, by rw [hlog2, hlog1, hlog, List.append_assoc, List.append_assoc], ?_⟩
            intro k s b' hc
            simp only [List.singleton_append, List.mem_cons, Prod.mk.injEq, false_and,
              false_or, reduceCtorEq, List.mem_append] at hc
            rcases hc with hc | hc
            · exact absurd hc (h1 k s b')
            · exact h2 k s b' hc

end Internal

end LimitService
namespace LimitService

/-! ## The counter across one call -/

theorem redisInt_eq (s : String) (i : Int) (h : redisInt s = some i) :
    Atoi s = .ok i ∧ Itoa i = s := by
  unfold redisInt at h
  cases ha : Atoi s with
  | error e => rw [ha] at h; simp at h
  | ok j =>
    rw [ha] at h
    simp only at h
    by_cases hj : Itoa j = s
    · simp only [hj, if_true, Option.some.injEq] at h
      subst h
      exact ⟨rfl, hj⟩
    · simp [hj] at h

theorem storedCount_put (kv : Store) (k : String) (i : Int) (ttl : Option Int)
    (h1 : -(2 ^ 63) ≤ i) (h2 : i < 2 ^ 63) :
    storedCount (kv.put k ⟨Itoa i, ttl⟩) k = some i := by
  simp [storedCount, Store.put_same, Atoi_Itoa i h1 h2]

namespace Internal

theorem Incr_refused (r : Redis) (key : String) (e : Entry) (h : r.faults = [])
    (hk : r.kv (getKey key) = some e) (hi : redisInt e.val = none) :
    Incr r key =
      (.error (.wrapped ("自增键 " ++ key ++ " 失败") .notInt),
        ⟨r.kv, [], r.log ++ [(.incr (getKey key), false)]⟩) := by
  simp [Incr, Redis.clientIncr, Redis.issue, h, hk, hi]

/-- The counting stage on a store that answers, from a counter that is absent
or holds a number `c ≥ 0`: an allowed call leaves `c + 1`, any other call
leaves the key space as it was. -/
theorem countAndConsume_counter (r : Redis) (u t m : String) (M w c : Int)
    (h : r.faults = []) (hM : M < 2 ^ 63) (hw : 0 < w) (hfit : w * 1000000000 < 2 ^ 63)
    (hs : storedCount r.kv (getKey (redisKey u t m)) = some c) (hc : 0 ≤ c) :
    ((countAndConsume r u t m M w).1.ok = true →
      storedCount (countAndConsume r u t m M w).2.kv (getKey (redisKey u t m)) = some (c + 1)) ∧
    ((countAndConsume r u t m M w).1.ok = false →
      (countAndConsume r u t m M w).2.kv = r.kv) := by
  obtain ⟨n, rfl⟩ := Int.eq_ofNat_of_zero_le hc
  by_cases hMc : M ≤ (n : Int)
  · have hn2 : n < 2 ^ 63 := by
      cases hk : r.kv (getKey (redisKey u t m)) with
      | none =>
        simp only [storedCount, hk, Option.some.injEq] at hs
        have : n = 0 := by exact_mod_cast hs.symm
        subst this
        norm_num
      | some e =>
        simp only [storedCount, hk] at hs
        cases ha : Atoi e.val with
        | error x => rw [ha] at hs; simp at hs
        | ok i =>
          rw [ha] at hs
          simp only [Option.some.injEq] at hs
          subst hs
          have := (Atoi_range _ _ ha).2
          exact_mod_cast this
    have hden : countAndConsume r u t m M w =
        (⟨false, limitMsg t m w M, none⟩,
          ⟨r.kv, [], r.log ++ [(.get (getKey (redisKey u t m)), false)]⟩) := by
      cases hk : r.kv (getKey (redisKey u t m)) with
      | none =>
        simp only [storedCount, hk, Option.some.injEq] at hs
        have h0 : n = 0 := by exact_mod_cast hs.symm
        subst h0
        have hN0 : M ≤ 0 := by simpa using hMc
        simp [countAndConsume, GetInt_absent r _ h hk, hN0]
      | some e =>
        simp only [storedCount, hk] at hs
        cases ha : Atoi e.val with
        | error x => rw [ha] at hs; simp at hs
        | ok i =>
          rw [ha] at hs
          simp only [Option.some.injEq] at hs
          subst hs
          simp [countAndConsume, GetInt_present r _ _ _ h hk ha, hMc]
    rw [hden]
    exact ⟨fun hx => by simp at hx, fun _ => rfl⟩
  · have hlt : (n : Int) < M := by omega
    have hn2 : n < 2 ^ 63 := by
      have : (n : Int) < 2 ^ 63 := by omega
      exact_mod_cast this
    have hn3 : ((n : Int) + 1) < 2 ^ 63 := by omega
    cases hk : r.kv (getKey (redisKey u t m)) with
    | none =>
      simp only [storedCount, hk, Option.some.injEq] at hs
      have h0 : n = 0 := by exact_mod_cast hs.symm
      subst h0
      rw [countAndConsume_first r u t m M w h hw hfit (Or.inl hk) (by simpa using hlt)]
      refine ⟨fun _ => ?_, fun hx => by simp at hx⟩
      simp only [storedCount, Store.put_same]
      rfl
    | some e =>
      simp only [storedCount, hk] at hs
      cases ha : Atoi e.val with
      | error x => rw [ha] at hs; simp at hs
      | ok i =>
        rw [ha] at hs
        simp only [Option.some.injEq] at hs
        subst hs
        cases hri : redisInt e.val with
        | none =>
          have hN' : ¬ (M ≤ (n : Int)) := hMc
          have hres : countAndConsume r u t m M w =
              (⟨false, "", some (.wrapped ("为用户 " ++ u ++ " 递增速率限制计数器失败")
                  (.wrapped ("自增键 " ++ redisKey u t m ++ " 失败") .notInt))⟩,
                ⟨r.kv, [], r.log ++ [(.get (getKey (redisKey u t m)), false),
                  (.incr (getKey (redisKey u t m)), false)]⟩) := by
            simp only [countAndConsume, GetInt_present r _ _ _ h hk ha]
            simp only [Option.isSome_none, Bool.false_and, Bool.false_eq_true, if_false,
              Bool.not_true, ge_iff_le, hN']
            rw [Incr_refused ⟨r.kv, [], _⟩ _ e rfl hk hri]
            simp only [List.append_assoc, List.singleton_append]
          rw [hres]
          exact ⟨fun hx => by simp at hx, fun _ => rfl⟩
        | some j =>
          obtain ⟨hj1, hj2⟩ := redisInt_eq _ _ hri
          rw [ha] at hj1
          simp only [Except.ok.injEq] at hj1
          subst hj1
          have he : e = ⟨Itoa (n : Int), e.ttl⟩ := by
            cases e
            simp only at hj2
            simp [hj2]
          rw [he] at hk
          by_cases h0 : n = 0
          · subst h0
            have hI : Itoa ((0 : Nat) : Int) = "0" := by decide
            rw [hI] at hk
            rw [countAndConsume_first r u t m M w h hw hfit (Or.inr ⟨_, hk⟩) (by simpa using hlt)]
            refine ⟨fun _ => ?_, fun hx => by simp at hx⟩
            simp only [storedCount, Store.put_same]
            rfl
          · rw [countAndConsume_next r u t m M w n e.ttl h hM (by omega) hk hlt]
            refine ⟨fun _ => ?_, fun hx => by simp at hx⟩
            exact storedCount_put _ _ _ _ (by omega) hn3

/-- `GetStarLimit` without a plan change is the counting stage on the same key space. -/
theorem GetStarLimit_unchanged (go : GoLib) (rules : LimitData) (u m : String) (M w : Int)
    (r : Redis) (h : r.faults = [])
    (hne : getLimitRule rules (tierOf go r.kv u) m ≠ "")
    (hparse : parseLimit (getLimitRule rules (tierOf go r.kv u) m) = .ok (M, w))
    (hw : 0 < w) (hm : ¬ planChanged go r.kv u) :
    GetStarLimit go rules r u m =
      countAndConsume ⟨r.kv, [],
        r.log ++ [(.get (getKey ("user:" ++ u ++ ":active_packages")), false),
          (.get (getKey (userPackageKey u)), false)]⟩ u (tierOf go r.kv u) m M w := by
  obtain ⟨str, found, hg, ht⟩ := GetString_record go r u h
  have hpos : ¬ (w ≤ 0) := by omega
  have hmark : ∃ ttl, r.kv (getKey (userPackageKey u)) = some ⟨tierOf go r.kv u, ttl⟩ := by
    unfold planChanged at hm
    push_neg at hm
    obtain ⟨e, he1, he2⟩ := hm
    refine ⟨e.ttl, ?_⟩
    rw [he1, ← he2]
  obtain ⟨ttl, hmark⟩ := hmark
  unfold GetStarLimit
  rw [hg]
  simp only [ht, hne, if_false, hparse, hpos]
  rw [resetOnChange_same ⟨r.kv, [], _⟩ u _ m w ttl rfl hmark]
  simp only [List.append_assoc, List.singleton_append]

end Internal

end LimitService
namespace LimitService

namespace Tools

theorem Incr_refused_tools (r : Redis) (key : String) (e : Entry) (h : r.faults = [])
    (hk : r.kv (getKey key) = some e) (hi : redisInt e.val = none) :
    Incr r key = (.error .notInt, ⟨r.kv, [], r.log ++ [(.incr (getKey key), false)]⟩) := by
  simp [Incr, Redis.clientIncr, Redis.issue, h, hk, hi]

/-- The counting stage on a store that answers, from a counter that is absent
or holds a number `c ≥ 0`: an allowed call leaves `c + 1`, any other call
leaves the key space as it was. -/
theorem countAndConsume_counter_tools (r : Redis) (u t m : String) (M w c : Int)
    (h : r.faults = []) (hM : M < 2 ^ 63) (hw : 0 < w) (hfit : w * 1000000000 < 2 ^ 63)
    (hs : storedCount r.kv (getKey (redisKey u t m)) = some c) (hc : 0 ≤ c) :
    ((countAndConsume r u t m M w).1.ok = true →
      storedCount (countAndConsume r u t m M w).2.kv (getKey (redisKey u t m)) = some (c + 1)) ∧
    ((countAndConsume r u t m M w).1.ok = false →
      (countAndConsume r u t m M w).2.kv = r.kv) := by
  obtain ⟨n, rfl⟩ := Int.eq_ofNat_of_zero_le hc
  by_cases hMc : M ≤ (n : Int)
  · have hden : countAndConsume r u t m M w =
        (⟨false, limitMsg t m w M, none⟩,
          ⟨r.kv, [], r.log ++ [(.get (getKey (redisKey u t m)), false)]⟩) := by
      cases hk : r.kv (getKey (redisKey u t m)) with
      | none =>
        simp only [storedCount, hk, Option.some.injEq] at hs
        have h0 : n = 0 := by exact_mod_cast hs.symm
        subst h0
        have hN0 : M ≤ 0 := by simpa using hMc
        simp [countAndConsume, GetInt_absent_tools r _ h hk, hN0, Err.isRedisNilText]
      | some e =>
        simp only [storedCount, hk] at hs
        cases ha : Atoi e.val with
        | error x => rw [ha] at hs; simp at hs
        | ok i =>
          rw [ha] at hs
          simp only [Option.some.injEq] at hs
          subst hs
          simp [countAndConsume, GetInt_present_tools r _ _ _ h hk ha, hMc]
    rw [hden]
    exact ⟨fun hx => by simp at hx, fun _ => rfl⟩
  · have hlt : (n : Int) < M := by omega
    have hn2 : n < 2 ^ 63 := by
      have : (n : Int) < 2 ^ 63 := by omega
      exact_mod_cast this
    have hn3 : ((n : Int) + 1) < 2 ^ 63 := by omega
    cases hk : r.kv (getKey (redisKey u t m)) with
    | none =>
      simp only [storedCount, hk, Option.some.injEq] at hs
      have h0 : n = 0 := by exact_mod_cast hs.symm
      subst h0
      rw [countAndConsume_first_tools r u t m M w h hw hfit (Or.inl hk) (by simpa using hlt)]
      refine ⟨fun _ => ?_, fun hx => by simp at hx⟩
      simp only [storedCount, Store.put_same]
      rfl
    | some e =>
      simp only [storedCount, hk] at hs
      cases ha : Atoi e.val with
      | error x => rw [ha] at hs; simp at hs
      | ok i =>
        rw [ha] at hs
        simp only [Option.some.injEq] at hs
        subst hs
        cases hri : redisInt e.val with
        | none =>
          have hN' : ¬ (M ≤ (n : Int)) := hMc
          have hres : countAndConsume r u t m M w =
              (⟨false, "", some (.wrapped "递增计数器失败" .notInt)⟩,
                ⟨r.kv, [], r.log ++ [(.get (getKey (redisKey u t m)), false),
                  (.incr (getKey (redisKey u t m)), false)]⟩) := by
            simp only [countAndConsume, GetInt_present_tools r _ _ _ h hk ha]
            simp only [Option.isSome_none, Bool.false_and, Bool.false_eq_true, if_false,
              ge_iff_le, hN']
            rw [Incr_refused_tools ⟨r.kv, [], _⟩ _ e rfl hk hri]
            simp only [List.append_assoc, List.singleton_append]
          rw [hres]
          exact ⟨fun hx => by simp at hx, fun _ => rfl⟩
        | some j =>
          obtain ⟨hj1, hj2⟩ := redisInt_eq _ _ hri
          rw [ha] at hj1
          simp only [Except.ok.injEq] at hj1
          subst hj1
          have he : e = ⟨Itoa (n : Int), e.ttl⟩ := by
            cases e
            simp only at hj2
            simp [hj2]
          rw [he] at hk
          by_cases h0 : n = 0
          · subst h0
            have hI : Itoa ((0 : Nat) : Int) = "0" := by decide
            rw [hI] at hk
            rw [countAndConsume_first_tools r u t m M w h hw hfit (Or.inr ⟨_, hk⟩)
              (by simpa using hlt)]
            refine ⟨fun _ => ?_, fun hx => by simp at hx⟩
            simp only [storedCount, Store.put_same]
            rfl
          · rw [countAndConsume_next_tools r u t m M w n e.ttl h hM (by omega) hk hlt]
            refine ⟨fun _ => ?_, fun hx => by simp at hx⟩
            exact storedCount_put _ _ _ _ (by omega) hn3

/-- The reset stage when the marker text, empty for an absent marker, is the tier. -/
theorem resetOnChange_unchanged_tools (r : Redis) (u t m : String) (w : Int)
    (h : r.faults = [])
    (hm : (match r.kv (getKey (userPackageKey u)) with
      | none => ""
      | some e => e.val) = t) :
    resetOnChange r u t m w =
      (none, ⟨r.kv, [], r.log ++ [(.get (getKey (userPackageKey u)), false)]⟩) := by
  cases hk : r.kv (getKey (userPackageKey u)) with
  | none =>
    rw [hk] at hm
    simp only at hm
    simp [resetOnChange, GetString_absent_tools r _ h hk, Err.isRedisNilText, hm]
  | some e =>
    rw [hk] at hm
    simp only at hm
    simp [resetOnChange, GetString_present_tools r _ e h hk, hm]

/-- `GetStarLimit` without a plan change is the counting stage on the same key space. -/
theorem GetStarLimit_unchanged_tools (go : GoLib) (rules : LimitData) (u m : String) (M w : Int)
    (r : Redis) (h : r.faults = [])
    (hne : getLimitRules rules (tierOf go r.kv u) m ≠ "")
    (hparse : parseLimit (getLimitRules rules (tierOf go r.kv u) m) = .ok (M, w))
    (hm : ¬ planChanged go r.kv u) :
    GetStarLimit go rules r u m =
      countAndConsume ⟨r.kv, [],
        r.log ++ [(.get (getKey ("user:" ++ u ++ ":active_packages")), false),
          (.get (getKey (userPackageKey u)), false)]⟩ u (tierOf go r.kv u) m M w := by
  obtain ⟨data, hg, ht⟩ := Get_record_tools go r u h
  have hmark : (match r.kv (getKey (userPackageKey u)) with
      | none => ""
      | some e => e.val) = tierOf go r.kv u := by
    unfold planChanged at hm
    exact not_not.mp hm
  unfold GetStarLimit
  rw [hg]
  simp only [ht, hne, if_false, hparse]
  rw [resetOnChange_unchanged_tools ⟨r.kv, [], _⟩ u _ m w rfl hmark]
  simp only [List.append_assoc, List.singleton_append]

end Tools

end LimitService
namespace LimitService

/-! ## A call cut at its store calls is the call -/

namespace Internal

theorem run_countAndConsumeCall (r : Redis) (u t m : String) (M w : Int) :
    (countAndConsumeCall u t m M w).run r = countAndConsume r u t m M w := by
  unfold countAndConsumeCall countAndConsume
  simp only [Call.run]
  rcases hg : GetInt r (redisKey u t m) with ⟨⟨count, foundCount, errCount⟩, r5⟩
  simp only
  by_cases he : (errCount.isSome && foundCount) = true
  · simp only [he, if_true, Call.run]
  · simp only [he, if_false, Bool.false_eq_true]
    by_cases hge : (if (!foundCount) = true then 0 else count) ≥ M
    · simp only [hge, if_true, Call.run]
    · simp only [hge, if_false, Call.run]
      rcases hi : Incr r5 (redisKey u t m) with ⟨res, r6⟩
      cases res with
      | error e => simp only [Call.run]
      | ok newCount =>
        simp only
        by_cases h1 : newCount = 1
        · simp only [h1, if_true, Call.run]
        · simp only [h1, if_false, Call.run]

theorem run_resetOnChangeCall (r : Redis) (u t m : String) (w : Int) (rest : Call) :
    (resetOnChangeCall u t m w rest).run r =
      match resetOnChange r u t m w with
      | (some e, r4) => (⟨false, "", some e⟩, r4)
      | (none, r4) => rest.run r4 := by
  unfold resetOnChangeCall resetOnChange
  simp only [Call.run]
  rcases hg : GetString r (userPackageKey u) with ⟨⟨sp, found, err⟩, r2⟩
  simp only
  by_cases hc : (!found || sp != t) = true
  · simp only [hc, if_true, Call.run]
    rcases hs1 : Set r2 (redisKey u t m) "0" (durationOfSeconds w) with ⟨e1, r3⟩
    cases e1 with
    | some e => simp only [Call.run]
    | none =>
      simp only [Call.run]
      rcases hs2 : Set r3 (userPackageKey u) t 0 with ⟨e2, r4⟩
      cases e2 with
      | some e => simp only [Call.run]
      | none => simp only
  · simp only [hc, if_false, Bool.false_eq_true]

/-- Run without interruption, the call cut at its store calls is `GetStarLimit`. -/
theorem run_GetStarLimitCall (go : GoLib) (rules : LimitData) (r : Redis) (u m : String) :
    (GetStarLimitCall go rules u m).run r = GetStarLimit go rules r u m := by
  unfold GetStarLimitCall GetStarLimit
  simp only [Call.run]
  rcases hg : GetString r ("user:" ++ u ++ ":active_packages") with ⟨⟨str, found, err⟩, r1⟩
  cases err with
  | some e => simp only [Call.run]
  | none =>
    simp only
    by_cases h0 : getLimitRule rules (packageName go found str) m = ""
    · simp only [h0, if_true, Call.run]
    · simp only [h0, if_false]
      cases hp : parseLimit (getLimitRule rules (packageName go found str) m) with
      | error e => simp only [Call.run]
      | ok p =>
        obtain ⟨maxCount, windowSeconds⟩ := p
        simp only
        by_cases hw : windowSeconds ≤ 0
        · simp only [hw, if_true, Call.run]
        · simp only [hw, if_false, run_resetOnChangeCall, run_countAndConsumeCall]

end Internal

end LimitService
namespace LimitService

/-! ## What a call leaves alone -/

theorem issue_kv (r : Redis) (c : Cmd) :
    (r.issue c).2.kv = r.kv ∧ (r.issue c).2.faults = r.faults.tail := by
  obtain ⟨b, hb⟩ := issue_shape r c
  rw [hb]
  exact ⟨rfl, rfl⟩

theorem clientGet_frame (r : Redis) (k : String) :
    (r.clientGet k).2.kv = r.kv ∧ (r.clientGet k).2.faults = r.faults.tail := by
  obtain ⟨b, hb⟩ := issue_shape r (.get k)
  simp only [Redis.clientGet, hb]
  cases b with
  | true => exact ⟨rfl, rfl⟩
  | false => cases r.kv k <;> exact ⟨rfl, rfl⟩

theorem clientSet_frame (r : Redis) (k v : String) (d : Int) :
    (∀ k', k' ≠ k → (r.clientSet k v d).2.kv k' = r.kv k') ∧
    (r.clientSet k v d).2.faults = r.faults.tail := by
  obtain ⟨b, hb⟩ := issue_shape r (.set k v (setLifetime d))
  simp only [Redis.clientSet, hb]
  cases b with
  | true => exact ⟨fun _ _ => rfl, rfl⟩
  | false => exact ⟨fun k' hk => Store.put_other _ _ _ _ hk, rfl⟩

theorem clientIncr_frame (r : Redis) (k : String) :
    (∀ k', k' ≠ k → (r.clientIncr k).2.kv k' = r.kv k') ∧
    (r.clientIncr k).2.faults = r.faults.tail := by
  obtain ⟨b, hb⟩ := issue_shape r (.incr k)
  simp only [Redis.clientIncr, hb]
  cases b with
  | true => exact ⟨fun _ _ => rfl, rfl⟩
  | false =>
    cases hk : r.kv k with
    | none => exact ⟨fun k' hk' => Store.put_other _ _ _ _ hk', rfl⟩
    | some e =>
      simp only [Bool.false_eq_true, if_false]
      cases hi : redisInt e.val with
      | none => exact ⟨fun _ _ => rfl, by simp⟩
      | some i =>
        by_cases hlt : i + 1 < 2 ^ 63
        · simp only [hlt, if_true]
          exact ⟨fun k' hk' => Store.put_other _ _ _ _ hk', by simp [Redis.withKv]⟩
        · simp only [hlt, if_false]
          refine ⟨fun _ _ => ?_, ?_⟩ <;> first | rfl | trivial

theorem clientExpire_frame (r : Redis) (k : String) (d : Int) :
    (∀ k', k' ≠ k → (r.clientExpire k d).2.kv k' = r.kv k') ∧
    (r.clientExpire k d).2.faults = r.faults.tail := by
  obtain ⟨b, hb⟩ := issue_shape r (.expire k (formatSec d))
  simp only [Redis.clientExpire, hb]
  cases b with
  | true => exact ⟨fun _ _ => rfl, rfl⟩
  | false =>
    cases hk : r.kv k with
    | none => exact ⟨fun _ _ => rfl, rfl⟩
    | some e =>
      simp only [Bool.false_eq_true, if_false]
      by_cases hd : formatSec d ≤ 0
      · simp only [hd, if_true]
        exact ⟨fun k' hk' => Store.del_other _ _ _ hk', rfl⟩
      · simp only [hd, if_false]
        exact ⟨fun k' hk' => Store.put_other _ _ _ _ hk', rfl⟩

namespace Internal

theorem GetString_frame (r : Redis) (key : String) :
    (GetString r key).2.kv = r.kv ∧ (GetString r key).2.faults = r.faults.tail := by
  have h := clientGet_frame r (getKey key)
  unfold GetString
  rcases hc : r.clientGet (getKey key) with ⟨res, r1⟩
  rw [hc] at h
  cases res with
  | ok v => exact h
  | error e => cases e <;> exact h

theorem GetInt_frame (r : Redis) (key : String) :
    (GetInt r key).2.kv = r.kv ∧ (GetInt r key).2.faults = r.faults.tail := by
  have h := GetString_frame r key
  unfold GetInt
  rcases hg : GetString r key with ⟨⟨valStr, found, err⟩, r1⟩
  rw [hg] at h
  simp only
  split
  · exact h
  · split <;> exact h

theorem Set_frame (r : Redis) (key value : String) (d : Int) :
    (∀ k, k ≠ getKey key → (Set r key value d).2.kv k = r.kv k) ∧
    (Set r key value d).2.faults = r.faults.tail :=
  clientSet_frame r (getKey key) value d

theorem Incr_frame (r : Redis) (key : String) :
    (∀ k, k ≠ getKey key → (Incr r key).2.kv k = r.kv k) ∧
    (Incr r key).2.faults = r.faults.tail := by
  have h := clientIncr_frame r (getKey key)
  unfold Incr
  rcases hc : r.clientIncr (getKey key) with ⟨res, r1⟩
  rw [hc] at h
  cases res <;> exact h

theorem Expire_frame (r : Redis) (key : String) (d : Int) :
    (∀ k, k ≠ getKey key → (Expire r key d).2.kv k = r.kv k) ∧
    (Expire r key d).2.faults = r.faults.tail := by
  have h := clientExpire_frame r (getKey key) d
  unfold Expire
  rcases hc : r.clientExpire (getKey key) d with ⟨res, r1⟩
  rw [hc] at h
  cases res <;> exact h

theorem tail_nil_of_nil {l : List Bool} (h : l = []) : l.tail = [] := by
  subst h
  rfl

/-- The reset stage writes at most the counter and the marker. -/
theorem resetOnChange_frame (r : Redis) (u t m : String) (w : Int) :
    (∀ k, k ≠ getKey (redisKey u t m) → k ≠ getKey (userPackageKey u) →
      (resetOnChange r u t m w).2.kv k = r.kv k) ∧
    (r.faults = [] → (resetOnChange r u t m w).2.faults = []) := by
  unfold resetOnChange
  obtain ⟨hk0, hf0⟩ := GetString_frame r (userPackageKey u)
  rcases hg : GetString r (userPackageKey u) with ⟨⟨sp, found, err⟩, r2⟩
  rw [hg] at hk0 hf0
  simp only at hk0 hf0 ⊢
  by_cases hcond : (!found || sp != t) = true
  · simp only [hcond, if_true]
    obtain ⟨hk1, hf1⟩ := Set_frame r2 (redisKey u t m) "0" (durationOfSeconds w)
    rcases hs1 : Set r2 (redisKey u t m) "0" (durationOfSeconds w) with ⟨e1, r3⟩
    rw [hs1] at hk1 hf1
    simp only at hk1 hf1
    cases e1 with
    | some e =>
      exact ⟨fun k h1 _ => by rw [hk1 k h1, hk0],
        fun h => by rw [hf1, hf0]; exact tail_nil_of_nil (tail_nil_of_nil h)⟩
    | none =>
      simp only
      obtain ⟨hk2, hf2⟩ := Set_frame r3 (userPackageKey u) t 0
      rcases hs2 : Set r3 (userPackageKey u) t 0 with ⟨e2, r4⟩
      rw [hs2] at hk2 hf2
      simp only at hk2 hf2
      cases e2 with
      | some e =>
        exact ⟨fun k h1 h2 => by rw [hk2 k h2, hk1 k h1, hk0],
          fun h => by
            rw [hf2, hf1, hf0]
            exact tail_nil_of_nil (tail_nil_of_nil (tail_nil_of_nil h))⟩
      | none =>
        exact ⟨fun k h1 h2 => by rw [hk2 k h2, hk1 k h1, hk0],
          fun h => by
            rw [hf2, hf1, hf0]
            exact tail_nil_of_nil (tail_nil_of_nil (tail_nil_of_nil h))⟩
  · simp only [hcond, if_false, Bool.false_eq_true]
    exact ⟨fun k _ _ => by rw [hk0], fun h => by rw [hf0]; exact tail_nil_of_nil h⟩

/-- The counting stage writes at most the counter. -/
theorem countAndConsume_frame (r : Redis) (u t m : String) (M w : Int) :
    (∀ k, k ≠ getKey (redisKey u t m) → (countAndConsume r u t m M w).2.kv k = r.kv k) ∧
    (r.faults = [] → (countAndConsume r u t m M w).2.faults = []) := by
  unfold countAndConsume
  obtain ⟨hk0, hf0⟩ := GetInt_frame r (redisKey u t m)
  rcases hg : GetInt r (redisKey u t m) with ⟨⟨count, foundCount, errCount⟩, r5⟩
  rw [hg] at hk0 hf0
  simp only at hk0 hf0 ⊢
  by_cases he : (errCount.isSome && foundCount) = true
  · simp only [he, if_true]
    exact ⟨fun k _ => by rw [hk0], fun h => by rw [hf0]; exact tail_nil_of_nil h⟩
  · simp only [he, if_false, Bool.false_eq_true]
    by_cases hge : (if (!foundCount) = true then 0 else count) ≥ M
    · simp only [hge, if_true]
      exact ⟨fun k _ => by rw [hk0], fun h => by rw [hf0]; exact tail_nil_of_nil h⟩
    · simp only [hge, if_false]
      obtain ⟨hk1, hf1⟩ := Incr_frame r5 (redisKey u t m)
      rcases hi : Incr r5 (redisKey u t m) with ⟨res, r6⟩
      rw [hi] at hk1 hf1
      simp only at hk1 hf1
      cases res with
      | error e =>
        exact ⟨fun k h1 => by rw [hk1 k h1, hk0],
          fun h => by rw [hf1, hf0]; exact tail_nil_of_nil (tail_nil_of_nil h)⟩
      | ok newCount =>
        simp only
        by_cases h1 : newCount = 1
        · simp only [h1, if_true]
          obtain ⟨hk2, hf2⟩ := Expire_frame r6 (redisKey u t m) (durationOfSeconds w)
          exact ⟨fun k h1 => by rw [hk2 k h1, hk1 k h1, hk0],
            fun h => by
              rw [hf2, hf1, hf0]
              exact tail_nil_of_nil (tail_nil_of_nil (tail_nil_of_nil h))⟩
        · simp only [h1, if_false]
          exact ⟨fun k h1 => by rw [hk1 k h1, hk0],
            fun h => by rw [hf1, hf0]; exact tail_nil_of_nil (tail_nil_of_nil h)⟩

/-- `GetStarLimit` writes at most the counter of the resolved tier and the
marker, whatever the store does. -/
theorem GetStarLimit_frame (go : GoLib) (rules : LimitData) (r : Redis) (u m : String) :
    (∀ k, k ≠ getKey (redisKey u (tierOf go r.kv u) m) → k ≠ getKey (userPackageKey u) →
      (GetStarLimit go rules r u m).2.kv k = r.kv k) ∧
    (r.faults = [] → (GetStarLimit go rules r u m).2.faults = []) := by
  rcases issue_cases r (.get (getKey ("user:" ++ u ++ ":active_packages"))) with hb | ⟨hh, _⟩
  · unfold GetStarLimit
    rw [GetString_failed r _ hb]
    exact ⟨fun _ _ _ => rfl, fun h => tail_nil_of_nil h⟩
  · obtain ⟨str, found, hg, ht⟩ := GetString_record_ok go r u hh
    unfold GetStarLimit
    rw [hg]
    simp only [ht]
    generalize hr1 : (⟨r.kv, r.faults.tail,
      r.log ++ [(.get (getKey ("user:" ++ u ++ ":active_packages")), false)]⟩ : Redis) = r1
    have hkv1 : r1.kv = r.kv := by rw [← hr1]
    have hfl1 : r1.faults = r.faults.tail := by rw [← hr1]
    split
    · exact ⟨fun _ _ _ => hkv1 ▸ rfl, fun h => by rw [hfl1]; exact tail_nil_of_nil h⟩
    · split
      · exact ⟨fun _ _ _ => hkv1 ▸ rfl, fun h => by rw [hfl1]; exact tail_nil_of_nil h⟩
      · rename_i maxCount windowSeconds _
        split
        · exact ⟨fun _ _ _ => hkv1 ▸ rfl, fun h => by rw [hfl1]; exact tail_nil_of_nil h⟩
        · obtain ⟨hk1, hf1⟩ := resetOnChange_frame r1 u (tierOf go r.kv u) m windowSeconds
          rcases hr : resetOnChange r1 u (tierOf go r.kv u) m windowSeconds with ⟨e, r4⟩
          rw [hr] at hk1 hf1
          simp only at hk1 hf1 ⊢
          have hf1' : r.faults = [] → r4.faults = [] :=
            fun h => hf1 (by rw [hfl1]; exact tail_nil_of_nil h)
          cases e with
          | some e => exact ⟨fun k h1 h2 => by rw [hk1 k h1 h2, hkv1], hf1'⟩
          | none =>
            simp only
            obtain ⟨hk2, hf2⟩ :=
              countAndConsume_frame r4 u (tierOf go r.kv u) m maxCount windowSeconds
            exact ⟨fun k h1 h2 => by rw [hk2 k h1, hk1 k h1 h2, hkv1],
              fun h => hf2 (hf1' h)⟩

end Internal

end LimitService
namespace LimitService

namespace Tools

theorem Get_frame_tools (go : GoLib) (r : Redis) (key : String) :
    (Get go r key).2.kv = r.kv ∧ (Get go r key).2.faults = r.faults.tail := by
  have h := clientGet_frame r (getKey key)
  unfold Get
  rcases hc : r.clientGet (getKey key) with ⟨res, r1⟩
  rw [hc] at h
  cases res with
  | ok v => exact h
  | error e => cases e <;> exact h

theorem GetString_frame_tools (r : Redis) (key : String) :
    (GetString r key).2.kv = r.kv ∧ (GetString r key).2.faults = r.faults.tail := by
  have h := clientGet_frame r (getKey key)
  unfold GetString
  rcases hc : r.clientGet (getKey key) with ⟨res, r1⟩
  rw [hc] at h
  cases res <;> exact h

theorem GetInt_frame_tools (r : Redis) (key : String) :
    (GetInt r key).2.kv = r.kv ∧ (GetInt r key).2.faults = r.faults.tail := by
  have h := GetString_frame_tools r key
  unfold GetInt
  rcases hg : GetString r key with ⟨⟨val, err⟩, r1⟩
  rw [hg] at h
  cases err with
  | some e => exact h
  | none =>
    simp only
    cases Atoi val <;> exact h

theorem Set_frame_tools (r : Redis) (key : String) (value : Any) (d : Int) :
    (∀ k, k ≠ getKey key → (Set r key value d).2.kv k = r.kv k) ∧
    (Set r key value d).2.faults = r.faults.tail :=
  clientSet_frame r (getKey key) (setText value) d

theorem Incr_frame_tools (r : Redis) (key : String) :
    (∀ k, k ≠ getKey key → (Incr r key).2.kv k = r.kv k) ∧
    (Incr r key).2.faults = r.faults.tail :=
  clientIncr_frame r (getKey key)

theorem Expire_frame_tools (r : Redis) (key : String) (d : Int) :
    (∀ k, k ≠ getKey key → (Expire r key d).2.kv k = r.kv k) ∧
    (Expire r key d).2.faults = r.faults.tail :=
  clientExpire_frame r (getKey key) d

/-- The reset stage writes at most the counter and the marker. -/
theorem resetOnChange_frame_tools (r : Redis) (u t m : String) (w : Int) :
    (∀ k, k ≠ getKey (redisKey u t m) → k ≠ getKey (userPackageKey u) →
      (resetOnChange r u t m w).2.kv k = r.kv k) ∧
    (r.faults = [] → (resetOnChange r u t m w).2.faults = []) := by
  unfold resetOnChange
  obtain ⟨hk0, hf0⟩ := GetString_frame_tools r (userPackageKey u)
  rcases hg : GetString r (userPackageKey u) with ⟨⟨sp, err⟩, r2⟩
  rw [hg] at hk0 hf0
  simp only at hk0 hf0 ⊢
  by_cases herr : (err.isSome && !(err.any Err.isRedisNilText)) = true
  · simp only [herr, if_true]
    exact ⟨fun k _ _ => by rw [hk0], fun h => by rw [hf0]; exact Internal.tail_nil_of_nil h⟩
  · simp only [herr, if_false, Bool.false_eq_true]
    by_cases hcond : (sp != t) = true
    · simp only [hcond, if_true]
      obtain ⟨hk1, hf1⟩ := Set_frame_tools r2 (redisKey u t m) (.int 0) (durationOfSeconds w)
      rcases hs1 : Set r2 (redisKey u t m) (.int 0) (durationOfSeconds w) with ⟨e1, r3⟩
      rw [hs1] at hk1 hf1
      simp only at hk1 hf1
      cases e1 with
      | some e =>
        exact ⟨fun k h1 _ => by rw [hk1 k h1, hk0],
          fun h => by
            rw [hf1, hf0]
            exact Internal.tail_nil_of_nil (Internal.tail_nil_of_nil h)⟩
      | none =>
        simp only
        obtain ⟨hk2, hf2⟩ := Set_frame_tools r3 (userPackageKey u) (.str t) 0
        rcases hs2 : Set r3 (userPackageKey u) (.str t) 0 with ⟨e2, r4⟩
        rw [hs2] at hk2 hf2
        simp only at hk2 hf2
        cases e2 with
        | some e =>
          exact ⟨fun k h1 h2 => by rw [hk2 k h2, hk1 k h1, hk0],
            fun h => by
              rw [hf2, hf1, hf0]
              exact Internal.tail_nil_of_nil
                (Internal.tail_nil_of_nil (Internal.tail_nil_of_nil h))⟩
        | none =>
          exact ⟨fun k h1 h2 => by rw [hk2 k h2, hk1 k h1, hk0],
            fun h => by
              rw [hf2, hf1, hf0]
              exact Internal.tail_nil_of_nil
                (Internal.tail_nil_of_nil (Internal.tail_nil_of_nil h))⟩
    · simp only [hcond, if_false, Bool.false_eq_true]
      exact ⟨fun k _ _ => by rw [hk0], fun h => by rw [hf0]; exact Internal.tail_nil_of_nil h⟩

/-- The counting stage writes at most the counter. -/
theorem countAndConsume_frame_tools (r : Redis) (u t m : String) (M w : Int) :
    (∀ k, k ≠ getKey (redisKey u t m) → (countAndConsume r u t m M w).2.kv k = r.kv k) ∧
    (r.faults = [] → (countAndConsume r u t m M w).2.faults = []) := by
  unfold countAndConsume
  obtain ⟨hk0, hf0⟩ := GetInt_frame_tools r (redisKey u t m)
  rcases hg : GetInt r (redisKey u t m) with ⟨⟨count, err⟩, r5⟩
  rw [hg] at hk0 hf0
  simp only at hk0 hf0 ⊢
  by_cases he : (err.isSome && !(err.any Err.isRedisNilText)) = true
  · simp only [he, if_true]
    exact ⟨fun k _ => by rw [hk0], fun h => by rw [hf0]; exact Internal.tail_nil_of_nil h⟩
  · simp only [he, if_false, Bool.false_eq_true]
    by_cases hge : count ≥ M
    · simp only [hge, if_true]
      exact ⟨fun k _ => by rw [hk0], fun h => by rw [hf0]; exact Internal.tail_nil_of_nil h⟩
    · simp only [hge, if_false]
      obtain ⟨hk1, hf1⟩ := Incr_frame_tools r5 (redisKey u t m)
      rcases hi : Incr r5 (redisKey u t m) with ⟨res, r6⟩
      rw [hi] at hk1 hf1
      simp only at hk1 hf1
      cases res with
      | error e =>
        exact ⟨fun k h1 => by rw [hk1 k h1, hk0],
          fun h => by
            rw [hf1, hf0]
            exact Internal.tail_nil_of_nil (Internal.tail_nil_of_nil h)⟩
      | ok newCount =>
        simp only
        by_cases h1 : newCount = 1
        · simp only [h1, if_true]
          obtain ⟨hk2, hf2⟩ := Expire_frame_tools r6 (redisKey u t m) (durationOfSeconds w)
          rcases hx : Expire r6 (redisKey u t m) (durationOfSeconds w) with ⟨e2, r7⟩
          rw [hx] at hk2 hf2
          simp only at hk2 hf2
          cases e2 with
          | some e =>
            exact ⟨fun k h1 => by rw [hk2 k h1, hk1 k h1, hk0],
              fun h => by
                rw [hf2, hf1, hf0]
                exact Internal.tail_nil_of_nil
                  (Internal.tail_nil_of_nil (Internal.tail_nil_of_nil h))⟩
          | none =>
            exact ⟨fun k h1 => by rw [hk2 k h1, hk1 k h1, hk0],
              fun h => by
                rw [hf2, hf1, hf0]
                exact Internal.tail_nil_of_nil
                  (Internal.tail_nil_of_nil (Internal.tail_nil_of_nil h))⟩
        · simp only [h1, if_false]
          exact ⟨fun k h1 => by rw [hk1 k h1, hk0],
            fun h => by
              rw [hf1, hf0]
              exact Internal.tail_nil_of_nil (Internal.tail_nil_of_nil h)⟩

/-- `GetStarLimit` writes at most the counter of the resolved tier and the
marker, whatever the store does. -/
theorem GetStarLimit_frame_tools (go : GoLib) (rules : LimitData) (r : Redis) (u m : String) :
    (∀ k, k ≠ getKey (redisKey u (tierOf go r.kv u) m) → k ≠ getKey (userPackageKey u) →
      (GetStarLimit go rules r u m).2.kv k = r.kv k) ∧
    (r.faults = [] → (GetStarLimit go rules r u m).2.faults = []) := by
  rcases issue_cases r (.get (getKey ("user:" ++ u ++ ":active_packages"))) with hb | ⟨hh, _⟩
  · unfold GetStarLimit
    rw [Get_failed_tools go r _ hb]
    exact ⟨fun _ _ _ => rfl, fun h => Internal.tail_nil_of_nil h⟩
  · obtain ⟨data, hg, ht, _⟩ := Get_record_ok_tools go r u hh
    unfold GetStarLimit
    rw [hg]
    simp only [ht]
    generalize hr1 : (⟨r.kv, r.faults.tail,
      r.log ++ [(.get (getKey ("user:" ++ u ++ ":active_packages")), false)]⟩ : Redis) = r1
    have hkv1 : r1.kv = r.kv := by rw [← hr1]
    have hfl1 : r1.faults = r.faults.tail := by rw [← hr1]
    split
    · exact ⟨fun _ _ _ => hkv1 ▸ rfl, fun h => by rw [hfl1]; exact Internal.tail_nil_of_nil h⟩
    · split
      · exact ⟨fun _ _ _ => hkv1 ▸ rfl,
          fun h => by rw [hfl1]; exact Internal.tail_nil_of_nil h⟩
      · rename_i maxCount windowSeconds _
        obtain ⟨hk1, hf1⟩ := resetOnChange_frame_tools r1 u (tierOf go r.kv u) m windowSeconds
        rcases hr : resetOnChange r1 u (tierOf go r.kv u) m windowSeconds with ⟨e, r4⟩
        rw [hr] at hk1 hf1
        simp only at hk1 hf1 ⊢
        have hf1' : r.faults = [] → r4.faults = [] :=
          fun h => hf1 (by rw [hfl1]; exact Internal.tail_nil_of_nil h)
        cases e with
        | some e => exact ⟨fun k h1 h2 => by rw [hk1 k h1 h2, hkv1], hf1'⟩
        | none =>
          simp only
          obtain ⟨hk2, hf2⟩ :=
            countAndConsume_frame_tools r4 u (tierOf go r.kv u) m maxCount windowSeconds
          exact ⟨fun k h1 h2 => by rw [hk2 k h1, hk1 k h1 h2, hkv1],
            fun h => hf2 (hf1' h)⟩

end Tools

end LimitService
namespace LimitService

/-! ## C11 -/

/-- C11 (amended): for every count `n` and duration value `v` that are 64-bit
integers, written in decimal, `parseLimit` maps `n/vh` to `(n, v * 3600)` when
`v * 3600` is a 64-bit integer, `n/vd` to `(n, v * 86400)` and `n/vm` to
`(n, v * 60)` under the same condition on the product, and `n/v` to `(n, v)`,
each time without error and in both copies; `5/1h` gives `(5, 3600)`, `10/30m`
gives `(10, 1800)`, `3/2d` gives `(3, 172800)` and `7/45` gives `(7, 45)`. -/
theorem parseLimit_reads_rule :
    (∀ n v : Int, -(2 ^ 63) ≤ n → n < 2 ^ 63 → -(2 ^ 63) ≤ v → v < 2 ^ 63 →
      (-(2 ^ 63) ≤ v * 3600 → v * 3600 < 2 ^ 63 →
        Internal.parseLimit (Itoa n ++ "/" ++ Itoa v ++ "h") = .ok (n, v * 3600) ∧
        Tools.parseLimit (Itoa n ++ "/" ++ Itoa v ++ "h") = .ok (n, v * 3600)) ∧
      (-(2 ^ 63) ≤ v * 86400 → v * 86400 < 2 ^ 63 →
        Internal.parseLimit (Itoa n ++ "/" ++ Itoa v ++ "d") = .ok (n, v * 86400) ∧
        Tools.parseLimit (Itoa n ++ "/" ++ Itoa v ++ "d") = .ok (n, v * 86400)) ∧
      (-(2 ^ 63) ≤ v * 60 → v * 60 < 2 ^ 63 →
        Internal.parseLimit (Itoa n ++ "/" ++ Itoa v ++ "m") = .ok (n, v * 60) ∧
        Tools.parseLimit (Itoa n ++ "/" ++ Itoa v ++ "m") = .ok (n, v * 60)) ∧
      Internal.parseLimit (Itoa n ++ "/" ++ Itoa v) = .ok (n, v) ∧
      Tools.parseLimit (Itoa n ++ "/" ++ Itoa v) = .ok (n, v)) ∧
    (Internal.parseLimit "5/1h" = .ok (5, 3600) ∧ Tools.parseLimit "5/1h" = .ok (5, 3600)) ∧
    (Internal.parseLimit "10/30m" = .ok (10, 1800) ∧ Tools.parseLimit "10/30m" = .ok (10, 1800)) ∧
    (Internal.parseLimit "3/2d" = .ok (3, 172800) ∧ Tools.parseLimit "3/2d" = .ok (3, 172800)) ∧
    (Internal.parseLimit "7/45" = .ok (7, 45) ∧ Tools.parseLimit "7/45" = .ok (7, 45)) := by
  refine ⟨?_, ⟨by decide, by decide⟩, ⟨by decide, by decide⟩, ⟨by decide, by decide⟩,
    ⟨by decide, by decide⟩⟩
  intro n v hn1 hn2 hv1 hv2
  have hn := Atoi_Itoa n hn1 hn2
  have hv := Atoi_Itoa v hv1 hv2
  obtain ⟨i1, i2, i3, i4⟩ := Internal.parseLimit_texts _ _ n v hn hv
  obtain ⟨t1, t2, t3, t4⟩ := Tools.parseLimit_texts_tools _ _ n v hn hv
  refine ⟨fun h1 h2 => ?_, fun h1 h2 => ?_, fun h1 h2 => ?_, i4, t4⟩
  · rw [i1, t1, wrap64_id _ h1 h2]; exact ⟨rfl, rfl⟩
  · rw [i2, t2, wrap64_id _ h1 h2]; exact ⟨rfl, rfl⟩
  · rw [i3, t3, wrap64_id _ h1 h2]; exact ⟨rfl, rfl⟩

/-- C11, an instance of the amended claim: the count 12 and the value 3 in hours. -/
theorem parseLimit_reads_rule_witness :
    Itoa 12 ++ "/" ++ Itoa 3 ++ "h" = "12/3h" ∧
    Internal.parseLimit (Itoa 12 ++ "/" ++ Itoa 3 ++ "h") = .ok (12, 3 * 3600) ∧
    Tools.parseLimit (Itoa 12 ++ "/" ++ Itoa 3 ++ "h") = .ok (12, 3 * 3600) :=
  ⟨by decide,
    (parseLimit_reads_rule.1 12 3 (by decide) (by decide) (by decide) (by decide)).1
      (by decide) (by decide)⟩

/-- C11 as stated fails for numbers beyond 64 bits: the count
`9223372036854775808` is refused, and the value `2562047788015216` in hours
gives a negative window instead of `2562047788015216 * 3600` seconds, without
error; in both copies. -/
theorem parseLimit_overflows :
    (Internal.parseLimit "9223372036854775808/1h" =
        .error (.msg "限制规则中的次数无效: 9223372036854775808") ∧
      Tools.parseLimit "9223372036854775808/1h" = .error (.wrapped "次数解析错误" .atoi)) ∧
    (Internal.parseLimit "1/2562047788015216h" = .ok (1, -9223372036854774016) ∧
      Tools.parseLimit "1/2562047788015216h" = .ok (1, -9223372036854774016) ∧
      (2562047788015216 : Int) * 3600 ≠ -9223372036854774016) := by
  refine ⟨⟨by decide, by decide⟩, by decide, by decide, by decide⟩

end LimitService
namespace LimitService

/-! ## C12 -/

/-- C12 (amended): `parseLimit` returns an error for every rule string that
does not split into exactly two parts at `/`, whose count is not a decimal
integer or whose duration is not an integer optionally followed by `h`, `d` or
`m`; and when the rule resolved for the user and the model is such a string and
is not the empty string, `GetStarLimit` returns an error, no decision, and
leaves the key space as it is: the error of `parseLimit`, wrapped, when the
store answers the read of the subscription record, and else the error of that
read. In both copies, for every fault schedule. -/
theorem malformed_rule_is_config_error :
    (∀ s : String, malformed s →
      (∃ e, Internal.parseLimit s = .error e) ∧ (∃ e, Tools.parseLimit s = .error e)) ∧
    (∀ (go : GoLib) (limitRules : LimitData) (r : Redis) (xuserid model : String),
      malformed (Internal.getLimitRule limitRules (Internal.tierOf go r.kv xuserid) model) →
      Internal.getLimitRule limitRules (Internal.tierOf go r.kv xuserid) model ≠ "" →
      ((Internal.GetStarLimit go limitRules r xuserid model).1.ok = false ∧
        (Internal.GetStarLimit go limitRules r xuserid model).1.err.isSome = true ∧
        (Internal.GetStarLimit go limitRules r xuserid model).2.kv = r.kv) ∧
      (r.faults.head? ≠ some true →
        ∃ e, Internal.parseLimit
            (Internal.getLimitRule limitRules (Internal.tierOf go r.kv xuserid) model) = .error e ∧
          (Internal.GetStarLimit go limitRules r xuserid model).1 =
            ⟨false, "", some (.wrapped ("解析限速规则 \x27" ++
              Internal.getLimitRule limitRules (Internal.tierOf go r.kv xuserid) model ++
              "\x27 失败") e)⟩)) ∧
    (∀ (go : GoLib) (limitData : LimitData) (r : Redis) (xuserid model : String),
      malformed (Tools.getLimitRules limitData (Tools.tierOf go r.kv xuserid) model) →
      Tools.getLimitRules limitData (Tools.tierOf go r.kv xuserid) model ≠ "" →
      ((Tools.GetStarLimit go limitData r xuserid model).1.ok = false ∧
        (Tools.GetStarLimit go limitData r xuserid model).1.err.isSome = true ∧
        (Tools.GetStarLimit go limitData r xuserid model).2.kv = r.kv) ∧
      (r.faults.head? ≠ some true →
        ∃ e, Tools.parseLimit
            (Tools.getLimitRules limitData (Tools.tierOf go r.kv xuserid) model) = .error e ∧
          (Tools.GetStarLimit go limitData r xuserid model).1 =
            ⟨false, "", some (.wrapped "解析限制规则失败" e)⟩)) := by
  refine ⟨fun s h => ⟨Internal.parseLimit_malformed s h, Tools.parseLimit_malformed_tools s h⟩,
    ?_, ?_⟩
  · intro go rules r u m hmal hne
    obtain ⟨e, he⟩ := Internal.parseLimit_malformed _ hmal
    rcases Internal.GetStarLimit_config_error go rules r u m e hne he with hG | ⟨hh, hG⟩
    · rw [hG]
      refine ⟨⟨rfl, rfl, rfl⟩, fun hh => ?_⟩
      exfalso
      rcases issue_cases r (.get (getKey ("user:" ++ u ++ ":active_packages"))) with hb | ⟨_, hb⟩
      · rw [issue_ok r _ hh] at hb
        simp at hb
      · obtain ⟨str, found, hg, ht⟩ := Internal.GetString_record_ok go r u hh
        unfold Internal.GetStarLimit at hG
        rw [hg] at hG
        simp only [ht, hne, if_false, he] at hG
        simp at hG
    · rw [hG]
      exact ⟨⟨rfl, rfl, rfl⟩, fun _ => ⟨e, he, rfl⟩⟩
  · intro go rules r u m hmal hne
    obtain ⟨e, he⟩ := Tools.parseLimit_malformed_tools _ hmal
    rcases Tools.GetStarLimit_config_error_tools go rules r u m e hne he with hG | ⟨hh, hG⟩
    · rw [hG]
      refine ⟨⟨rfl, rfl, rfl⟩, fun hh => ?_⟩
      exfalso
      obtain ⟨data, hg, ht, _⟩ := Tools.Get_record_ok_tools go r u hh
      unfold Tools.GetStarLimit at hG
      rw [hg] at hG
      simp only [ht, hne, if_false, he] at hG
      simp at hG
    · rw [hG]
      exact ⟨⟨rfl, rfl, rfl⟩, fun _ => ⟨e, he, rfl⟩⟩

/-- C12, an instance of the amended claim: `abc/1h` and `5/1x` are refused, and
with `abc/1h` as the only rule `GetStarLimit` returns an error. -/
theorem malformed_rule_is_config_error_witness :
    ((∃ e, Internal.parseLimit "abc/1h" = .error e) ∧ (∃ e, Tools.parseLimit "abc/1h" = .error e)) ∧
    ((∃ e, Internal.parseLimit "5/1x" = .error e) ∧ (∃ e, Tools.parseLimit "5/1x" = .error e)) ∧
    (Internal.GetStarLimit sampleGo brokenRules sampleRedis "u" "gpt").1.err.isSome = true :=
  ⟨malformed_rule_is_config_error.1 "abc/1h" (by decide),
    malformed_rule_is_config_error.1 "5/1x" (by decide),
    (malformed_rule_is_config_error.2.1 sampleGo brokenRules sampleRedis "u" "gpt" (by decide)
      (by decide)).1.2.1⟩

/-- C12 as stated fails for the empty rule string: it does not split into two
parts and `parseLimit` refuses it, but with the empty string as the rule of
`(free, gpt)` `GetStarLimit` returns a denial without error, in both copies. -/
theorem empty_rule_is_denied_without_error :
    malformed "" ∧
    Internal.getLimitRule emptyEntryRules (Internal.tierOf sampleGo sampleRedis.kv "u") "gpt" = "" ∧
    (∃ e, Internal.parseLimit "" = .error e) ∧
    (Internal.GetStarLimit sampleGo emptyEntryRules sampleRedis "u" "gpt").1 =
      ⟨false, "未配置速率限制", none⟩ ∧
    (Tools.GetStarLimit sampleGo emptyEntryRules sampleRedis "u" "gpt").1 =
      ⟨false, "未配置速率限制", none⟩ := by
  refine ⟨by decide, by decide, ⟨_, rfl⟩, by decide, by decide⟩

end LimitService
namespace LimitService

/-! ## C14 -/

theorem Internal.getLimitRule_noRule (rules : LimitData) (tier model : String)
    (h : noRule rules tier model) : Internal.getLimitRule rules tier model = "" := by
  obtain ⟨h1, h2⟩ := h
  unfold Internal.getLimitRule
  cases hc : rules.Chatgpt tier with
  | none => exact h2
  | some perModel =>
    rw [hc] at h1
    simp only [h1.1, h1.2, h2]

theorem Tools.getLimitRules_noRule_tools (rules : LimitData) (tier model : String)
    (h : noRule rules tier model) : Tools.getLimitRules rules tier model = "" := by
  obtain ⟨h1, h2⟩ := h
  unfold Tools.getLimitRules
  cases hc : rules.Chatgpt tier with
  | none => exact h2
  | some perModel =>
    rw [hc] at h1
    simp only [h1.1, h1.2, h2]

/-- C14 (amended): when the rule file has no entry for the resolved tier and
the model, none under `other` for that tier and no global fallback,
`GetStarLimit` sends one command, the read of the subscription record, and
writes nothing, whether the store answers or not. When the read is answered
the call returns a denial with the message `未配置速率限制` (no rate limit
configured) and no error; when the read fails it returns an error and no
decision. In both copies. -/
theorem no_rule_is_denied_without_write :
    (∀ (go : GoLib) (limitRules : LimitData) (r : Redis) (xuserid model : String),
      noRule limitRules (Internal.tierOf go r.kv xuserid) model →
      (r.faults.head? ≠ some true →
        (Internal.GetStarLimit go limitRules r xuserid model).1 =
          ⟨false, "未配置速率限制", none⟩) ∧
      (r.faults.head? = some true →
        (Internal.GetStarLimit go limitRules r xuserid model).1.ok = false ∧
        (Internal.GetStarLimit go limitRules r xuserid model).1.msg = "" ∧
        (Internal.GetStarLimit go limitRules r xuserid model).1.err.isSome = true) ∧
      (Internal.GetStarLimit go limitRules r xuserid model).2.kv = r.kv ∧
      ∃ b, newLog r (Internal.GetStarLimit go limitRules r xuserid model).2 =
        [(.get (getKey ("user:" ++ xuserid ++ ":active_packages")), b)]) ∧
    (∀ (go : GoLib) (limitData : LimitData) (r : Redis) (xuserid model : String),
      noRule limitData (Tools.tierOf go r.kv xuserid) model →
      (r.faults.head? ≠ some true →
        (Tools.GetStarLimit go limitData r xuserid model).1 =
          ⟨false, "未配置速率限制", none⟩) ∧
      (r.faults.head? = some true →
        (Tools.GetStarLimit go limitData r xuserid model).1.ok = false ∧
        (Tools.GetStarLimit go limitData r xuserid model).1.msg = "" ∧
        (Tools.GetStarLimit go limitData r xuserid model).1.err.isSome = true) ∧
      (Tools.GetStarLimit go limitData r xuserid model).2.kv = r.kv ∧
      ∃ b, newLog r (Tools.GetStarLimit go limitData r xuserid model).2 =
        [(.get (getKey ("user:" ++ xuserid ++ ":active_packages")), b)]) := by
  constructor
  · intro go rules r u m hno
    rcases issue_cases r (.get (getKey ("user:" ++ u ++ ":active_packages"))) with hb | ⟨hh, _⟩
    · have hG : Internal.GetStarLimit go rules r u m =
          (⟨false, "", some (.wrapped ("为用户 " ++ u ++ " 获取激活套餐失败")
              (.wrapped ("从 Redis 获取键 " ++ ("user:" ++ u ++ ":active_packages") ++ " 失败")
                .io))⟩,
            ⟨r.kv, r.faults.tail,
              r.log ++ [(.get (getKey ("user:" ++ u ++ ":active_packages")), true)]⟩) := by
        unfold Internal.GetStarLimit
        rw [Internal.GetString_failed r _ hb]
      have hhead : r.faults.head? = some true := by
        by_contra hx
        have := issue_ok r (.get (getKey ("user:" ++ u ++ ":active_packages"))) hx
        rw [hb] at this
        simp at this
      rw [hG]
      exact ⟨fun hx => absurd hhead hx, fun _ => ⟨rfl, rfl, rfl⟩, rfl, true,
        newLog_append _ _ _ _⟩
    · obtain ⟨str, found, hg, ht⟩ := Internal.GetString_record_ok go r u hh
      have hrule := Internal.getLimitRule_noRule rules _ m hno
      have hG : Internal.GetStarLimit go rules r u m =
          (⟨false, "未配置速率限制", none⟩,
            ⟨r.kv, r.faults.tail,
              r.log ++ [(.get (getKey ("user:" ++ u ++ ":active_packages")), false)]⟩) := by
        unfold Internal.GetStarLimit
        rw [hg]
        simp only [ht, hrule, if_true]
      rw [hG]
      exact ⟨fun _ => rfl, fun hx => absurd hx hh, rfl, false, newLog_append _ _ _ _⟩
  · intro go rules r u m hno
    rcases issue_cases r (.get (getKey ("user:" ++ u ++ ":active_packages"))) with hb | ⟨hh, _⟩
    · have hG : Tools.GetStarLimit go rules r u m =
          (⟨false, "", some (.wrapped "获取用户套餐信息失败" .io)⟩,
            ⟨r.kv, r.faults.tail,
              r.log ++ [(.get (getKey ("user:" ++ u ++ ":active_packages")), true)]⟩) := by
        unfold Tools.GetStarLimit
        rw [Tools.Get_failed_tools go r _ hb]
      have hhead : r.faults.head? = some true := by
        by_contra hx
        have := issue_ok r (.get (getKey ("user:" ++ u ++ ":active_packages"))) hx
        rw [hb] at this
        simp at this
      rw [hG]
      exact ⟨fun hx => absurd hhead hx, fun _ => ⟨rfl, rfl, rfl⟩, rfl, true,
        newLog_append _ _ _ _⟩
    · obtain ⟨data, hg, ht, _⟩ := Tools.Get_record_ok_tools go r u hh
      have hrule := Tools.getLimitRules_noRule_tools rules _ m hno
      have hG : Tools.GetStarLimit go rules r u m =
          (⟨false, "未配置速率限制", none⟩,
            ⟨r.kv, r.faults.tail,
              r.log ++ [(.get (getKey ("user:" ++ u ++ ":active_packages")), false)]⟩) := by
        unfold Tools.GetStarLimit
        rw [hg]
        simp only [ht, hrule, if_true]
      rw [hG]
      exact ⟨fun _ => rfl, fun hx => absurd hx hh, rfl, false, newLog_append _ _ _ _⟩

/-- C14, an instance of the amended claim: with a rule file without any rule,
user `u` is denied for the model `gpt` and nothing is written. -/
theorem no_rule_is_denied_without_write_witness :
    (Internal.GetStarLimit sampleGo noRules sampleRedis "u" "gpt").1 =
      ⟨false, "未配置速率限制", none⟩ ∧
    (Internal.GetStarLimit sampleGo noRules sampleRedis "u" "gpt").2.kv = sampleRedis.kv :=
  have h := no_rule_is_denied_without_write.1 sampleGo noRules sampleRedis "u" "gpt"
    ⟨trivial, rfl⟩
  ⟨h.1 (by decide), h.2.2.1⟩

/-- C14 as stated fails. The rule file has no rule at all, so the fallback
chain yields none for user `u` and the model `gpt`; when the read of the
subscription record fails, `GetStarLimit` returns an error and not the denial
`未配置速率限制`, in both copies. -/
theorem no_rule_failed_read_is_error :
    noRule noRules (Internal.tierOf sampleGo sampleStore "u") "gpt" ∧
    (Internal.GetStarLimit sampleGo noRules ⟨sampleStore, [true], []⟩ "u" "gpt").1.msg = "" ∧
    (Internal.GetStarLimit sampleGo noRules ⟨sampleStore, [true], []⟩ "u" "gpt").1.err.isSome =
      true ∧
    (Tools.GetStarLimit sampleGo noRules ⟨sampleStore, [true], []⟩ "u" "gpt").1.msg = "" ∧
    (Tools.GetStarLimit sampleGo noRules ⟨sampleStore, [true], []⟩ "u" "gpt").1.err.isSome =
      true := by
  refine ⟨⟨trivial, rfl⟩, by decide, by decide, by decide, by decide⟩

end LimitService
namespace LimitService

/-! ## C15 -/

theorem Tools.levelOf_cases_tools (go : GoLib) (kv : Store) (u : String) :
    Tools.levelOf go kv u = .ok (Tools.tierOf go kv u) ∨
    (Tools.levelOf go kv u = .error (.msg "用户数据格式错误") ∧ Tools.tierOf go kv u = "free" ∧
      ∃ e v, kv (getKey ("user:" ++ u ++ ":active_packages")) = some e ∧
        Tools.decode go e.val = some v ∧ ∀ ms, v ≠ .obj ms) := by
  unfold Tools.levelOf Tools.tierOf
  cases hk : kv (getKey ("user:" ++ u ++ ":active_packages")) with
  | none => left; rfl
  | some e =>
    simp only
    cases hd : Tools.decode go e.val with
    | none => left; rfl
    | some v =>
      cases v with
      | obj ms =>
        left
        simp only [Tools.level, Tools.packageType]
        cases h1 : JValue.field ms "ChatGPT" with
        | none => rfl
        | some c =>
          cases c with
          | obj cm =>
            simp only
            cases h2 : JValue.field cm "level" with
            | none => rfl
            | some l => cases l <;> rfl
          | _ => rfl
      | null => exact Or.inr ⟨rfl, rfl, e, _, rfl, hd, fun ms h => by cases h⟩
      | bool b => exact Or.inr ⟨rfl, rfl, e, _, rfl, hd, fun ms h => by cases h⟩
      | num n => exact Or.inr ⟨rfl, rfl, e, _, rfl, hd, fun ms h => by cases h⟩
      | str s => exact Or.inr ⟨rfl, rfl, e, _, rfl, hd, fun ms h => by cases h⟩
      | arr a => exact Or.inr ⟨rfl, rfl, e, _, rfl, hd, fun ms h => by cases h⟩

theorem Internal.packageName_not_object (go : GoLib) (found : Bool) (s : String)
    (h : ∀ ms, go.unmarshal s ≠ some (.obj ms)) : Internal.packageName go found s = "free" := by
  unfold Internal.packageName
  by_cases hc : (found && s != "") = true
  · rw [if_pos hc]
    cases hu : go.unmarshal s with
    | none => rfl
    | some v =>
      cases v with
      | obj ms => exact absurd hu (h ms)
      | _ => rfl
  · rw [if_neg hc]

theorem Internal.packageName_no_chatgpt (go : GoLib) (found : Bool) (s : String)
    (ms : List (String × JValue)) (hobj : go.unmarshal s = some (.obj ms))
    (h : ∀ c, JValue.field ms "ChatGPT" ≠ some (.obj c)) :
    Internal.packageName go found s = "free" := by
  unfold Internal.packageName
  by_cases hc : (found && s != "") = true
  · rw [if_pos hc, hobj]
    dsimp only
    cases hf : JValue.field ms "ChatGPT" with
    | none => rfl
    | some v =>
      cases v with
      | obj c => exact absurd hf (h c)
      | _ => rfl
  · rw [if_neg hc]

theorem Internal.packageName_no_level (go : GoLib) (found : Bool) (s : String)
    (ms c : List (String × JValue)) (hobj : go.unmarshal s = some (.obj ms))
    (hc : JValue.field ms "ChatGPT" = some (.obj c))
    (h : ∀ l, JValue.field c "level" ≠ some (.str l)) :
    Internal.packageName go found s = "free" := by
  unfold Internal.packageName
  by_cases hg : (found && s != "") = true
  · rw [if_pos hg, hobj]
    dsimp only
    rw [hc]
    dsimp only
    cases hf : JValue.field c "level" with
    | none => rfl
    | some v =>
      cases v with
      | str l => exact absurd hf (h l)
      | _ => rfl
  · rw [if_neg hg]

theorem Tools.packageType_not_object_tools (go : GoLib) (s : String)
    (h : ∀ ms, go.unmarshal s ≠ some (.obj ms)) :
    Tools.packageType go (Tools.decode go s) = "free" := by
  unfold Tools.decode
  cases hu : go.unmarshal s with
  | none => rfl
  | some v =>
    cases v with
    | obj ms => exact absurd hu (h ms)
    | _ => rfl

theorem Tools.packageType_no_chatgpt_tools (go : GoLib) (s : String)
    (ms : List (String × JValue)) (hobj : go.unmarshal s = some (.obj ms))
    (h : ∀ c, JValue.field ms "ChatGPT" ≠ some (.obj c)) :
    Tools.packageType go (Tools.decode go s) = "free" ∧
    Tools.level go (Tools.decode go s) = .ok "free" := by
  have hd : Tools.decode go s = some (.obj ms) := by simp [Tools.decode, hobj]
  rw [hd]
  unfold Tools.packageType Tools.level
  dsimp only
  cases hf : JValue.field ms "ChatGPT" with
  | none => exact ⟨rfl, rfl⟩
  | some v =>
    cases v with
    | obj c => exact absurd hf (h c)
    | _ => exact ⟨rfl, rfl⟩

theorem Tools.packageType_no_level_tools (go : GoLib) (s : String)
    (ms c : List (String × JValue)) (hobj : go.unmarshal s = some (.obj ms))
    (hc : JValue.field ms "ChatGPT" = some (.obj c))
    (h : ∀ l, JValue.field c "level" ≠ some (.str l)) :
    Tools.packageType go (Tools.decode go s) = "free" ∧
    Tools.level go (Tools.decode go s) = .ok "free" := by
  have hd : Tools.decode go s = some (.obj ms) := by simp [Tools.decode, hobj]
  rw [hd]
  unfold Tools.packageType Tools.level
  dsimp only
  rw [hc]
  dsimp only
  cases hf : JValue.field c "level" with
  | none => exact ⟨rfl, rfl⟩
  | some v =>
    cases v with
    | str l => exact absurd hf (h l)
    | _ => exact ⟨rfl, rfl⟩

/-- C15 (amended): in `internal`, `GetStarLimit` and `VerifyUserAcard` resolve
the tier by the same function, and an absent record, a record that does not
decode to a JSON object, an object without a `ChatGPT` object and a `ChatGPT`
object whose `level` is not a string all resolve to `free`. In `tools`,
whenever `VerifyUserAcard` resolves a tier it is the tier `GetStarLimit`
resolves, which is `free` in the same four cases; but for a record that is
present and does not decode to a JSON object `VerifyUserAcard` returns the error
`用户数据格式错误` where `GetStarLimit` resolves `free`. -/
theorem tier_resolution_agrees :
    (∀ (go : GoLib) (found : Bool) (record : String),
      Internal.userLevel go found record = Internal.packageName go found record) ∧
    (∀ (go : GoLib) (kv : Store) (xuserid : String),
      Internal.levelOf go kv xuserid = Internal.tierOf go kv xuserid) ∧
    (∀ (go : GoLib) (kv : Store) (xuserid : String),
      kv (getKey ("user:" ++ xuserid ++ ":active_packages")) = none →
      Internal.tierOf go kv xuserid = "free" ∧ Tools.tierOf go kv xuserid = "free" ∧
      Tools.levelOf go kv xuserid = .ok "free") ∧
    (∀ (go : GoLib) (kv : Store) (xuserid : String) (e : Entry),
      kv (getKey ("user:" ++ xuserid ++ ":active_packages")) = some e →
      ((∀ members, go.unmarshal e.val ≠ some (.obj members)) →
        Internal.tierOf go kv xuserid = "free" ∧ Tools.tierOf go kv xuserid = "free") ∧
      (∀ members, go.unmarshal e.val = some (.obj members) →
        ((∀ chatGPT, JValue.field members "ChatGPT" ≠ some (.obj chatGPT)) →
          Internal.tierOf go kv xuserid = "free" ∧ Tools.tierOf go kv xuserid = "free" ∧
          Tools.levelOf go kv xuserid = .ok "free") ∧
        (∀ chatGPT, JValue.field members "ChatGPT" = some (.obj chatGPT) →
          (∀ level, JValue.field chatGPT "level" ≠ some (.str level)) →
          Internal.tierOf go kv xuserid = "free" ∧ Tools.tierOf go kv xuserid = "free" ∧
          Tools.levelOf go kv xuserid = .ok "free"))) ∧
    (∀ (go : GoLib) (kv : Store) (xuserid : String),
      Tools.levelOf go kv xuserid = .ok (Tools.tierOf go kv xuserid) ∨
      (Tools.levelOf go kv xuserid = .error (.msg "用户数据格式错误") ∧
        Tools.tierOf go kv xuserid = "free" ∧
        ∃ e v, kv (getKey ("user:" ++ xuserid ++ ":active_packages")) = some e ∧
          Tools.decode go e.val = some v ∧ ∀ members, v ≠ .obj members)) := by
  refine ⟨fun _ _ _ => rfl, fun _ _ _ => rfl, ?_, ?_, Tools.levelOf_cases_tools⟩
  · intro go kv u hk
    simp [Internal.tierOf, Tools.tierOf, Tools.levelOf, hk, Internal.packageName,
      Tools.packageType, Tools.level]
  · intro go kv u e hk
    refine ⟨fun hno => ?_, fun ms hobj => ⟨fun hc => ?_, fun c hc hl => ?_⟩⟩
    · exact ⟨by rw [Internal.tierOf, hk]; exact Internal.packageName_not_object go true e.val hno,
        by rw [Tools.tierOf, hk]; exact Tools.packageType_not_object_tools go e.val hno⟩
    · exact ⟨by rw [Internal.tierOf, hk]; exact Internal.packageName_no_chatgpt go true e.val ms hobj hc,
        by rw [Tools.tierOf, hk]; exact (Tools.packageType_no_chatgpt_tools go e.val ms hobj hc).1,
        by rw [Tools.levelOf, hk]; exact (Tools.packageType_no_chatgpt_tools go e.val ms hobj hc).2⟩
    · exact ⟨by rw [Internal.tierOf, hk]; exact Internal.packageName_no_level go true e.val ms c hobj hc hl,
        by rw [Tools.tierOf, hk]; exact (Tools.packageType_no_level_tools go e.val ms c hobj hc hl).1,
        by rw [Tools.levelOf, hk]; exact (Tools.packageType_no_level_tools go e.val ms c hobj hc hl).2⟩

/-- C15, an instance of the amended claim: user `u` of the car key space has no
subscription record and resolves to `free` everywhere. -/
theorem tier_resolution_agrees_witness :
    Internal.tierOf sampleGo carStore "u" = "free" ∧ Tools.tierOf sampleGo carStore "u" = "free" ∧
    Tools.levelOf sampleGo carStore "u" = .ok "free" :=
  tier_resolution_agrees.2.2.1 sampleGo carStore "u" (by decide)

/-- C15 as stated fails in `tools`: the record `oops` of user `w` is not a JSON
object; `GetStarLimit` resolves the tier `free` and counts against the counter of
`free`, while `VerifyUserAcard` returns an error, not a tier. -/
theorem malformed_record_is_error_in_tools :
    Tools.tierOf sampleGo badRecordStore "w" = "free" ∧
    (Cmd.incr (getKey (Tools.redisKey "w" "free" "gpt")), false) ∈
      (Tools.GetStarLimit sampleGo fiveAnHour ⟨badRecordStore, [], []⟩ "w" "gpt").2.log ∧
    Tools.levelOf sampleGo badRecordStore "w" = .error (.msg "用户数据格式错误") ∧
    (Tools.VerifyUserAcard sampleGo ⟨badRecordStore, [], []⟩ "w" "c1").1 =
      (false, some (.msg "用户数据格式错误")) := by
  refine ⟨by decide, by decide, by decide, by decide⟩

end LimitService
namespace LimitService

/-! ## C16 -/

/-- C16 (amended): on a store that answers every command, for a rule `(N, w)`
whose window fits a `time.Duration` (`0 < w`, `w * 10^9 < 2^63`), with the tier
marker equal to the resolved tier and the counter at `c < N` (absent, or
written by the server): `GetStarLimit` returns allowed. When `c = 0` (the
counter is absent or 0, so the value after the increment is 1) the counter is 1
afterwards with a lifetime of `w` seconds, set by an `expire` after the
increment; when `c ≥ 1` the counter is `c + 1` afterwards with the lifetime it
had, and no `expire` is sent. In both copies. -/
theorem ttl_armed_on_first_increment :
    (∀ (go : GoLib) (limitRules : LimitData) (xuserid model : String) (N : Nat) (w : Int)
        (r : Redis) (c : Nat),
      Internal.Ready go limitRules xuserid model N w r c → 0 < w → w * 1000000000 < 2 ^ 63 →
      c < N →
      (Internal.GetStarLimit go limitRules r xuserid model).1 = ⟨true, "允许发送消息", none⟩ ∧
      (c = 0 →
        (Internal.GetStarLimit go limitRules r xuserid model).2.kv
            (getKey (Internal.redisKey xuserid (Internal.tierOf go r.kv xuserid) model)) =
          some ⟨"1", some (w * 1000)⟩ ∧
        newLog r (Internal.GetStarLimit go limitRules r xuserid model).2 =
          [(.get (getKey ("user:" ++ xuserid ++ ":active_packages")), false),
            (.get (getKey (Internal.userPackageKey xuserid)), false),
            (.get (getKey (Internal.redisKey xuserid (Internal.tierOf go r.kv xuserid) model)),
              false),
            (.incr (getKey (Internal.redisKey xuserid (Internal.tierOf go r.kv xuserid) model)),
              false),
            (.expire (getKey (Internal.redisKey xuserid (Internal.tierOf go r.kv xuserid) model))
              w, false)]) ∧
      (0 < c → ∀ ttl,
        r.kv (getKey (Internal.redisKey xuserid (Internal.tierOf go r.kv xuserid) model)) =
          some ⟨Itoa (c : Int), ttl⟩ →
        (Internal.GetStarLimit go limitRules r xuserid model).2.kv
            (getKey (Internal.redisKey xuserid (Internal.tierOf go r.kv xuserid) model)) =
          some ⟨Itoa ((c : Int) + 1), ttl⟩ ∧
        newLog r (Internal.GetStarLimit go limitRules r xuserid model).2 =
          [(.get (getKey ("user:" ++ xuserid ++ ":active_packages")), false),
            (.get (getKey (Internal.userPackageKey xuserid)), false),
            (.get (getKey (Internal.redisKey xuserid (Internal.tierOf go r.kv xuserid) model)),
              false),
            (.incr (getKey (Internal.redisKey xuserid (Internal.tierOf go r.kv xuserid) model)),
              false)])) ∧
    (∀ (go : GoLib) (limitData : LimitData) (xuserid model : String) (N : Nat) (w : Int)
        (r : Redis) (c : Nat),
      Tools.Ready go limitData xuserid model N w r c → 0 < w → w * 1000000000 < 2 ^ 63 →
      c < N →
      (Tools.GetStarLimit go limitData r xuserid model).1 = ⟨true, "允许发送消息", none⟩ ∧
      (c = 0 →
        (Tools.GetStarLimit go limitData r xuserid model).2.kv
            (getKey (Tools.redisKey xuserid (Tools.tierOf go r.kv xuserid) model)) =
          some ⟨"1", some (w * 1000)⟩ ∧
        newLog r (Tools.GetStarLimit go limitData r xuserid model).2 =
          [(.get (getKey ("user:" ++ xuserid ++ ":active_packages")), false),
            (.get (getKey (Tools.userPackageKey xuserid)), false),
            (.get (getKey (Tools.redisKey xuserid (Tools.tierOf go r.kv xuserid) model)), false),
            (.incr (getKey (Tools.redisKey xuserid (Tools.tierOf go r.kv xuserid) model)), false),
            (.expire (getKey (Tools.redisKey xuserid (Tools.tierOf go r.kv xuserid) model))
              w, false)]) ∧
      (0 < c → ∀ ttl,
        r.kv (getKey (Tools.redisKey xuserid (Tools.tierOf go r.kv xuserid) model)) =
          some ⟨Itoa (c : Int), ttl⟩ →
        (Tools.GetStarLimit go limitData r xuserid model).2.kv
            (getKey (Tools.redisKey xuserid (Tools.tierOf go r.kv xuserid) model)) =
          some ⟨Itoa ((c : Int) + 1), ttl⟩ ∧
        newLog r (Tools.GetStarLimit go limitData r xuserid model).2 =
          [(.get (getKey ("user:" ++ xuserid ++ ":active_packages")), false),
            (.get (getKey (Tools.userPackageKey xuserid)), false),
            (.get (getKey (Tools.redisKey xuserid (Tools.tierOf go r.kv xuserid) model)), false),
            (.incr (getKey (Tools.redisKey xuserid (Tools.tierOf go r.kv xuserid) model)),
              false)])) := by
  constructor
  · intro go rules u m N w r c hR hw hfit hc
    refine ⟨(Internal.GetStarLimit_allow go rules u m N w r c hR hw hfit hc).1, ?_, ?_⟩
    · intro h0
      subst h0
      rw [Internal.GetStarLimit_first go rules u m N w r hR hw hfit hc]
      exact ⟨Store.put_same _ _ _, newLog_append _ _ _ _⟩
    · intro h0 ttl hk
      rw [Internal.GetStarLimit_next go rules u m N w r c ttl hR hw h0 hc hk]
      exact ⟨Store.put_same _ _ _, newLog_append _ _ _ _⟩
  · intro go rules u m N w r c hR hw hfit hc
    refine ⟨(Tools.GetStarLimit_allow_tools go rules u m N w r c hR hw hfit hc).1, ?_, ?_⟩
    · intro h0
      subst h0
      rw [Tools.GetStarLimit_first_tools go rules u m N w r hR hw hfit hc]
      exact ⟨Store.put_same _ _ _, newLog_append _ _ _ _⟩
    · intro h0 ttl hk
      rw [Tools.GetStarLimit_next_tools go rules u m N w r c ttl hR h0 hc hk]
      exact ⟨Store.put_same _ _ _, newLog_append _ _ _ _⟩

/-- C16, an instance of the amended claim: for user `u` with the rule `2/1m` and
no counter, the call is allowed and leaves the counter at 1 with a lifetime of
60 seconds. -/
theorem ttl_armed_on_first_increment_witness :
    (Internal.GetStarLimit sampleGo sampleRules sampleRedis "u" "gpt").1 =
      ⟨true, "允许发送消息", none⟩ ∧
    (Internal.GetStarLimit sampleGo sampleRules sampleRedis "u" "gpt").2.kv
        (getKey (Internal.redisKey "u" (Internal.tierOf sampleGo sampleRedis.kv "u") "gpt")) =
      some ⟨"1", some (60 * 1000)⟩ :=
  have hR : Internal.Ready sampleGo sampleRules "u" "gpt" 2 60 sampleRedis 0 :=
    ⟨rfl, ⟨by decide, by rfl⟩, ⟨none, by decide⟩, Or.inl ⟨rfl, by decide⟩⟩
  have h := ttl_armed_on_first_increment.1 sampleGo sampleRules "u" "gpt" 2 60 sampleRedis 0 hR
    (by decide) (by decide) (by decide)
  ⟨h.1, (h.2.1 rfl).1⟩

/-- C16 as stated fails: under the rule `1/9223372037` the counter of user `u`
is absent, the marker equals the tier and `maxCount` is 1; the call is allowed,
but afterwards the counter is absent again instead of 1 with a lifetime of the
window (the `expire` after the increment carries a negative number of seconds). -/
theorem huge_window_counter_vanishes :
    Internal.Ready sampleGo hugeWindowRules "u" "gpt" 1 9223372037 sampleRedis 0 ∧
    sampleRedis.kv (getKey (Internal.redisKey "u" "free" "gpt")) = none ∧
    (Internal.GetStarLimit sampleGo hugeWindowRules sampleRedis "u" "gpt").1 =
      ⟨true, "允许发送消息", none⟩ ∧
    (Internal.GetStarLimit sampleGo hugeWindowRules sampleRedis "u" "gpt").2.kv
      (getKey (Internal.redisKey "u" "free" "gpt")) = none ∧
    (Cmd.expire (getKey (Internal.redisKey "u" "free" "gpt")) (-9223372036), false) ∈
      (Internal.GetStarLimit sampleGo hugeWindowRules sampleRedis "u" "gpt").2.log := by
  refine ⟨⟨rfl, ⟨by decide, by rfl⟩, ⟨none, by decide⟩, Or.inl ⟨rfl, by decide⟩⟩,
    by decide, by decide, by decide, by decide⟩

end LimitService
namespace LimitService

/-! ## C17 -/

/-- C17 (amended): for every fault schedule. In `internal/limiter`, when the
`expire` that follows an increment to 1 (the only `expire` of `GetStarLimit`)
fails, the call still returns allowed with the message `允许发送消息` and no error.
In `tools/limit_tools` the same failure is returned as an error and the call is
not allowed. -/
theorem ttl_arming_failure_swallowed :
    (∀ (go : GoLib) (limitRules : LimitData) (r : Redis) (xuserid model key : String)
        (seconds : Int),
      (Cmd.expire key seconds, true) ∈
        newLog r (Internal.GetStarLimit go limitRules r xuserid model).2 →
      (Internal.GetStarLimit go limitRules r xuserid model).1 = ⟨true, "允许发送消息", none⟩) ∧
    (∀ (go : GoLib) (limitData : LimitData) (r : Redis) (xuserid model key : String)
        (seconds : Int),
      (Cmd.expire key seconds, true) ∈
        newLog r (Tools.GetStarLimit go limitData r xuserid model).2 →
      (Tools.GetStarLimit go limitData r xuserid model).1.ok = false ∧
      (Tools.GetStarLimit go limitData r xuserid model).1.err.isSome = true) := by
  constructor
  · intro go rules r u m k s hc
    obtain ⟨l, hlog, h⟩ := Internal.GetStarLimit_expire go rules r u m
    rw [newLog_of_log _ _ _ hlog] at hc
    exact h k s true hc
  · intro go rules r u m k s hc
    obtain ⟨l, hlog, h⟩ := Tools.GetStarLimit_failure_tools go rules r u m
    rw [newLog_of_log _ _ _ hlog] at hc
    exact ⟨(h _ hc).2, (h _ hc).1⟩

/-- C17, an instance of the amended claim: user `u` has no counter; the fifth
command of the call, the `expire` after the increment to 1, fails, and
`internal/limiter` allows the call. -/
theorem ttl_arming_failure_swallowed_witness :
    (Cmd.incr (getKey (Internal.redisKey "u" "free" "gpt")), false) ∈
      (Internal.GetStarLimit sampleGo sampleRules
        ⟨sampleStore, [false, false, false, false, true], []⟩ "u" "gpt").2.log ∧
    (Internal.GetStarLimit sampleGo sampleRules
      ⟨sampleStore, [false, false, false, false, true], []⟩ "u" "gpt").1 =
        ⟨true, "允许发送消息", none⟩ :=
  ⟨by decide,
    ttl_arming_failure_swallowed.1 sampleGo sampleRules
      ⟨sampleStore, [false, false, false, false, true], []⟩ "u" "gpt"
      (getKey (Internal.redisKey "u" "free" "gpt")) 60 (by decide)⟩

/-- C17 as stated fails in `tools/limit_tools`: on the same schedule the
increment succeeds with the value 1, the `expire` fails, and the call returns
the error `设置过期时间失败` and is not allowed; the counter stays at 1 without a
lifetime. -/
theorem ttl_arming_failure_is_error_in_tools :
    (Cmd.incr (getKey (Tools.redisKey "u" "free" "gpt")), false) ∈
      (Tools.GetStarLimit sampleGo sampleRules
        ⟨sampleStore, [false, false, false, false, true], []⟩ "u" "gpt").2.log ∧
    (Cmd.expire (getKey (Tools.redisKey "u" "free" "gpt")) 60, true) ∈
      (Tools.GetStarLimit sampleGo sampleRules
        ⟨sampleStore, [false, false, false, false, true], []⟩ "u" "gpt").2.log ∧
    (Tools.GetStarLimit sampleGo sampleRules
      ⟨sampleStore, [false, false, false, false, true], []⟩ "u" "gpt").1 =
        ⟨false, "", some (.wrapped "设置过期时间失败" .io)⟩ ∧
    (Tools.GetStarLimit sampleGo sampleRules
      ⟨sampleStore, [false, false, false, false, true], []⟩ "u" "gpt").2.kv
        (getKey (Tools.redisKey "u" "free" "gpt")) = some ⟨"1", none⟩ := by
  refine ⟨by decide, by decide, by decide, by decide⟩

end LimitService
namespace LimitService

/-! ## C18 -/

end LimitService
namespace LimitService

/-! ## C19 -/

/-- C19, the failing input in `internal/limiter`: two concurrent calls of
`GetStarLimit` for user `u` and the model `gpt` under the rule `1/1m`
(`maxCount = 1`), with the marker in place and no counter, every store call
being atomic. When both calls read the counter before either increments it,
both are allowed and the counter is 2 afterwards. One after the other, the same
calls give one allowed call, one denied call and the counter 1. -/
theorem concurrent_calls_exceed_limit :
    Internal.Ready sampleGo oneAMinute "u" "gpt" 1 60 sampleRedis 0 ∧
    ((Internal.interleave
        [Internal.GetStarLimitCall sampleGo oneAMinute "u" "gpt",
          Internal.GetStarLimitCall sampleGo oneAMinute "u" "gpt"]
        sampleRedis [0, 0, 0, 1, 1, 1, 0, 0, 1]).1.map Internal.Call.result =
      [some ⟨true, "允许发送消息", none⟩, some ⟨true, "允许发送消息", none⟩] ∧
    (Internal.interleave
        [Internal.GetStarLimitCall sampleGo oneAMinute "u" "gpt",
          Internal.GetStarLimitCall sampleGo oneAMinute "u" "gpt"]
        sampleRedis [0, 0, 0, 1, 1, 1, 0, 0, 1]).2.kv
      (getKey (Internal.redisKey "u" "free" "gpt")) = some ⟨"2", some 60000⟩ ∧
    storedCount
      (Internal.interleave
        [Internal.GetStarLimitCall sampleGo oneAMinute "u" "gpt",
          Internal.GetStarLimitCall sampleGo oneAMinute "u" "gpt"]
        sampleRedis [0, 0, 0, 1, 1, 1, 0, 0, 1]).2.kv
      (getKey (Internal.redisKey "u" "free" "gpt")) = some 2) ∧
    ((Internal.interleave
        [Internal.GetStarLimitCall sampleGo oneAMinute "u" "gpt",
          Internal.GetStarLimitCall sampleGo oneAMinute "u" "gpt"]
        sampleRedis [0, 0, 0, 0, 0, 1, 1, 1]).1.map Internal.Call.result =
      [some ⟨true, "允许发送消息", none⟩,
        some ⟨false, Internal.limitMsg "free" "gpt" 60 1, none⟩] ∧
    storedCount
      (Internal.interleave
        [Internal.GetStarLimitCall sampleGo oneAMinute "u" "gpt",
          Internal.GetStarLimitCall sampleGo oneAMinute "u" "gpt"]
        sampleRedis [0, 0, 0, 0, 0, 1, 1, 1]).2.kv
      (getKey (Internal.redisKey "u" "free" "gpt")) = some 1) := by
  refine ⟨⟨rfl, ⟨by decide, by rfl⟩, ⟨none, by decide⟩, Or.inl ⟨rfl, by decide⟩⟩,
    ⟨by decide, by decide, by decide⟩, ⟨by decide, by decide⟩⟩

end LimitService
namespace LimitService

/-! ## C20 -/

/-- C20: `StarAudit` fails open. In `internal/auditor` it returns `true` for the
empty text whatever the matcher is, and for every text when the matcher is
`nil` (as it is when `InitAuditor` could not read the keyword file). In
`tools/audit_tools` it returns `true` for the empty text whatever the keyword
file was, for every input when the automaton was never initialised (as when
`InitKeyWords` could not read the file), and for every input that is not a
string, `nil` included. -/
theorem audit_fails_open :
    (∀ matcher : Option Internal.Matcher, Internal.StarAudit matcher "" = true) ∧
    (∀ prompt : String, Internal.StarAudit none prompt = true) ∧
    (∀ prompt : String, Internal.StarAudit (Internal.InitAuditor none) prompt = true) ∧
    (∀ file : Option (List String),
      Tools.StarAudit (Tools.InitKeyWords file) (some (.str "")) = true) ∧
    (∀ (patterns : List String) (prompt : Option Any),
      Tools.StarAudit ⟨patterns, false⟩ prompt = true) ∧
    (∀ prompt : Option Any, Tools.StarAudit (Tools.InitKeyWords none) prompt = true) ∧
    (∀ (automaton : Tools.Automaton) (i : Int), Tools.StarAudit automaton (some (.int i)) = true) ∧
    (∀ automaton : Tools.Automaton, Tools.StarAudit automaton none = true) := by
  have hT : ∀ automaton : Tools.Automaton, Tools.StarAudit automaton (some (.str "")) = true := by
    intro a
    unfold Tools.StarAudit
    by_cases h : a.automatonInitialized = true
    · simp [h, Tools.Automaton.FindAll, scanDisjoint]
    · simp [h]
  have hU : ∀ (patterns : List String) (prompt : Option Any),
      Tools.StarAudit ⟨patterns, false⟩ prompt = true := by
    intro ps p
    unfold Tools.StarAudit
    cases p with
    | none => rfl
    | some a =>
      cases a with
      | str s => simp
      | int i => rfl
  refine ⟨?_, fun _ => rfl, fun _ => rfl, fun file => hT _, hU, fun p => hU [] p,
    fun _ _ => rfl, fun _ => rfl⟩
  intro matcher
  cases matcher with
  | none => rfl
  | some m => simp [Internal.StarAudit]

end LimitService
namespace LimitService

/-! ## Counter keys of different models and tiers -/

theorem colon_split : ∀ (a a' b b' : List Char), ':' ∉ a → ':' ∉ a' →
    a ++ ':' :: b = a' ++ ':' :: b' → a = a' ∧ b = b' := by
  intro a
  induction a with
  | nil =>
    intro a' b b' _ ha' h
    cases a' with
    | nil => simpa using h
    | cons c cs =>
      simp only [List.nil_append, List.cons_append, List.cons.injEq] at h
      exact absurd (by simp [← h.1]) ha'
  | cons c cs ih =>
    intro a' b b' ha ha' h
    cases a' with
    | nil =>
      simp only [List.nil_append, List.cons_append, List.cons.injEq] at h
      exact absurd (by simp [h.1]) ha
    | cons c' cs' =>
      simp only [List.cons_append, List.cons.injEq] at h
      obtain ⟨h1, h2⟩ := ih cs' b b' (fun hm => ha (by simp [hm])) (fun hm => ha' (by simp [hm])) h.2
      exact ⟨by rw [h.1, h1], h2⟩

namespace Internal

/-- Under one tier, different models have different counter keys. -/
theorem redisKey_model (u t X Y : String) (h : X ≠ Y) :
    getKey (redisKey u t Y) ≠ getKey (redisKey u t X) := by
  intro e
  have hd := congrArg String.data e
  simp only [getKey, redisKey, String.data_append, List.append_assoc,
    List.append_cancel_left_eq] at hd
  exact h (String.ext hd.symm)

/-- Tiers without `:` in their names have different counter keys. -/
theorem redisKey_tier (u t t' m m' : String) (ht : ':' ∉ t.data) (ht' : ':' ∉ t'.data)
    (h : t' ≠ t) : getKey (redisKey u t' m') ≠ getKey (redisKey u t m) := by
  intro e
  have hd := congrArg String.data e
  simp only [getKey, redisKey, String.data_append, List.append_assoc,
    List.append_cancel_left_eq] at hd
  simp only [List.singleton_append] at hd
  exact h (String.ext (colon_split _ _ _ _ ht' ht hd).1)

/-- The counting stage decides against the stored count. -/
theorem countAndConsume_decided (r : Redis) (u t m : String) (M w c : Int)
    (h : r.faults = [])
    (hs : storedCount r.kv (getKey (redisKey u t m)) = some c) :
    (M ≤ c → countAndConsume r u t m M w =
      (⟨false, limitMsg t m w M, none⟩,
        ⟨r.kv, [], r.log ++ [(.get (getKey (redisKey u t m)), false)]⟩)) ∧
    (c < M → (countAndConsume r u t m M w).1.ok = true ∨
      (countAndConsume r u t m M w).1.err.isSome = true) := by
  have hgi : GetInt r (redisKey u t m) =
      ((c, (r.kv (getKey (redisKey u t m))).isSome, none),
        ⟨r.kv, [], r.log ++ [(.get (getKey (redisKey u t m)), false)]⟩) ∧
      ((r.kv (getKey (redisKey u t m))).isSome = false → c = 0) := by
    cases hk : r.kv (getKey (redisKey u t m)) with
    | none =>
      simp only [storedCount, hk, Option.some.injEq] at hs
      subst hs
      exact ⟨GetInt_absent r _ h hk, fun _ => rfl⟩
    | some e =>
      simp only [storedCount, hk] at hs
      cases ha : Atoi e.val with
      | error x => rw [ha] at hs; simp at hs
      | ok i =>
        rw [ha] at hs
        simp only [Option.some.injEq] at hs
        subst hs
        exact ⟨GetInt_present r _ _ _ h hk ha, fun hx => by simp at hx⟩
  obtain ⟨hg, h0⟩ := hgi
  have hcur : (if (!(r.kv (getKey (redisKey u t m))).isSome) = true then 0 else c) = c := by
    cases hi : (r.kv (getKey (redisKey u t m))).isSome with
    | true => simp
    | false => simp [h0 hi]
  constructor
  · intro hM
    simp only [countAndConsume, hg, Option.isSome_none, Bool.false_and, Bool.false_eq_true,
      if_false, hcur, ge_iff_le, hM, if_true]
  · intro hM
    have hM' : ¬ (M ≤ c) := by omega
    simp only [countAndConsume, hg, Option.isSome_none, Bool.false_and, Bool.false_eq_true,
      if_false, hcur, ge_iff_le, hM']
    generalize Incr ⟨r.kv, [], r.log ++ [(.get (getKey (redisKey u t m)), false)]⟩
      (redisKey u t m) = x
    rcases x with ⟨res, r6⟩
    cases res with
    | error e => right; rfl
    | ok newCount =>
      left
      simp only
      split <;> rfl

/-- The counting stage sends no `set`. -/
theorem countAndConsume_no_set (r : Redis) (u t m : String) (M w : Int) :
    ∃ l, (countAndConsume r u t m M w).2.log = r.log ++ l ∧
      ∀ k v px b, (Cmd.set k v px, b) ∉ l := by
  unfold countAndConsume
  obtain ⟨b, hlog⟩ := GetInt_log r (redisKey u t m)
  rcases hg : GetInt r (redisKey u t m) with ⟨⟨count, foundCount, errCount⟩, r5'⟩
  rw [hg] at hlog
  simp only at hlog ⊢
  by_cases he : (errCount.isSome && foundCount) = true
  · simp only [he, if_true]
    refine ⟨_, hlog, ?_⟩
    intro k v px b' hc
    simp at hc
  · simp only [he, if_false, Bool.false_eq_true]
    by_cases hge : (if (!foundCount) = true then 0 else count) ≥ M
    · simp only [hge, if_true]
      refine ⟨_, hlog, ?_⟩
      intro k v px b' hc
      simp at hc
    · simp only [hge, if_false]
      obtain ⟨b1, hlog1, -⟩ := Incr_log r5' (redisKey u t m)
      rcases hi : Incr r5' (redisKey u t m) with ⟨res, r6⟩
      rw [hi] at hlog1
      simp only at hlog1
      cases res with
      | error e =>
        refine ⟨_, by rw [hlog1, hlog, List.append_assoc], ?_⟩
        intro k v px b' hc
        simp at hc
      | ok newCount =>
        simp only
        by_cases h1 : newCount = 1
        · simp only [h1, if_true]
          obtain ⟨b2, hlog2⟩ := Expire_log r6 (redisKey u t m) (durationOfSeconds w)
          refine ⟨_, by rw [hlog2, hlog1, hlog, List.append_assoc, List.append_assoc], ?_⟩
          intro k v px b' hc
          simp at hc
        · simp only [h1, if_false]
          refine ⟨_, by rw [hlog1, hlog, List.append_assoc], ?_⟩
          intro k v px b' hc
          simp at hc

end Internal

namespace Tools

/-- Under one tier, different models have different counter keys. -/
theorem redisKey_model_tools (u t X Y : String) (h : X ≠ Y) :
    getKey (redisKey u t Y) ≠ getKey (redisKey u t X) := by
  intro e
  have hd := congrArg String.data e
  simp only [getKey, redisKey, String.data_append, List.append_assoc,
    List.append_cancel_left_eq] at hd
  exact h (String.ext hd.symm)

/-- Tiers without `:` in their names have different counter keys. -/
theorem redisKey_tier_tools (u t t' m m' : String) (ht : ':' ∉ t.data) (ht' : ':' ∉ t'.data)
    (h : t' ≠ t) : getKey (redisKey u t' m') ≠ getKey (redisKey u t m) := by
  intro e
  have hd := congrArg String.data e
  simp only [getKey, redisKey, String.data_append, List.append_assoc,
    List.append_cancel_left_eq] at hd
  simp only [List.singleton_append] at hd
  exact h (String.ext (colon_split _ _ _ _ ht' ht hd).1)

/-- The counting stage decides against the stored count. -/
theorem countAndConsume_decided_tools (r : Redis) (u t m : String) (M w c : Int)
    (h : r.faults = [])
    (hs : storedCount r.kv (getKey (redisKey u t m)) = some c) :
    (M ≤ c → countAndConsume r u t m M w =
      (⟨false, limitMsg t m w M, none⟩,
        ⟨r.kv, [], r.log ++ [(.get (getKey (redisKey u t m)), false)]⟩)) ∧
    (c < M → (countAndConsume r u t m M w).1.ok = true ∨
      (countAndConsume r u t m M w).1.err.isSome = true) := by
  have hgi : ∃ err, GetInt r (redisKey u t m) =
      ((c, err), ⟨r.kv, [], r.log ++ [(.get (getKey (redisKey u t m)), false)]⟩) ∧
      (err.isSome && !(err.any Err.isRedisNilText)) = false := by
    cases hk : r.kv (getKey (redisKey u t m)) with
    | none =>
      simp only [storedCount, hk, Option.some.injEq] at hs
      subst hs
      exact ⟨_, GetInt_absent_tools r _ h hk, by simp [Err.isRedisNilText]⟩
    | some e =>
      simp only [storedCount, hk] at hs
      cases ha : Atoi e.val with
      | error x => rw [ha] at hs; simp at hs
      | ok i =>
        rw [ha] at hs
        simp only [Option.some.injEq] at hs
        subst hs
        exact ⟨_, GetInt_present_tools r _ _ _ h hk ha, by simp⟩
  obtain ⟨err, hg, herr⟩ := hgi
  constructor
  · intro hM
    simp only [countAndConsume, hg, herr, Bool.false_eq_true, if_false, ge_iff_le, hM, if_true]
  · intro hM
    have hM' : ¬ (M ≤ c) := by omega
    simp only [countAndConsume, hg, herr, Bool.false_eq_true, if_false, ge_iff_le, hM']
    have hi := Incr_frame_tools ⟨r.kv, [], r.log ++ [(.get (getKey (redisKey u t m)), false)]⟩
      (redisKey u t m)
    generalize Incr ⟨r.kv, [], r.log ++ [(.get (getKey (redisKey u t m)), false)]⟩
      (redisKey u t m) = x at hi ⊢
    rcases x with ⟨res, r6⟩
    cases res with
    | error e => right; rfl
    | ok newCount =>
      simp only
      by_cases h1 : newCount = 1
      · simp only [h1, if_true]
        have hf6 : r6.faults = [] := hi.2
        obtain ⟨b, hb⟩ := issue_shape r6
          (.expire (getKey (redisKey u t m)) (formatSec (durationOfSeconds w)))
        have hbf : b = false := by
          unfold Redis.issue at hb
          rw [hf6] at hb
          simp only [Prod.mk.injEq] at hb
          exact hb.1.symm
        subst hbf
        have hex : (Expire r6 (redisKey u t m) (durationOfSeconds w)).1 = none := by
          simp only [Expire, Redis.clientExpire, hb]
          cases r6.kv (getKey (redisKey u t m)) with
          | none => rfl
          | some e => simp only [Bool.false_eq_true, if_false]; split <;> rfl
        rcases hE : Expire r6 (redisKey u t m) (durationOfSeconds w) with ⟨e2, r7⟩
        rw [hE] at hex
        simp only at hex
        subst hex
        left
        rfl
      · simp only [h1, if_false]
        left
        trivial

/-- The counting stage sends no `set`. -/
theorem countAndConsume_no_set_tools (r : Redis) (u t m : String) (M w : Int) :
    ∃ l, (countAndConsume r u t m M w).2.log = r.log ++ l ∧
      ∀ k v px b, (Cmd.set k v px, b) ∉ l := by
  unfold countAndConsume
  obtain ⟨b, hlog, -⟩ := GetInt_log_tools r (redisKey u t m)
  rcases hg : GetInt r (redisKey u t m) with ⟨⟨count, err⟩, r5'⟩
  rw [hg] at hlog
  simp only at hlog ⊢
  by_cases he : (err.isSome && !(err.any Err.isRedisNilText)) = true
  · simp only [he, if_true]
    refine ⟨_, hlog, ?_⟩
    intro k v px b' hc
    simp at hc
  · simp only [he, if_false, Bool.false_eq_true]
    by_cases hge : count ≥ M
    · simp only [hge, if_true]
      refine ⟨_, hlog, ?_⟩
      intro k v px b' hc
      simp at hc
    · simp only [hge, if_false]
      obtain ⟨b1, hlog1, -⟩ := Incr_log_tools r5' (redisKey u t m)
      rcases hi : Incr r5' (redisKey u t m) with ⟨res, r6⟩
      rw [hi] at hlog1
      simp only at hlog1
      cases res with
      | error e =>
        refine ⟨_, by rw [hlog1, hlog, List.append_assoc], ?_⟩
        intro k v px b' hc
        simp at hc
      | ok newCount =>
        simp only
        by_cases h1 : newCount = 1
        · simp only [h1, if_true]
          obtain ⟨b2, hlog2, -⟩ := Expire_log_tools r6 (redisKey u t m) (durationOfSeconds w)
          rcases hx : Expire r6 (redisKey u t m) (durationOfSeconds w) with ⟨e2, r7⟩
          rw [hx] at hlog2
          simp only at hlog2
          cases e2 with
          | some e =>
            refine ⟨_, by rw [hlog2, hlog1, hlog, List.append_assoc, List.append_assoc], ?_⟩
            intro k v px b' hc
            simp at hc
          | none =>
            refine ⟨_, by rw [hlog2, hlog1, hlog, List.append_assoc, List.append_assoc], ?_⟩
            intro k v px b' hc
            simp at hc
        · simp only [h1, if_false]
          refine ⟨_, by rw [hlog1, hlog, List.append_assoc], ?_⟩
          intro k v px b' hc
          simp at hc

end Tools

end LimitService
namespace LimitService

/-! ## The call after a plan-change reset -/

theorem no_set_of_log (r r' : Redis) (pre l : List (Cmd × Bool))
    (hpre : ∀ k v px b, (Cmd.set k v px, b) ∉ pre)
    (hl : ∀ k v px b, (Cmd.set k v px, b) ∉ l)
    (h : r'.log = (r.log ++ pre) ++ l) :
    ∀ k v px b, (Cmd.set k v px, b) ∉ newLog r r' := by
  intro k v px b hc
  rw [newLog_of_log r r' (pre ++ l) (by rw [h, List.append_assoc])] at hc
  rcases List.mem_append.mp hc with hc | hc
  · exact hpre k v px b hc
  · exact hl k v px b hc

namespace Internal

/-- After a call that starts from a plan change, on a store that answers, the
marker holds the tier. -/
theorem GetStarLimit_marker (go : GoLib) (rules : LimitData) (u m : String) (M w : Int)
    (r : Redis) (h : r.faults = [])
    (hne : getLimitRule rules (tierOf go r.kv u) m ≠ "")
    (hparse : parseLimit (getLimitRule rules (tierOf go r.kv u) m) = .ok (M, w))
    (hw : 0 < w) (hch : planChanged go r.kv u) :
    (GetStarLimit go rules r u m).2.kv (getKey (userPackageKey u)) =
      some ⟨tierOf go r.kv u, none⟩ := by
  obtain ⟨str, found, hg, ht⟩ := GetString_record go r u h
  have hpos : ¬ (w ≤ 0) := by omega
  unfold GetStarLimit
  rw [hg]
  simp only [ht, hne, if_false, hparse, hpos]
  rw [resetOnChange_changed ⟨r.kv, [], _⟩ u _ m w rfl hch]
  simp only
  rw [(countAndConsume_frame _ u _ m M w).1 _ (marker_ne_counter u _ m)]
  exact Store.put_same _ _ _

/-- A call on a store that answers, with the marker equal to the tier: no
reset, and the decision is taken against the stored count. -/
theorem GetStarLimit_following (go : GoLib) (rules : LimitData) (u m : String) (M w c : Int)
    (r : Redis) (h : r.faults = [])
    (hne : getLimitRule rules (tierOf go r.kv u) m ≠ "")
    (hparse : parseLimit (getLimitRule rules (tierOf go r.kv u) m) = .ok (M, w))
    (hw : 0 < w)
    (hmark : r.kv (getKey (userPackageKey u)) = some ⟨tierOf go r.kv u, none⟩)
    (hs : storedCount r.kv (getKey (redisKey u (tierOf go r.kv u) m)) = some c) :
    (∀ k v px b, (Cmd.set k v px, b) ∉ newLog r (GetStarLimit go rules r u m).2) ∧
    (M ≤ c →
      (GetStarLimit go rules r u m).1 = ⟨false, limitMsg (tierOf go r.kv u) m w M, none⟩ ∧
      (GetStarLimit go rules r u m).2.kv = r.kv) ∧
    (c < M → (GetStarLimit go rules r u m).1.ok = true ∨
      (GetStarLimit go rules r u m).1.err.isSome = true) ∧
    (0 ≤ c → w * 1000000000 < 2 ^ 63 → (GetStarLimit go rules r u m).1.ok = true →
      storedCount (GetStarLimit go rules r u m).2.kv (getKey (redisKey u (tierOf go r.kv u) m)) =
        some (c + 1)) := by
  have hm : ¬ planChanged go r.kv u := fun hch => hch _ hmark rfl
  rw [GetStarLimit_unchanged go rules u m M w r h hne hparse hw hm]
  have hM := parseLimit_count_range _ _ _ hparse
  obtain ⟨hd1, hd2⟩ := countAndConsume_decided ⟨r.kv, [],
    r.log ++ [(.get (getKey ("user:" ++ u ++ ":active_packages")), false),
      (.get (getKey (userPackageKey u)), false)]⟩ u (tierOf go r.kv u) m M w c rfl hs
  obtain ⟨l, hl, hno⟩ := countAndConsume_no_set ⟨r.kv, [],
    r.log ++ [(.get (getKey ("user:" ++ u ++ ":active_packages")), false),
      (.get (getKey (userPackageKey u)), false)]⟩ u (tierOf go r.kv u) m M w
  refine ⟨?_, ?_, hd2, ?_⟩
  · exact no_set_of_log r _ _ l (by intro k v px b hc; simp at hc) hno hl
  · intro hMc
    rw [hd1 hMc]
    exact ⟨rfl, rfl⟩
  · intro hc hfit hok
    exact (countAndConsume_counter ⟨r.kv, [], _⟩ u _ m M w c rfl hM hw hfit hs hc).1 hok

/-- The frame of a plan-change reset and the call that follows it for another
model of the same tier. -/
theorem GetStarLimit_reset_then (go : GoLib) (rules : LimitData) (u X Y : String)
    (M w MY wY cY : Int) (r : Redis) (h : r.faults = [])
    (hne : getLimitRule rules (tierOf go r.kv u) X ≠ "")
    (hparse : parseLimit (getLimitRule rules (tierOf go r.kv u) X) = .ok (M, w))
    (hw : 0 < w) (hch : planChanged go r.kv u) (hXY : Y ≠ X)
    (hneY : getLimitRule rules (tierOf go r.kv u) Y ≠ "")
    (hparseY : parseLimit (getLimitRule rules (tierOf go r.kv u) Y) = .ok (MY, wY))
    (hwY : 0 < wY)
    (hs : storedCount r.kv (getKey (redisKey u (tierOf go r.kv u) Y)) = some cY) :
    (∀ k, k ≠ getKey (redisKey u (tierOf go r.kv u) X) → k ≠ getKey (userPackageKey u) →
      (GetStarLimit go rules r u X).2.kv k = r.kv k) ∧
    (∀ m, m ≠ X →
      (GetStarLimit go rules r u X).2.kv (getKey (redisKey u (tierOf go r.kv u) m)) =
        r.kv (getKey (redisKey u (tierOf go r.kv u) m))) ∧
    (∀ t m, ':' ∉ t.data → ':' ∉ (tierOf go r.kv u).data → t ≠ tierOf go r.kv u →
      (GetStarLimit go rules r u X).2.kv (getKey (redisKey u t m)) =
        r.kv (getKey (redisKey u t m))) ∧
    (GetStarLimit go rules r u X).2.kv (getKey (userPackageKey u)) =
      some ⟨tierOf go r.kv u, none⟩ ∧
    (∀ k v px b, (Cmd.set k v px, b) ∉
      newLog (GetStarLimit go rules r u X).2
        (GetStarLimit go rules (GetStarLimit go rules r u X).2 u Y).2) ∧
    (MY ≤ cY →
      (GetStarLimit go rules (GetStarLimit go rules r u X).2 u Y).1 =
        ⟨false, limitMsg (tierOf go r.kv u) Y wY MY, none⟩ ∧
      (GetStarLimit go rules (GetStarLimit go rules r u X).2 u Y).2.kv =
        (GetStarLimit go rules r u X).2.kv) ∧
    (cY < MY →
      (GetStarLimit go rules (GetStarLimit go rules r u X).2 u Y).1.ok = true ∨
      (GetStarLimit go rules (GetStarLimit go rules r u X).2 u Y).1.err.isSome = true) ∧
    (0 ≤ cY → wY * 1000000000 < 2 ^ 63 →
      (GetStarLimit go rules (GetStarLimit go rules r u X).2 u Y).1.ok = true →
      storedCount (GetStarLimit go rules (GetStarLimit go rules r u X).2 u Y).2.kv
        (getKey (redisKey u (tierOf go r.kv u) Y)) = some (cY + 1)) := by
  obtain ⟨hfr, hfl⟩ := GetStarLimit_frame go rules r u X
  have hmk := GetStarLimit_marker go rules u X M w r h hne hparse hw hch
  have hf1 := hfl h
  generalize (GetStarLimit go rules r u X).2 = r1 at hfr hmk hf1 ⊢
  have htier : tierOf go r1.kv u = tierOf go r.kv u := by
    unfold tierOf
    rw [hfr _ (record_ne_counter u _ X) (record_ne_marker u)]
  have hY : r1.kv (getKey (redisKey u (tierOf go r.kv u) Y)) =
      r.kv (getKey (redisKey u (tierOf go r.kv u) Y)) :=
    hfr _ (redisKey_model u _ X Y hXY.symm) (marker_ne_counter u _ Y).symm
  have hs1 : storedCount r1.kv (getKey (redisKey u (tierOf go r1.kv u) Y)) = some cY := by
    rw [htier]
    unfold storedCount
    rw [hY]
    exact hs
  have hfol := GetStarLimit_following go rules u Y MY wY cY r1 hf1 (by rw [htier]; exact hneY)
    (by rw [htier]; exact hparseY) hwY (by rw [htier]; exact hmk) hs1
  rw [htier] at hfol
  refine ⟨hfr, ?_, ?_, hmk, hfol⟩
  · intro m hm
    exact hfr _ (redisKey_model u _ X m hm.symm) (marker_ne_counter u _ m).symm
  · intro t m ht ht0 hne'
    exact hfr _ (redisKey_tier u _ t X m ht0 ht hne') (marker_ne_counter u t m).symm

end Internal

namespace Tools

/-- After a call that starts from a plan change, on a store that answers, the
marker holds the tier. -/
theorem GetStarLimit_marker_tools (go : GoLib) (rules : LimitData) (u m : String) (M w : Int)
    (r : Redis) (h : r.faults = [])
    (hne : getLimitRules rules (tierOf go r.kv u) m ≠ "")
    (hparse : parseLimit (getLimitRules rules (tierOf go r.kv u) m) = .ok (M, w))
    (hch : planChanged go r.kv u) :
    (GetStarLimit go rules r u m).2.kv (getKey (userPackageKey u)) =
      some ⟨tierOf go r.kv u, none⟩ := by
  obtain ⟨data, hg, ht⟩ := Get_record_tools go r u h
  unfold GetStarLimit
  rw [hg]
  simp only [ht, hne, if_false, hparse]
  rw [resetOnChange_changed_tools ⟨r.kv, [], _⟩ u _ m w rfl hch]
  simp only
  rw [(countAndConsume_frame_tools _ u _ m M w).1 _ (marker_ne_counter_tools u _ m)]
  exact Store.put_same _ _ _

/-- A call on a store that answers, with the marker equal to the tier: no
reset, and the decision is taken against the stored count. -/
theorem GetStarLimit_following_tools (go : GoLib) (rules : LimitData) (u m : String)
    (M w c : Int) (r : Redis) (h : r.faults = [])
    (hne : getLimitRules rules (tierOf go r.kv u) m ≠ "")
    (hparse : parseLimit (getLimitRules rules (tierOf go r.kv u) m) = .ok (M, w))
    (hmark : r.kv (getKey (userPackageKey u)) = some ⟨tierOf go r.kv u, none⟩)
    (hs : storedCount r.kv (getKey (redisKey u (tierOf go r.kv u) m)) = some c) :
    (∀ k v px b, (Cmd.set k v px, b) ∉ newLog r (GetStarLimit go rules r u m).2) ∧
    (M ≤ c →
      (GetStarLimit go rules r u m).1 = ⟨false, limitMsg (tierOf go r.kv u) m w M, none⟩ ∧
      (GetStarLimit go rules r u m).2.kv = r.kv) ∧
    (c < M → (GetStarLimit go rules r u m).1.ok = true ∨
      (GetStarLimit go rules r u m).1.err.isSome = true) ∧
    (0 ≤ c → 0 < w → w * 1000000000 < 2 ^ 63 → (GetStarLimit go rules r u m).1.ok = true →
      storedCount (GetStarLimit go rules r u m).2.kv (getKey (redisKey u (tierOf go r.kv u) m)) =
        some (c + 1)) := by
  have hm : ¬ planChanged go r.kv u := by
    unfold planChanged
    rw [hmark]
    exact fun hx => hx rfl
  rw [GetStarLimit_unchanged_tools go rules u m M w r h hne hparse hm]
  have hM := parseLimit_count_range_tools _ _ _ hparse
  obtain ⟨hd1, hd2⟩ := countAndConsume_decided_tools ⟨r.kv, [],
    r.log ++ [(.get (getKey ("user:" ++ u ++ ":active_packages")), false),
      (.get (getKey (userPackageKey u)), false)]⟩ u (tierOf go r.kv u) m M w c rfl hs
  obtain ⟨l, hl, hno⟩ := countAndConsume_no_set_tools ⟨r.kv, [],
    r.log ++ [(.get (getKey ("user:" ++ u ++ ":active_packages")), false),
      (.get (getKey (userPackageKey u)), false)]⟩ u (tierOf go r.kv u) m M w
  refine ⟨?_, ?_, hd2, ?_⟩
  · exact no_set_of_log r _ _ l (by intro k v px b hc; simp at hc) hno hl
  · intro hMc
    rw [hd1 hMc]
    exact ⟨rfl, rfl⟩
  · intro hc hw hfit hok
    exact (countAndConsume_counter_tools ⟨r.kv, [], _⟩ u _ m M w c rfl hM hw hfit hs hc).1 hok

/-- The frame of a plan-change reset and the call that follows it for another
model of the same tier. -/
theorem GetStarLimit_reset_then_tools (go : GoLib) (rules : LimitData) (u X Y : String)
    (M w MY wY cY : Int) (r : Redis) (h : r.faults = [])
    (hne : getLimitRules rules (tierOf go r.kv u) X ≠ "")
    (hparse : parseLimit (getLimitRules rules (tierOf go r.kv u) X) = .ok (M, w))
    (hch : planChanged go r.kv u) (hXY : Y ≠ X)
    (hneY : getLimitRules rules (tierOf go r.kv u) Y ≠ "")
    (hparseY : parseLimit (getLimitRules rules (tierOf go r.kv u) Y) = .ok (MY, wY))
    (hs : storedCount r.kv (getKey (redisKey u (tierOf go r.kv u) Y)) = some cY) :
    (∀ k, k ≠ getKey (redisKey u (tierOf go r.kv u) X) → k ≠ getKey (userPackageKey u) →
      (GetStarLimit go rules r u X).2.kv k = r.kv k) ∧
    (∀ m, m ≠ X →
      (GetStarLimit go rules r u X).2.kv (getKey (redisKey u (tierOf go r.kv u) m)) =
        r.kv (getKey (redisKey u (tierOf go r.kv u) m))) ∧
    (∀ t m, ':' ∉ t.data → ':' ∉ (tierOf go r.kv u).data → t ≠ tierOf go r.kv u →
      (GetStarLimit go rules r u X).2.kv (getKey (redisKey u t m)) =
        r.kv (getKey (redisKey u t m))) ∧
    (GetStarLimit go rules r u X).2.kv (getKey (userPackageKey u)) =
      some ⟨tierOf go r.kv u, none⟩ ∧
    (∀ k v px b, (Cmd.set k v px, b) ∉
      newLog (GetStarLimit go rules r u X).2
        (GetStarLimit go rules (GetStarLimit go rules r u X).2 u Y).2) ∧
    (MY ≤ cY →
      (GetStarLimit go rules (GetStarLimit go rules r u X).2 u Y).1 =
        ⟨false, limitMsg (tierOf go r.kv u) Y wY MY, none⟩ ∧
      (GetStarLimit go rules (GetStarLimit go rules r u X).2 u Y).2.kv =
        (GetStarLimit go rules r u X).2.kv) ∧
    (cY < MY →
      (GetStarLimit go rules (GetStarLimit go rules r u X).2 u Y).1.ok = true ∨
      (GetStarLimit go rules (GetStarLimit go rules r u X).2 u Y).1.err.isSome = true) ∧
    (0 ≤ cY → 0 < wY → wY * 1000000000 < 2 ^ 63 →
      (GetStarLimit go rules (GetStarLimit go rules r u X).2 u Y).1.ok = true →
      storedCount (GetStarLimit go rules (GetStarLimit go rules r u X).2 u Y).2.kv
        (getKey (redisKey u (tierOf go r.kv u) Y)) = some (cY + 1)) := by
  obtain ⟨hfr, hfl⟩ := GetStarLimit_frame_tools go rules r u X
  have hmk := GetStarLimit_marker_tools go rules u X M w r h hne hparse hch
  have hf1 := hfl h
  generalize (GetStarLimit go rules r u X).2 = r1 at hfr hmk hf1 ⊢
  have htier : tierOf go r1.kv u = tierOf go r.kv u := by
    unfold tierOf
    rw [hfr _ (record_ne_counter_tools u _ X) (record_ne_marker_tools u)]
  have hY : r1.kv (getKey (redisKey u (tierOf go r.kv u) Y)) =
      r.kv (getKey (redisKey u (tierOf go r.kv u) Y)) :=
    hfr _ (redisKey_model_tools u _ X Y hXY.symm) (marker_ne_counter_tools u _ Y).symm
  have hs1 : storedCount r1.kv (getKey (redisKey u (tierOf go r1.kv u) Y)) = some cY := by
    rw [htier]
    unfold storedCount
    rw [hY]
    exact hs
  have hfol := GetStarLimit_following_tools go rules u Y MY wY cY r1 hf1
    (by rw [htier]; exact hneY) (by rw [htier]; exact hparseY) (by rw [htier]; exact hmk) hs1
  rw [htier] at hfol
  refine ⟨hfr, ?_, ?_, hmk, hfol⟩
  · intro m hm
    exact hfr _ (redisKey_model_tools u _ X m hm.symm) (marker_ne_counter_tools u _ m).symm
  · intro t m ht ht0 hne'
    exact hfr _ (redisKey_tier_tools u _ t X m ht0 ht hne') (marker_ne_counter_tools u t m).symm

end Tools

end LimitService
namespace LimitService

/-! ## Failed store commands in the token check and in the car check -/

namespace Internal

/-- A failed command of the token check ends it with an error. -/
theorem VerifyTokenNoHeader_failure (r : Redis) (u tok : String) :
    ∃ l, (VerifyTokenNoHeader r u tok).2.log = r.log ++ l ∧
      ∀ c, (c, true) ∈ l → (VerifyTokenNoHeader r u tok).1.2.isSome = true := by
  unfold VerifyTokenNoHeader
  split
  · exact ⟨[], by simp, fun c hc => by simp at hc⟩
  · obtain ⟨b, hlog, herr⟩ := GetString_log r ("xtoken_" ++ u)
    rcases hg : GetString r ("xtoken_" ++ u) with ⟨⟨v, found, err⟩, r1⟩
    rw [hg] at hlog herr
    simp only at hlog herr ⊢
    cases err with
    | some e => exact ⟨_, hlog, fun _ _ => rfl⟩
    | none =>
      have hb : b = false := by
        cases b
        · rfl
        · exact absurd (herr rfl).1 (by simp)
      subst hb
      simp only
      split <;> exact ⟨_, hlog, fun c hc => by simp at hc⟩

/-- A failed command of the car check ends it with an error. -/
theorem VerifyUserAcard_failure (go : GoLib) (r : Redis) (u car : String) :
    ∃ l, (VerifyUserAcard go r u car).2.log = r.log ++ l ∧
      ∀ c, (c, true) ∈ l → (VerifyUserAcard go r u car).1.2.isSome = true := by
  unfold VerifyUserAcard
  split
  · exact ⟨[], by simp, fun c hc => by simp at hc⟩
  · obtain ⟨b, hlog, herr⟩ := GetString_log r ("user:" ++ u ++ ":active_packages")
    rcases hg : GetString r ("user:" ++ u ++ ":active_packages") with ⟨⟨v, found, err⟩, r1⟩
    rw [hg] at hlog herr
    simp only at hlog herr ⊢
    cases err with
    | some e => exact ⟨_, hlog, fun _ _ => rfl⟩
    | none =>
      have hb : b = false := by
        cases b
        · rfl
        · exact absurd (herr rfl).1 (by simp)
      subst hb
      simp only
      split
      · exact ⟨_, hlog, fun c hc => by simp at hc⟩
      · obtain ⟨b1, hlog1, herr1⟩ := GetString_log r1 ("car_status:" ++ car)
        rcases hg1 : GetString r1 ("car_status:" ++ car) with ⟨⟨v1, found1, err1⟩, r2⟩
        rw [hg1] at hlog1 herr1
        simp only at hlog1 herr1 ⊢
        have hl : r2.log = r.log ++
            ([(Cmd.get (getKey ("user:" ++ u ++ ":active_packages")), false)] ++
              [(Cmd.get (getKey ("car_status:" ++ car)), b1)]) := by
          rw [hlog1, hlog, List.append_assoc]
        cases err1 with
        | some e => exact ⟨_, hl, fun _ _ => rfl⟩
        | none =>
          have hb1 : b1 = false := by
            cases b1
            · rfl
            · exact absurd (herr1 rfl).1 (by simp)
          subst hb1
          simp only
          split <;> exact ⟨_, hl, fun c hc => by simp at hc⟩

end Internal

namespace Tools

/-- A failed command of the token check ends it with an error. -/
theorem VerifyTokenNoHeader_failure_tools (r : Redis) (u tok : String) :
    ∃ l, (VerifyTokenNoHeader r u tok).2.log = r.log ++ l ∧
      ∀ c, (c, true) ∈ l → (VerifyTokenNoHeader r u tok).1.2.isSome = true := by
  unfold VerifyTokenNoHeader
  obtain ⟨b, hlog, herr⟩ := GetString_log_tools r ("xtoken_" ++ u)
  rcases hg : GetString r ("xtoken_" ++ u) with ⟨⟨v, err⟩, r1⟩
  rw [hg] at hlog herr
  simp only at hlog herr ⊢
  cases b with
  | true =>
    have h2 := herr rfl
    simp only [Prod.mk.injEq] at h2
    obtain ⟨-, rfl⟩ := h2
    exact ⟨_, hlog, fun _ _ => rfl⟩
  | false =>
    cases err with
    | none => exact ⟨_, hlog, fun c hc => by simp at hc⟩
    | some e =>
      simp only
      split <;> exact ⟨_, hlog, fun c hc => by simp at hc⟩

/-- The contract of `VerifyTokenNoHeader` in `tools`: when the lookup is
answered the token is valid exactly when it equals the one on record, for
every user ID and token, the empty ones included; a failed lookup is an error. -/
theorem VerifyTokenNoHeader_contract_tools (r : Redis) (u tok : String) :
    (r.faults.head? ≠ some true →
      (VerifyTokenNoHeader r u tok).1.2 = none ∧
      ((VerifyTokenNoHeader r u tok).1.1 = true ↔
        ∃ e, r.kv (getKey ("xtoken_" ++ u)) = some e ∧ e.val = tok)) ∧
    (r.faults.head? = some true → (VerifyTokenNoHeader r u tok).1 = (false, some .io)) := by
  constructor
  · intro hf
    have hi := issue_ok r (.get (getKey ("xtoken_" ++ u))) hf
    unfold VerifyTokenNoHeader
    cases hk : r.kv (getKey ("xtoken_" ++ u)) with
    | none => simp [GetString, Redis.clientGet, hi, hk]
    | some e =>
      simp only [GetString, Redis.clientGet, hi, hk, Bool.false_eq_true, if_false]
      refine ⟨trivial, ?_⟩
      simp only [beq_iff_eq, Option.some.injEq]
      constructor
      · intro h
        exact ⟨e, rfl, h.symm⟩
      · rintro ⟨e', rfl, h⟩
        exact h.symm
  · intro hf
    rcases issue_cases r (.get (getKey ("xtoken_" ++ u))) with hb | ⟨hh, _⟩
    · unfold VerifyTokenNoHeader
      simp [GetString, Redis.clientGet, hb]
    · exact absurd hf hh

/-- A failed command of the car check ends it with an error. -/
theorem VerifyUserAcard_failure_tools (go : GoLib) (r : Redis) (u car : String) :
    ∃ l, (VerifyUserAcard go r u car).2.log = r.log ++ l ∧
      ∀ c, (c, true) ∈ l → (VerifyUserAcard go r u car).1.2.isSome = true := by
  unfold VerifyUserAcard
  obtain ⟨b, hlog, herr⟩ := Get_log_tools go r ("user:" ++ u ++ ":active_packages")
  rcases hg : Get go r ("user:" ++ u ++ ":active_packages") with ⟨res, r1⟩
  rw [hg] at hlog herr
  simp only at hlog herr ⊢
  cases res with
  | error e => exact ⟨_, hlog, fun _ _ => rfl⟩
  | ok data =>
    have hb : b = false := by
      cases b
      · rfl
      · obtain ⟨e, he⟩ := herr rfl
        simp at he
    subst hb
    simp only
    split
    · exact ⟨_, hlog, fun _ _ => rfl⟩
    · split
      · exact ⟨_, hlog, fun c hc => by simp at hc⟩
      · obtain ⟨b1, hlog1, herr1⟩ := Get_log_tools go r1 ("car_status:" ++ car)
        rcases hg1 : Get go r1 ("car_status:" ++ car) with ⟨res1, r2⟩
        rw [hg1] at hlog1 herr1
        simp only at hlog1 herr1 ⊢
        have hl : r2.log = r.log ++
            ([(Cmd.get (getKey ("user:" ++ u ++ ":active_packages")), false)] ++
              [(Cmd.get (getKey ("car_status:" ++ car)), b1)]) := by
          rw [hlog1, hlog, List.append_assoc]
        cases res1 with
        | error e => exact ⟨_, hl, fun _ _ => rfl⟩
        | ok carData =>
          have hb1 : b1 = false := by
            cases b1
            · rfl
            · obtain ⟨e, he⟩ := herr1 rfl
              simp at he
          subst hb1
          simp only
          split
          · exact ⟨_, hl, fun _ _ => rfl⟩
          · exact ⟨_, hl, fun c hc => by simp at hc⟩

end Tools

end LimitService
namespace LimitService

/-! ## The handlers, outcome by outcome -/

namespace Internal

/-- `AuditHandler` before the body is read. -/
theorem AuditHandler_credentials (go : GoLib) (bind : String → Except String AuditRequest)
    (matcher : Option Matcher) (rules : LimitData) (r : Redis) (tok u body carid : String) :
    ((tok = "" ∨ u = "") →
      AuditHandler go bind matcher rules r ⟨some (.str tok), some (.str u), body, carid⟩ =
        (⟨401, "error", "无效的认证凭据 (Invalid credentials)"⟩, r)) ∧
    (tok ≠ "" → u ≠ "" → (VerifyTokenNoHeader r u tok).1.2.isSome = true →
      (AuditHandler go bind matcher rules r ⟨some (.str tok), some (.str u), body, carid⟩).1 =
        ⟨500, "error", "令牌验证时发生内部服务器错误"⟩) ∧
    (tok ≠ "" → u ≠ "" → (VerifyTokenNoHeader r u tok).1 = (false, none) →
      (AuditHandler go bind matcher rules r ⟨some (.str tok), some (.str u), body, carid⟩).1 =
        ⟨401, "error", "登录信息已过期或无效，请重新登录"⟩) := by
  refine ⟨?_, ?_, ?_⟩
  · intro h
    unfold AuditHandler
    rcases h with h | h <;> simp [h]
  · intro ht hu hv
    unfold AuditHandler
    simp only [ht, hu, decide_False, Bool.or_self, Bool.false_eq_true, if_false]
    rcases hr : VerifyTokenNoHeader r u tok with ⟨⟨valid, err⟩, r1⟩
    rw [hr] at hv
    cases err with
    | none => simp at hv
    | some e => rfl
  · intro ht hu hv
    unfold AuditHandler
    simp only [ht, hu, decide_False, Bool.or_self, Bool.false_eq_true, if_false]
    rcases hr : VerifyTokenNoHeader r u tok with ⟨⟨valid, err⟩, r1⟩
    rw [hr] at hv
    simp only [Prod.mk.injEq] at hv
    obtain ⟨rfl, rfl⟩ := hv
    rfl

/-- `AuditHandler` after a passed token check. -/
theorem AuditHandler_passed (go : GoLib) (bind : String → Except String AuditRequest)
    (matcher : Option Matcher) (rules : LimitData) (r : Redis) (tok u body carid : String)
    (hv : (VerifyTokenNoHeader r u tok).1 = (true, none)) :
    (∀ e, bind body = .error e →
      (AuditHandler go bind matcher rules r ⟨some (.str tok), some (.str u), body, carid⟩).1 =
        ⟨400, "error", "无效的请求体: " ++ e⟩) ∧
    (∀ req, bind body = .ok req →
      (StarAudit matcher (promptOf req.Messages) = false →
        (AuditHandler go bind matcher rules r ⟨some (.str tok), some (.str u), body, carid⟩).1 =
          ⟨400, "error", "请珍惜账号, 不要提问违禁内容."⟩) ∧
      (StarAudit matcher (promptOf req.Messages) = true →
        ((GetStarLimit go rules (afterToken r u tok) u req.Model).1.err.isSome = true →
          (AuditHandler go bind matcher rules r
            ⟨some (.str tok), some (.str u), body, carid⟩).1 =
            ⟨500, "error", "速率限制检查时发生内部服务器错误"⟩) ∧
        ((GetStarLimit go rules (afterToken r u tok) u req.Model).1.err = none →
          (GetStarLimit go rules (afterToken r u tok) u req.Model).1.ok = false →
          (AuditHandler go bind matcher rules r
            ⟨some (.str tok), some (.str u), body, carid⟩).1 =
            ⟨429, "error", (GetStarLimit go rules (afterToken r u tok) u req.Model).1.msg⟩) ∧
        ((GetStarLimit go rules (afterToken r u tok) u req.Model).1.err = none →
          (GetStarLimit go rules (afterToken r u tok) u req.Model).1.ok = true →
          ((VerifyUserAcard go (afterQuota go rules r u tok req.Model) u
              (removeSpaces carid)).1.2.isSome = true →
            (AuditHandler go bind matcher rules r
              ⟨some (.str tok), some (.str u), body, carid⟩).1 =
              ⟨500, "error", "用户权限检查时发生内部服务器错误"⟩) ∧
          ((VerifyUserAcard go (afterQuota go rules r u tok req.Model) u
              (removeSpaces carid)).1 = (false, none) →
            (AuditHandler go bind matcher rules r
              ⟨some (.str tok), some (.str u), body, carid⟩).1 =
              ⟨429, "error", "请右上角切换线路"⟩) ∧
          ((VerifyUserAcard go (afterQuota go rules r u tok req.Model) u
              (removeSpaces carid)).1 = (true, none) →
            (AuditHandler go bind matcher rules r
              ⟨some (.str tok), some (.str u), body, carid⟩).1 =
              ⟨200, "status", "ok"⟩)))) := by
  obtain ⟨htok, hune⟩ := VerifyTokenNoHeader_valid_nonempty r u tok hv
  have e1 : VerifyTokenNoHeader r u tok = ((true, none), (VerifyTokenNoHeader r u tok).2) :=
    Prod.ext hv rfl
  unfold afterQuota afterToken
  generalize (VerifyTokenNoHeader r u tok).2 = r1 at e1 ⊢
  constructor
  · intro e hb
    unfold AuditHandler
    simp only [htok, hune, decide_False, Bool.or_self, Bool.false_eq_true, if_false]
    rw [e1]
    simp only [Bool.not_true, Bool.false_eq_true, if_false, hb]
  · intro req hb
    constructor
    · intro ha
      unfold AuditHandler
      simp only [htok, hune, decide_False, Bool.or_self, Bool.false_eq_true, if_false]
      rw [e1]
      simp only [Bool.not_true, Bool.false_eq_true, if_false, hb, ha, Bool.not_false, if_true]
    · intro ha
      unfold AuditHandler
      simp only [htok, hune, decide_False, Bool.or_self, Bool.false_eq_true, if_false]
      rw [e1]
      simp only [Bool.not_true, Bool.false_eq_true, if_false, hb, ha]
      rcases hq : GetStarLimit go rules r1 u req.Model with ⟨⟨ok, msg, err⟩, r2⟩
      simp only
      refine ⟨?_, ?_, ?_⟩
      · intro he
        cases err with
        | none => simp at he
        | some e => rfl
      · intro he hok
        subst he
        subst hok
        rfl
      · intro he hok
        subst he
        subst hok
        simp only [Bool.not_true, Bool.false_eq_true, if_false]
        rcases hc : VerifyUserAcard go r2 u (removeSpaces carid) with ⟨⟨can, cerr⟩, r3⟩
        simp only
        refine ⟨?_, ?_, ?_⟩
        · intro he
          cases cerr with
          | none => simp at he
          | some e => rfl
        · intro hx
          simp only [Prod.mk.injEq] at hx
          obtain ⟨rfl, rfl⟩ := hx
          rfl
        · intro hx
          simp only [Prod.mk.injEq] at hx
          obtain ⟨rfl, rfl⟩ := hx
          rfl

end Internal

namespace Tools

/-- `auditHandler` before the body is read. -/
theorem auditHandler_credentials_tools (go : GoLib)
    (bind : String → Except String AuditRequest) (automaton : Automaton) (rules : LimitData)
    (r : Redis) (tok u body carid : String) :
    ((VerifyTokenNoHeader r u tok).1.2.isSome = true →
      (auditHandler go bind automaton rules r ⟨some (.str tok), some (.str u), body, carid⟩).1 =
        ⟨500, "error", "验证token失败"⟩) ∧
    ((VerifyTokenNoHeader r u tok).1 = (false, none) →
      (auditHandler go bind automaton rules r ⟨some (.str tok), some (.str u), body, carid⟩).1 =
        ⟨429, "error", "登录信息已过期，请重新登录"⟩) := by
  refine ⟨?_, ?_⟩
  · intro hv
    unfold auditHandler
    simp only
    rcases hr : VerifyTokenNoHeader r u tok with ⟨⟨valid, err⟩, r1⟩
    rw [hr] at hv
    cases err with
    | none => simp at hv
    | some e => rfl
  · intro hv
    unfold auditHandler
    simp only
    rcases hr : VerifyTokenNoHeader r u tok with ⟨⟨valid, err⟩, r1⟩
    rw [hr] at hv
    simp only [Prod.mk.injEq] at hv
    obtain ⟨rfl, rfl⟩ := hv
    rfl

/-- `auditHandler` after a passed token check. -/
theorem auditHandler_passed_tools (go : GoLib) (bind : String → Except String AuditRequest)
    (automaton : Automaton) (rules : LimitData) (r : Redis) (tok u body carid : String)
    (hv : (VerifyTokenNoHeader r u tok).1 = (true, none)) :
    (∀ e, bind body = .error e →
      (auditHandler go bind automaton rules r ⟨some (.str tok), some (.str u), body, carid⟩).1 =
        ⟨400, "error", "请求参数错误: " ++ e⟩) ∧
    (∀ req, bind body = .ok req →
      (StarAudit automaton (some (.str (promptOf req.Messages))) = false →
        (auditHandler go bind automaton rules r
          ⟨some (.str tok), some (.str u), body, carid⟩).1 =
          ⟨400, "error", "请珍惜账号, 不要提问违禁内容."⟩) ∧
      (StarAudit automaton (some (.str (promptOf req.Messages))) = true →
        (∀ err, (GetStarLimit go rules (afterToken r u tok) u req.Model).1.err = some err →
          (auditHandler go bind automaton rules r
            ⟨some (.str tok), some (.str u), body, carid⟩).1 =
            ⟨500, "error", "检查速率限制失败: " ++ errorText err⟩) ∧
        ((GetStarLimit go rules (afterToken r u tok) u req.Model).1.err = none →
          (GetStarLimit go rules (afterToken r u tok) u req.Model).1.ok = false →
          (auditHandler go bind automaton rules r
            ⟨some (.str tok), some (.str u), body, carid⟩).1 =
            ⟨429, "error", (GetStarLimit go rules (afterToken r u tok) u req.Model).1.msg⟩) ∧
        ((GetStarLimit go rules (afterToken r u tok) u req.Model).1.err = none →
          (GetStarLimit go rules (afterToken r u tok) u req.Model).1.ok = true →
          (∀ err, (VerifyUserAcard go (afterQuota go rules r u tok req.Model) u
              (removeSpaces carid)).1.2 = some err →
            (auditHandler go bind automaton rules r
              ⟨some (.str tok), some (.str u), body, carid⟩).1 =
              ⟨500, "error", "验证用户权限失败: " ++ errorText err⟩) ∧
          ((VerifyUserAcard go (afterQuota go rules r u tok req.Model) u
              (removeSpaces carid)).1 = (false, none) →
            (auditHandler go bind automaton rules r
              ⟨some (.str tok), some (.str u), body, carid⟩).1 =
              ⟨429, "error", "请右上角切换线路"⟩) ∧
          ((VerifyUserAcard go (afterQuota go rules r u tok req.Model) u
              (removeSpaces carid)).1 = (true, none) →
            (auditHandler go bind automaton rules r
              ⟨some (.str tok), some (.str u), body, carid⟩).1 =
              ⟨200, "status", "ok"⟩)))) := by
  have e1 : VerifyTokenNoHeader r u tok = ((true, none), (VerifyTokenNoHeader r u tok).2) :=
    Prod.ext hv rfl
  unfold afterQuota afterToken
  generalize (VerifyTokenNoHeader r u tok).2 = r1 at e1 ⊢
  constructor
  · intro e hb
    unfold auditHandler
    simp only
    rw [e1]
    simp only [Bool.not_true, Bool.false_eq_true, if_false, hb]
  · intro req hb
    constructor
    · intro ha
      unfold auditHandler
      simp only
      rw [e1]
      simp only [Bool.not_true, Bool.false_eq_true, if_false, hb, ha, Bool.not_false, if_true]
    · intro ha
      unfold auditHandler
      simp only
      rw [e1]
      simp only [Bool.not_true, Bool.false_eq_true, if_false, hb, ha]
      rcases hq : GetStarLimit go rules r1 u req.Model with ⟨⟨ok, msg, err⟩, r2⟩
      simp only
      refine ⟨?_, ?_, ?_⟩
      · intro e he
        subst he
        rfl
      · intro he hok
        subst he
        subst hok
        rfl
      · intro he hok
        subst he
        subst hok
        simp only [if_true]
        rcases hc : VerifyUserAcard go r2 u (removeSpaces carid) with ⟨⟨can, cerr⟩, r3⟩
        simp only
        refine ⟨?_, ?_, ?_⟩
        · intro e he
          subst he
          rfl
        · intro hx
          simp only [Prod.mk.injEq] at hx
          obtain ⟨rfl, rfl⟩ := hx
          rfl
        · intro hx
          simp only [Prod.mk.injEq] at hx
          obtain ⟨rfl, rfl⟩ := hx
          rfl

end Tools

end LimitService
namespace LimitService

/-! ## The body check comes after the token check -/

/-- Both handlers check the token before they read the body. For a request
whose token check passes, a body that does not bind is answered with 400. A
request without the credential cookies does not get that far: in
`api/audit.go` (behind `ExtractCookiesMiddleware`, which stores two empty
strings) the key `xtoken_` is looked up, and the answer is 500 when the lookup
fails, 429 when the key is absent or holds a text that is not empty, and 400
when the key holds the empty string; in `internal/api` (behind
`extractCookiesMiddleware`) the answer is 401 and the store is not asked.
This holds for every body and every binder. -/
theorem unbound_body_is_400_after_token_check :
    (∀ (go : GoLib) (bind : String → Except String AuditRequest) (automaton : Tools.Automaton)
        (limitData : LimitData) (r : Redis) (xtoken xuserid body carid e : String),
      (Tools.VerifyTokenNoHeader r xuserid xtoken).1 = (true, none) →
      bind body = .error e →
      (Tools.auditHandler go bind automaton limitData r
          ⟨some (.str xtoken), some (.str xuserid), body, carid⟩).1 =
        ⟨400, "error", "请求参数错误: " ++ e⟩) ∧
    (∀ (go : GoLib) (bind : String → Except String AuditRequest) (automaton : Tools.Automaton)
        (limitData : LimitData) (r : Redis) (cookieString body carid : String),
      ExtractCookiesMiddleware cookieString = ("", "") →
      (r.faults.head? = some true →
        (Tools.auditHandler go bind automaton limitData r
            (contextOfCookies (ExtractCookiesMiddleware cookieString) body carid)).1 =
          ⟨500, "error", "验证token失败"⟩) ∧
      (r.faults.head? ≠ some true →
        (∀ en, r.kv (getKey "xtoken_") = some en → en.val ≠ "") →
        (Tools.auditHandler go bind automaton limitData r
            (contextOfCookies (ExtractCookiesMiddleware cookieString) body carid)).1 =
          ⟨429, "error", "登录信息已过期，请重新登录"⟩) ∧
      (r.faults.head? ≠ some true →
        (∃ en, r.kv (getKey "xtoken_") = some en ∧ en.val = "") →
        ∀ e, bind body = .error e →
        (Tools.auditHandler go bind automaton limitData r
            (contextOfCookies (ExtractCookiesMiddleware cookieString) body carid)).1 =
          ⟨400, "error", "请求参数错误: " ++ e⟩)) ∧
    (∀ (go : GoLib) (bind : String → Except String AuditRequest)
        (matcher : Option Internal.Matcher) (limitRules : LimitData) (r : Redis)
        (xtoken xuserid body carid e : String),
      (Internal.VerifyTokenNoHeader r xuserid xtoken).1 = (true, none) →
      bind body = .error e →
      (Internal.AuditHandler go bind matcher limitRules r
          ⟨some (.str xtoken), some (.str xuserid), body, carid⟩).1 =
        ⟨400, "error", "无效的请求体: " ++ e⟩) ∧
    (∀ (go : GoLib) (bind : String → Except String AuditRequest)
        (matcher : Option Internal.Matcher) (limitRules : LimitData) (r : Redis)
        (Cookie : String → Option String) (body carid : String),
      (Cookie "xtoken" = none ∨ Cookie "xuserid" = none) →
      Internal.AuditHandler go bind matcher limitRules r
          (contextOfCookies (extractCookiesMiddleware Cookie) body carid) =
        (⟨401, "error", "无效的认证凭据 (Invalid credentials)"⟩, r)) := by
  refine ⟨?_, ?_, ?_, ?_⟩
  · intro go bind automaton rules r tok u body carid e hv hb
    exact (Tools.auditHandler_passed_tools go bind automaton rules r tok u body carid hv).1 e hb
  · intro go bind automaton rules r cookieString body carid hck
    rw [hck]
    have hkey : ("xtoken_" ++ "" : String) = "xtoken_" := by decide
    obtain ⟨hc2, hc3⟩ := Tools.auditHandler_credentials_tools go bind automaton rules r "" ""
      body carid
    obtain ⟨hct1, hct2⟩ := Tools.VerifyTokenNoHeader_contract_tools r "" ""
    rw [hkey] at hct1
    refine ⟨?_, ?_, ?_⟩
    · intro hf
      refine hc2 ?_
      rw [hct2 hf]
      rfl
    · intro hf hno
      obtain ⟨he, hiff⟩ := hct1 hf
      have hfalse : (Tools.VerifyTokenNoHeader r "" "").1.1 = false := by
        cases hx : (Tools.VerifyTokenNoHeader r "" "").1.1 with
        | false => rfl
        | true =>
          obtain ⟨en, hen, hval⟩ := hiff.mp hx
          exact absurd hval (hno en hen)
      exact hc3 (Prod.ext hfalse he)
    · intro hf hex e hb
      obtain ⟨he, hiff⟩ := hct1 hf
      have hv : (Tools.VerifyTokenNoHeader r "" "").1 = (true, none) :=
        Prod.ext (hiff.mpr hex) he
      exact (Tools.auditHandler_passed_tools go bind automaton rules r "" "" body carid hv).1 e hb
  · intro go bind matcher rules r tok u body carid e hv hb
    exact (Internal.AuditHandler_passed go bind matcher rules r tok u body carid hv).1 e hb
  · intro go bind matcher rules r Cookie body carid hck
    refine (Internal.AuditHandler_credentials go bind matcher rules r _ _ body carid).1 ?_
    unfold extractCookiesMiddleware
    rcases hck with h | h
    · left
      rw [h]
      rfl
    · right
      rw [h]
      rfl

end LimitService
namespace LimitService

/-! ## C21 -/

/-- C21 (amended): the statuses of the two handlers, outcome by outcome, for a
request whose context holds the strings `xtoken` and `xuserid`.
`AuditHandler` of `internal/api`: an empty credential gives 401; with the
lookup of the token answered, a credential that is not the one on record gives
401; a failed lookup gives 500. `auditHandler` of `api/audit.go`: with the
lookup answered, a credential that is not the one on record gives 429, and a
failed lookup gives 500 (its 401 is the answer to a context without the two
strings). In both, after a passed token check: a body that does not bind gives
400; a text the audit rejects gives 400; an error of the quota check gives 500,
a denial 429 with the message of the limiter; after an allowed quota check an
error of the car check gives 500, a denial 429, and an allowed request gives
200 with status `ok`. A failed store command of the car check is such an
error in both; a failed store command of the quota check is one in
`tools`, and in `internal/limiter` when the command is the read of the
subscription record, a `set` or an `incr` (`Internal.fatal`). -/
theorem handler_status_of_outcome :
    (∀ (go : GoLib) (bind : String → Except String AuditRequest)
        (matcher : Option Internal.Matcher) (limitRules : LimitData) (r : Redis)
        (xtoken xuserid body carid : String),
      ((xtoken = "" ∨ xuserid = "") →
        Internal.AuditHandler go bind matcher limitRules r
            ⟨some (.str xtoken), some (.str xuserid), body, carid⟩ =
          (⟨401, "error", "无效的认证凭据 (Invalid credentials)"⟩, r)) ∧
      (xtoken ≠ "" → xuserid ≠ "" → r.faults.head? ≠ some true →
        (¬ ∃ e, r.kv (getKey ("xtoken_" ++ xuserid)) = some e ∧ e.val = xtoken) →
        (Internal.AuditHandler go bind matcher limitRules r
            ⟨some (.str xtoken), some (.str xuserid), body, carid⟩).1 =
          ⟨401, "error", "登录信息已过期或无效，请重新登录"⟩) ∧
      (xtoken ≠ "" → xuserid ≠ "" →
        (∃ c, (c, true) ∈ newLog r (Internal.afterToken r xuserid xtoken)) →
        (Internal.AuditHandler go bind matcher limitRules r
            ⟨some (.str xtoken), some (.str xuserid), body, carid⟩).1 =
          ⟨500, "error", "令牌验证时发生内部服务器错误"⟩) ∧
      ((Internal.VerifyTokenNoHeader r xuserid xtoken).1 = (true, none) →
        (∀ e, bind body = .error e →
          (Internal.AuditHandler go bind matcher limitRules r
              ⟨some (.str xtoken), some (.str xuserid), body, carid⟩).1 =
            ⟨400, "error", "无效的请求体: " ++ e⟩) ∧
        (∀ req, bind body = .ok req →
          (Internal.StarAudit matcher (promptOf req.Messages) = false →
            (Internal.AuditHandler go bind matcher limitRules r
                ⟨some (.str xtoken), some (.str xuserid), body, carid⟩).1 =
              ⟨400, "error", "请珍惜账号, 不要提问违禁内容."⟩) ∧
          (Internal.StarAudit matcher (promptOf req.Messages) = true →
            ((Internal.GetStarLimit go limitRules (Internal.afterToken r xuserid xtoken)
                xuserid req.Model).1.err.isSome = true →
              (Internal.AuditHandler go bind matcher limitRules r
                  ⟨some (.str xtoken), some (.str xuserid), body, carid⟩).1 =
                ⟨500, "error", "速率限制检查时发生内部服务器错误"⟩) ∧
            (∀ c, (c, true) ∈ newLog (Internal.afterToken r xuserid xtoken)
                (Internal.afterQuota go limitRules r xuserid xtoken req.Model) →
              Internal.fatal xuserid c = true →
              (Internal.AuditHandler go bind matcher limitRules r
                  ⟨some (.str xtoken), some (.str xuserid), body, carid⟩).1 =
                ⟨500, "error", "速率限制检查时发生内部服务器错误"⟩) ∧
            ((Internal.GetStarLimit go limitRules (Internal.afterToken r xuserid xtoken)
                xuserid req.Model).1.err = none →
              (Internal.GetStarLimit go limitRules (Internal.afterToken r xuserid xtoken)
                xuserid req.Model).1.ok = false →
              (Internal.AuditHandler go bind matcher limitRules r
                  ⟨some (.str xtoken), some (.str xuserid), body, carid⟩).1 =
                ⟨429, "error",
                  (Internal.GetStarLimit go limitRules (Internal.afterToken r xuserid xtoken)
                    xuserid req.Model).1.msg⟩) ∧
            ((Internal.GetStarLimit go limitRules (Internal.afterToken r xuserid xtoken)
                xuserid req.Model).1.err = none →
              (Internal.GetStarLimit go limitRules (Internal.afterToken r xuserid xtoken)
                xuserid req.Model).1.ok = true →
              ((Internal.VerifyUserAcard go
                  (Internal.afterQuota go limitRules r xuserid xtoken req.Model) xuserid
                  (removeSpaces carid)).1.2.isSome = true →
                (Internal.AuditHandler go bind matcher limitRules r
                    ⟨some (.str xtoken), some (.str xuserid), body, carid⟩).1 =
                  ⟨500, "error", "用户权限检查时发生内部服务器错误"⟩) ∧
              ((∃ c, (c, true) ∈
                  newLog (Internal.afterQuota go limitRules r xuserid xtoken req.Model)
                    (Internal.VerifyUserAcard go
                      (Internal.afterQuota go limitRules r xuserid xtoken req.Model) xuserid
                      (removeSpaces carid)).2) →
                (Internal.AuditHandler go bind matcher limitRules r
                    ⟨some (.str xtoken), some (.str xuserid), body, carid⟩).1 =
                  ⟨500, "error", "用户权限检查时发生内部服务器错误"⟩) ∧
              ((Internal.VerifyUserAcard go
                  (Internal.afterQuota go limitRules r xuserid xtoken req.Model) xuserid
                  (removeSpaces carid)).1 = (false, none) →
                (Internal.AuditHandler go bind matcher limitRules r
                    ⟨some (.str xtoken), some (.str xuserid), body, carid⟩).1 =
                  ⟨429, "error", "请右上角切换线路"⟩) ∧
              ((Internal.VerifyUserAcard go
                  (Internal.afterQuota go limitRules r xuserid xtoken req.Model) xuserid
                  (removeSpaces carid)).1 = (true, none) →
                (Internal.AuditHandler go bind matcher limitRules r
                    ⟨some (.str xtoken), some (.str xuserid), body, carid⟩).1 =
                  ⟨200, "status", "ok"⟩)))))) ∧
    (∀ (go : GoLib) (bind : String → Except String AuditRequest)
        (automaton : Tools.Automaton) (limitData : LimitData) (r : Redis)
        (xtoken xuserid body carid : String),
      (∀ c : Context, c.xtoken = none ∨ c.xuserid = none →
        (Tools.auditHandler go bind automaton limitData r c).1.status = 401 ∧
        (Tools.auditHandler go bind automaton limitData r c).2 = r) ∧
      (r.faults.head? ≠ some true →
        (¬ ∃ e, r.kv (getKey ("xtoken_" ++ xuserid)) = some e ∧ e.val = xtoken) →
        (Tools.auditHandler go bind automaton limitData r
            ⟨some (.str xtoken), some (.str xuserid), body, carid⟩).1 =
          ⟨429, "error", "登录信息已过期，请重新登录"⟩) ∧
      ((∃ c, (c, true) ∈ newLog r (Tools.afterToken r xuserid xtoken)) →
        (Tools.auditHandler go bind automaton limitData r
            ⟨some (.str xtoken), some (.str xuserid), body, carid⟩).1 =
          ⟨500, "error", "验证token失败"⟩) ∧
      ((Tools.VerifyTokenNoHeader r xuserid xtoken).1 = (true, none) →
        (∀ e, bind body = .error e →
          (Tools.auditHandler go bind automaton limitData r
              ⟨some (.str xtoken), some (.str xuserid), body, carid⟩).1 =
            ⟨400, "error", "请求参数错误: " ++ e⟩) ∧
        (∀ req, bind body = .ok req →
          (Tools.StarAudit automaton (some (.str (promptOf req.Messages))) = false →
            (Tools.auditHandler go bind automaton limitData r
                ⟨some (.str xtoken), some (.str xuserid), body, carid⟩).1 =
              ⟨400, "error", "请珍惜账号, 不要提问违禁内容."⟩) ∧
          (Tools.StarAudit automaton (some (.str (promptOf req.Messages))) = true →
            (∀ err, (Tools.GetStarLimit go limitData (Tools.afterToken r xuserid xtoken)
                xuserid req.Model).1.err = some err →
              (Tools.auditHandler go bind automaton limitData r
                  ⟨some (.str xtoken), some (.str xuserid), body, carid⟩).1 =
                ⟨500, "error", "检查速率限制失败: " ++ Tools.errorText err⟩) ∧
            ((∃ c, (c, true) ∈ newLog (Tools.afterToken r xuserid xtoken)
                (Tools.afterQuota go limitData r xuserid xtoken req.Model)) →
              (Tools.auditHandler go bind automaton limitData r
                  ⟨some (.str xtoken), some (.str xuserid), body, carid⟩).1.status = 500) ∧
            ((Tools.GetStarLimit go limitData (Tools.afterToken r xuserid xtoken)
                xuserid req.Model).1.err = none →
              (Tools.GetStarLimit go limitData (Tools.afterToken r xuserid xtoken)
                xuserid req.Model).1.ok = false →
              (Tools.auditHandler go bind automaton limitData r
                  ⟨some (.str xtoken), some (.str xuserid), body, carid⟩).1 =
                ⟨429, "error",
                  (Tools.GetStarLimit go limitData (Tools.afterToken r xuserid xtoken)
                    xuserid req.Model).1.msg⟩) ∧
            ((Tools.GetStarLimit go limitData (Tools.afterToken r xuserid xtoken)
                xuserid req.Model).1.err = none →
              (Tools.GetStarLimit go limitData (Tools.afterToken r xuserid xtoken)
                xuserid req.Model).1.ok = true →
              (∀ err, (Tools.VerifyUserAcard go
                  (Tools.afterQuota go limitData r xuserid xtoken req.Model) xuserid
                  (removeSpaces carid)).1.2 = some err →
                (Tools.auditHandler go bind automaton limitData r
                    ⟨some (.str xtoken), some (.str xuserid), body, carid⟩).1 =
                  ⟨500, "error", "验证用户权限失败: " ++ Tools.errorText err⟩) ∧
              ((∃ c, (c, true) ∈
                  newLog (Tools.afterQuota go limitData r xuserid xtoken req.Model)
                    (Tools.VerifyUserAcard go
                      (Tools.afterQuota go limitData r xuserid xtoken req.Model) xuserid
                      (removeSpaces carid)).2) →
                (Tools.auditHandler go bind automaton limitData r
                    ⟨some (.str xtoken), some (.str xuserid), body, carid⟩).1.status = 500) ∧
              ((Tools.VerifyUserAcard go
                  (Tools.afterQuota go limitData r xuserid xtoken req.Model) xuserid
                  (removeSpaces carid)).1 = (false, none) →
                (Tools.auditHandler go bind automaton limitData r
                    ⟨some (.str xtoken), some (.str xuserid), body, carid⟩).1 =
                  ⟨429, "error", "请右上角切换线路"⟩) ∧
              ((Tools.VerifyUserAcard go
                  (Tools.afterQuota go limitData r xuserid xtoken req.Model) xuserid
                  (removeSpaces carid)).1 = (true, none) →
                (Tools.auditHandler go bind automaton limitData r
                    ⟨some (.str xtoken), some (.str xuserid), body, carid⟩).1 =
                  ⟨200, "status", "ok"⟩)))))) := by
  constructor
  · intro go bind matcher rules r tok u body carid
    obtain ⟨hc1, hc2, hc3⟩ := Internal.AuditHandler_credentials go bind matcher rules r tok u
      body carid
    refine ⟨hc1, ?_, ?_, ?_⟩
    · intro ht hu hf hno
      obtain ⟨he, hiff⟩ := (Internal.VerifyTokenNoHeader_contract r u tok).2.1 hu ht hf
      have hfalse : (Internal.VerifyTokenNoHeader r u tok).1.1 = false := by
        cases hx : (Internal.VerifyTokenNoHeader r u tok).1.1 with
        | false => rfl
        | true => exact absurd (hiff.mp hx) hno
      exact hc3 ht hu (Prod.ext hfalse he)
    · rintro ht hu ⟨c, hc⟩
      obtain ⟨l, hl, hfail⟩ := Internal.VerifyTokenNoHeader_failure r u tok
      unfold Internal.afterToken at hc
      rw [newLog_of_log _ _ l hl] at hc
      exact hc2 ht hu (hfail c hc)
    · intro hv
      obtain ⟨hp1, hp2⟩ := Internal.AuditHandler_passed go bind matcher rules r tok u body carid hv
      refine ⟨hp1, fun req hb => ⟨(hp2 req hb).1, fun ha => ?_⟩⟩
      obtain ⟨hq1, hq2, hq3⟩ := (hp2 req hb).2 ha
      refine ⟨hq1, ?_, hq2, fun he hok => ?_⟩
      · intro c hc hfat
        obtain ⟨l, hl, hfail⟩ := Internal.GetStarLimit_fatal go rules
          (Internal.afterToken r u tok) u req.Model
        unfold Internal.afterQuota at hc
        rw [newLog_of_log _ _ l hl] at hc
        exact hq1 (hfail c hc hfat).1
      · obtain ⟨hv1, hv2, hv3⟩ := hq3 he hok
        refine ⟨hv1, ?_, hv2, hv3⟩
        rintro ⟨c, hc⟩
        obtain ⟨l, hl, hfail⟩ := Internal.VerifyUserAcard_failure go
          (Internal.afterQuota go rules r u tok req.Model) u (removeSpaces carid)
        rw [newLog_of_log _ _ l hl] at hc
        exact hv1 (hfail c hc)
  · intro go bind automaton rules r tok u body carid
    obtain ⟨hc2, hc3⟩ := Tools.auditHandler_credentials_tools go bind automaton rules r tok u
      body carid
    refine ⟨?_, ?_, ?_, ?_⟩
    · intro c hc
      unfold Tools.auditHandler
      rcases hc with hc | hc
      · rw [hc]
        exact ⟨rfl, rfl⟩
      · rw [hc]
        cases c.xtoken <;> exact ⟨rfl, rfl⟩
    · intro hf hno
      obtain ⟨he, hiff⟩ := (Tools.VerifyTokenNoHeader_contract_tools r u tok).1 hf
      have hfalse : (Tools.VerifyTokenNoHeader r u tok).1.1 = false := by
        cases hx : (Tools.VerifyTokenNoHeader r u tok).1.1 with
        | false => rfl
        | true => exact absurd (hiff.mp hx) hno
      exact hc3 (Prod.ext hfalse he)
    · rintro ⟨c, hc⟩
      obtain ⟨l, hl, hfail⟩ := Tools.VerifyTokenNoHeader_failure_tools r u tok
      unfold Tools.afterToken at hc
      rw [newLog_of_log _ _ l hl] at hc
      exact hc2 (hfail c hc)
    · intro hv
      obtain ⟨hp1, hp2⟩ := Tools.auditHandler_passed_tools go bind automaton rules r tok u body
        carid hv
      refine ⟨hp1, fun req hb => ⟨(hp2 req hb).1, fun ha => ?_⟩⟩
      obtain ⟨hq1, hq2, hq3⟩ := (hp2 req hb).2 ha
      refine ⟨hq1, ?_, hq2, fun he hok => ?_⟩
      · rintro ⟨c, hc⟩
        obtain ⟨l, hl, hfail⟩ := Tools.GetStarLimit_failure_tools go rules
          (Tools.afterToken r u tok) u req.Model
        unfold Tools.afterQuota at hc
        rw [newLog_of_log _ _ l hl] at hc
        obtain ⟨err, herr⟩ := Option.isSome_iff_exists.mp (hfail c hc).1
        rw [hq1 err herr]
      · obtain ⟨hv1, hv2, hv3⟩ := hq3 he hok
        refine ⟨hv1, ?_, hv2, hv3⟩
        rintro ⟨c, hc⟩
        obtain ⟨l, hl, hfail⟩ := Tools.VerifyUserAcard_failure_tools go
          (Tools.afterQuota go rules r u tok req.Model) u (removeSpaces carid)
        rw [newLog_of_log _ _ l hl] at hc
        obtain ⟨err, herr⟩ := Option.isSome_iff_exists.mp (hfail c hc)
        rw [hv1 err herr]

/-- C21, an instance of the amended claim: the request of user `u` with the
token on record, a clean text, quota left under the rule `2/1m` and the car
`c1`, which the tier `free` may use, is answered with 200 and status `ok`. -/
theorem handler_status_of_outcome_witness :
    (Internal.AuditHandler sampleGo sampleBind none sampleRules carRedis allowedContext).1 =
      ⟨200, "status", "ok"⟩ :=
  have passed := (handler_status_of_outcome.1 sampleGo sampleBind none sampleRules carRedis
    "secret" "u" "" "c1").2.2.2 (by decide)
  have audited := (passed.2 ⟨"next", "gpt", [⟨some [("parts", .arr [.str "hello"])]⟩]⟩ rfl).2
    (by decide)
  (audited.2.2.2 (by decide) (by decide)).2.2.2 (by decide)

/-- C21 as stated fails. In `api/audit.go` the request of user `u` with the
token `wrong`, while the token on record is `secret`, is answered with 429, not
401. In `internal/api` a store failure does not always give 500: when the
read of the tier marker fails during the quota check, the request of user `u`
is answered with 200. -/
theorem unmatched_credential_is_429_in_tools :
    (carStore (getKey ("xtoken_" ++ "u")) = some ⟨"secret", none⟩ ∧
      (Tools.auditHandler sampleGo sampleBind (Tools.InitKeyWords none) sampleRules carRedis
        wrongTokenContext).1 = ⟨429, "error", "登录信息已过期，请重新登录"⟩) ∧
    ((Cmd.get (getKey (Internal.userPackageKey "u")), true) ∈
        (Internal.AuditHandler sampleGo sampleBind none sampleRules
          ⟨carStore, [false, false, true], []⟩ allowedContext).2.log ∧
      (Internal.AuditHandler sampleGo sampleBind none sampleRules
        ⟨carStore, [false, false, true], []⟩ allowedContext).1 = ⟨200, "status", "ok"⟩) := by
  refine ⟨⟨by decide, by decide⟩, by decide, by decide⟩

end LimitService
namespace LimitService

/-! ## C22 -/

/-- C22, the failing input in `api/audit.go`: the request with the body
`\x7b\x7d`, which the binder refuses, and no cookie header (or a cookie header
that carries other cookies only), on a store without the key `xtoken_`. The
token check comes before the body is read, and the answer is 429, not 400. The
same body behind the cookies of user `u` with the token on record is answered
with 400. -/
theorem empty_body_without_cookies_is_429 :
    requiredBind "\x7b\x7d" = .error "required fields are missing" ∧
    ExtractCookiesMiddleware "" = ("", "") ∧
    (Tools.auditHandler sampleGo requiredBind (Tools.InitKeyWords none) sampleRules emptyRedis
      (contextOfCookies (ExtractCookiesMiddleware "") "\x7b\x7d" "c1")).1 =
        ⟨429, "error", "登录信息已过期，请重新登录"⟩ ∧
    (Tools.auditHandler sampleGo requiredBind (Tools.InitKeyWords none) sampleRules emptyRedis
      (contextOfCookies (ExtractCookiesMiddleware "theme=dark; lang=en") "\x7b\x7d" "c1")).1 =
        ⟨429, "error", "登录信息已过期，请重新登录"⟩ ∧
    (Tools.auditHandler sampleGo requiredBind (Tools.InitKeyWords none) sampleRules carRedis
      (contextOfCookies (ExtractCookiesMiddleware "xtoken=secret; xuserid=u") "\x7b\x7d"
        "c1")).1 = ⟨400, "error", "请求参数错误: required fields are missing"⟩ := by
  refine ⟨rfl, by decide, by decide, by decide, by decide⟩

end LimitService
namespace LimitService

/-! ## C23 -/

/-- C23 (amended): on a store that answers every command, a call of
`GetStarLimit` for the model `X` that starts from a plan change (the rule of
the resolved tier for `X` parses; in `internal/limiter` its window is positive)
leaves every key other than the counter key of (user, tier, `X`) and the marker
key as it was. So the counters of the same user for the other models of the
tier keep their values, and so do the counters of every other tier when neither
tier name contains a colon. The marker then holds the tier, and a following
call for another model `Y` of the same tier (whose rule parses to
`(maxCountY, wY)`, and whose counter reads as `cY`) sends no `set`: it is denied
with the quota message, leaving the key space as it was, when `maxCountY ≤ cY`;
it is allowed, or ends in an error, when `cY < maxCountY`; and when it is
allowed (for `cY ≥ 0` and a window that fits a duration) the counter of `Y` is
`cY + 1`. In both copies. -/
theorem plan_change_reset_frame :
    (∀ (go : GoLib) (limitRules : LimitData) (xuserid X Y : String)
        (maxCount w maxCountY wY cY : Int) (r : Redis),
      r.faults = [] →
      Internal.getLimitRule limitRules (Internal.tierOf go r.kv xuserid) X ≠ "" →
      Internal.parseLimit (Internal.getLimitRule limitRules (Internal.tierOf go r.kv xuserid) X)
        = .ok (maxCount, w) →
      0 < w →
      Internal.planChanged go r.kv xuserid →
      Y ≠ X →
      Internal.getLimitRule limitRules (Internal.tierOf go r.kv xuserid) Y ≠ "" →
      Internal.parseLimit (Internal.getLimitRule limitRules (Internal.tierOf go r.kv xuserid) Y)
        = .ok (maxCountY, wY) →
      0 < wY →
      storedCount r.kv (getKey (Internal.redisKey xuserid (Internal.tierOf go r.kv xuserid) Y))
        = some cY →
      (∀ k, k ≠ getKey (Internal.redisKey xuserid (Internal.tierOf go r.kv xuserid) X) →
        k ≠ getKey (Internal.userPackageKey xuserid) →
        (Internal.GetStarLimit go limitRules r xuserid X).2.kv k = r.kv k) ∧
      (∀ m, m ≠ X →
        (Internal.GetStarLimit go limitRules r xuserid X).2.kv
            (getKey (Internal.redisKey xuserid (Internal.tierOf go r.kv xuserid) m)) =
          r.kv (getKey (Internal.redisKey xuserid (Internal.tierOf go r.kv xuserid) m))) ∧
      (∀ t m, ':' ∉ t.data → ':' ∉ (Internal.tierOf go r.kv xuserid).data →
        t ≠ Internal.tierOf go r.kv xuserid →
        (Internal.GetStarLimit go limitRules r xuserid X).2.kv
            (getKey (Internal.redisKey xuserid t m)) =
          r.kv (getKey (Internal.redisKey xuserid t m))) ∧
      (Internal.GetStarLimit go limitRules r xuserid X).2.kv
          (getKey (Internal.userPackageKey xuserid)) =
        some ⟨Internal.tierOf go r.kv xuserid, none⟩ ∧
      (∀ k v px b, (Cmd.set k v px, b) ∉
        newLog (Internal.GetStarLimit go limitRules r xuserid X).2
          (Internal.GetStarLimit go limitRules
            (Internal.GetStarLimit go limitRules r xuserid X).2 xuserid Y).2) ∧
      (maxCountY ≤ cY →
        (Internal.GetStarLimit go limitRules
            (Internal.GetStarLimit go limitRules r xuserid X).2 xuserid Y).1 =
          ⟨false, Internal.limitMsg (Internal.tierOf go r.kv xuserid) Y wY maxCountY, none⟩ ∧
        (Internal.GetStarLimit go limitRules
            (Internal.GetStarLimit go limitRules r xuserid X).2 xuserid Y).2.kv =
          (Internal.GetStarLimit go limitRules r xuserid X).2.kv) ∧
      (cY < maxCountY →
        (Internal.GetStarLimit go limitRules
            (Internal.GetStarLimit go limitRules r xuserid X).2 xuserid Y).1.ok = true ∨
        (Internal.GetStarLimit go limitRules
            (Internal.GetStarLimit go limitRules r xuserid X).2 xuserid Y).1.err.isSome = true) ∧
      (0 ≤ cY → wY * 1000000000 < 2 ^ 63 →
        (Internal.GetStarLimit go limitRules
            (Internal.GetStarLimit go limitRules r xuserid X).2 xuserid Y).1.ok = true →
        storedCount (Internal.GetStarLimit go limitRules
            (Internal.GetStarLimit go limitRules r xuserid X).2 xuserid Y).2.kv
          (getKey (Internal.redisKey xuserid (Internal.tierOf go r.kv xuserid) Y)) =
            some (cY + 1))) ∧
    (∀ (go : GoLib) (limitData : LimitData) (xuserid X Y : String)
        (maxCount w maxCountY wY cY : Int) (r : Redis),
      r.faults = [] →
      Tools.getLimitRules limitData (Tools.tierOf go r.kv xuserid) X ≠ "" →
      Tools.parseLimit (Tools.getLimitRules limitData (Tools.tierOf go r.kv xuserid) X)
        = .ok (maxCount, w) →
      Tools.planChanged go r.kv xuserid →
      Y ≠ X →
      Tools.getLimitRules limitData (Tools.tierOf go r.kv xuserid) Y ≠ "" →
      Tools.parseLimit (Tools.getLimitRules limitData (Tools.tierOf go r.kv xuserid) Y)
        = .ok (maxCountY, wY) →
      storedCount r.kv (getKey (Tools.redisKey xuserid (Tools.tierOf go r.kv xuserid) Y))
        = some cY →
      (∀ k, k ≠ getKey (Tools.redisKey xuserid (Tools.tierOf go r.kv xuserid) X) →
        k ≠ getKey (Tools.userPackageKey xuserid) →
        (Tools.GetStarLimit go limitData r xuserid X).2.kv k = r.kv k) ∧
      (∀ m, m ≠ X →
        (Tools.GetStarLimit go limitData r xuserid X).2.kv
            (getKey (Tools.redisKey xuserid (Tools.tierOf go r.kv xuserid) m)) =
          r.kv (getKey (Tools.redisKey xuserid (Tools.tierOf go r.kv xuserid) m))) ∧
      (∀ t m, ':' ∉ t.data → ':' ∉ (Tools.tierOf go r.kv xuserid).data →
        t ≠ Tools.tierOf go r.kv xuserid →
        (Tools.GetStarLimit go limitData r xuserid X).2.kv
            (getKey (Tools.redisKey xuserid t m)) =
          r.kv (getKey (Tools.redisKey xuserid t m))) ∧
      (Tools.GetStarLimit go limitData r xuserid X).2.kv
          (getKey (Tools.userPackageKey xuserid)) =
        some ⟨Tools.tierOf go r.kv xuserid, none⟩ ∧
      (∀ k v px b, (Cmd.set k v px, b) ∉
        newLog (Tools.GetStarLimit go limitData r xuserid X).2
          (Tools.GetStarLimit go limitData
            (Tools.GetStarLimit go limitData r xuserid X).2 xuserid Y).2) ∧
      (maxCountY ≤ cY →
        (Tools.GetStarLimit go limitData
            (Tools.GetStarLimit go limitData r xuserid X).2 xuserid Y).1 =
          ⟨false, Tools.limitMsg (Tools.tierOf go r.kv xuserid) Y wY maxCountY, none⟩ ∧
        (Tools.GetStarLimit go limitData
            (Tools.GetStarLimit go limitData r xuserid X).2 xuserid Y).2.kv =
          (Tools.GetStarLimit go limitData r xuserid X).2.kv) ∧
      (cY < maxCountY →
        (Tools.GetStarLimit go limitData
            (Tools.GetStarLimit go limitData r xuserid X).2 xuserid Y).1.ok = true ∨
        (Tools.GetStarLimit go limitData
            (Tools.GetStarLimit go limitData r xuserid X).2 xuserid Y).1.err.isSome = true) ∧
      (0 ≤ cY → 0 < wY → wY * 1000000000 < 2 ^ 63 →
        (Tools.GetStarLimit go limitData
            (Tools.GetStarLimit go limitData r xuserid X).2 xuserid Y).1.ok = true →
        storedCount (Tools.GetStarLimit go limitData
            (Tools.GetStarLimit go limitData r xuserid X).2 xuserid Y).2.kv
          (getKey (Tools.redisKey xuserid (Tools.tierOf go r.kv xuserid) Y)) =
            some (cY + 1))) :=
  ⟨fun go rules u X Y M w MY wY cY r h hne hparse hw hch hXY hneY hparseY hwY hs =>
      Internal.GetStarLimit_reset_then go rules u X Y M w MY wY cY r h hne hparse hw hch hXY
        hneY hparseY hwY hs,
    fun go rules u X Y M w MY wY cY r h hne hparse hch hXY hneY hparseY hs =>
      Tools.GetStarLimit_reset_then_tools go rules u X Y M w MY wY cY r h hne hparse hch hXY
        hneY hparseY hs⟩

/-- C23, an instance of the amended claim: user `u` of the tier `free` has no
marker, the counter of `gpt` at 7 and the counter of `o1` at 2, under the rule
`5/1h`. The call for `gpt` leaves the counter of `o1` as it was, and the call
for `o1` that follows is allowed against the count 2 and leaves 3. -/
theorem plan_change_reset_frame_witness :
    (Internal.GetStarLimit sampleGo fiveAnHour ⟨twoModelStore, [], []⟩ "u" "gpt").2.kv
        (getKey (Internal.redisKey "u" "free" "o1")) =
      twoModelStore (getKey (Internal.redisKey "u" "free" "o1")) ∧
    (Internal.GetStarLimit sampleGo fiveAnHour
      (Internal.GetStarLimit sampleGo fiveAnHour ⟨twoModelStore, [], []⟩ "u" "gpt").2
        "u" "o1").1.ok = true ∧
    storedCount (Internal.GetStarLimit sampleGo fiveAnHour
      (Internal.GetStarLimit sampleGo fiveAnHour ⟨twoModelStore, [], []⟩ "u" "gpt").2
        "u" "o1").2.kv (getKey (Internal.redisKey "u" "free" "o1")) = some 3 :=
  have h := plan_change_reset_frame.1 sampleGo fiveAnHour "u" "gpt" "o1" 5 3600 5 3600 2
    ⟨twoModelStore, [], []⟩ rfl (by decide) (by decide) (by decide)
    (fun e he => Option.noConfusion
      ((show twoModelStore (getKey (Internal.userPackageKey "u")) = none by decide).symm.trans he))
    (by decide) (by decide) (by decide) (by decide) (by decide)
  have hok : (Internal.GetStarLimit sampleGo fiveAnHour
      (Internal.GetStarLimit sampleGo fiveAnHour ⟨twoModelStore, [], []⟩ "u" "gpt").2
        "u" "o1").1.ok = true := by decide
  ⟨h.2.1 "o1" (by decide), hok, h.2.2.2.2.2.2.2 (by decide) (by decide) hok⟩

/-- C23 as stated fails. The counter key is the text
`star_rate_limit:user:tier:model`, so the tier `a` with the model `b:c` and the
tier `a:b` with the model `c` share one key. User `u` of the tier `a` has no
marker, and that key holds 7: the call for the model `b:c` is allowed after the
plan-change reset, and the counter of the other tier `a:b` and the other model
`c` is 1 afterwards, in both copies. -/
theorem reset_rewrites_counter_of_other_tier :
    (Internal.tierOf colonGo colonStore "u" = "a" ∧
      Internal.planChanged colonGo colonStore "u" ∧
      storedCount colonStore (getKey (Internal.redisKey "u" "a:b" "c")) = some 7 ∧
      (Internal.GetStarLimit colonGo fiveAnHour ⟨colonStore, [], []⟩ "u" "b:c").1.ok = true ∧
      storedCount (Internal.GetStarLimit colonGo fiveAnHour ⟨colonStore, [], []⟩ "u" "b:c").2.kv
        (getKey (Internal.redisKey "u" "a:b" "c")) = some 1) ∧
    (Tools.tierOf colonGo colonStore "u" = "a" ∧
      Tools.planChanged colonGo colonStore "u" ∧
      storedCount colonStore (getKey (Tools.redisKey "u" "a:b" "c")) = some 7 ∧
      (Tools.GetStarLimit colonGo fiveAnHour ⟨colonStore, [], []⟩ "u" "b:c").1.ok = true ∧
      storedCount (Tools.GetStarLimit colonGo fiveAnHour ⟨colonStore, [], []⟩ "u" "b:c").2.kv
        (getKey (Tools.redisKey "u" "a:b" "c")) = some 1) := by
  refine ⟨⟨by decide, ?_, by decide, by decide, by decide⟩,
    ⟨by decide, ?_, by decide, by decide, by decide⟩⟩
  · intro e he
    exact Option.noConfusion
      ((show colonStore (getKey (Internal.userPackageKey "u")) = none by decide).symm.trans he)
  · unfold Tools.planChanged
    decide

end LimitService
namespace LimitService

/-! ## The counter after an allowed quota check -/

namespace Internal

theorem VerifyTokenNoHeader_healthy (r : Redis) (u tok : String) (h : r.faults = []) :
    (VerifyTokenNoHeader r u tok).2.faults = [] := by
  unfold VerifyTokenNoHeader
  split
  · exact h
  · obtain ⟨-, hf⟩ := GetString_frame r ("xtoken_" ++ u)
    rcases hg : GetString r ("xtoken_" ++ u) with ⟨⟨v, found, err⟩, r1⟩
    rw [hg] at hf
    simp only at hf ⊢
    have hr1 : r1.faults = [] := by rw [hf]; exact tail_nil_of_nil h
    cases err with
    | some e => exact hr1
    | none =>
      simp only
      split <;> exact hr1

theorem VerifyUserAcard_kv (go : GoLib) (r : Redis) (u car : String) :
    (VerifyUserAcard go r u car).2.kv = r.kv := by
  unfold VerifyUserAcard
  split
  · rfl
  · obtain ⟨hk, -⟩ := GetString_frame r ("user:" ++ u ++ ":active_packages")
    rcases hg : GetString r ("user:" ++ u ++ ":active_packages") with ⟨⟨v, found, err⟩, r1⟩
    rw [hg] at hk
    simp only at hk ⊢
    cases err with
    | some e => exact hk
    | none =>
      simp only
      split
      · exact hk
      · obtain ⟨hk1, -⟩ := GetString_frame r1 ("car_status:" ++ car)
        rcases hg1 : GetString r1 ("car_status:" ++ car) with ⟨⟨v1, found1, err1⟩, r2⟩
        rw [hg1] at hk1
        simp only at hk1 ⊢
        have hk2 : r2.kv = r.kv := by rw [hk1, hk]
        cases err1 with
        | some e => exact hk2
        | none =>
          simp only
          split <;> exact hk2

/-- An allowed call has issued exactly one increment, a successful one, on the
counter of the user, the resolved tier and the model. -/
theorem GetStarLimit_allowed_log_tier (go : GoLib) (rules : LimitData) (r : Redis)
    (u m : String) (hok : (GetStarLimit go rules r u m).1.ok = true) :
    ∃ pre post, (GetStarLimit go rules r u m).2.log =
        r.log ++ (pre ++ (Cmd.incr (getKey (redisKey u (tierOf go r.kv u) m)), false) :: post) ∧
      noIncr pre ∧ noIncr post := by
  rcases issue_cases r (.get (getKey ("user:" ++ u ++ ":active_packages"))) with hb | ⟨hh, _⟩
  · unfold GetStarLimit at hok
    rw [GetString_failed r _ hb] at hok
    cases hok
  · obtain ⟨str, found, hg, ht⟩ := GetString_record_ok go r u hh
    unfold GetStarLimit at hok ⊢
    rw [hg] at hok ⊢
    simp only [ht] at hok ⊢
    generalize hr1 : (⟨r.kv, r.faults.tail,
      r.log ++ [(.get (getKey ("user:" ++ u ++ ":active_packages")), false)]⟩ : Redis) = r1
      at hok ⊢
    have hlog : r1.log = r.log ++ [(.get (getKey ("user:" ++ u ++ ":active_packages")), false)] := by
      rw [← hr1]
    by_cases hne : getLimitRule rules (tierOf go r.kv u) m = ""
    · simp only [hne, if_true] at hok
      cases hok
    · simp only [hne, if_false] at hok ⊢
      rcases hparse : parseLimit (getLimitRule rules (tierOf go r.kv u) m) with
        e | ⟨maxCount, windowSeconds⟩
      · rw [hparse] at hok
        cases hok
      · rw [hparse] at hok
        simp only at hok ⊢
        by_cases hw : windowSeconds ≤ 0
        · simp only [hw, if_true] at hok
          cases hok
        · simp only [hw, if_false] at hok ⊢
          obtain ⟨l1, hlog1, hn1⟩ :=
            resetOnChange_noIncr r1 u (tierOf go r.kv u) m windowSeconds
          rcases hr : resetOnChange r1 u (tierOf go r.kv u) m windowSeconds with ⟨e, r4⟩
          rw [hr] at hlog1 hok
          simp only at hlog1 hok ⊢
          cases e with
          | some e => cases hok
          | none =>
            simp only at hok ⊢
            obtain ⟨b2, post, hlog2, hn2⟩ := countAndConsume_allowed_log r4 u
              (tierOf go r.kv u) m maxCount windowSeconds hok
            refine ⟨[(Cmd.get (getKey ("user:" ++ u ++ ":active_packages")), false)] ++ l1 ++
                [(Cmd.get (getKey (redisKey u (tierOf go r.kv u) m)), b2)], post, ?_,
              noIncr_append (noIncr_append (noIncr_get _ _) hn1) (noIncr_get _ _), hn2⟩
            rw [hlog2, hlog1, hlog]
            simp

/-- The counter after an allowed call, on a store that answers, for a window
that fits a duration: 1 after a plan change, one more than before otherwise. -/
theorem GetStarLimit_allowed_counter (go : GoLib) (rules : LimitData) (u m : String)
    (M w c : Int) (r : Redis) (h : r.faults = [])
    (hne : getLimitRule rules (tierOf go r.kv u) m ≠ "")
    (hparse : parseLimit (getLimitRule rules (tierOf go r.kv u) m) = .ok (M, w))
    (hw : 0 < w) (hfit : w * 1000000000 < 2 ^ 63)
    (hs : storedCount r.kv (getKey (redisKey u (tierOf go r.kv u) m)) = some c) (hc : 0 ≤ c)
    (hok : (GetStarLimit go rules r u m).1.ok = true) :
    (planChanged go r.kv u →
      storedCount (GetStarLimit go rules r u m).2.kv
        (getKey (redisKey u (tierOf go r.kv u) m)) = some 1) ∧
    (¬ planChanged go r.kv u →
      storedCount (GetStarLimit go rules r u m).2.kv
        (getKey (redisKey u (tierOf go r.kv u) m)) = some (c + 1)) := by
  have hM := parseLimit_count_range _ _ _ hparse
  constructor
  · intro hch
    rw [GetStarLimit_changed go rules u m M w r h hne hparse hw hfit hch] at hok ⊢
    by_cases hM0 : 0 < M
    · simp only [hM0, if_true]
      simp only [storedCount, Store.put_same]
      rfl
    · simp only [hM0, if_false] at hok
      cases hok
  · intro hch
    rw [GetStarLimit_unchanged go rules u m M w r h hne hparse hw hch] at hok ⊢
    exact (countAndConsume_counter ⟨r.kv, [], _⟩ u _ m M w c rfl hM hw hfit hs hc).1 hok

end Internal

namespace Tools

theorem VerifyTokenNoHeader_healthy_tools (r : Redis) (u tok : String) (h : r.faults = []) :
    (VerifyTokenNoHeader r u tok).2.faults = [] := by
  unfold VerifyTokenNoHeader
  obtain ⟨-, hf⟩ := GetString_frame_tools r ("xtoken_" ++ u)
  rcases hg : GetString r ("xtoken_" ++ u) with ⟨⟨v, err⟩, r1⟩
  rw [hg] at hf
  simp only at hf ⊢
  have hr1 : r1.faults = [] := by rw [hf]; exact Internal.tail_nil_of_nil h
  cases err with
  | none => exact hr1
  | some e =>
    simp only
    split <;> exact hr1

theorem VerifyUserAcard_kv_tools (go : GoLib) (r : Redis) (u car : String) :
    (VerifyUserAcard go r u car).2.kv = r.kv := by
  unfold VerifyUserAcard
  obtain ⟨hk, -⟩ := Get_frame_tools go r ("user:" ++ u ++ ":active_packages")
  rcases hg : Get go r ("user:" ++ u ++ ":active_packages") with ⟨res, r1⟩
  rw [hg] at hk
  simp only at hk ⊢
  cases res with
  | error e => exact hk
  | ok data =>
    simp only
    split
    · exact hk
    · split
      · exact hk
      · obtain ⟨hk1, -⟩ := Get_frame_tools go r1 ("car_status:" ++ car)
        rcases hg1 : Get go r1 ("car_status:" ++ car) with ⟨res1, r2⟩
        rw [hg1] at hk1
        simp only at hk1 ⊢
        have hk2 : r2.kv = r.kv := by rw [hk1, hk]
        cases res1 with
        | error e => exact hk2
        | ok carData =>
          simp only
          split <;> exact hk2

/-- An allowed call has issued exactly one increment, a successful one, on the
counter of the user, the resolved tier and the model. -/
theorem GetStarLimit_allowed_log_tier_tools (go : GoLib) (rules : LimitData) (r : Redis)
    (u m : String) (hok : (GetStarLimit go rules r u m).1.ok = true) :
    ∃ pre post, (GetStarLimit go rules r u m).2.log =
        r.log ++ (pre ++ (Cmd.incr (getKey (redisKey u (tierOf go r.kv u) m)), false) :: post) ∧
      noIncr pre ∧ noIncr post := by
  rcases issue_cases r (.get (getKey ("user:" ++ u ++ ":active_packages"))) with hb | ⟨hh, _⟩
  · unfold GetStarLimit at hok
    rw [Get_failed_tools go r _ hb] at hok
    cases hok
  · obtain ⟨data, hg, ht, -⟩ := Get_record_ok_tools go r u hh
    unfold GetStarLimit at hok ⊢
    rw [hg] at hok ⊢
    simp only [ht] at hok ⊢
    generalize hr1 : (⟨r.kv, r.faults.tail,
      r.log ++ [(.get (getKey ("user:" ++ u ++ ":active_packages")), false)]⟩ : Redis) = r1
      at hok ⊢
    have hlog : r1.log = r.log ++ [(.get (getKey ("user:" ++ u ++ ":active_packages")), false)] := by
      rw [← hr1]
    by_cases hne : getLimitRules rules (tierOf go r.kv u) m = ""
    · simp only [hne, if_true] at hok
      cases hok
    · simp only [hne, if_false] at hok ⊢
      rcases hparse : parseLimit (getLimitRules rules (tierOf go r.kv u) m) with
        e | ⟨maxCount, windowSeconds⟩
      · rw [hparse] at hok
        cases hok
      · rw [hparse] at hok
        simp only at hok ⊢
        obtain ⟨l1, hlog1, hn1⟩ :=
          resetOnChange_noIncr_tools r1 u (tierOf go r.kv u) m windowSeconds
        rcases hr : resetOnChange r1 u (tierOf go r.kv u) m windowSeconds with ⟨e, r4⟩
        rw [hr] at hlog1 hok
        simp only at hlog1 hok ⊢
        cases e with
        | some e => cases hok
        | none =>
          simp only at hok ⊢
          obtain ⟨b2, post, hlog2, hn2⟩ := countAndConsume_allowed_log_tools r4 u
            (tierOf go r.kv u) m maxCount windowSeconds hok
          refine ⟨[(Cmd.get (getKey ("user:" ++ u ++ ":active_packages")), false)] ++ l1 ++
              [(Cmd.get (getKey (redisKey u (tierOf go r.kv u) m)), b2)], post, ?_,
            noIncr_append (noIncr_append (noIncr_get _ _) hn1) (noIncr_get _ _), hn2⟩
          rw [hlog2, hlog1, hlog]
          simp

/-- The counter after an allowed call, on a store that answers, for a window
that fits a duration: 1 after a plan change, one more than before otherwise. -/
theorem GetStarLimit_allowed_counter_tools (go : GoLib) (rules : LimitData) (u m : String)
    (M w c : Int) (r : Redis) (h : r.faults = [])
    (hne : getLimitRules rules (tierOf go r.kv u) m ≠ "")
    (hparse : parseLimit (getLimitRules rules (tierOf go r.kv u) m) = .ok (M, w))
    (hw : 0 < w) (hfit : w * 1000000000 < 2 ^ 63)
    (hs : storedCount r.kv (getKey (redisKey u (tierOf go r.kv u) m)) = some c) (hc : 0 ≤ c)
    (hok : (GetStarLimit go rules r u m).1.ok = true) :
    (planChanged go r.kv u →
      storedCount (GetStarLimit go rules r u m).2.kv
        (getKey (redisKey u (tierOf go r.kv u) m)) = some 1) ∧
    (¬ planChanged go r.kv u →
      storedCount (GetStarLimit go rules r u m).2.kv
        (getKey (redisKey u (tierOf go r.kv u) m)) = some (c + 1)) := by
  have hM := parseLimit_count_range_tools _ _ _ hparse
  constructor
  · intro hch
    rw [GetStarLimit_changed_tools go rules u m M w r h hne hparse hw hfit hch] at hok ⊢
    by_cases hM0 : 0 < M
    · simp only [hM0, if_true]
      simp only [storedCount, Store.put_same]
      rfl
    · simp only [hM0, if_false] at hok
      cases hok
  · intro hch
    rw [GetStarLimit_unchanged_tools go rules u m M w r h hne hparse hch] at hok ⊢
    exact (countAndConsume_counter_tools ⟨r.kv, [], _⟩ u _ m M w c rfl hM hw hfit hs hc).1 hok

end Tools

end LimitService
namespace LimitService

/-! ## Rules with a negative count -/

namespace Internal

/-- A rule with a negative count is enforced: on a store that answers, a call
that starts from a plan change or finds a count that is not negative is denied. -/
theorem GetStarLimit_negative_count (go : GoLib) (rules : LimitData) (u m : String) (M w : Int)
    (r : Redis) (h : r.faults = [])
    (hne : getLimitRule rules (tierOf go r.kv u) m ≠ "")
    (hparse : parseLimit (getLimitRule rules (tierOf go r.kv u) m) = .ok (M, w))
    (hw : 0 < w) (hM : M < 0)
    (hs : planChanged go r.kv u ∨
      ∃ c, storedCount r.kv (getKey (redisKey u (tierOf go r.kv u) m)) = some c ∧ 0 ≤ c) :
    (GetStarLimit go rules r u m).1 = ⟨false, limitMsg (tierOf go r.kv u) m w M, none⟩ := by
  by_cases hch : planChanged go r.kv u
  · obtain ⟨str, found, hg, ht⟩ := GetString_record go r u h
    have hpos : ¬ (w ≤ 0) := by omega
    unfold GetStarLimit
    rw [hg]
    simp only [ht, hne, if_false, hparse, hpos]
    rw [resetOnChange_changed ⟨r.kv, [], _⟩ u _ m w rfl hch]
    simp only
    have hs0 : storedCount ((r.kv.put (getKey (redisKey u (tierOf go r.kv u) m))
        ⟨"0", setLifetime (durationOfSeconds w)⟩).put
          (getKey (userPackageKey u)) ⟨tierOf go r.kv u, none⟩)
        (getKey (redisKey u (tierOf go r.kv u) m)) = some 0 := by
      simp only [storedCount, Store.put_other _ _ _ _ (marker_ne_counter u _ m).symm,
        Store.put_same]
      rfl
    rw [(countAndConsume_decided ⟨(r.kv.put (getKey (redisKey u (tierOf go r.kv u) m))
        ⟨"0", setLifetime (durationOfSeconds w)⟩).put
          (getKey (userPackageKey u)) ⟨tierOf go r.kv u, none⟩, [], _⟩ u _ m M w 0 rfl hs0).1
      (by omega)]
  · rcases hs with hs | ⟨c, hs, hc⟩
    · exact absurd hs hch
    · rw [GetStarLimit_unchanged go rules u m M w r h hne hparse hw hch]
      rw [(countAndConsume_decided ⟨r.kv, [], _⟩ u _ m M w c rfl hs).1 (by omega)]

end Internal

namespace Tools

/-- A rule with a negative count is enforced: on a store that answers, a call
that starts from a plan change or finds a count that is not negative is denied. -/
theorem GetStarLimit_negative_count_tools (go : GoLib) (rules : LimitData) (u m : String)
    (M w : Int) (r : Redis) (h : r.faults = [])
    (hne : getLimitRules rules (tierOf go r.kv u) m ≠ "")
    (hparse : parseLimit (getLimitRules rules (tierOf go r.kv u) m) = .ok (M, w))
    (hM : M < 0)
    (hs : planChanged go r.kv u ∨
      ∃ c, storedCount r.kv (getKey (redisKey u (tierOf go r.kv u) m)) = some c ∧ 0 ≤ c) :
    (GetStarLimit go rules r u m).1 = ⟨false, limitMsg (tierOf go r.kv u) m w M, none⟩ := by
  by_cases hch : planChanged go r.kv u
  · obtain ⟨data, hg, ht⟩ := Get_record_tools go r u h
    unfold GetStarLimit
    rw [hg]
    simp only [ht, hne, if_false, hparse]
    rw [resetOnChange_changed_tools ⟨r.kv, [], _⟩ u _ m w rfl hch]
    simp only
    have hs0 : storedCount ((r.kv.put (getKey (redisKey u (tierOf go r.kv u) m))
        ⟨"0", setLifetime (durationOfSeconds w)⟩).put
          (getKey (userPackageKey u)) ⟨tierOf go r.kv u, none⟩)
        (getKey (redisKey u (tierOf go r.kv u) m)) = some 0 := by
      simp only [storedCount, Store.put_other _ _ _ _ (marker_ne_counter_tools u _ m).symm,
        Store.put_same]
      rfl
    rw [(countAndConsume_decided_tools ⟨(r.kv.put (getKey (redisKey u (tierOf go r.kv u) m))
        ⟨"0", setLifetime (durationOfSeconds w)⟩).put
          (getKey (userPackageKey u)) ⟨tierOf go r.kv u, none⟩, [], _⟩ u _ m M w 0 rfl hs0).1
      (by omega)]
  · rcases hs with hs | ⟨c, hs, hc⟩
    · exact absurd hs hch
    · rw [GetStarLimit_unchanged_tools go rules u m M w r h hne hparse hch]
      rw [(countAndConsume_decided_tools ⟨r.kv, [], _⟩ u _ m M w c rfl hs).1 (by omega)]

end Tools

end LimitService
namespace LimitService

/-! ## C8 -/

/-- C8 (amended): in both handlers, for a request whose token check passes,
whose body binds, whose text passes the audit, whose quota check allows and
whose entitlement check then denies, the response is 429 "请右上角切换线路"
(EntitlementDenied); the commands of the request contain exactly one
increment, a successful one, on the counter of the user, the resolved tier and
the model, and it precedes the commands of the entitlement check; and no key
other than that counter and the tier marker is changed. On a store that
answers every command, for a window that fits a duration and a counter that
reads as `cnt ≥ 0` before the request, the counter is `cnt + 1` afterwards
when the marker equals the tier, and 1 when the request starts from a plan
change. -/
theorem quota_consumed_before_entitlement :
    (∀ (go : GoLib) (bind : String → Except String AuditRequest)
        (matcher : Option Internal.Matcher) (limitRules : LimitData) (r : Redis) (c : Context)
        (tok u msg : String) (req : AuditRequest),
      c.xtoken = some (.str tok) → c.xuserid = some (.str u) →
      (Internal.VerifyTokenNoHeader r u tok).1 = (true, none) →
      bind c.body = .ok req →
      Internal.StarAudit matcher (promptOf req.Messages) = true →
      (Internal.GetStarLimit go limitRules (Internal.VerifyTokenNoHeader r u tok).2 u
        req.Model).1 = ⟨true, msg, none⟩ →
      (Internal.VerifyUserAcard go
        (Internal.GetStarLimit go limitRules (Internal.VerifyTokenNoHeader r u tok).2 u
          req.Model).2 u (removeSpaces c.carid)).1 = (false, none) →
      (Internal.AuditHandler go bind matcher limitRules r c).1 =
        ⟨429, "error", "请右上角切换线路"⟩ ∧
      (∃ before after,
        newLog r (Internal.AuditHandler go bind matcher limitRules r c).2 =
          before ++ (.incr (getKey (Internal.redisKey u (Internal.tierOf go r.kv u) req.Model)),
            false) :: after ∧
        noIncr before ∧ noIncr after ∧
        newLog (Internal.GetStarLimit go limitRules (Internal.VerifyTokenNoHeader r u tok).2 u
            req.Model).2 (Internal.AuditHandler go bind matcher limitRules r c).2 <:+ after) ∧
      (∀ k, k ≠ getKey (Internal.redisKey u (Internal.tierOf go r.kv u) req.Model) →
        k ≠ getKey (Internal.userPackageKey u) →
        (Internal.AuditHandler go bind matcher limitRules r c).2.kv k = r.kv k) ∧
      (∀ maxCount w cnt : Int, r.faults = [] →
        Internal.getLimitRule limitRules (Internal.tierOf go r.kv u) req.Model ≠ "" →
        Internal.parseLimit
          (Internal.getLimitRule limitRules (Internal.tierOf go r.kv u) req.Model) =
            .ok (maxCount, w) →
        0 < w → w * 1000000000 < 2 ^ 63 →
        storedCount r.kv (getKey (Internal.redisKey u (Internal.tierOf go r.kv u) req.Model)) =
          some cnt →
        0 ≤ cnt →
        (Internal.planChanged go r.kv u →
          storedCount (Internal.AuditHandler go bind matcher limitRules r c).2.kv
            (getKey (Internal.redisKey u (Internal.tierOf go r.kv u) req.Model)) = some 1) ∧
        (¬ Internal.planChanged go r.kv u →
          storedCount (Internal.AuditHandler go bind matcher limitRules r c).2.kv
            (getKey (Internal.redisKey u (Internal.tierOf go r.kv u) req.Model)) =
              some (cnt + 1)))) ∧
    (∀ (go : GoLib) (bind : String → Except String AuditRequest)
        (automaton : Tools.Automaton) (limitData : LimitData) (r : Redis) (c : Context)
        (tok u msg : String) (req : AuditRequest),
      c.xtoken = some (.str tok) → c.xuserid = some (.str u) →
      (Tools.VerifyTokenNoHeader r u tok).1 = (true, none) →
      bind c.body = .ok req →
      Tools.StarAudit automaton (some (.str (promptOf req.Messages))) = true →
      (Tools.GetStarLimit go limitData (Tools.VerifyTokenNoHeader r u tok).2 u
        req.Model).1 = ⟨true, msg, none⟩ →
      (Tools.VerifyUserAcard go
        (Tools.GetStarLimit go limitData (Tools.VerifyTokenNoHeader r u tok).2 u
          req.Model).2 u (removeSpaces c.carid)).1 = (false, none) →
      (Tools.auditHandler go bind automaton limitData r c).1 =
        ⟨429, "error", "请右上角切换线路"⟩ ∧
      (∃ before after,
        newLog r (Tools.auditHandler go bind automaton limitData r c).2 =
          before ++ (.incr (getKey (Tools.redisKey u (Tools.tierOf go r.kv u) req.Model)),
            false) :: after ∧
        noIncr before ∧ noIncr after ∧
        newLog (Tools.GetStarLimit go limitData (Tools.VerifyTokenNoHeader r u tok).2 u
            req.Model).2 (Tools.auditHandler go bind automaton limitData r c).2 <:+ after) ∧
      (∀ k, k ≠ getKey (Tools.redisKey u (Tools.tierOf go r.kv u) req.Model) →
        k ≠ getKey (Tools.userPackageKey u) →
        (Tools.auditHandler go bind automaton limitData r c).2.kv k = r.kv k) ∧
      (∀ maxCount w cnt : Int, r.faults = [] →
        Tools.getLimitRules limitData (Tools.tierOf go r.kv u) req.Model ≠ "" →
        Tools.parseLimit (Tools.getLimitRules limitData (Tools.tierOf go r.kv u) req.Model) =
          .ok (maxCount, w) →
        0 < w → w * 1000000000 < 2 ^ 63 →
        storedCount r.kv (getKey (Tools.redisKey u (Tools.tierOf go r.kv u) req.Model)) =
          some cnt →
        0 ≤ cnt →
        (Tools.planChanged go r.kv u →
          storedCount (Tools.auditHandler go bind automaton limitData r c).2.kv
            (getKey (Tools.redisKey u (Tools.tierOf go r.kv u) req.Model)) = some 1) ∧
        (¬ Tools.planChanged go r.kv u →
          storedCount (Tools.auditHandler go bind automaton limitData r c).2.kv
            (getKey (Tools.redisKey u (Tools.tierOf go r.kv u) req.Model)) =
              some (cnt + 1)))) := by
  constructor
  · intro go bind matcher rules r c tok u msg req hx hu hv hb ha hq he
    obtain ⟨htok, hune⟩ := Internal.VerifyTokenNoHeader_valid_nonempty r u tok hv
    have e1 : Internal.VerifyTokenNoHeader r u tok =
        ((true, none), (Internal.VerifyTokenNoHeader r u tok).2) := Prod.ext hv rfl
    have e2 : Internal.GetStarLimit go rules (Internal.VerifyTokenNoHeader r u tok).2 u req.Model =
        (⟨true, msg, none⟩, (Internal.GetStarLimit go rules
          (Internal.VerifyTokenNoHeader r u tok).2 u req.Model).2) := Prod.ext hq rfl
    have e3 : Internal.VerifyUserAcard go (Internal.GetStarLimit go rules
          (Internal.VerifyTokenNoHeader r u tok).2 u req.Model).2 u (removeSpaces c.carid) =
        ((false, none), (Internal.VerifyUserAcard go (Internal.GetStarLimit go rules
          (Internal.VerifyTokenNoHeader r u tok).2 u req.Model).2 u (removeSpaces c.carid)).2) :=
      Prod.ext he rfl
    have hfinal : Internal.AuditHandler go bind matcher rules r c =
        (⟨429, "error", "请右上角切换线路"⟩,
          (Internal.VerifyUserAcard go (Internal.GetStarLimit go rules
            (Internal.VerifyTokenNoHeader r u tok).2 u req.Model).2 u (removeSpaces c.carid)).2) := by
      unfold Internal.AuditHandler
      rw [hx, hu]
      simp only [htok, hune, decide_False, Bool.or_self, Bool.false_eq_true, if_false]
      rw [e1]
      simp only [Bool.not_true, Bool.false_eq_true, if_false, hb, ha]
      rw [e2]
      simp only [Bool.not_true, Bool.false_eq_true, if_false]
      rw [e3]
      simp only [Bool.false_eq_true, if_false]
    rw [hfinal]
    have hkv1 := Internal.VerifyTokenNoHeader_kv r u tok
    have hfl1 := Internal.VerifyTokenNoHeader_healthy r u tok
    have hok : (Internal.GetStarLimit go rules (Internal.VerifyTokenNoHeader r u tok).2 u
        req.Model).1.ok = true := by rw [hq]
    have hkv3 := Internal.VerifyUserAcard_kv go (Internal.GetStarLimit go rules
      (Internal.VerifyTokenNoHeader r u tok).2 u req.Model).2 u (removeSpaces c.carid)
    refine ⟨rfl, ?_, ?_, ?_⟩
    · obtain ⟨l1, hl1, hn1⟩ := Internal.VerifyTokenNoHeader_noIncr r u tok
      obtain ⟨pre, post, hl2, hnpre, hnpost⟩ := Internal.GetStarLimit_allowed_log_tier go rules
        (Internal.VerifyTokenNoHeader r u tok).2 u req.Model hok
      rw [hkv1] at hl2
      obtain ⟨l3, hl3, hn3⟩ := Internal.VerifyUserAcard_noIncr go (Internal.GetStarLimit go rules
        (Internal.VerifyTokenNoHeader r u tok).2 u req.Model).2 u (removeSpaces c.carid)
      refine ⟨l1 ++ pre, post ++ l3, ?_, noIncr_append hn1 hnpre, noIncr_append hnpost hn3, ?_⟩
      · apply newLog_of_log
        rw [hl3, hl2, hl1]
        simp
      · rw [newLog_of_log _ _ _ hl3]
        exact List.suffix_append _ _
    · intro k hk1 hk2
      simp only
      rw [hkv3]
      have hfr := (Internal.GetStarLimit_frame go rules
        (Internal.VerifyTokenNoHeader r u tok).2 u req.Model).1 k
      rw [hkv1] at hfr
      exact hfr hk1 hk2
    · intro M w cnt h hne hparse hw hfit hs hc
      simp only
      rw [hkv3]
      have hcnt := Internal.GetStarLimit_allowed_counter go rules u req.Model M w cnt
        (Internal.VerifyTokenNoHeader r u tok).2 (hfl1 h)
      rw [hkv1] at hcnt
      exact hcnt hne hparse hw hfit hs hc hok
  · intro go bind automaton rules r c tok u msg req hx hu hv hb ha hq he
    have e1 : Tools.VerifyTokenNoHeader r u tok =
        ((true, none), (Tools.VerifyTokenNoHeader r u tok).2) := Prod.ext hv rfl
    have e2 : Tools.GetStarLimit go rules (Tools.VerifyTokenNoHeader r u tok).2 u req.Model =
        (⟨true, msg, none⟩, (Tools.GetStarLimit go rules
          (Tools.VerifyTokenNoHeader r u tok).2 u req.Model).2) := Prod.ext hq rfl
    have e3 : Tools.VerifyUserAcard go (Tools.GetStarLimit go rules
          (Tools.VerifyTokenNoHeader r u tok).2 u req.Model).2 u (removeSpaces c.carid) =
        ((false, none), (Tools.VerifyUserAcard go (Tools.GetStarLimit go rules
          (Tools.VerifyTokenNoHeader r u tok).2 u req.Model).2 u (removeSpaces c.carid)).2) :=
      Prod.ext he rfl
    have hfinal : Tools.auditHandler go bind automaton rules r c =
        (⟨429, "error", "请右上角切换线路"⟩,
          (Tools.VerifyUserAcard go (Tools.GetStarLimit go rules
            (Tools.VerifyTokenNoHeader r u tok).2 u req.Model).2 u (removeSpaces c.carid)).2) := by
      unfold Tools.auditHandler
      rw [hx, hu]
      simp only
      rw [e1]
      simp only [Bool.not_true, Bool.false_eq_true, if_false, hb, ha]
      rw [e2]
      simp only [if_true]
      rw [e3]
      simp only [Bool.false_eq_true, if_false]
    rw [hfinal]
    have hkv1 := Tools.VerifyTokenNoHeader_kv_tools r u tok
    have hfl1 := Tools.VerifyTokenNoHeader_healthy_tools r u tok
    have hok : (Tools.GetStarLimit go rules (Tools.VerifyTokenNoHeader r u tok).2 u
        req.Model).1.ok = true := by rw [hq]
    have hkv3 := Tools.VerifyUserAcard_kv_tools go (Tools.GetStarLimit go rules
      (Tools.VerifyTokenNoHeader r u tok).2 u req.Model).2 u (removeSpaces c.carid)
    refine ⟨rfl, ?_, ?_, ?_⟩
    · obtain ⟨l1, hl1, hn1⟩ := Tools.VerifyTokenNoHeader_noIncr_tools r u tok
      obtain ⟨pre, post, hl2, hnpre, hnpost⟩ := Tools.GetStarLimit_allowed_log_tier_tools go
        rules (Tools.VerifyTokenNoHeader r u tok).2 u req.Model hok
      rw [hkv1] at hl2
      obtain ⟨l3, hl3, hn3⟩ := Tools.VerifyUserAcard_noIncr_tools go (Tools.GetStarLimit go rules
        (Tools.VerifyTokenNoHeader r u tok).2 u req.Model).2 u (removeSpaces c.carid)
      refine ⟨l1 ++ pre, post ++ l3, ?_, noIncr_append hn1 hnpre, noIncr_append hnpost hn3, ?_⟩
      · apply newLog_of_log
        rw [hl3, hl2, hl1]
        simp
      · rw [newLog_of_log _ _ _ hl3]
        exact List.suffix_append _ _
    · intro k hk1 hk2
      simp only
      rw [hkv3]
      have hfr := (Tools.GetStarLimit_frame_tools go rules
        (Tools.VerifyTokenNoHeader r u tok).2 u req.Model).1 k
      rw [hkv1] at hfr
      exact hfr hk1 hk2
    · intro M w cnt h hne hparse hw hfit hs hc
      simp only
      rw [hkv3]
      have hcnt := Tools.GetStarLimit_allowed_counter_tools go rules u req.Model M w cnt
        (Tools.VerifyTokenNoHeader r u tok).2 (hfl1 h)
      rw [hkv1] at hcnt
      exact hcnt hne hparse hw hfit hs hc hok

/-- C8, an instance of the amended claim: the free user `u`, authenticated,
with a clean text, the marker `free` in place and the counter of `gpt` at 3
under the rule `5/1h`, asks for the car `c2` labelled `plus`: the answer is 429
and the counter is 4 afterwards. -/
theorem quota_consumed_before_entitlement_witness :
    (Internal.AuditHandler sampleGo sampleBind (Internal.InitAuditor (some ["gun"])) fiveAnHour
      ⟨usedCarStore, [], []⟩ sampleContext).1 = ⟨429, "error", "请右上角切换线路"⟩ ∧
    storedCount (Internal.AuditHandler sampleGo sampleBind (Internal.InitAuditor (some ["gun"]))
      fiveAnHour ⟨usedCarStore, [], []⟩ sampleContext).2.kv
        (getKey (Internal.redisKey "u" "free" "gpt")) = some 4 :=
  have h := quota_consumed_before_entitlement.1 sampleGo sampleBind
    (Internal.InitAuditor (some ["gun"])) fiveAnHour ⟨usedCarStore, [], []⟩ sampleContext
    "secret" "u" "允许发送消息" ⟨"next", "gpt", [⟨some [("parts", .arr [.str "hello"])]⟩]⟩
    rfl rfl (by decide) rfl (by decide) (by decide) (by decide)
  ⟨h.1, (h.2.2.2 5 3600 3 rfl (by decide) (by decide) (by decide) (by decide) (by decide)
    (by decide)).2 (fun hch => hch ⟨"free", none⟩ (by decide) rfl)⟩

/-- C8 as stated fails. The free user `u`, authenticated, with a clean text,
asks for the car `c2` labelled `plus` and is denied with 429 after the quota
check has allowed the request. Under the rule `5/1h`, with the counter at 3
and no tier marker, the counter is 1 afterwards, not 4: the plan-change reset
comes before the increment. Under the rule `1/9223372037`, with the marker in
place and no counter, the counter is absent afterwards, that is 0 and not 1:
the window wraps and the arming `EXPIRE` deletes the key. -/
theorem entitlement_denied_counter_not_one_higher :
    (storedCount resetCarStore (getKey (Internal.redisKey "u" "free" "gpt")) = some 3 ∧
      (Internal.AuditHandler sampleGo sampleBind none fiveAnHour ⟨resetCarStore, [], []⟩
        sampleContext).1 = ⟨429, "error", "请右上角切换线路"⟩ ∧
      storedCount (Internal.AuditHandler sampleGo sampleBind none fiveAnHour
        ⟨resetCarStore, [], []⟩ sampleContext).2.kv
          (getKey (Internal.redisKey "u" "free" "gpt")) = some 1 ∧
      (Tools.auditHandler sampleGo sampleBind (Tools.InitKeyWords none) fiveAnHour
        ⟨resetCarStore, [], []⟩ sampleContext).1 = ⟨429, "error", "请右上角切换线路"⟩ ∧
      storedCount (Tools.auditHandler sampleGo sampleBind (Tools.InitKeyWords none) fiveAnHour
        ⟨resetCarStore, [], []⟩ sampleContext).2.kv
          (getKey (Tools.redisKey "u" "free" "gpt")) = some 1) ∧
    (markedCarStore (getKey (Internal.redisKey "u" "free" "gpt")) = none ∧
      (Internal.AuditHandler sampleGo sampleBind none hugeWindowRules ⟨markedCarStore, [], []⟩
        sampleContext).1 = ⟨429, "error", "请右上角切换线路"⟩ ∧
      (Internal.AuditHandler sampleGo sampleBind none hugeWindowRules ⟨markedCarStore, [], []⟩
        sampleContext).2.kv (getKey (Internal.redisKey "u" "free" "gpt")) = none) := by
  refine ⟨⟨by decide, by decide, by decide, by decide, by decide⟩,
    by decide, by decide, by decide⟩

end LimitService
namespace LimitService

/-! ## C13 -/

/-- A window that is not positive ends `Internal.GetStarLimit` after its first
store call. -/
theorem Internal.GetStarLimit_window_error (go : GoLib) (rules : LimitData) (r : Redis)
    (u m : String) (M w : Int)
    (hne : Internal.getLimitRule rules (Internal.tierOf go r.kv u) m ≠ "")
    (hp : Internal.parseLimit (Internal.getLimitRule rules (Internal.tierOf go r.kv u) m) =
      .ok (M, w))
    (hw : w ≤ 0) :
    (Internal.GetStarLimit go rules r u m =
      (⟨false, "", some (.wrapped ("为用户 " ++ u ++ " 获取激活套餐失败")
          (.wrapped ("从 Redis 获取键 " ++ ("user:" ++ u ++ ":active_packages") ++ " 失败") .io))⟩,
        ⟨r.kv, r.faults.tail,
          r.log ++ [(.get (getKey ("user:" ++ u ++ ":active_packages")), true)]⟩)) ∨
    (Internal.GetStarLimit go rules r u m =
        (⟨false, "", some (.msg ("无效的限速时间窗口: " ++ Itoa w ++ " 秒"))⟩,
          ⟨r.kv, r.faults.tail,
            r.log ++ [(.get (getKey ("user:" ++ u ++ ":active_packages")), false)]⟩)) := by
  rcases issue_cases r (.get (getKey ("user:" ++ u ++ ":active_packages"))) with hb | ⟨hh, _⟩
  · left
    unfold Internal.GetStarLimit
    rw [Internal.GetString_failed r _ hb]
  · right
    obtain ⟨str, found, hg, ht⟩ := Internal.GetString_record_ok go r u hh
    unfold Internal.GetStarLimit
    rw [hg]
    simp only [ht, hne, if_false, hp, hw, if_true]

/-- C13 (amended): in `internal/limiter`, every rule that `GetStarLimit` goes on
to enforce has a window above 0: when the rule resolved for the user and the
model parses to `(maxCount, window)` with `window ≤ 0`, the call returns an
error and no decision after the read of the subscription record, its only
store call, and leaves the key space as it is; so a call that returns a
decision has `window > 0`. For every fault schedule. The count is not
checked, in either copy: a rule with `maxCount < 0` is enforced, and on a store
that answers every command a call under such a rule that starts from a plan
change, or finds the counter absent or at a count that is not negative, is
denied with the quota message and without an error. -/
theorem enforced_rule_has_positive_window :
    (∀ (go : GoLib) (limitRules : LimitData) (r : Redis) (xuserid model : String)
        (maxCount window : Int),
      Internal.getLimitRule limitRules (Internal.tierOf go r.kv xuserid) model ≠ "" →
      Internal.parseLimit
        (Internal.getLimitRule limitRules (Internal.tierOf go r.kv xuserid) model) =
          .ok (maxCount, window) →
      (window ≤ 0 →
        (Internal.GetStarLimit go limitRules r xuserid model).1.ok = false ∧
        (Internal.GetStarLimit go limitRules r xuserid model).1.err.isSome = true ∧
        (Internal.GetStarLimit go limitRules r xuserid model).2.kv = r.kv ∧
        (∃ b, newLog r (Internal.GetStarLimit go limitRules r xuserid model).2 =
          [(.get (getKey ("user:" ++ xuserid ++ ":active_packages")), b)])) ∧
      ((Internal.GetStarLimit go limitRules r xuserid model).1.err = none → 0 < window)) ∧
    (∀ (go : GoLib) (limitRules : LimitData) (r : Redis) (xuserid model : String)
        (maxCount window : Int),
      r.faults = [] →
      Internal.getLimitRule limitRules (Internal.tierOf go r.kv xuserid) model ≠ "" →
      Internal.parseLimit
        (Internal.getLimitRule limitRules (Internal.tierOf go r.kv xuserid) model) =
          .ok (maxCount, window) →
      0 < window → maxCount < 0 →
      (Internal.planChanged go r.kv xuserid ∨
        ∃ c, storedCount r.kv
          (getKey (Internal.redisKey xuserid (Internal.tierOf go r.kv xuserid) model)) = some c ∧
          0 ≤ c) →
      (Internal.GetStarLimit go limitRules r xuserid model).1 =
        ⟨false, Internal.limitMsg (Internal.tierOf go r.kv xuserid) model window maxCount,
          none⟩) ∧
    (∀ (go : GoLib) (limitData : LimitData) (r : Redis) (xuserid model : String)
        (maxCount window : Int),
      r.faults = [] →
      Tools.getLimitRules limitData (Tools.tierOf go r.kv xuserid) model ≠ "" →
      Tools.parseLimit (Tools.getLimitRules limitData (Tools.tierOf go r.kv xuserid) model) =
        .ok (maxCount, window) →
      maxCount < 0 →
      (Tools.planChanged go r.kv xuserid ∨
        ∃ c, storedCount r.kv
          (getKey (Tools.redisKey xuserid (Tools.tierOf go r.kv xuserid) model)) = some c ∧
          0 ≤ c) →
      (Tools.GetStarLimit go limitData r xuserid model).1 =
        ⟨false, Tools.limitMsg (Tools.tierOf go r.kv xuserid) model window maxCount, none⟩) := by
  refine ⟨?_, ?_, ?_⟩
  · intro go rules r u m M w hne hp
    have hA : w ≤ 0 →
        (Internal.GetStarLimit go rules r u m).1.ok = false ∧
        (Internal.GetStarLimit go rules r u m).1.err.isSome = true ∧
        (Internal.GetStarLimit go rules r u m).2.kv = r.kv ∧
        (∃ b, newLog r (Internal.GetStarLimit go rules r u m).2 =
          [(.get (getKey ("user:" ++ u ++ ":active_packages")), b)]) := by
      intro hw
      rcases Internal.GetStarLimit_window_error go rules r u m M w hne hp hw with hG | hG
      · rw [hG]
        exact ⟨rfl, rfl, rfl, true, newLog_append _ _ _ _⟩
      · rw [hG]
        exact ⟨rfl, rfl, rfl, false, newLog_append _ _ _ _⟩
    refine ⟨hA, fun herr => ?_⟩
    by_contra hw
    have h2 := (hA (by omega)).2.1
    rw [herr] at h2
    simp at h2
  · intro go rules r u m M w h hne hp hw hM hs
    exact Internal.GetStarLimit_negative_count go rules u m M w r h hne hp hw hM hs
  · intro go rules r u m M w h hne hp hM hs
    exact Tools.GetStarLimit_negative_count_tools go rules u m M w r h hne hp hM hs

/-- C13, an instance of the amended claim: the rule `5/0` has a window of 0 and
`internal/limiter` answers with an error; under the rule `-1/1h`, with the
marker in place and the counter at 2, the call is denied. -/
theorem enforced_rule_has_positive_window_witness :
    (Internal.GetStarLimit sampleGo zeroWindowRules sampleRedis "u" "gpt").1.ok = false ∧
    (Internal.GetStarLimit sampleGo zeroWindowRules sampleRedis "u" "gpt").1.err.isSome = true ∧
    (Internal.GetStarLimit sampleGo negativeCountRules ⟨atLimitStore, [], []⟩ "u" "gpt").1 =
      ⟨false, Internal.limitMsg "free" "gpt" 3600 (-1), none⟩ :=
  have h := (enforced_rule_has_positive_window.1 sampleGo zeroWindowRules sampleRedis "u" "gpt"
    5 0 (by decide) (by decide)).1 (by decide)
  ⟨h.1, h.2.1,
    enforced_rule_has_positive_window.2.1 sampleGo negativeCountRules ⟨atLimitStore, [], []⟩
      "u" "gpt" (-1) 3600 rfl (by decide) (by decide) (by decide) (by decide)
      (Or.inr ⟨2, by decide, by decide⟩)⟩

/-- The condition on the counter is needed: under the rule `-1/1h`, with the
marker in place and the counter at -5, which is below the count of the rule,
the call is allowed in both copies. -/
theorem negative_count_allows_lower_counter :
    (Internal.GetStarLimit sampleGo negativeCountRules ⟨negativeStore, [], []⟩ "u" "gpt").1.ok =
      true ∧
    (Tools.GetStarLimit sampleGo negativeCountRules ⟨negativeStore, [], []⟩ "u" "gpt").1.ok =
      true := by
  refine ⟨by decide, by decide⟩

/-- C13 as stated fails. The rule `-1/1h` parses to `maxCount = -1` and
`internal/limiter` enforces it: the call is denied, without an error. The rule
`5/0` has the window 0 and `tools/limit_tools` enforces it: the call is allowed
and the counter is written. -/
theorem unchecked_rules_are_enforced :
    (Internal.parseLimit "-1/1h" = .ok (-1, 3600) ∧
      (Internal.GetStarLimit sampleGo negativeCountRules sampleRedis "u" "gpt").1 =
        ⟨false, Internal.limitMsg "free" "gpt" 3600 (-1), none⟩) ∧
    (Tools.parseLimit "5/0" = .ok (5, 0) ∧
      (Tools.GetStarLimit sampleGo zeroWindowRules sampleRedis "u" "gpt").1 =
        ⟨true, "允许发送消息", none⟩ ∧
      (Cmd.incr (getKey (Tools.redisKey "u" "free" "gpt")), false) ∈
        (Tools.GetStarLimit sampleGo zeroWindowRules sampleRedis "u" "gpt").2.log) := by
  refine ⟨⟨by decide, by decide⟩, by decide, by decide, by decide⟩

end LimitService
